import Mathlib

/-!
# Cubical Marching Squares: shallow embedding and verified properties

The development embeds the octree builder (`octree.js`), the sample grid
(`array3d.js`), the core data types (`types.js`) and the extraction pipeline
(`algcms.js`) as pure Lean functions.  Floating point numbers are read as exact
rationals; `Math.sqrt` is a parameter `msqrt` of the model, so every theorem
holds for every square-root function.  JavaScript `undefined` is `none`.
-/

namespace CMS

/-! ## utils.js -/

/-- EPSILON of `utils.js`. -/
def EPSILON : ℚ := 1 / 100000

/-- Utils.getPowerOfTwo: `1 << exponent`, a shift on 32-bit signed integers
(the shift count is taken modulo 32, the result wraps to the signed range). -/
def getPowerOfTwo (exponent : Int) : Int :=
  if (2 : Int) ^ (exponent % 32).toNat < 2 ^ 31 then (2 : Int) ^ (exponent % 32).toNat
  else (2 : Int) ^ (exponent % 32).toNat - 2 ^ 32

/-! ## types.js -/

/-- Vec3 of `types.js`, over exact rationals. -/
structure Vec3 where
  x : ℚ
  y : ℚ
  z : ℚ
deriving DecidableEq

namespace Vec3

/-- The default `new Vec3()`. -/
def zero : Vec3 := ⟨0, 0, 0⟩

/-- Vec3.add. -/
def add (a v : Vec3) : Vec3 := ⟨a.x + v.x, a.y + v.y, a.z + v.z⟩

/-- Vec3.subtract. -/
def subtract (a v : Vec3) : Vec3 := ⟨a.x - v.x, a.y - v.y, a.z - v.z⟩

/-- Vec3.scale. -/
def scale (a : Vec3) (s : ℚ) : Vec3 := ⟨a.x * s, a.y * s, a.z * s⟩

/-- Vec3.divide: the division is skipped when `|s|` is not above EPSILON. -/
def divide (a : Vec3) (s : ℚ) : Vec3 :=
  if |s| > EPSILON then ⟨a.x / s, a.y / s, a.z / s⟩ else a

/-- Vec3.dot. -/
def dot (a v : Vec3) : ℚ := a.x * v.x + a.y * v.y + a.z * v.z

/-- Vec3.cross. -/
def cross (a v : Vec3) : Vec3 :=
  ⟨a.y * v.z - a.z * v.y, a.z * v.x - a.x * v.z, a.x * v.y - a.y * v.x⟩

/-- Vec3.length, with `Math.sqrt` passed as `msqrt`. -/
def length (msqrt : ℚ → ℚ) (a : Vec3) : ℚ := msqrt (a.x * a.x + a.y * a.y + a.z * a.z)

/-- Vec3.normalize: the vector is left as it is when its length is not above EPSILON. -/
def normalize (msqrt : ℚ → ℚ) (a : Vec3) : Vec3 :=
  if length msqrt a > EPSILON then
    ⟨a.x / length msqrt a, a.y / length msqrt a, a.z / length msqrt a⟩
  else a

end Vec3

/-- Index3D of `types.js`. -/
structure Index3D where
  x : Int
  y : Int
  z : Int
deriving DecidableEq

namespace Index3D

/-- Index3D.get: `[x, y, z][i]`, undefined for any other `i`. -/
def get (p : Index3D) (i : Int) : Option Int :=
  if i = 0 then some p.x else if i = 1 then some p.y else if i = 2 then some p.z else none

/-- Index3D.set: throws (`none`) for an index other than 0, 1, 2. -/
def set (p : Index3D) (i : Int) (value : Int) : Option Index3D :=
  if i = 0 then some { p with x := value }
  else if i = 1 then some { p with y := value }
  else if i = 2 then some { p with z := value }
  else none

end Index3D

/-- Range of `types.js`: `set` swaps the bounds when they come in the wrong order. -/
structure Range (α : Type) where
  lower : α
  upper : α

/-- Range.set (and the constructor with two arguments). -/
def Range.set {α : Type} [LT α] [DecidableRel (fun a b : α => a < b)] (lower upper : α) : Range α :=
  if upper < lower then ⟨upper, lower⟩ else ⟨lower, upper⟩

/-- CellState of `types.js`. -/
inductive CellState where
  | BRANCH
  | LEAF
deriving DecidableEq

/-- FaceState of `types.js`. -/
inductive FaceState where
  | BRANCH_FACE
  | LEAF_FACE
  | TRANSIT_FACE
deriving DecidableEq

/-- Address.set on the 8-slot address of a cell: the parent's slots are copied up to the
first empty one, which receives `posInParent + 1`; the later slots stay 0. -/
def addressSet : List Nat → Nat → List Nat
  | [], _ => []
  | a :: rest, posInParent =>
    if a ≠ 0 then a :: addressSet rest posInParent
    else (posInParent + 1) :: List.replicate rest.length 0

/-- Address.getFormatted, from slot `i` on: the sum of `raw[j] * 10^j` over the truthy slots. -/
def formatFrom : Nat → List (Option Nat) → Nat
  | _, [] => 0
  | i, some v :: rest => v * 10 ^ i + formatFrom (i + 1) rest
  | i, none :: rest => formatFrom (i + 1) rest

/-- Address.getFormatted. -/
def getFormatted (raw : List (Option Nat)) : Nat := formatFrom 0 raw

/-- Cell of `types.js`: the fields the octree builder fills. Faces, twins, strips and
components live in stores keyed by the cell id (see `FaceRef`). -/
structure Cell where
  id : Nat
  state : CellState
  parent : Option Nat
  subdivLvl : Int
  c000 : Index3D
  offsets : Index3D
  posInParent : Nat
  pointInds : List Index3D
  address : List Nat
deriving DecidableEq

/-! ## array3d.js -/

/-- Array3D of `array3d.js`: dimensions, a flat store (an unset slot is `none`) and the
bounding box. -/
structure Array3D (α : Type) where
  indices : Index3D
  data : Int → Option α
  bbox : Range ℚ × Range ℚ × Range ℚ

namespace Array3D

/-- The bounds test shared by getValueAt and setValueAt. -/
def inBounds {α : Type} (a : Array3D α) (p : Index3D) : Bool :=
  !(decide (p.x ≥ a.indices.x) || decide (p.y ≥ a.indices.y) || decide (p.z ≥ a.indices.z) ||
    decide (p.x < 0) || decide (p.y < 0) || decide (p.z < 0))

/-- Array3D.getIndexAt. -/
def getIndexAt {α : Type} (a : Array3D α) (p : Index3D) : Int :=
  (p.x * a.indices.y + p.y) * a.indices.z + p.z

/-- Array3D.getValueAt: undefined out of bounds. -/
def getValueAt {α : Type} (a : Array3D α) (p : Index3D) : Option α :=
  if a.inBounds p then a.data (a.getIndexAt p) else none

/-- Array3D.setValueAt: nothing is written out of bounds. -/
def setValueAt {α : Type} (a : Array3D α) (p : Index3D) (value : α) : Array3D α :=
  if a.inBounds p then
    { a with data := fun i => if i = a.getIndexAt p then some value else a.data i }
  else a

/-- Array3D.getPositionAt. -/
def getPositionAt {α : Type} (a : Array3D α) (p : Index3D) : Vec3 :=
  ⟨a.bbox.1.lower + (a.bbox.1.upper - a.bbox.1.lower) * ((p.x : ℚ) / ((a.indices.x : ℚ) - 1)),
   a.bbox.2.1.lower + (a.bbox.2.1.upper - a.bbox.2.1.lower) * ((p.y : ℚ) / ((a.indices.y : ℚ) - 1)),
   a.bbox.2.2.lower + (a.bbox.2.2.upper - a.bbox.2.2.lower) * ((p.z : ℚ) / ((a.indices.z : ℚ) - 1))⟩

end Array3D

/-! ## octree.js: tables -/

/-- EDGE_DIRECTION. -/
def EDGE_DIRECTION : List Int := [0, 0, 1, 1, 0, 0, 1, 1, 2, 2, 2, 2]

/-- NEIGHBOR_ADDRESS_TABLE. -/
def NEIGHBOR_ADDRESS_TABLE : List (List Nat) :=
  [[2, 1, 4, 3, 6, 5, 8, 7], [3, 4, 1, 2, 7, 8, 5, 6], [5, 6, 7, 8, 1, 2, 3, 4]]

/-- FACE_VERTEX. -/
def FACE_VERTEX : List (List Nat) :=
  [[2, 0, 6, 4], [1, 3, 5, 7], [0, 1, 4, 5], [6, 7, 2, 3], [2, 3, 0, 1], [4, 5, 6, 7]]

/-- EDGE_VERTICES. -/
def EDGE_VERTICES : List (Nat × Nat) :=
  [(2, 6), (0, 4), (0, 2), (4, 6), (1, 5), (3, 7), (1, 3), (5, 7), (0, 1), (4, 5), (2, 3), (6, 7)]

/-- FACE_TWIN_TABLE. -/
def FACE_TWIN_TABLE : List (Nat × Nat) := [(0, 1), (1, 0), (2, 3), (3, 2), (4, 5), (5, 4), (6, 6)]

/-! ## octree.js: the octree builder -/

/-- The arguments of the Octree constructor; `msqrt` stands for `Math.sqrt`. -/
structure Octree where
  samples : Index3D
  sampleData : Array3D ℚ
  minLvl : Int
  maxLvl : Int
  offsets : Vec3
  fn : ℚ → ℚ → ℚ → ℚ
  complexSurfThresh : ℚ
  msqrt : ℚ → ℚ

/-- The cell hierarchy built by makeStructure: a cell and its children in slot order
(no children, or the 8 children pushed by subdivideCell). -/
inductive OctTree where
  | mk (cell : Cell) (kids : List OctTree)

/-- The cell at the top of a tree. -/
def OctTree.cell : OctTree → Cell
  | .mk c _ => c

/-- The children of the top cell. -/
def OctTree.kids : OctTree → List OctTree
  | .mk _ ks => ks

/-- The Cell constructor: a fresh cell with its address derived from the parent. -/
def newCell (id : Nat) (state : CellState) (parent : Option Cell) (subdivLvl : Int)
    (c000 offsets : Index3D) (posInParent : Nat) : Cell :=
  { id := id, state := state, parent := parent.map Cell.id, subdivLvl := subdivLvl,
    c000 := c000, offsets := offsets, posInParent := posInParent,
    pointInds := List.replicate 8 ⟨-1, -1, -1⟩,
    address := match parent with
      | some p => addressSet p.address posInParent
      | none => List.replicate 8 0 }

/-- The clamping loop of acquireCellInfo on one corner index. -/
def clampIndex (samples p : Index3D) : Index3D :=
  ⟨if p.x ≥ samples.x then samples.x - 1 else p.x,
   if p.y ≥ samples.y then samples.y - 1 else p.y,
   if p.z ≥ samples.z then samples.z - 1 else p.z⟩

/-- The 8 corner indices computed by acquireCellInfo, before clamping. -/
def cornerIndices (c000 offsets : Index3D) : List Index3D :=
  [⟨c000.x, c000.y, c000.z⟩,
   ⟨c000.x, c000.y, c000.z + offsets.z⟩,
   ⟨c000.x, c000.y + offsets.y, c000.z⟩,
   ⟨c000.x, c000.y + offsets.y, c000.z + offsets.z⟩,
   ⟨c000.x + offsets.x, c000.y, c000.z⟩,
   ⟨c000.x + offsets.x, c000.y, c000.z + offsets.z⟩,
   ⟨c000.x + offsets.x, c000.y + offsets.y, c000.z⟩,
   ⟨c000.x + offsets.x, c000.y + offsets.y, c000.z + offsets.z⟩]

/-- Octree.acquireCellInfo: the corner grid indices of the cell (the world-space box,
width, height, depth and centre it also stores are read by no modelled operation). -/
def acquireCellInfo (o : Octree) (cell : Cell) : Cell :=
  { cell with pointInds := (cornerIndices cell.c000 cell.offsets).map (clampIndex o.samples) }

/-- The test `value < 0` on a sample that may be undefined. -/
def isNeg (v : Option ℚ) : Bool :=
  match v with
  | some q => decide (q < 0)
  | none => false

/-- The test `a * b < 0` on samples that may be undefined. -/
def prodNeg (a b : Option ℚ) : Bool :=
  match a, b with
  | some u, some v => decide (u * v < 0)
  | _, _ => false

/-- The comparison `a <= b` on values that may be undefined. -/
def optLE (a b : Option Int) : Bool :=
  match a, b with
  | some u, some v => decide (u ≤ v)
  | _, _ => false

/-- Octree.checkForSurface: mixed corner signs. -/
def checkForSurface (o : Octree) (cell : Cell) : Bool :=
  (cell.pointInds.countP (fun p => isNeg (o.sampleData.getValueAt p)) != 0) &&
  (cell.pointInds.countP (fun p => isNeg (o.sampleData.getValueAt p)) != 8)

/-- The while loop of checkForEdgeAmbiguity along one cell edge; `true` when a second
crossing is met. The first argument bounds the number of iterations. -/
def edgeWalk (o : Octree) (dir : Int) (ptB : Index3D) : Nat → Index3D → Index3D → Nat → Bool
  | 0, _, _, _ => false
  | n + 1, prevIndex, index, crossingPoints =>
    if optLE (index.get dir) (ptB.get dir) then
      if (if prodNeg (o.sampleData.getValueAt prevIndex) (o.sampleData.getValueAt index)
          then crossingPoints + 1 else crossingPoints) > 1 then true
      else
        match (index.get dir).bind (fun v => index.set dir (v + 1)) with
        | some next =>
          edgeWalk o dir ptB n index next
            (if prodNeg (o.sampleData.getValueAt prevIndex) (o.sampleData.getValueAt index)
             then crossingPoints + 1 else crossingPoints)
        | none => false
    else false

/-- The body of the edge loop of checkForEdgeAmbiguity for edge `i`. -/
def edgeAmbiguous (o : Octree) (cell : Cell) (i : Nat) : Bool :=
  match EDGE_VERTICES[i]?, EDGE_DIRECTION[i]? with
  | some (cellPtA, cellPtB), some dir =>
    match cell.pointInds[cellPtA]?, cell.pointInds[cellPtB]? with
    | some ptA, some ptB =>
      match ptA.get dir, ptB.get dir with
      | some a, some b => edgeWalk o dir ptB (b - a + 1).toNat ptA ptA 0
      | _, _ => false
    | _, _ => false
  | _, _ => false

/-- Octree.checkForEdgeAmbiguity. -/
def checkForEdgeAmbiguity (o : Octree) (cell : Cell) : Bool :=
  (List.range 12).any (edgeAmbiguous o cell)

/-- Octree.findGradient: undefined (`none`) when the sample at the corner is. -/
def Octree.findGradient (o : Octree) (indices : Index3D) : Option Vec3 :=
  match o.sampleData.getValueAt indices with
  | none => none
  | some val =>
    some ⟨o.fn ((o.sampleData.getPositionAt indices).x + o.offsets.x / 2)
            (o.sampleData.getPositionAt indices).y (o.sampleData.getPositionAt indices).z - val,
          o.fn (o.sampleData.getPositionAt indices).x
            ((o.sampleData.getPositionAt indices).y + o.offsets.y / 2)
            (o.sampleData.getPositionAt indices).z - val,
          o.fn (o.sampleData.getPositionAt indices).x (o.sampleData.getPositionAt indices).y
            ((o.sampleData.getPositionAt indices).z + o.offsets.z / 2) - val⟩

/-- The test of checkForComplexSurface on one pair of corners. -/
def complexPair (o : Octree) (indA indB : Index3D) : Bool :=
  match o.findGradient indA, o.findGradient indB with
  | some normalA, some normalB =>
    decide ((normalA.normalize o.msqrt).dot (normalB.normalize o.msqrt) < o.complexSurfThresh)
  | _, _ => false

/-- Octree.checkForComplexSurface. -/
def checkForComplexSurface (o : Octree) (cell : Cell) : Bool :=
  (List.range 7).any (fun i =>
    (List.range' (i + 1) (7 - i)).any (fun j =>
      match cell.pointInds[i]?, cell.pointInds[j]? with
      | some indA, some indB => complexPair o indA indB
      | _, _ => false))

/-- Octree.checkForSubdivision. -/
def checkForSubdivision (o : Octree) (cell : Cell) : Bool :=
  checkForEdgeAmbiguity o cell || checkForComplexSurface o cell

/-- The switch of subdivideCell: the base corner of child `i`. -/
def childC000 (par offsets : Index3D) (i : Nat) : Index3D :=
  match i with
  | 0 => ⟨par.x, par.y, par.z⟩
  | 1 => ⟨par.x, par.y, par.z + offsets.z⟩
  | 2 => ⟨par.x, par.y + offsets.y, par.z⟩
  | 3 => ⟨par.x, par.y + offsets.y, par.z + offsets.z⟩
  | 4 => ⟨par.x + offsets.x, par.y, par.z⟩
  | 5 => ⟨par.x + offsets.x, par.y, par.z + offsets.z⟩
  | 6 => ⟨par.x + offsets.x, par.y + offsets.y, par.z⟩
  | 7 => ⟨par.x + offsets.x, par.y + offsets.y, par.z + offsets.z⟩
  | _ => ⟨-1, -1, -1⟩

/-- The index extent of the cells of level `lvl`:
`Math.floor((samples - 1) / getPowerOfTwo(lvl))` on each axis. -/
def levelOffsets (o : Octree) (lvl : Int) : Index3D :=
  ⟨Int.fdiv (o.samples.x - 1) (getPowerOfTwo lvl),
   Int.fdiv (o.samples.y - 1) (getPowerOfTwo lvl),
   Int.fdiv (o.samples.z - 1) (getPowerOfTwo lvl)⟩

/-- A for loop over child slots that threads the number of cells created so far. -/
def kidsFrom (step : Nat → Nat → OctTree × Nat) : List Nat → Nat → List OctTree × Nat
  | [], next => ([], next)
  | i :: rest, next =>
    ((step i next).1 :: (kidsFrom step rest (step i next).2).1,
     (kidsFrom step rest (step i next).2).2)

/-- The cell created for child slot `i` by subdivideCell (`new Cell(...)` followed by
acquireCellInfo); `next` is `cells.length` at that moment. -/
def childCell (o : Octree) (parent : Cell) (i next : Nat) : Cell :=
  acquireCellInfo o (newCell next CellState.BRANCH (some parent) (parent.subdivLvl + 1)
    (childC000 parent.c000 (levelOffsets o (parent.subdivLvl + 1)) i)
    (levelOffsets o (parent.subdivLvl + 1)) i)

/-- Cell.setState. -/
def Cell.setState (c : Cell) (s : CellState) : Cell := { c with state := s }

/-- The body of the loop of subdivideCell for child slot `i`; `next` is `cells.length`,
`recurse` is the recursive call of subdivideCell. The result is the sub-tree of the
child and the number of cells after it. -/
def subdivideChild (o : Octree) (recurse : Cell → Nat → List OctTree × Nat) (parent : Cell)
    (i next : Nat) : OctTree × Nat :=
  if parent.subdivLvl + 1 < o.minLvl then
    (OctTree.mk (childCell o parent i next) (recurse (childCell o parent i next) (next + 1)).1,
     (recurse (childCell o parent i next) (next + 1)).2)
  else if parent.subdivLvl + 1 ≥ o.minLvl ∧ parent.subdivLvl + 1 < o.maxLvl then
    if checkForSubdivision o (childCell o parent i next) then
      (OctTree.mk (childCell o parent i next) (recurse (childCell o parent i next) (next + 1)).1,
       (recurse (childCell o parent i next) (next + 1)).2)
    else if checkForSurface o (childCell o parent i next) then
      (OctTree.mk ((childCell o parent i next).setState CellState.LEAF) [], next + 1)
    else (OctTree.mk (childCell o parent i next) [], next + 1)
  else
    if checkForSurface o (childCell o parent i next) then
      (OctTree.mk ((childCell o parent i next).setState CellState.LEAF) [], next + 1)
    else (OctTree.mk (childCell o parent i next) [], next + 1)

/-- Octree.subdivideCell: the sub-trees of the 8 children of `parent` and the number of
cells afterwards. The first argument bounds the recursion depth (see `makeStructure`);
once it is used up no child is created. -/
def subdivideCell (o : Octree) : Nat → Cell → Nat → List OctTree × Nat
  | 0, _, next => ([], next)
  | fuel + 1, parent, next =>
    kidsFrom (subdivideChild o (subdivideCell o fuel) parent) (List.range 8) next

/-- The root cell created by makeStructure. -/
def rootCell (o : Octree) : Cell :=
  acquireCellInfo o (newCell 0 CellState.BRANCH none 0 ⟨0, 0, 0⟩
    ⟨o.samples.x - 1, o.samples.y - 1, o.samples.z - 1⟩ 0)

/-- The recursion depth that makeStructure needs: a cell is subdivided only when its
level is below minLvl or below maxLvl, or when it is the root. -/
def buildFuel (o : Octree) : Nat := (max o.minLvl o.maxLvl).toNat + 1

/-- Octree.makeStructure: the root and, below it, every cell created by subdivideCell. -/
def makeStructure (o : Octree) : OctTree :=
  OctTree.mk (rootCell o) (subdivideCell o (buildFuel o) (rootCell o) 1).1

mutual
/-- The cells of a tree in creation order (the array `cells`). -/
def OctTree.cells : OctTree → List Cell
  | .mk c ks => c :: OctTree.cellsList ks
/-- The cells of a list of trees in creation order. -/
def OctTree.cellsList : List OctTree → List Cell
  | [] => []
  | t :: ts => OctTree.cells t ++ OctTree.cellsList ts
end

mutual
/-- Every node of a tree, in creation order, as the sub-tree rooted at it. -/
def OctTree.subtrees : OctTree → List OctTree
  | .mk c ks => OctTree.mk c ks :: OctTree.subtreesList ks
/-- Every node of a list of trees, in creation order. -/
def OctTree.subtreesList : List OctTree → List OctTree
  | [] => []
  | t :: ts => OctTree.subtrees t ++ OctTree.subtreesList ts
end

/-- The array `leafCells`: the cells set to LEAF, in creation order. -/
def OctTree.leafCells (t : OctTree) : List Cell :=
  t.cells.filter (fun c => decide (c.state = CellState.LEAF))

/-- A node is subdivided when it has children. -/
def OctTree.subdivided (t : OctTree) : Prop := t.kids ≠ []

/-- The unit grid cube with lowest corner `u` lies in the index box of the cell:
`c000 <= u` and `u + 1 <= c000 + offsets` on each axis. -/
def Cell.containsCube (c : Cell) (u : Index3D) : Prop :=
  (c.c000.x ≤ u.x ∧ u.x + 1 ≤ c.c000.x + c.offsets.x) ∧
  (c.c000.y ≤ u.y ∧ u.y + 1 ≤ c.c000.y + c.offsets.y) ∧
  (c.c000.z ≤ u.z ∧ u.z + 1 ≤ c.c000.z + c.offsets.z)

/-- Two cells share no unit grid cube. -/
def Cell.disjointFrom (a b : Cell) : Prop :=
  ∀ u : Index3D, ¬ (a.containsCube u ∧ b.containsCube u)

/-- The decision of subdivideCell for a freshly created child: subdivide below minLvl,
and between minLvl and maxLvl when checkForSubdivision holds. -/
def shouldSubdivide (o : Octree) (c : Cell) : Bool :=
  decide (c.subdivLvl < o.minLvl) ||
  (decide (c.subdivLvl ≥ o.minLvl ∧ c.subdivLvl < o.maxLvl) && checkForSubdivision o c)

/-- The cell that the loop of subdivideCell leaves in slot `i`: the fresh child, set to
LEAF when it is not subdivided and checkForSurface holds. -/
def finalChildCell (o : Octree) (parent : Cell) (i next : Nat) : Cell :=
  if shouldSubdivide o (childCell o parent i next) then childCell o parent i next
  else if checkForSurface o (childCell o parent i next) then
    (childCell o parent i next).setState CellState.LEAF
  else childCell o parent i next

/-- The sub-tree `k` is what subdivideCell builds in slot `i` of the cell `parent`. -/
def KidRel (o : Octree) (parent : Cell) (i : Nat) (k : OctTree) : Prop :=
  ∃ next, k.cell = finalChildCell o parent i next ∧
    (k.kids ≠ [] ↔ shouldSubdivide o (childCell o parent i next) = true)

/-- The invariant of every node built by makeStructure: it has no children or the 8
children of subdivideCell, and it is the root (always subdivided) or a child created by
subdivideCell whose subdivision follows `shouldSubdivide`. -/
def NodeInv (o : Octree) (s : OctTree) : Prop :=
  (s.kids = [] ∨ List.Forall₂ (KidRel o s.cell) (List.range 8) s.kids) ∧
  ((s.cell = rootCell o ∧ s.kids ≠ []) ∨
   (∃ pc i next, i < 8 ∧ 0 ≤ pc.subdivLvl ∧
      pc.subdivLvl + 1 ≤ max 1 (max o.minLvl o.maxLvl) ∧
      s.cell = finalChildCell o pc i next ∧
      (s.kids ≠ [] ↔ shouldSubdivide o (childCell o pc i next) = true)))

/-- The 8 corner samples of a cell have mixed signs: one is negative and one is not. -/
def Cell.mixedCorners (o : Octree) (c : Cell) : Prop :=
  (∃ p ∈ c.pointInds, isNeg (o.sampleData.getValueAt p) = true) ∧
  (∃ p ∈ c.pointInds, isNeg (o.sampleData.getValueAt p) = false)

/-- The level bounds of a tree for the levels of `o`: every cell below minLvl is a BRANCH
with 8 children, no cell is above maxLvl, cells of level maxLvl have no children, and every
LEAF cell has a level between minLvl and maxLvl. -/
def LevelBounds (o : Octree) (t : OctTree) : Prop :=
  ∀ s ∈ t.subtrees,
    (s.cell.subdivLvl < o.minLvl → s.cell.state = CellState.BRANCH ∧ s.kids.length = 8) ∧
    s.cell.subdivLvl ≤ o.maxLvl ∧
    (s.cell.subdivLvl = o.maxLvl → s.kids = []) ∧
    (s.cell.state = CellState.LEAF →
      o.minLvl ≤ s.cell.subdivLvl ∧ s.cell.subdivLvl ≤ o.maxLvl)

/-- A grid of `n` samples per axis over the box `[-1, 1]^3` on which sampleFunction has
not stored any value (every slot is undefined). -/
def unsampledGrid (n : Int) : Array3D ℚ :=
  { indices := ⟨n, n, n⟩, data := fun _ => none, bbox := (⟨-1, 1⟩, ⟨-1, 1⟩, ⟨-1, 1⟩) }

/-- An octree with minLvl = maxLvl = 0 on the 2 x 2 x 2 grid that `setOctreeLevels(0, 0)`
allocates (sampleFunction refuses a grid this small, so the samples are undefined). -/
def octLevelZero : Octree :=
  { samples := ⟨2, 2, 2⟩, sampleData := unsampledGrid 2, minLvl := 0, maxLvl := 0,
    offsets := ⟨2, 2, 2⟩, fn := fun x y z => x * x + y * y + z * z - 1,
    complexSurfThresh := 3 / 5, msqrt := Rat.sqrt }

/-- An octree with minLvl = 2 and maxLvl = 3 on a 9 x 9 x 9 grid whose samples are still
undefined. -/
def octUnsampled : Octree :=
  { samples := ⟨9, 9, 9⟩, sampleData := unsampledGrid 9, minLvl := 2, maxLvl := 3,
    offsets := ⟨1 / 4, 1 / 4, 1 / 4⟩, fn := fun x y z => x * x + y * y + z * z - 1,
    complexSurfThresh := 3 / 5, msqrt := Rat.sqrt }

/-- The unit grid cube with lowest corner `u` lies in the index box with base corner
`c000` and extent `offsets`. -/
def boxHas (c000 offsets u : Index3D) : Prop :=
  (c000.x ≤ u.x ∧ u.x + 1 ≤ c000.x + offsets.x) ∧
  (c000.y ≤ u.y ∧ u.y + 1 ≤ c000.y + offsets.y) ∧
  (c000.z ≤ u.z ∧ u.z + 1 ≤ c000.z + offsets.z)

/-- The 8 children of the node `s` exactly cover it: child `i` has half the index extent
of `s` on each axis, its base corner is the base corner of `s` moved by that half extent
on x iff bit 4 of `i` is set, on y iff bit 2, on z iff bit 1; every unit grid cube of `s`
lies in exactly one child, and no child reaches outside `s`. -/
def ChildrenCover (s : OctTree) : Prop :=
  (∀ i, i < 8 → ∃ k, s.kids[i]? = some k ∧
    (2 * k.cell.offsets.x = s.cell.offsets.x ∧ 2 * k.cell.offsets.y = s.cell.offsets.y ∧
      2 * k.cell.offsets.z = s.cell.offsets.z) ∧
    k.cell.c000.x = s.cell.c000.x + (if i / 4 % 2 = 1 then k.cell.offsets.x else 0) ∧
    k.cell.c000.y = s.cell.c000.y + (if i / 2 % 2 = 1 then k.cell.offsets.y else 0) ∧
    k.cell.c000.z = s.cell.c000.z + (if i % 2 = 1 then k.cell.offsets.z else 0)) ∧
  (∀ u, s.cell.containsCube u →
    ∃! i, i < 8 ∧ ∃ k, s.kids[i]? = some k ∧ k.cell.containsCube u) ∧
  (∀ k ∈ s.kids, ∀ u, k.cell.containsCube u → s.cell.containsCube u)

/-! ## octree.js: half-faces, twins and face relationships -/

/-- A reference to a half-face: the id of the owning cell and the face position 0..5. -/
abbrev FaceRef := Nat × Nat

/-- Strip of `types.js`: the two entries of `edge`, `data`, `dir` and `block`. -/
structure Strip where
  skip : Bool
  loop : Bool
  edge : Int × Int
  data : Int × Int
  dir : Int × Int
  block : Index3D × Index3D
deriving DecidableEq

/-- Face of `types.js` (its id and cell index are the key under which it is stored). -/
structure Face where
  skip : Bool
  state : FaceState
  twin : Option FaceRef
  parent : Option FaceRef
  children : List (Option FaceRef)
  strips : List Strip
  transitSegs : List (Int × Int)
deriving DecidableEq

/-- The Face constructor. -/
def newFace : Face :=
  { skip := true, state := FaceState.BRANCH_FACE, twin := none, parent := none,
    children := [none, none, none, none], strips := [], transitSegs := [] }

/-- The faces of all cells: `cells[id].faces[position]`. -/
abbrev FaceStore := Nat → Nat → Face

/-- The faces right after the cells are constructed. -/
def initialFaces : FaceStore := fun _ _ => newFace

/-- Replace one face of the store. -/
def FaceStore.set (fs : FaceStore) (r : FaceRef) (f : Face) : FaceStore :=
  fun c p => if c = r.1 ∧ p = r.2 then f else fs c p

/-- The face a reference points to. -/
def FaceStore.face (fs : FaceStore) (r : FaceRef) : Face := fs r.1 r.2

/-- The raw address of a cell as findNeighbours reads it: undefined past its 8 slots. -/
def rawSlot (address : List Nat) (slot : Nat) : Option Nat := address[slot]?

/-- NEIGHBOR_ADDRESS_TABLE[axis][slotVal - 1]. -/
def neighbourDigit (axis slotVal : Nat) : Option Nat :=
  match NEIGHBOR_ADDRESS_TABLE[axis]? with
  | some row => if slotVal = 0 then none else row[slotVal - 1]?
  | none => none

/-- The slot loop of findNeighbours for direction `i`, from slot `n - 1` down to 0,
entered with the flag `sameParent`; the result lists the slots 0 .. n-1 of
`tempNeighbourAddress[i]`. -/
def neighbourSlots (address : List Nat) (i : Nat) : Nat → Bool → List (Option Nat)
  | 0, _ => []
  | n + 1, sameParent =>
    if sameParent then neighbourSlots address i n true ++ [rawSlot address n]
    else
      match rawSlot address n with
      | none => neighbourSlots address i n false ++ [none]
      | some slotVal =>
        if slotVal = 0 then neighbourSlots address i n false ++ [some 0]
        else
          match neighbourDigit (i / 2) slotVal with
          | none => neighbourSlots address i n false ++ [none]
          | some nb =>
            neighbourSlots address i n
              (decide ((i % 2 ≠ 0 ∧ slotVal < nb) ∨ (i % 2 = 0 ∧ slotVal > nb))) ++ [some nb]

/-- The key under which subdivideCell files a cell in `cellAddresses`. -/
def Cell.addressKey (c : Cell) : Nat := getFormatted (c.address.map some)

mutual
/-- The calls `cellAddresses.set(key, cell)` made while the tree below a cell is built,
in the order they are made: a child is filed after the cells below it. -/
def OctTree.addressEntries : OctTree → List (Nat × Cell)
  | .mk _ ks => OctTree.addressEntriesList ks
/-- The calls `cellAddresses.set` for a list of sibling sub-trees. -/
def OctTree.addressEntriesList : List OctTree → List (Nat × Cell)
  | [] => []
  | k :: ks =>
    OctTree.addressEntries k ++ (k.cell.addressKey, k.cell) :: OctTree.addressEntriesList ks
end

/-- The lookup `cellAddresses.get(key)`: the cell filed last under the key. -/
def addressGet (entries : List (Nat × Cell)) (key : Nat) : Option Cell :=
  (entries.reverse.find? (fun e => e.1 == key)).map Prod.snd

/-- Octree.setFaceTwins(a, b, contact). -/
def setFaceTwins (fs : FaceStore) (a b : Cell) (contact : Nat) : FaceStore :=
  match FACE_TWIN_TABLE[contact]? with
  | some (valA, valB) =>
    (fs.set (b.id, valA) { fs b.id valA with twin := some (a.id, valB) }).set (a.id, valB)
      { (fs.set (b.id, valA) { fs b.id valA with twin := some (a.id, valB) }) a.id valB with
        twin := some (b.id, valA) }
  | none => fs

/-- The body of the second loop of findNeighbours for direction `i` (the array
`neighbours` it also fills is read nowhere). -/
def findNeighbourStep (maxLvl : Nat) (entries : List (Nat × Cell)) (cellA : Cell)
    (fs : FaceStore) (i : Nat) : FaceStore :=
  match addressGet entries (getFormatted (neighbourSlots cellA.address i maxLvl false)) with
  | some cellB => setFaceTwins fs cellB cellA i
  | none => fs

/-- Octree.findNeighbours. -/
def findNeighbours (maxLvl : Nat) (entries : List (Nat × Cell)) (fs : FaceStore)
    (cellA : Cell) : FaceStore :=
  (List.range 6).foldl (findNeighbourStep maxLvl entries cellA) fs

/-- Octree.populateHalfFaces; `none` when maxLvl is negative (`new Array(maxLvl)` throws). -/
def populateHalfFaces (o : Octree) (t : OctTree) (fs : FaceStore) : Option FaceStore :=
  if o.maxLvl < 0 then none
  else some (t.cells.foldl (findNeighbours o.maxLvl.toNat t.addressEntries) fs)

/-- Face `i` of the cell lies on the outer boundary of the root volume: faces 0 and 1 are
the low and high z sides (FACE_VERTEX), 2 and 3 the y sides, 4 and 5 the x sides. -/
def faceOnBoundary (o : Octree) (c : Cell) (i : Nat) : Prop :=
  (i = 0 ∧ c.c000.z = 0) ∨ (i = 1 ∧ c.c000.z + c.offsets.z = o.samples.z - 1) ∨
  (i = 2 ∧ c.c000.y = 0) ∨ (i = 3 ∧ c.c000.y + c.offsets.y = o.samples.y - 1) ∨
  (i = 4 ∧ c.c000.x = 0) ∨ (i = 5 ∧ c.c000.x + c.offsets.x = o.samples.x - 1)

/-! ## octree.js: setFaceRelationships, markTransitionalFaces, buildOctree -/

/-- FACE_RELATIONSHIP_TABLE: for each position in the parent, the three faces shared with
the parent and the sub-face slot taken on each. -/
def FACE_RELATIONSHIP_TABLE : List (List Nat × List Nat) :=
  [([0, 2, 4], [0, 0, 0]), ([1, 2, 4], [0, 1, 1]), ([0, 3, 4], [1, 0, 2]), ([1, 3, 4], [1, 1, 3]),
   ([0, 2, 5], [2, 2, 0]), ([1, 2, 5], [2, 3, 1]), ([0, 3, 5], [3, 2, 2]), ([1, 3, 5], [3, 3, 3])]

/-- The body of the side loop of setFaceRelationships. -/
def setFaceRelationStep (cell : Cell) (parentId : Nat) (fs : FaceStore) (side : Nat) : FaceStore :=
  match FACE_RELATIONSHIP_TABLE[cell.posInParent]? with
  | some (cons, subs) =>
    match cons[side]?, subs[side]? with
    | some con, some posOfSubFace =>
      (fs.set (cell.id, con) { fs cell.id con with parent := some (parentId, con) }).set
        (parentId, con)
        { (fs.set (cell.id, con) { fs cell.id con with parent := some (parentId, con) })
            parentId con with
          children :=
            ((fs.set (cell.id, con) { fs cell.id con with parent := some (parentId, con) })
              parentId con).children.set posOfSubFace (some (cell.id, con)) }
    | _, _ => fs
  | none => fs

/-- The body of the cell loop of setFaceRelationships. -/
def setFaceRelationCell (fs : FaceStore) (cell : Cell) : FaceStore :=
  match cell.parent with
  | none => fs
  | some parentId =>
    if cell.state = CellState.LEAF then
      (List.range 6).foldl
        (fun g i => g.set (cell.id, i) { g cell.id i with state := FaceState.LEAF_FACE })
        ((List.range 3).foldl (setFaceRelationStep cell parentId) fs)
    else (List.range 3).foldl (setFaceRelationStep cell parentId) fs

/-- Octree.setFaceRelationships. -/
def setFaceRelationships (t : OctTree) (fs : FaceStore) : FaceStore :=
  t.cells.foldl setFaceRelationCell fs

/-- The test `face.twin && face.twin.children[0]` of markTransitionalFaces. -/
def twinHasChildren (fs : FaceStore) (f : Face) : Bool :=
  match f.twin with
  | some tw =>
    match (fs.face tw).children[0]? with
    | some (some _) => true
    | _ => false
  | none => false

/-- The body of the loops of markTransitionalFaces for face `j` of a leaf cell. -/
def markTransitionalStep (cell : Cell) (fs : FaceStore) (j : Nat) : FaceStore :=
  if twinHasChildren fs (fs cell.id j) then
    fs.set (cell.id, j) { fs cell.id j with state := FaceState.TRANSIT_FACE }
  else fs

/-- Octree.markTransitionalFaces. -/
def markTransitionalFaces (t : OctTree) (fs : FaceStore) : FaceStore :=
  t.leafCells.foldl (fun g cell => (List.range 6).foldl (markTransitionalStep cell) g) fs

/-- Octree.buildOctree: the cell tree and the faces of all cells; `none` when
populateHalfFaces throws. -/
def buildOctree (o : Octree) : Option (OctTree × FaceStore) :=
  match populateHalfFaces o (makeStructure o) initialFaces with
  | some fs =>
    some (makeStructure o,
      markTransitionalFaces (makeStructure o) (setFaceRelationships (makeStructure o) fs))
  | none => none

/-! ## algcms.js: state -/

/-- EdgeBlock of `types.js`. -/
structure EdgeBlock where
  empty : Bool
  edgeIndices : Index3D
deriving DecidableEq

/-- The default `new EdgeBlock(empty)`. -/
def newEdgeBlock (empty : Bool) : EdgeBlock := ⟨empty, ⟨-1, -1, -1⟩⟩

/-- Vertex of `types.js`, with the cell id that tessellateComponent attaches to centroids. -/
structure Vertex where
  position : Vec3
  normal : Vec3
  cellId : Option Nat
deriving DecidableEq

/-- Point of `types.js`: a position and the field value there. -/
structure Point where
  position : Vec3
  value : ℚ

/-- Mesh of `mesh.js`: three flat arrays. -/
structure Mesh where
  vertices : List ℚ
  normals : List ℚ
  indices : List Int

/-- The state of an AlgCMS object: the field, the parameters, the sample grid, the edge
cache, the faces and components of the octree cells, the vertex and index lists, and the
configuration set by the constructor (`sampled`, the octree levels, the grid dimensions,
the container and the sample spacing). -/
structure AlgCMS where
  fn : ℚ → ℚ → ℚ → ℚ
  msqrt : ℚ → ℚ
  octMaxLvl : Int
  zeroApproximation : Nat
  snapCentroid : Bool
  sampleData : Array3D ℚ
  edgeData : Array3D EdgeBlock
  faces : FaceStore
  components : Nat → List (List Int)
  vertices : List Vertex
  indices : List Int
  desiredCells : List Nat
  sampled : Bool
  octMinLvl : Int
  samples : Index3D
  container : Range ℚ × Range ℚ × Range ℚ
  offsets : Vec3

/-! ## algcms.js: segment generation -/

/-- EDGE_MAP: the strips of each of the 16 sign codes, as pairs of face edges. -/
def EDGE_MAP : List ((Int × Int) × (Int × Int)) :=
  [((-1, -1), (-1, -1)), ((0, 2), (-1, -1)), ((2, 1), (-1, -1)), ((0, 1), (-1, -1)),
   ((3, 0), (-1, -1)), ((3, 2), (-1, -1)), ((3, 0), (2, 1)), ((3, 1), (-1, -1)),
   ((1, 3), (-1, -1)), ((1, 3), (0, 2)), ((2, 3), (-1, -1)), ((0, 3), (-1, -1)),
   ((1, 0), (-1, -1)), ((1, 2), (-1, -1)), ((2, 0), (-1, -1)), ((-1, -1), (-1, -1))]

/-- VERTEX_MAP: the two face corners that bound each face edge. -/
def VERTEX_MAP : List (Nat × Nat) := [(0, 2), (3, 1), (0, 1), (2, 3)]

/-- The test `a * b <= 0` on samples that may be undefined. -/
def prodNonpos (a b : Option ℚ) : Bool :=
  match a, b with
  | some u, some v => decide (u * v ≤ 0)
  | _, _ => false

/-- AlgCMS.getEdgesBetwixt: the axis along which the two indices differ and the index
range between them; direction -1 and the default range when they coincide. -/
def getEdgesBetwixt (pt0 pt1 : Index3D) : Int × Range Int :=
  if |pt0.x - pt1.x| > 0 then (0, Range.set (min pt0.x pt1.x) (max pt0.x pt1.x))
  else if |pt0.y - pt1.y| > 0 then (1, Range.set (min pt0.y pt1.y) (max pt0.y pt1.y))
  else if |pt0.z - pt1.z| > 0 then (2, Range.set (min pt0.z pt1.z) (max pt0.z pt1.z))
  else (-1, ⟨0, 0⟩)

/-- The scan loop of exactSignChangeIndex from index `i` on, with `n` iterations left:
the first `i` whose sample and the next have a product `<= 0`, or -1. -/
def signChangeScan (sampleData : Array3D ℚ) (dir : Int) (indexer : Index3D) :
    Nat → Int → Option Int
  | 0, _ => some (-1)
  | n + 1, i =>
    match indexer.set dir i, indexer.set dir (i + 1) with
    | some here, some next =>
      if prodNonpos (sampleData.getValueAt here) (sampleData.getValueAt next) then some i
      else signChangeScan sampleData dir indexer n (i + 1)
    | _, _ => none

/-- AlgCMS.exactSignChangeIndex; `none` when the code throws (no first index). -/
def exactSignChangeIndex (sampleData : Array3D ℚ) (range : Range Int) (dir : Int)
    (ind0 ind1 : Index3D) : Option Int :=
  match (if ind0.get dir = some range.lower then some ind0
         else if ind1.get dir = some range.lower then some ind1 else none) with
  | none => none
  | some firstIndex =>
    if |range.lower - range.upper| = 1 then firstIndex.get dir
    else signChangeScan sampleData dir firstIndex (range.upper - range.lower).toNat range.lower

/-- AlgCMS.findCrossingPoint: the interpolated point, refined at most `quality` times. -/
def findCrossingPoint (fn : ℚ → ℚ → ℚ → ℚ) : Nat → Point → Point → Vec3
  | 0, pt0, pt1 =>
    ⟨pt0.position.x + (0 - pt0.value) / (pt1.value - pt0.value) * (pt1.position.x - pt0.position.x),
     pt0.position.y + (0 - pt0.value) / (pt1.value - pt0.value) * (pt1.position.y - pt0.position.y),
     pt0.position.z + (0 - pt0.value) / (pt1.value - pt0.value) * (pt1.position.z - pt0.position.z)⟩
  | quality + 1, pt0, pt1 =>
    let pos : Vec3 :=
      ⟨pt0.position.x + (0 - pt0.value) / (pt1.value - pt0.value) * (pt1.position.x - pt0.position.x),
       pt0.position.y + (0 - pt0.value) / (pt1.value - pt0.value) * (pt1.position.y - pt0.position.y),
       pt0.position.z + (0 - pt0.value) / (pt1.value - pt0.value) * (pt1.position.z - pt0.position.z)⟩
    let val := fn pos.x pos.y pos.z
    if |0 - val| < EPSILON then pos
    else if val < 0 then
      if pt0.value > 0 then findCrossingPoint fn quality ⟨pos, val⟩ pt0
      else if pt1.value > 0 then findCrossingPoint fn quality ⟨pos, val⟩ pt1
      else pos
    else if val > 0 then
      if pt0.value < 0 then findCrossingPoint fn quality pt0 ⟨pos, val⟩
      else if pt1.value < 0 then findCrossingPoint fn quality pt1 ⟨pos, val⟩
      else pos
    else pos

/-- AlgCMS.findGradient: forward differences with the fixed step 0.01. -/
def AlgCMS.findGradient (fn : ℚ → ℚ → ℚ → ℚ) (position : Vec3) : Vec3 :=
  ⟨fn (position.x + 1 / 100) position.y position.z - fn position.x position.y position.z,
   fn position.x (position.y + 1 / 100) position.z - fn position.x position.y position.z,
   fn position.x position.y (position.z + 1 / 100) - fn position.x position.y position.z⟩

/-- Write entry `index` (0 or 1) of a pair. -/
def setPair {α : Type} (p : α × α) (index : Nat) (v : α) : α × α :=
  if index = 0 then (v, p.2) else (p.1, v)

/-- Read entry `index` (0 or 1) of a pair. -/
def getPair {α : Type} (p : α × α) (index : Nat) : α :=
  if index = 0 then p.1 else p.2

/-- The three assignments `strip.data[index]`, `strip.block[index]`, `strip.dir[index]`. -/
def Strip.setEnd (s : Strip) (index : Nat) (data : Int) (block : Index3D) (dir : Int) : Strip :=
  { s with data := setPair s.data index data, block := setPair s.block index block,
           dir := setPair s.dir index dir }

/-- The vertex built by makeVertex between two grid samples. -/
def crossingVertex (a : AlgCMS) (crossingIndex0 crossingIndex1 : Index3D) (val0 val1 : ℚ) :
    Vertex :=
  { position := findCrossingPoint a.fn a.zeroApproximation
      ⟨a.sampleData.getPositionAt crossingIndex0, val0⟩
      ⟨a.sampleData.getPositionAt crossingIndex1, val1⟩,
    normal := (AlgCMS.findGradient a.fn (findCrossingPoint a.fn a.zeroApproximation
      ⟨a.sampleData.getPositionAt crossingIndex0, val0⟩
      ⟨a.sampleData.getPositionAt crossingIndex1, val1⟩)).normalize a.msqrt,
    cellId := none }

/-- The edge cache at the end of makeVertex. When a block is stored for `crossingIndex0`,
that block is updated in place (`empty = false`, `edgeIndices.set(dir, id)`). When none is
stored, the fresh block is handed to `setValueAt(crossingIndex0, edgeBlock)`: in that call
the block is the parameter `y`, and the stored `value` is the missing fourth argument, so
the slot stays undefined. -/
def recordEdge (edgeData : Array3D EdgeBlock) (crossingIndex0 : Index3D) (inds : Index3D) :
    Array3D EdgeBlock :=
  match edgeData.getValueAt crossingIndex0 with
  | some _ => edgeData.setValueAt crossingIndex0 ⟨false, inds⟩
  | none => edgeData

/-- AlgCMS.makeVertex: append the crossing vertex, store its id in the strip end and in
the edge cache. `none` when a bracketing sample is undefined (the vertex is then not a
rational point) or when the axis is invalid (Index3D.set throws). -/
def makeVertex (a : AlgCMS) (strip : Strip) (dir : Int) (crossingIndex0 crossingIndex1 : Index3D)
    (index : Nat) : Option (AlgCMS × Strip) :=
  match a.sampleData.getValueAt crossingIndex0, a.sampleData.getValueAt crossingIndex1 with
  | some val0, some val1 =>
    match ((a.edgeData.getValueAt crossingIndex0).getD (newEdgeBlock false)).edgeIndices.set dir
        (a.vertices.length : Int) with
    | some inds =>
      some ({ a with
                vertices := a.vertices ++ [crossingVertex a crossingIndex0 crossingIndex1 val0 val1],
                edgeData := recordEdge a.edgeData crossingIndex0 inds },
            strip.setEnd index (a.vertices.length : Int) crossingIndex0 dir)
    | none => none
  | _, _ => none

/-- The cached vertex id of the grid edge (`crossingIndex0`, `dir`), when the test
`edgeBlock && !edgeBlock.empty && edgeBlock.edgeIndices.get(dir) !== -1` succeeds. -/
def cachedVertex (edgeData : Array3D EdgeBlock) (crossingIndex0 : Index3D) (dir : Int) :
    Option Int :=
  match edgeData.getValueAt crossingIndex0 with
  | some edgeBlock =>
    if edgeBlock.empty then none
    else
      match edgeBlock.edgeIndices.get dir with
      | some v => if v ≠ -1 then some v else none
      | none => none
  | none => none

/-- The grid edge that populateStrip resolves end `index` of the strip to: the axis and
the two crossing indices; `none` when the code throws. -/
def resolveCrossing (sampleData : Array3D ℚ) (strip : Strip) (inds : List Index3D) (index : Nat) :
    Option (Int × Index3D × Index3D) :=
  match VERTEX_MAP[(getPair strip.edge index).toNat]? with
  | none => none
  | some (v0, v1) =>
    if getPair strip.edge index < 0 then none
    else
      match inds[v0]?, inds[v1]? with
      | some ind0, some ind1 =>
        match exactSignChangeIndex sampleData (getEdgesBetwixt ind0 ind1).2
            (getEdgesBetwixt ind0 ind1).1 ind0 ind1 with
        | some signChange =>
          match ind0.set (getEdgesBetwixt ind0 ind1).1 signChange,
                ind0.set (getEdgesBetwixt ind0 ind1).1 (signChange + 1) with
          | some crossingIndex0, some crossingIndex1 =>
            some ((getEdgesBetwixt ind0 ind1).1, crossingIndex0, crossingIndex1)
          | _, _ => none
        | none => none
      | _, _ => none

/-- AlgCMS.populateStrip: fill end `index` of the strip, from the edge cache when the
grid edge already has a vertex, else with a new vertex. -/
def populateStrip (a : AlgCMS) (strip : Strip) (inds : List Index3D) (index : Nat) :
    Option (AlgCMS × Strip) :=
  match resolveCrossing a.sampleData strip inds index with
  | none => none
  | some (dir, crossingIndex0, crossingIndex1) =>
    match cachedVertex a.edgeData crossingIndex0 dir with
    | some v => some (a, strip.setEnd index v crossingIndex0 dir)
    | none => makeVertex a strip dir crossingIndex0 crossingIndex1 index

/-- The Strip constructor `new Strip(skip, edge0, edge1)`. -/
def newStrip (skip : Bool) (edge0 edge1 : Int) : Strip :=
  { skip := skip, loop := false, edge := (edge0, edge1), data := (-1, -1), dir := (-1, -1),
    block := (⟨-1, -1, -1⟩, ⟨-1, -1, -1⟩) }

/-- The assignment `face.strips[stripInd] = s`; `none` when it would leave a hole in the
array (an index past its length). -/
def setStripAt (strips : List Strip) (stripInd : Nat) (s : Strip) : Option (List Strip) :=
  if stripInd < strips.length then some (strips.set stripInd s)
  else if stripInd = strips.length then some (strips ++ [s])
  else none

/-- AlgCMS.makeStrip. -/
def makeStrip (a : AlgCMS) (edge0 edge1 : Int) (inds : List Index3D) (face : FaceRef)
    (stripInd : Nat) : Option AlgCMS :=
  match populateStrip a (newStrip false edge0 edge1) inds 0 with
  | none => none
  | some (a1, s1) =>
    match populateStrip a1 s1 inds 1 with
    | none => none
    | some (a2, s2) =>
      match setStripAt (a2.faces.face face).strips stripInd s2 with
      | none => none
      | some strips =>
        some { a2 with
          faces := a2.faces.set face { a2.faces.face face with strips := strips, skip := false } }

/-- The sign code of makeFaceSegments: bit `v` is set when corner `v` is negative. -/
def signCode (sampleData : Array3D ℚ) (inds : List Index3D) : Nat :=
  (if isNeg ((inds[0]?).bind sampleData.getValueAt) then 1 else 0) +
  (if isNeg ((inds[1]?).bind sampleData.getValueAt) then 2 else 0) +
  (if isNeg ((inds[2]?).bind sampleData.getValueAt) then 4 else 0) +
  (if isNeg ((inds[3]?).bind sampleData.getValueAt) then 8 else 0)

/-- AlgCMS.makeFaceSegments. -/
def makeFaceSegments (a : AlgCMS) (inds : List Index3D) (face : FaceRef) : Option AlgCMS :=
  if signCode a.sampleData inds = 6 then
    (makeStrip a 3 0 inds face 0).bind (fun a1 => makeStrip a1 2 1 inds face 1)
  else if signCode a.sampleData inds = 9 then
    (makeStrip a 1 3 inds face 0).bind (fun a1 => makeStrip a1 0 2 inds face 1)
  else
    match EDGE_MAP[signCode a.sampleData inds]? with
    | none => none
    | some ((e0a, e0b), (e1a, e1b)) =>
      (if e0a ≠ -1 then makeStrip a e0a e0b inds face 0 else some a).bind
        (fun a1 => if e1a ≠ -1 then makeStrip a1 e1a e1b inds face 1 else some a1)

/-- The face loop of generateSegments on a leaf cell, for face `f`. -/
def generateFace (cell : Cell) (a : AlgCMS) (f : Nat) : Option AlgCMS :=
  match FACE_VERTEX[f]? with
  | none => none
  | some verts => makeFaceSegments a (verts.filterMap (fun v => cell.pointInds[v]?)) (cell.id, f)

/-- Run a fallible step over a list, stopping at the first failure. -/
def foldlOpt {σ α : Type} (step : σ → α → Option σ) : σ → List α → Option σ
  | s, [] => some s
  | s, x :: xs =>
    match step s x with
    | none => none
    | some s1 => foldlOpt step s1 xs

mutual
/-- AlgCMS.generateSegments. -/
def generateSegments (a : AlgCMS) : OctTree → Option AlgCMS
  | .mk cell kids =>
    if cell.state = CellState.BRANCH then generateSegmentsList a kids
    else foldlOpt (generateFace cell) a (List.range 6)
/-- The child loop of generateSegments. -/
def generateSegmentsList (a : AlgCMS) : List OctTree → Option AlgCMS
  | [] => some a
  | k :: ks =>
    match generateSegments a k with
    | none => none
    | some a1 => generateSegmentsList a1 ks
end

/-! ## algcms.js: transitional faces -/

/-- AlgCMS.isBetweenBlocks. -/
def isBetweenBlocks (blockA blockB targetBlock : Index3D) (dir : Int) : Bool :=
  match blockA.get dir, blockB.get dir, targetBlock.get dir with
  | some a, some b, some t => decide (t > min a b ∧ t < max a b)
  | _, _, _ => false

/-- The two strips that replace a split coarse strip. -/
def splitStrip (strip : Strip) (crossingBlock : Index3D) (dir vtxIdx : Int) : List Strip :=
  [{ newStrip false strip.edge.1 strip.edge.2 with
       data := (strip.data.1, vtxIdx), block := (strip.block.1, crossingBlock), dir := (dir, dir) },
   { newStrip false strip.edge.1 strip.edge.2 with
       data := (vtxIdx, strip.data.2), block := (crossingBlock, strip.block.2), dir := (dir, dir) }]

/-- AlgCMS.splitCoarseStripAndInsertVertex on the strip list of the face: the first strip
whose two ends lie on axis `dir` and bracket the crossing block is replaced by two. -/
def splitCoarseStripAndInsertVertex : List Strip → Index3D → Int → Int → List Strip
  | [], _, _, _ => []
  | strip :: rest, crossingBlock, dir, vtxIdx =>
    if strip.dir.1 = dir ∧ strip.dir.2 = dir ∧
        isBetweenBlocks strip.block.1 strip.block.2 crossingBlock dir = true then
      splitStrip strip crossingBlock dir vtxIdx ++ rest
    else strip :: splitCoarseStripAndInsertVertex rest crossingBlock dir vtxIdx

/-- AlgCMS.traverseFace: the non-skipped strips of the leaf faces below a face. The first
argument bounds the depth of the descent. -/
def traverseFace (fs : FaceStore) : Nat → Option FaceRef → List Strip
  | _, none => []
  | 0, some _ => []
  | n + 1, some r =>
    if (fs.face r).state = FaceState.BRANCH_FACE then
      ((List.range 4).map (fun i => traverseFace fs n (((fs.face r).children[i]?).join))).flatten
    else if (fs.face r).state = FaceState.LEAF_FACE then
      (fs.face r).strips.filter (fun s => !s.skip)
    else []

/-- A crossing key of resolveTransitionalFace: the grid block and the axis. -/
abbrev CrossingKey := Index3D × Int

/-- The map `uniqueCrossings`: the first vertex id met for each crossing key of the
strip ends, in insertion order. -/
def addCrossing (m : List (CrossingKey × Int)) (key : CrossingKey) (v : Int) :
    List (CrossingKey × Int) :=
  if m.any (fun e => e.1 == key) then m else m ++ [(key, v)]

/-- The loop that fills `uniqueCrossings` from the fine strips. -/
def uniqueCrossings (fineStrips : List Strip) : List (CrossingKey × Int) :=
  fineStrips.foldl
    (fun m strip =>
      addCrossing (addCrossing m (strip.block.1, strip.dir.1) strip.data.1)
        (strip.block.2, strip.dir.2) strip.data.2) []

/-- The test `found` of resolveTransitionalFace: some end of a coarse strip has the key. -/
def hasCrossing (strips : List Strip) (key : CrossingKey) : Bool :=
  strips.any (fun s => (s.block.1, s.dir.1) == key || (s.block.2, s.dir.2) == key)

/-- The loop of resolveTransitionalFace over the unique crossings, on the strip list of
the coarse face. -/
def insertCrossings (coarse : List Strip) (crossings : List (CrossingKey × Int)) : List Strip :=
  crossings.foldl
    (fun strips e =>
      if hasCrossing strips e.1 then strips
      else splitCoarseStripAndInsertVertex strips e.1.1 e.1.2 e.2) coarse

/-- The copy of a fine strip stored on the twin face. -/
def copyStrip (strip : Strip) : Strip :=
  { newStrip strip.skip strip.edge.1 strip.edge.2 with
      data := strip.data, block := strip.block, dir := strip.dir }

/-- AlgCMS.resolveTransitionalFace; `depth` bounds the descent of traverseFace. -/
def resolveTransitionalFace (depth : Nat) (fs : FaceStore) (face : FaceRef) : FaceStore :=
  if traverseFace fs depth (fs.face face).twin = [] then
    fs.set face { fs.face face with state := FaceState.LEAF_FACE }
  else
    match (fs.face face).twin with
    | none => fs
    | some tw =>
      (fs.set face { fs.face face with
          strips := insertCrossings
            (if (fs.face face).strips = [] then traverseFace fs depth (some face)
             else (fs.face face).strips)
            (uniqueCrossings (traverseFace fs depth (fs.face face).twin)) }).set tw
        { (fs.set face { fs.face face with
            strips := insertCrossings
              (if (fs.face face).strips = [] then traverseFace fs depth (some face)
               else (fs.face face).strips)
              (uniqueCrossings (traverseFace fs depth (fs.face face).twin)) }).face tw with
          strips := (traverseFace fs depth (fs.face face).twin).map copyStrip,
          transitSegs := (traverseFace fs depth (fs.face face).twin).map (fun s => s.data) }

/-- AlgCMS.editTransitionalFaces over the cells in creation order. -/
def editTransitionalFaces (depth : Nat) (cells : List Cell) (fs : FaceStore) : FaceStore :=
  cells.foldl
    (fun g cell =>
      (List.range 6).foldl
        (fun h j =>
          if (h cell.id j).state = FaceState.TRANSIT_FACE then
            resolveTransitionalFace depth h (cell.id, j)
          else h) g) fs

/-! ## algcms.js: tessellation -/

/-- The lookup `this.vertices[id]`: undefined for an id that is not an index of the list. -/
def vertexAt (vertices : List Vertex) (id : Int) : Option Vertex :=
  if id < 0 then none else vertices[id.toNat]?

/-- The sum of the vectors of a list, added in order to `new Vec3()`. -/
def sumVec (vs : List Vec3) : Vec3 := vs.foldl Vec3.add Vec3.zero

/-- The accumulation loop of isRingCCW: the sum over the ring of the cross terms of
successive positions relative to the centroid. -/
def areaNormal (centroid : Vec3) (ring : List Vec3) : Vec3 :=
  (List.range ring.length).foldl
    (fun acc i =>
      match ring[i]?, ring[(i + 1) % ring.length]? with
      | some p1, some p2 =>
        ⟨acc.x + ((p1.subtract centroid).y - (p2.subtract centroid).y) *
                  ((p1.subtract centroid).z + (p2.subtract centroid).z),
         acc.y + ((p1.subtract centroid).z - (p2.subtract centroid).z) *
                  ((p1.subtract centroid).x + (p2.subtract centroid).x),
         acc.z + ((p1.subtract centroid).x - (p2.subtract centroid).x) *
                  ((p1.subtract centroid).y + (p2.subtract centroid).y)⟩
      | _, _ => acc) Vec3.zero

/-- AlgCMS.isRingCCW on the positions of the ring and the centroid vertex. -/
def isRingCCW (ring : List Vec3) (centroid : Vertex) : Bool :=
  decide ((areaNormal centroid.position ring).dot centroid.normal > 0)

/-- The position of the first minimum of the component (the loop that finds `minIdx`). -/
def minIndex (component : List Int) : Nat :=
  (List.range component.length).foldl
    (fun minIdx i =>
      match component[i]?, component[minIdx]? with
      | some ci, some cm => if ci < cm then i else minIdx
      | _, _ => minIdx) 0

/-- The index triples `(centroidIdx, ring[i], ring[(i + 1) % n])` of the fan. -/
def fanIndices (centroidIdx : Int) (ring : List Int) : List Int :=
  ((List.range ring.length).map (fun i =>
    match ring[i]?, ring[(i + 1) % ring.length]? with
    | some r0, some r1 => [centroidIdx, r0, r1]
    | _, _ => [])).flatten

/-- The vertices of a component, when every id is a valid index. -/
def componentVertices (vertices : List Vertex) : List Int → Option (List Vertex)
  | [] => some []
  | id :: rest =>
    match vertexAt vertices id with
    | none => none
    | some v => (componentVertices vertices rest).map (fun vs => v :: vs)

/-- The triangle branch of tessellateComponent: the three indices in the emitted order. -/
def triangleIndices (msqrt : ℚ → ℚ) (component : List Int) (vs : List Vertex) : List Int :=
  match component, vs with
  | [c0, c1, c2], [v0, v1, v2] =>
    if (((v1.position.subtract v0.position).cross (v2.position.subtract v0.position)).normalize
          msqrt).dot
        ((sumVec [v0.normal, v1.normal, v2.normal]).normalize msqrt) < 0 then [c0, c2, c1]
    else [c0, c1, c2]
  | _, _ => []

/-- The centroid vertex of a larger component: the mean position, moved once along the
normal by the field value when snapping is on, and the normalized sum of the normals. -/
def centroidVertex (a : AlgCMS) (vs : List Vertex) (cellId : Nat) : Vertex :=
  { position :=
      if a.snapCentroid then
        ((sumVec (vs.map Vertex.position)).divide (vs.length : ℚ)).subtract
          (((sumVec (vs.map Vertex.normal)).normalize a.msqrt).scale
            (a.fn ((sumVec (vs.map Vertex.position)).divide (vs.length : ℚ)).x
                  ((sumVec (vs.map Vertex.position)).divide (vs.length : ℚ)).y
                  ((sumVec (vs.map Vertex.position)).divide (vs.length : ℚ)).z))
      else (sumVec (vs.map Vertex.position)).divide (vs.length : ℚ),
    normal := (sumVec (vs.map Vertex.normal)).normalize a.msqrt,
    cellId := some cellId }

/-- The ring of a larger component: rotated to start at its least id, reversed when
isRingCCW fails. -/
def orientedRing (a : AlgCMS) (component : List Int) (vs : List Vertex) (cellId : Nat) :
    List Int :=
  if isRingCCW
      (((vs.drop (minIndex component)) ++ (vs.take (minIndex component))).map Vertex.position)
      (centroidVertex a vs cellId) then
    (component.drop (minIndex component)) ++ (component.take (minIndex component))
  else ((component.drop (minIndex component)) ++ (component.take (minIndex component))).reverse

/-- AlgCMS.tessellateComponent; `none` when a vertex id of the component is not valid
(the code throws on `undefined.getPosition()`). -/
def tessellateComponent (a : AlgCMS) (component : List Int) (cellId : Nat) : Option AlgCMS :=
  if component.length < 3 then some a
  else
    match componentVertices a.vertices component with
    | none => none
    | some vs =>
      if component.length = 3 then
        some { a with indices := a.indices ++ triangleIndices a.msqrt component vs }
      else
        some { a with
          vertices := a.vertices ++ [centroidVertex a vs cellId],
          indices := a.indices ++
            fanIndices (a.vertices.length : Int) (orientedRing a component vs cellId) }

mutual
/-- AlgCMS.tessellationTraversal. -/
def tessellationTraversal (a : AlgCMS) : OctTree → Option AlgCMS
  | .mk cell kids =>
    if cell.state = CellState.BRANCH then tessellationTraversalList a kids
    else if a.desiredCells.length > 0 ∧ ¬ cell.id ∈ a.desiredCells then some a
    else foldlOpt (fun s component => tessellateComponent s component cell.id) a
      (a.components cell.id)
/-- The child loop of tessellationTraversal. -/
def tessellationTraversalList (a : AlgCMS) : List OctTree → Option AlgCMS
  | [] => some a
  | k :: ks =>
    match tessellationTraversal a k with
    | none => none
    | some a1 => tessellationTraversalList a1 ks
end

/-- AlgCMS.createMesh: the cleared mesh filled with the positions, normals and indices. -/
def createMesh (a : AlgCMS) : Mesh :=
  { vertices := a.vertices.flatMap (fun v => [v.position.x, v.position.y, v.position.z]),
    normals := a.vertices.flatMap (fun v => [v.normal.x, v.normal.y, v.normal.z]),
    indices := a.indices }

/-- The mesh is well formed for a vertex list: positions and normals are flat triples
aligned with the vertices, the index count is divisible by 3 and every index is a valid
vertex id. -/
def Mesh.wellFormed (m : Mesh) (vertices : List Vertex) : Prop :=
  m.vertices.length = 3 * vertices.length ∧
  m.normals.length = 3 * vertices.length ∧
  (∀ i v, vertices[i]? = some v →
    (m.vertices[3 * i]? = some v.position.x ∧ m.vertices[3 * i + 1]? = some v.position.y ∧
      m.vertices[3 * i + 2]? = some v.position.z) ∧
    (m.normals[3 * i]? = some v.normal.x ∧ m.normals[3 * i + 1]? = some v.normal.y ∧
      m.normals[3 * i + 2]? = some v.normal.z)) ∧
  m.indices.length % 3 = 0 ∧
  ∀ id ∈ m.indices, 0 ≤ id ∧ id < (vertices.length : Int)

/-- The premise of the tessellation stage: every id of every component is a valid vertex
id, and the indices emitted so far are valid vertex ids in triples. -/
def TessInv (a : AlgCMS) : Prop :=
  (∀ cellId, ∀ component ∈ a.components cellId, ∀ id ∈ component,
    0 ≤ id ∧ id < (a.vertices.length : Int)) ∧
  a.indices.length % 3 = 0 ∧
  ∀ id ∈ a.indices, 0 ≤ id ∧ id < (a.vertices.length : Int)

/-- The state `b` is reached from `a` later in the same run: by further calls of
populateStrip and by updates of the faces (the two things makeStrip does). -/
inductive LaterInRun : AlgCMS → AlgCMS → Prop where
  | refl (a : AlgCMS) : LaterInRun a a
  | populate {a b c : AlgCMS} {strip s : Strip} {inds : List Index3D} {index : Nat}
      (h : LaterInRun a b) (hp : populateStrip b strip inds index = some (c, s)) :
      LaterInRun a c
  | faces {a b : AlgCMS} (h : LaterInRun a b) (fs : FaceStore) :
      LaterInRun a { b with faces := fs }

/-! ## Small concrete states used as witnesses -/

/-- A 2 x 2 x 2 sample grid over `[-1, 1]^3`: the sample at the origin corner is negative,
the others are positive. -/
def smallGrid : Array3D ℚ :=
  { indices := ⟨2, 2, 2⟩, data := fun i => if i = 0 then some (-1) else some 1,
    bbox := (⟨-1, 1⟩, ⟨-1, 1⟩, ⟨-1, 1⟩) }

/-- The edge cache as `initialize` fills it: an empty EdgeBlock in every slot. -/
def freshEdgeData (n : Int) : Array3D EdgeBlock :=
  { indices := ⟨n, n, n⟩, data := fun _ => some (newEdgeBlock true),
    bbox := (⟨-1, 1⟩, ⟨-1, 1⟩, ⟨-1, 1⟩) }

/-- A state before any vertex exists, on the small grid. -/
def smallState : AlgCMS :=
  { fn := fun x y z => x + y + z + 5 / 2, msqrt := Rat.sqrt, octMaxLvl := 1,
    zeroApproximation := 2, snapCentroid := false, sampleData := smallGrid,
    edgeData := freshEdgeData 2, faces := initialFaces, components := fun _ => [],
    vertices := [], indices := [], desiredCells := [], sampled := true, octMinLvl := 1,
    samples := ⟨2, 2, 2⟩, container := (⟨-1, 1⟩, ⟨-1, 1⟩, ⟨-1, 1⟩), offsets := ⟨2, 2, 2⟩ }

/-- The four corner indices of the low z face of the small grid cell, in face order. -/
def smallFaceInds : List Index3D := [⟨0, 0, 0⟩, ⟨0, 1, 0⟩, ⟨1, 0, 0⟩, ⟨1, 1, 0⟩]

/-- Four vertices of a dart-shaped (non-convex) loop in the plane z = 0, all with the
normal (0, 0, 1). -/
def dartVertices : List Vertex :=
  [⟨⟨0, 0, 0⟩, ⟨0, 0, 1⟩, none⟩, ⟨⟨3, 1, 0⟩, ⟨0, 0, 1⟩, none⟩,
   ⟨⟨0, 2, 0⟩, ⟨0, 0, 1⟩, none⟩, ⟨⟨2, 1, 0⟩, ⟨0, 0, 1⟩, none⟩]

/-- A state at the start of tessellation: the dart vertices, and the dart loop as the only
component of cell 0. -/
def dartState : AlgCMS :=
  { smallState with
    vertices := dartVertices,
    components := fun cellId => if cellId = 0 then [[0, 1, 2, 3]] else [] }

/-- A tree made of one LEAF cell with id 0. -/
def oneLeafTree : OctTree :=
  OctTree.mk ((newCell 0 CellState.LEAF none 0 ⟨0, 0, 0⟩ ⟨1, 1, 1⟩ 0)) []

/-- The `(edge0, edge1)` arguments of the makeStrip calls of makeFaceSegments for a sign
code `edges`, in call order: the two hard-coded pairs for the codes 6 and 9, the entries
of `EDGE_MAP[edges]` that are not -1 otherwise. -/
def faceStripEdges (edges : Nat) : Option (List (Int × Int)) :=
  if edges = 6 then some [(3, 0), (2, 1)]
  else if edges = 9 then some [(1, 3), (0, 2)]
  else
    match EDGE_MAP[edges]? with
    | none => none
    | some ((e0a, e0b), (e1a, e1b)) =>
      some ((if e0a ≠ -1 then [(e0a, e0b)] else []) ++ (if e1a ≠ -1 then [(e1a, e1b)] else []))

/-- A run of makeStrip calls on one face, the strips stored from index `stripInd` on. -/
def emitStrips (inds : List Index3D) (face : FaceRef) :
    AlgCMS → Nat → List (Int × Int) → Option AlgCMS
  | a, _, [] => some a
  | a, stripInd, (edge0, edge1) :: rest =>
    match makeStrip a edge0 edge1 inds face stripInd with
    | none => none
    | some a1 => emitStrips inds face a1 (stripInd + 1) rest

/-- The face edges that a list of strips references, two per strip. -/
def stripEndpoints (strips : List (Int × Int)) : List Int :=
  strips.flatMap (fun s => [s.1, s.2])

/-- Whether the two corners of face edge `e` (VERTEX_MAP) have different bits in the sign
code. -/
def edgeChangesSign (edges : Nat) (e : Nat) : Bool :=
  match VERTEX_MAP[e]? with
  | some (v0, v1) => edges.testBit v0 != edges.testBit v1
  | none => false

/-! ## algcms.js: construction and sampling -/

/-- The container that the constructor takes when none is passed. -/
def defaultContainer : Range ℚ × Range ℚ × Range ℚ := (⟨-1, 1⟩, ⟨-1, 1⟩, ⟨-1, 1⟩)

/-- The lengths that `new Array(totalSize)` accepts: integers in `[0, 2^32)`; for any
other length it throws a RangeError. -/
def validArrayLength (totalSize : Int) : Bool := decide (0 ≤ totalSize ∧ totalSize < 2 ^ 32)

/-- The calls `new Array3D()`, `resize(x, y, z)` and `setBBox(bbox)` of initialize: an
array with the given dimensions and every slot unset; `none` when `new Array` throws. -/
def Array3D.allocate (α : Type) (size : Index3D) (bbox : Range ℚ × Range ℚ × Range ℚ) :
    Option (Array3D α) :=
  if validArrayLength (size.x * size.y * size.z) then
    some { indices := size, data := fun _ => none, bbox := bbox }
  else none

/-- The index triples visited by the three nested loops `for i < samples.x`, `for j <
samples.y`, `for k < samples.z`, in loop order. -/
def gridPoints (samples : Index3D) : List Index3D :=
  (List.range samples.x.toNat).flatMap (fun (i : Nat) =>
    (List.range samples.y.toNat).flatMap (fun (j : Nat) =>
      (List.range samples.z.toNat).map (fun (k : Nat) =>
        (⟨(i : Int), (j : Int), (k : Int)⟩ : Index3D))))

/-- AlgCMS.initSamples: `getPowerOfTwo(octMaxLvl) + 1` samples on each axis. -/
def initSamples (octMaxLvl : Int) : Index3D :=
  ⟨getPowerOfTwo octMaxLvl + 1, getPowerOfTwo octMaxLvl + 1, getPowerOfTwo octMaxLvl + 1⟩

/-- AlgCMS.initialize, as a function of what it reads (the field, `sampled`, the levels,
the container and the grid dimensions): the parameters are reset, both arrays are
allocated, the edge cache is filled with empty blocks, the octree is created anew (no
cells, so no faces and no components) and the vertex, index and desired-cell lists are
emptied. `none` when an allocation throws. The spacing divides by `samples - 1`; for a
grid of one sample the JavaScript quotient is not finite (here it is 0). -/
def AlgCMS.initialize (fn : ℚ → ℚ → ℚ → ℚ) (msqrt : ℚ → ℚ) (sampled : Bool)
    (octMinLvl octMaxLvl : Int) (container : Range ℚ × Range ℚ × Range ℚ)
    (samples : Index3D) : Option AlgCMS :=
  match Array3D.allocate ℚ samples container, Array3D.allocate EdgeBlock samples container with
  | some sampleData, some edgeData =>
    some
      { fn := fn, msqrt := msqrt, octMaxLvl := octMaxLvl, zeroApproximation := 2,
        snapCentroid := false, sampleData := sampleData,
        edgeData :=
          (gridPoints samples).foldl (fun e p => e.setValueAt p (newEdgeBlock true)) edgeData,
        faces := initialFaces, components := fun _ => [], vertices := [], indices := [],
        desiredCells := [], sampled := sampled, octMinLvl := octMinLvl, samples := samples,
        container := container,
        offsets :=
          ⟨|container.1.upper - container.1.lower| / ((samples.x : ℚ) - 1),
           |container.2.1.upper - container.2.1.lower| / ((samples.y : ℚ) - 1),
           |container.2.2.upper - container.2.2.lower| / ((samples.z : ℚ) - 1)⟩ }
  | _, _ => none

/-- The AlgCMS constructor: `octMinLvl = Math.max(2, octreeBase)`,
`octMaxLvl = Math.max(octMinLvl, octreeDepth)`, the default container when none is passed,
then initSamples and initialize. -/
def AlgCMS.create (fn : ℚ → ℚ → ℚ → ℚ) (msqrt : ℚ → ℚ)
    (container : Option (Range ℚ × Range ℚ × Range ℚ)) (octreeBase octreeDepth : Int) :
    Option AlgCMS :=
  AlgCMS.initialize fn msqrt false (max 2 octreeBase) (max (max 2 octreeBase) octreeDepth)
    (container.getD defaultContainer) (initSamples (max (max 2 octreeBase) octreeDepth))

/-- AlgCMS.setOctreeLevels: the levels are taken as given, then initSamples and
initialize; `sampled` keeps its value. -/
def AlgCMS.setOctreeLevels (a : AlgCMS) (min max : Int) : Option AlgCMS :=
  AlgCMS.initialize a.fn a.msqrt a.sampled min max a.container (initSamples max)

/-- AlgCMS.setSamples: the grid dimensions are taken as given, then initialize; `sampled`
keeps its value. -/
def AlgCMS.setSamples (a : AlgCMS) (xSamp ySamp zSamp : Int) : Option AlgCMS :=
  AlgCMS.initialize a.fn a.msqrt a.sampled a.octMinLvl a.octMaxLvl a.container
    ⟨xSamp, ySamp, zSamp⟩

/-- The position at which sampleFunction evaluates the field for the grid index `p`:
`min + (max - min) * (index / (samples - 1))` on each axis, the bounds being those of the
container (copied to `xMin` ... `zMax` by initialize). -/
def samplePosition (container : Range ℚ × Range ℚ × Range ℚ) (samples p : Index3D) : Vec3 :=
  ⟨container.1.lower + (container.1.upper - container.1.lower) * ((p.x : ℚ) / ((samples.x : ℚ) - 1)),
   container.2.1.lower +
     (container.2.1.upper - container.2.1.lower) * ((p.y : ℚ) / ((samples.y : ℚ) - 1)),
   container.2.2.lower +
     (container.2.2.upper - container.2.2.lower) * ((p.z : ℚ) / ((samples.z : ℚ) - 1))⟩

/-- The body of the innermost loop of sampleFunction: evaluate the field and store the
value. `evaluate` returns `none` when the field throws, which ends the loops. The second
component counts the calls of `evaluate`. -/
def sampleStep {α : Type} (evaluate : ℚ → ℚ → ℚ → Option α)
    (container : Range ℚ × Range ℚ × Range ℚ) (samples : Index3D)
    (s : Array3D α × Nat) (p : Index3D) : Option (Array3D α × Nat) :=
  match evaluate (samplePosition container samples p).x (samplePosition container samples p).y
      (samplePosition container samples p).z with
  | some val => some (s.1.setValueAt p val, s.2 + 1)
  | none => none

/-- AlgCMS.sampleFunction on the sample array, for a field with values in `α`: the
returned flag, the array afterwards and the number of calls of `evaluate`; `none` when
`evaluate` throws. -/
def sampleGrid {α : Type} (evaluate : ℚ → ℚ → ℚ → Option α)
    (container : Range ℚ × Range ℚ × Range ℚ) (samples : Index3D) (sampleData : Array3D α) :
    Option (Bool × Array3D α × Nat) :=
  if samples.x ≤ 8 ∨ samples.y ≤ 8 ∨ samples.z ≤ 8 then some (false, sampleData, 0)
  else
    match foldlOpt (sampleStep evaluate container samples) (sampleData, 0)
        (gridPoints samples) with
    | some (data, count) => some (true, data, count)
    | none => none

/-- AlgCMS.sampleFunction for a field over the rationals (which never throws): the
returned flag, the state afterwards and the number of calls of `fn.evaluate`. -/
def AlgCMS.sampleFunction (a : AlgCMS) : Option (Bool × AlgCMS × Nat) :=
  match sampleGrid (fun x y z => some (a.fn x y z)) a.container a.samples a.sampleData with
  | some (true, data, count) => some (true, { a with sampleData := data, sampled := true }, count)
  | some (false, _, count) => some (false, a, count)
  | none => none

/-- A number returned by a field in JavaScript: finite, or not (NaN, Infinity). -/
inductive FieldValue where
  | finite (value : ℚ)
  | nonFinite
deriving DecidableEq

/-- A state as the constructor leaves it for the levels 2 and 3: 9 samples per axis over
the box `[-1, 1]^3`, nothing sampled yet. -/
def nineState : AlgCMS :=
  { smallState with
    sampleData := unsampledGrid 9, edgeData := freshEdgeData 9, sampled := false,
    octMinLvl := 2, octMaxLvl := 3, samples := ⟨9, 9, 9⟩, offsets := ⟨1 / 4, 1 / 4, 1 / 4⟩ }

/-- A field that returns a non-finite number at every point. -/
def nonFiniteField : ℚ → ℚ → ℚ → Option FieldValue := fun _ _ _ => some FieldValue.nonFinite

/-- A field that throws where `x + y + z > 2` and is 1 elsewhere. -/
def throwingField : ℚ → ℚ → ℚ → Option FieldValue :=
  fun x y z => if x + y + z > 2 then none else some (FieldValue.finite 1)

/-! ## algcms.js: component tracing -/

/-- AlgCMS.collectStrips: the strips of the cell's leaf faces, and for a transitional face
the strips stored on its twin, those with `data[0] !== -1`. (The list `transitSegs` that
the code fills alongside is read nowhere.) -/
def collectStrips (fs : FaceStore) (cell : Cell) : List Strip :=
  (List.range 6).flatMap (fun f =>
    if (fs cell.id f).state = FaceState.LEAF_FACE then
      (fs cell.id f).strips.filter (fun s => decide (s.data.1 ≠ -1))
    else if (fs cell.id f).state = FaceState.TRANSIT_FACE then
      match (fs cell.id f).twin with
      | none => []
      | some tw => (fs.face tw).strips.filter (fun s => decide (s.data.1 ≠ -1))
    else [])

/-- The first loop of linkStrips: the index of the first strip whose smaller end id is the
least; the accumulator is `(i, minIdx, minVal)`. `none` for an empty list, where reading
`strips[0].data` throws. -/
def minStripIdx (strips : List Strip) : Option Nat :=
  match strips with
  | [] => none
  | s0 :: rest =>
    some (rest.foldl
      (fun (acc : Nat × Nat × Int) s =>
        if min s.data.1 s.data.2 < acc.2.2 then (acc.1 + 1, acc.1, min s.data.1 s.data.2)
        else (acc.1 + 1, acc.2.1, acc.2.2))
      (1, 0, min s0.data.1 s0.data.2)).2.1

/-- The inner `for` loop of the two `while` loops of linkStrips: the first strip with an
end equal to `current` is spliced out; the result is its other end and the remaining
strips, `none` when no strip has such an end. -/
def findLink (current : Int) : List Strip → Option (Int × List Strip)
  | [] => none
  | s :: rest =>
    if s.data.1 = current then some (s.data.2, rest)
    else if s.data.2 = current then some (s.data.1, rest)
    else
      match findLink current rest with
      | some (v, r) => some (v, s :: r)
      | none => none

/-- The first `while` loop of linkStrips (the ring grows at the back). The first argument
bounds the number of iterations; every iteration removes one strip. -/
def extendBack : Nat → List Int → Int → List Strip → List Int × List Strip
  | 0, ring, _, strips => (ring, strips)
  | n + 1, ring, current, strips =>
    match findLink current strips with
    | some (v, rest) => extendBack n (ring ++ [v]) v rest
    | none => (ring, strips)

/-- The second `while` loop of linkStrips (the ring grows at the front). -/
def extendFront : Nat → List Int → Int → List Strip → List Int × List Strip
  | 0, ring, _, strips => (ring, strips)
  | n + 1, ring, current, strips =>
    match findLink current strips with
    | some (v, rest) => extendFront n (v :: ring) v rest
    | none => (ring, strips)

/-- The last step of linkStrips: `if (ring.length > 2 && ring[0] === ring[last]) ring.pop()`. -/
def dropClosing (ring : List Int) : List Int :=
  if ring.length > 2 ∧ ring.head? = ring.getLast? then ring.dropLast else ring

/-- AlgCMS.linkStrips: the chain pushed to `component` and the strips left in the list;
`none` when the list is empty (the code throws). -/
def linkStrips (strips : List Strip) : Option (List Int × List Strip) :=
  match minStripIdx strips with
  | none => none
  | some minIdx =>
    match strips[minIdx]? with
    | none => none
    | some startStrip =>
      some
        (dropClosing
          (extendFront
            (extendBack (strips.eraseIdx minIdx).length [startStrip.data.1, startStrip.data.2]
              startStrip.data.2 (strips.eraseIdx minIdx)).2.length
            (extendBack (strips.eraseIdx minIdx).length [startStrip.data.1, startStrip.data.2]
              startStrip.data.2 (strips.eraseIdx minIdx)).1
            startStrip.data.1
            (extendBack (strips.eraseIdx minIdx).length [startStrip.data.1, startStrip.data.2]
              startStrip.data.2 (strips.eraseIdx minIdx)).2).1,
         (extendFront
            (extendBack (strips.eraseIdx minIdx).length [startStrip.data.1, startStrip.data.2]
              startStrip.data.2 (strips.eraseIdx minIdx)).2.length
            (extendBack (strips.eraseIdx minIdx).length [startStrip.data.1, startStrip.data.2]
              startStrip.data.2 (strips.eraseIdx minIdx)).1
            startStrip.data.1
            (extendBack (strips.eraseIdx minIdx).length [startStrip.data.1, startStrip.data.2]
              startStrip.data.2 (strips.eraseIdx minIdx)).2).2)

/-- The `while (cellStrips.length > 0)` loop of traceComponent on the components of one
cell: the components afterwards and the strips left. The first argument bounds the number
of iterations; `none` when linkStrips throws. -/
def traceLoop : Nat → List Strip → List (List Int) → Option (List (List Int) × List Strip)
  | 0, cellStrips, components => some (components, cellStrips)
  | n + 1, cellStrips, components =>
    if cellStrips.length > 0 then
      match linkStrips cellStrips with
      | none => none
      | some (component, rest) =>
        traceLoop n rest (if component.length ≥ 3 then components ++ [component] else components)
    else some (components, cellStrips)

/-- The body of the loops of traceComponent for one leaf cell: collectStrips, then the
`while` loop, which runs at most once per collected strip. -/
def traceCell (fs : FaceStore) (components : Nat → List (List Int)) (cell : Cell) :
    Option (Nat → List (List Int)) :=
  match traceLoop (collectStrips fs cell).length (collectStrips fs cell) (components cell.id) with
  | some (comps, _) => some (fun id => if id = cell.id then comps else components id)
  | none => none

/-- AlgCMS.traceComponent over the cells of the octree: the levels `octMaxLvl - i` for
`i < octMaxLvl`, and on each level the leaf cells in the order of `cells`. -/
def traceComponent (a : AlgCMS) (cells : List Cell) : Option AlgCMS :=
  match foldlOpt
      (fun comps (i : Nat) =>
        foldlOpt
          (fun c cell =>
            if cell.subdivLvl = a.octMaxLvl - (i : Int) ∧ cell.state = CellState.LEAF then
              traceCell a.faces c cell
            else some c) comps cells)
      a.components (List.range a.octMaxLvl.toNat) with
  | some comps => some { a with components := comps }
  | none => none

/-! ## algcms.js: the extraction run -/

/-- The Octree that initialize creates: it shares the grid dimensions, the sample array,
the levels, the spacing and the field with the AlgCMS object, and takes the threshold
`complexSurfThresh`, which initialize has just set to 0.6. -/
def AlgCMS.octree (a : AlgCMS) : Octree :=
  { samples := a.samples, sampleData := a.sampleData, minLvl := a.octMinLvl,
    maxLvl := a.octMaxLvl, offsets := a.offsets, fn := a.fn, complexSurfThresh := 3 / 5,
    msqrt := a.msqrt }

/-- AlgCMS.fixDesiredChildren: for every desired id whose cell is a Branch, the ids of the
leaf cells below it are appended; `none` when an id is not an index of `cells`. -/
def fixDesiredChildren (a : AlgCMS) (t : OctTree) : Option AlgCMS :=
  foldlOpt
    (fun s id =>
      match t.subtrees[id]? with
      | none => none
      | some sub =>
        if sub.cell.state = CellState.BRANCH then
          some { s with desiredCells := s.desiredCells ++ sub.leafCells.map (fun c => c.id) }
        else some s) a a.desiredCells

/-- AlgCMS.cubicalMarchingSquaresAlg: generateSegments, editTransitionalFaces and
traceComponent on the octree `t`. -/
def cubicalMarchingSquaresAlg (a : AlgCMS) (t : OctTree) : Option AlgCMS :=
  match generateSegments a t with
  | none => none
  | some a1 =>
    traceComponent
      { a1 with faces := editTransitionalFaces (buildFuel a.octree + 1) t.cells a1.faces }
      t.cells

/-- The steps of extractSurface after sampling, on an octree that has no cells yet (the
first run after initialize): buildOctree, fixDesiredChildren when cells are desired,
cubicalMarchingSquaresAlg, tessellationTraversal and createMesh. The result is the
returned flag (always `true`), the state afterwards and the mesh; `none` when a step
throws. -/
def extractStages (a : AlgCMS) : Option (Bool × AlgCMS × Mesh) :=
  match buildOctree a.octree with
  | none => none
  | some (t, fs) =>
    match (if a.desiredCells.length > 0 then
        fixDesiredChildren { a with faces := fs, components := fun _ => [] } t
      else some { a with faces := fs, components := fun _ => [] }) with
    | none => none
    | some a1 =>
      match cubicalMarchingSquaresAlg a1 t with
      | none => none
      | some a2 =>
        match tessellationTraversal a2 t with
        | none => none
        | some a3 => some (true, a3, createMesh a3)

/-- AlgCMS.extractSurface: `if (!this.sampled) this.sampleFunction();`, whose result is
not read, then the remaining steps. -/
def extractSurface (a : AlgCMS) : Option (Bool × AlgCMS × Mesh) :=
  if a.sampled then extractStages a
  else
    match a.sampleFunction with
    | none => none
    | some (_, a1, _) => extractStages a1

/-- The octree of `new AlgCMS(fn, null, 2, 2)`: levels 2 and 2 on the 5 x 5 x 5 grid, which
sampleFunction refuses to sample. -/
def octTwoTwo : Octree :=
  { samples := ⟨5, 5, 5⟩, sampleData := unsampledGrid 5, minLvl := 2, maxLvl := 2,
    offsets := ⟨1 / 2, 1 / 2, 1 / 2⟩, fn := fun x y z => x * x + y * y + z * z - 1,
    complexSurfThresh := 3 / 5, msqrt := Rat.sqrt }

/-- The unit sphere, the field of the examples. -/
def sphereField : ℚ → ℚ → ℚ → ℚ := fun x y z => x * x + y * y + z * z - 1

/-- The array that the three nested grid loops leave when entry `p` is set to `g p`: every
flat index below `n.x * n.y * n.z` holds the value of the triple it encodes. -/
def filledGrid {α : Type} (g : Index3D → α) (arr : Array3D α) (n : Index3D) : Array3D α :=
  { indices := n,
    data := fun i =>
      if 0 ≤ i ∧ i < n.x * n.y * n.z then some (g ⟨i / n.z / n.y, i / n.z % n.y, i % n.z⟩)
      else arr.data i,
    bbox := arr.bbox }

/-- The state that initialize builds when both allocations succeed, the edge cache written
in closed form. -/
def AlgCMS.initialState (fn : ℚ → ℚ → ℚ → ℚ) (msqrt : ℚ → ℚ) (sampled : Bool)
    (octMinLvl octMaxLvl : Int) (container : Range ℚ × Range ℚ × Range ℚ)
    (samples : Index3D) : AlgCMS :=
  { fn := fn, msqrt := msqrt, octMaxLvl := octMaxLvl, zeroApproximation := 2,
    snapCentroid := false,
    sampleData := { indices := samples, data := fun _ => none, bbox := container },
    edgeData := filledGrid (fun _ => newEdgeBlock true)
      { indices := samples, data := fun _ => none, bbox := container } samples,
    faces := initialFaces, components := fun _ => [], vertices := [], indices := [],
    desiredCells := [], sampled := sampled, octMinLvl := octMinLvl, samples := samples,
    container := container,
    offsets :=
      ⟨|container.1.upper - container.1.lower| / ((samples.x : ℚ) - 1),
       |container.2.1.upper - container.2.1.lower| / ((samples.y : ℚ) - 1),
       |container.2.2.upper - container.2.2.lower| / ((samples.z : ℚ) - 1)⟩ }

/-- The state after a successful sampleFunction, the samples written in closed form. -/
def AlgCMS.sampledState (a : AlgCMS) : AlgCMS :=
  { a with
    sampleData := filledGrid
      (fun p => a.fn (samplePosition a.container a.samples p).x
        (samplePosition a.container a.samples p).y (samplePosition a.container a.samples p).z)
      a.sampleData a.samples,
    sampled := true }

/-- The plane `x = -7/8`. -/
def planeField : ℚ → ℚ → ℚ → ℚ := fun x _ _ => x + 7 / 8

/-- The square root on the two squares that a run on `planeField` takes it of (the squared
length of a gradient and of a sum of four unit normals). -/
def planeSqrt : ℚ → ℚ :=
  fun q => if q = 1 / 10000 then 1 / 100 else if q = 16 then 4 else Rat.sqrt q

/-- The instance made by `new AlgCMS(fn, null, 2, 2)`, `setOctreeLevels(1, 1)` and
`setSamples(9, 9, 9)` for the plane field. -/
def planeInstance : Option AlgCMS :=
  ((AlgCMS.create planeField planeSqrt none 2 2).bind (fun a => a.setOctreeLevels 1 1)).bind
    (fun a => a.setSamples 9 9 9)

/-- The state of `planeInstance`. -/
def planeFresh : AlgCMS :=
  AlgCMS.initialState planeField planeSqrt false 1 1 defaultContainer ⟨9, 9, 9⟩

/-- A tent of half-width 1/8 around `c`. -/
def tent (c x : ℚ) : ℚ := if x ≤ c then x - (c - 1 / 8) else c + 1 / 8 - x

/-- A bump supported in the cube of half-width 1/8 around `(cx, cy, cz)`: on the grid of
spacing 1/4 it vanishes at every sample but the centre, and at the points an eighth of a
unit away from a sample where the octree takes its differences. -/
def bump (cx cy cz x y z : ℚ) : ℚ :=
  if x ≤ cx - 1 / 8 ∨ cx + 1 / 8 ≤ x ∨ y ≤ cy - 1 / 8 ∨ cy + 1 / 8 ≤ y ∨
      z ≤ cz - 1 / 8 ∨ cz + 1 / 8 ≤ z then 0
  else tent cx x * tent cy y * tent cz z

/-- The plane `y = -5/8` with two bumps: one lifts the sample (3, 0, 0) above zero, the
other pushes the sample (5, 5, 5) below zero. -/
def exField : ℚ → ℚ → ℚ → ℚ := fun x y z =>
  y + 5 / 8 + 512 * bump (-1 / 4) (-1) (-1) x y z - 1024 * bump (1 / 4) (1 / 4) (1 / 4) x y z

/-- The square root on the squared length of the gradients met in the example. -/
def exSqrt : ℚ → ℚ := fun q => if q = 1 / 64 then 1 / 8 else Rat.sqrt q

/-- The state after `setOctreeLevels(1, 2)`, `setSamples(9, 9, 9)` and sampleFunction for the
field `exField`. -/
def exState : AlgCMS :=
  (AlgCMS.initialState exField exSqrt false 1 2 defaultContainer ⟨9, 9, 9⟩).sampledState

/-- The octree of the example: levels 1 and 2 on the sampled 9 x 9 x 9 grid. -/
def exOct : Octree := exState.octree

mutual
/-- Equality test on cell trees. -/
def OctTree.beq : OctTree → OctTree → Bool
  | .mk c ks, .mk d ls => decide (c = d) && OctTree.beqList ks ls
/-- Equality test on lists of cell trees. -/
def OctTree.beqList : List OctTree → List OctTree → Bool
  | [], [] => true
  | k :: ks, l :: ls => OctTree.beq k l && OctTree.beqList ks ls
  | _, _ => false
end

/-- A cell written out by its fields, the corner indices being those of acquireCellInfo
away from the grid border. -/
def litCell (id : Nat) (leaf : Bool) (parent : Option Nat) (lvl x y z off : Int) (pos : Nat)
    (address : List Nat) : Cell :=
  { id := id, state := if leaf then CellState.LEAF else CellState.BRANCH, parent := parent,
    subdivLvl := lvl, c000 := ⟨x, y, z⟩, offsets := ⟨off, off, off⟩, posInParent := pos,
    pointInds := cornerIndices ⟨x, y, z⟩ ⟨off, off, off⟩, address := address }

/-- The sub-tree of cell 1 in the tree that makeStructure builds for `exOct`: the only
level-1 cell that is subdivided. -/
def exKid0 : OctTree :=
  .mk (litCell 1 false (some 0) 1 0 0 0 4 0 [1, 0, 0, 0, 0, 0, 0, 0])
    [.mk (litCell 2 true (some 1) 2 0 0 0 2 0 [1, 1, 0, 0, 0, 0, 0, 0]) [],
     .mk (litCell 3 true (some 1) 2 0 0 2 2 1 [1, 2, 0, 0, 0, 0, 0, 0]) [],
     .mk (litCell 4 false (some 1) 2 0 2 0 2 2 [1, 3, 0, 0, 0, 0, 0, 0]) [],
     .mk (litCell 5 false (some 1) 2 0 2 2 2 3 [1, 4, 0, 0, 0, 0, 0, 0]) [],
     .mk (litCell 6 true (some 1) 2 2 0 0 2 4 [1, 5, 0, 0, 0, 0, 0, 0]) [],
     .mk (litCell 7 true (some 1) 2 2 0 2 2 5 [1, 6, 0, 0, 0, 0, 0, 0]) [],
     .mk (litCell 8 false (some 1) 2 2 2 0 2 6 [1, 7, 0, 0, 0, 0, 0, 0]) [],
     .mk (litCell 9 false (some 1) 2 2 2 2 2 7 [1, 8, 0, 0, 0, 0, 0, 0]) []]

/-- The tree that makeStructure builds for `exOct`, written out: 17 cells; the level-1
cells 10, 13 and 14 are leaves, the level-1 cells 11, 12, 15 and 16 are childless Branch
cells. -/
def exTree : OctTree :=
  .mk (litCell 0 false none 0 0 0 0 8 0 [0, 0, 0, 0, 0, 0, 0, 0])
    [exKid0,
     .mk (litCell 10 true (some 0) 1 0 0 4 4 1 [2, 0, 0, 0, 0, 0, 0, 0]) [],
     .mk (litCell 11 false (some 0) 1 0 4 0 4 2 [3, 0, 0, 0, 0, 0, 0, 0]) [],
     .mk (litCell 12 false (some 0) 1 0 4 4 4 3 [4, 0, 0, 0, 0, 0, 0, 0]) [],
     .mk (litCell 13 true (some 0) 1 4 0 0 4 4 [5, 0, 0, 0, 0, 0, 0, 0]) [],
     .mk (litCell 14 true (some 0) 1 4 0 4 4 5 [6, 0, 0, 0, 0, 0, 0, 0]) [],
     .mk (litCell 15 false (some 0) 1 4 4 0 4 6 [7, 0, 0, 0, 0, 0, 0, 0]) [],
     .mk (litCell 16 false (some 0) 1 4 4 4 4 7 [8, 0, 0, 0, 0, 0, 0, 0]) []]

/-- The faces after buildOctree on the example: populateHalfFaces, setFaceRelationships
and markTransitionalFaces on `exTree`. -/
def exFaces : FaceStore :=
  markTransitionalFaces exTree (setFaceRelationships exTree
    (exTree.cells.foldl (findNeighbours exOct.maxLvl.toNat exTree.addressEntries) initialFaces))

/-- The test that face `r` breaks watertightness: it is transitional and some strip that
traverseFace collects below its twin starts at a vertex id that is no end id of the strips
of the face itself. -/
def faceLeaks (fs : FaceStore) (depth : Nat) (r : FaceRef) : Bool :=
  decide ((fs.face r).state = FaceState.TRANSIT_FACE) &&
    (traverseFace fs depth (fs.face r).twin).any (fun s =>
      !((fs.face r).strips.any (fun s1 => decide (s.data.1 = s1.data.1 ∨ s.data.1 = s1.data.2))))

/-- The unit grid cube with lowest corner `u` straddles the surface: one of its 8 corner
samples is negative and one is not. -/
def cubeStraddles (sampleData : Array3D ℚ) (u : Index3D) : Prop :=
  (∃ p ∈ cornerIndices u ⟨1, 1, 1⟩, isNeg (sampleData.getValueAt p) = true) ∧
  (∃ p ∈ cornerIndices u ⟨1, 1, 1⟩, isNeg (sampleData.getValueAt p) = false)

/-- Pruning keeps the surface: every unit cube of the grid that straddles the surface lies
in the index box of some LEAF cell of the tree. -/
def PruningKeepsSurface (o : Octree) (t : OctTree) : Prop :=
  ∀ u : Index3D,
    (0 ≤ u.x ∧ u.x + 1 < o.samples.x) ∧ (0 ≤ u.y ∧ u.y + 1 < o.samples.y) ∧
      (0 ≤ u.z ∧ u.z + 1 < o.samples.z) →
    cubeStraddles o.sampleData u → ∃ c ∈ t.leafCells, c.containsCube u

/-- Twins on interior faces: every face of a non-root cell that does not lie on the outer
boundary of the root volume has a twin. -/
def TwinsOnInteriorFaces (o : Octree) (t : OctTree) (fs : FaceStore) : Prop :=
  ∀ c ∈ t.cells, c.parent ≠ none → ∀ i, i < 6 → ¬ faceOnBoundary o c i → (fs c.id i).twin ≠ none

/-- Watertightness of the faces of the cells: for every transitional face, both vertex ids of
every strip that traverseFace collects below the twin are end ids of strips of the face
itself. -/
def Watertight (fs : FaceStore) (depth : Nat) (cells : List Cell) : Prop :=
  ∀ c ∈ cells, ∀ j, j < 6 → (fs c.id j).state = FaceState.TRANSIT_FACE →
    ∀ s ∈ traverseFace fs depth (fs c.id j).twin,
      (∃ s1 ∈ (fs c.id j).strips, s.data.1 = s1.data.1 ∨ s.data.1 = s1.data.2) ∧
      (∃ s1 ∈ (fs c.id j).strips, s.data.2 = s1.data.1 ∨ s.data.2 = s1.data.2)

instance (fs : FaceStore) (depth : Nat) (cells : List Cell) :
    Decidable (Watertight fs depth cells) := by
  unfold Watertight
  infer_instance
/-- The test of splitCoarseStripAndInsertVertex on a strip for the crossing `key`: both
ends of the strip lie on the axis of the crossing, and the block of the crossing is strictly
between the end blocks along that axis. -/
def brackets (s : Strip) (key : CrossingKey) : Prop :=
  s.dir.1 = key.2 ∧ s.dir.2 = key.2 ∧ isBetweenBlocks s.block.1 s.block.2 key.1 key.2 = true

instance (s : Strip) (key : CrossingKey) : Decidable (brackets s key) := by
  unfold brackets
  infer_instance

/-- A face store with one transitional face, face 5 of cell 1, whose twin, face 4 of cell 2,
is a leaf face with one strip. -/
def twoFaceStore : FaceStore :=
  (initialFaces.set (1, 5)
    { newFace with
      state := FaceState.TRANSIT_FACE, twin := some (2, 4),
      strips := [{ newStrip false 0 1 with
        data := (0, 1), dir := (1, 1), block := (⟨2, 1, 0⟩, ⟨2, 3, 2⟩) }] }).set (2, 4)
    { newFace with
      state := FaceState.LEAF_FACE, twin := some (1, 5),
      strips := [{ newStrip false 0 1 with
        data := (0, 2), dir := (1, 1), block := (⟨2, 1, 0⟩, ⟨2, 2, 1⟩) }] }

/-- The sample at position `k` along axis `dir` on the grid line through `indexer`. -/
def lineSample (sampleData : Array3D ℚ) (indexer : Index3D) (dir k : Int) : Option ℚ :=
  (indexer.set dir k).bind sampleData.getValueAt

/-- A 3 x 1 x 1 sample grid with the samples 0, 1, -1 along x. -/
def zeroGrid : Array3D ℚ :=
  { indices := ⟨3, 1, 1⟩,
    data := fun i => if i = 0 then some 0 else if i = 1 then some 1 else some (-1),
    bbox := (⟨-1, 1⟩, ⟨-1, 1⟩, ⟨-1, 1⟩) }

/-- The point that findCrossingPoint interpolates between its two arguments:
`p0 + alpha * (p1 - p0)` with `alpha = (0 - v0) / (v1 - v0)`. -/
def lerpZero (pt0 pt1 : Point) : Vec3 :=
  ⟨pt0.position.x + (0 - pt0.value) / (pt1.value - pt0.value) * (pt1.position.x - pt0.position.x),
   pt0.position.y + (0 - pt0.value) / (pt1.value - pt0.value) * (pt1.position.y - pt0.position.y),
   pt0.position.z + (0 - pt0.value) / (pt1.value - pt0.value) * (pt1.position.z - pt0.position.z)⟩

/-- The invocations of findCrossingPoint in call order, each with its budget `quality` and
its two points; every invocation evaluates the field once, at the point it interpolates. -/
def findCrossingCalls (fn : ℚ → ℚ → ℚ → ℚ) : Nat → Point → Point → List (Nat × Point × Point)
  | 0, pt0, pt1 => [(0, pt0, pt1)]
  | quality + 1, pt0, pt1 =>
    (quality + 1, pt0, pt1) ::
      (if |0 - fn (lerpZero pt0 pt1).x (lerpZero pt0 pt1).y (lerpZero pt0 pt1).z| < EPSILON then []
       else if fn (lerpZero pt0 pt1).x (lerpZero pt0 pt1).y (lerpZero pt0 pt1).z < 0 then
         if pt0.value > 0 then
           findCrossingCalls fn quality
             ⟨lerpZero pt0 pt1, fn (lerpZero pt0 pt1).x (lerpZero pt0 pt1).y (lerpZero pt0 pt1).z⟩
             pt0
         else if pt1.value > 0 then
           findCrossingCalls fn quality
             ⟨lerpZero pt0 pt1, fn (lerpZero pt0 pt1).x (lerpZero pt0 pt1).y (lerpZero pt0 pt1).z⟩
             pt1
         else []
       else if fn (lerpZero pt0 pt1).x (lerpZero pt0 pt1).y (lerpZero pt0 pt1).z > 0 then
         if pt0.value < 0 then
           findCrossingCalls fn quality pt0
             ⟨lerpZero pt0 pt1, fn (lerpZero pt0 pt1).x (lerpZero pt0 pt1).y (lerpZero pt0 pt1).z⟩
         else if pt1.value < 0 then
           findCrossingCalls fn quality pt1
             ⟨lerpZero pt0 pt1, fn (lerpZero pt0 pt1).x (lerpZero pt0 pt1).y (lerpZero pt0 pt1).z⟩
         else []
       else [])

/-- The field value that an invocation of findCrossingPoint evaluates. -/
def callValue (fn : ℚ → ℚ → ℚ → ℚ) (c : Nat × Point × Point) : ℚ :=
  fn (lerpZero c.2.1 c.2.2).x (lerpZero c.2.1 c.2.2).y (lerpZero c.2.1 c.2.2).z

/-- The number of positions `j` among `k, k + 1, ..., k + n - 1` on the grid line through
`indexer` along `dir` at which `test` holds of the sample at `j` and the sample at `j + 1`. -/
def countPairs (test : Option ℚ → Option ℚ → Bool) (sd : Array3D ℚ) (indexer : Index3D)
    (dir : Int) : Nat → Int → Nat
  | 0, _ => 0
  | n + 1, k =>
    (if test (lineSample sd indexer dir k) (lineSample sd indexer dir (k + 1)) then 1 else 0) +
      countPairs test sd indexer dir n (k + 1)

/-- The line that checkForEdgeAmbiguity walks for edge `i` of the cell: the start corner,
the axis, and the coordinates of the two corners on that axis. -/
def edgeLine (cell : Cell) (i : Nat) : Option (Index3D × Int × Int × Int) :=
  match EDGE_VERTICES[i]?, EDGE_DIRECTION[i]? with
  | some (cellPtA, cellPtB), some dir =>
    match cell.pointInds[cellPtA]?, cell.pointInds[cellPtB]? with
    | some ptA, some ptB =>
      match ptA.get dir, ptB.get dir with
      | some a, some b => some (ptA, dir, a, b)
      | _, _ => none
    | _, _ => none
  | _, _ => none

/-- The number of adjacent sample pairs on edge `i` of the cell whose product is negative. -/
def edgeCrossings (o : Octree) (cell : Cell) (i : Nat) : Nat :=
  match edgeLine cell i with
  | some (ptA, dir, a, b) => countPairs prodNeg o.sampleData ptA dir (b - a).toNat a
  | none => 0

/-- The number of adjacent sample pairs on edge `i` of the cell of which exactly one is
negative: the changes of sign (negative against non-negative) along the edge. -/
def edgeSignChanges (o : Octree) (cell : Cell) (i : Nat) : Nat :=
  match edgeLine cell i with
  | some (ptA, dir, a, b) =>
    countPairs (fun u v => isNeg u != isNeg v) o.sampleData ptA dir (b - a).toNat a
  | none => 0

/-- A 3 x 3 x 3 sample grid that is -1 everywhere but at (1, 0, 0), where it is 0. -/
def dipGrid : Array3D ℚ :=
  { indices := ⟨3, 3, 3⟩, data := fun i => if i = 9 then some 0 else some (-1),
    bbox := (⟨-1, 1⟩, ⟨-1, 1⟩, ⟨-1, 1⟩) }

/-- An octree over `dipGrid`. -/
def dipOct : Octree :=
  { samples := ⟨3, 3, 3⟩, sampleData := dipGrid, minLvl := 1, maxLvl := 2,
    offsets := ⟨1, 1, 1⟩, fn := fun _ _ _ => -1, complexSurfThresh := 3 / 5, msqrt := Rat.sqrt }

/-- The cell that spans `dipGrid`. -/
def dipCell : Cell := litCell 0 false none 0 0 0 0 2 0 [0, 0, 0, 0, 0, 0, 0, 0]

/-- The body of the face loop of collectStrips: what face `f` of the cell with id `cellId`
contributes to `cellStrips`. -/
def collectFace (fs : FaceStore) (cellId f : Nat) : List Strip :=
  if (fs cellId f).state = FaceState.LEAF_FACE then
    (fs cellId f).strips.filter (fun s => decide (s.data.1 ≠ -1))
  else if (fs cellId f).state = FaceState.TRANSIT_FACE then
    match (fs cellId f).twin with
    | none => []
    | some tw => (fs.face tw).strips.filter (fun s => decide (s.data.1 ≠ -1))
  else []

/-- A face store with one transitional face, face 5 of cell 1, whose twin, face 4 of cell 2,
is a leaf face without strips. -/
def bareTwinStore : FaceStore :=
  (initialFaces.set (1, 5)
    { newFace with
      state := FaceState.TRANSIT_FACE, twin := some (2, 4),
      strips := [{ newStrip false 0 1 with
        data := (0, 1), dir := (1, 1), block := (⟨2, 1, 0⟩, ⟨2, 3, 2⟩) }] }).set (2, 4)
    { newFace with state := FaceState.LEAF_FACE, twin := some (1, 5) }

/-- The links of a node that the face relations read: it has no children, or 8 children whose
cells name its id as their parent and their slot as their position. -/
def KidLinks (s : OctTree) : Prop :=
  s.kids = [] ∨
  (s.kids.length = 8 ∧
    ∀ (i : Nat) (k : OctTree), s.kids[i]? = some k → k.cell.parent = some s.cell.id ∧ k.cell.posInParent = i)

/-- A well linked cell tree: every node has the links of `KidLinks`, no two cells have the
same id, and the top cell has no parent. -/
def WellLinked (t : OctTree) : Prop :=
  (∀ s ∈ t.subtrees, KidLinks s) ∧ (t.cells.map Cell.id).Nodup ∧ t.cell.parent = none

/-- Slot `i` of a parent (`4 x + 2 y + z`, as in the switch of subdivideCell) lies on side
`f` of the parent: faces 0 and 1 are the low and high z sides, 2 and 3 the y sides, 4 and 5
the x sides. -/
def onSide (i f : Nat) : Bool := (i / 2 ^ (f / 2)) % 2 == f % 2

/-- The 4 slots on side `f` of a parent, in increasing order. -/
def sideSlots (f : Nat) : List Nat := (List.range 8).filter (fun i => onSide i f)

/-- FACE_RELATIONSHIP_TABLE read by face: the sub-face position that the child in slot `i`
takes on face `f` of its parent, when the row of the slot lists `f`. -/
def subFacePos (i f : Nat) : Option Nat :=
  match FACE_RELATIONSHIP_TABLE[i]? with
  | some ([c0, c1, c2], [p0, p1, p2]) =>
    if f = c0 then some p0 else if f = c1 then some p1 else if f = c2 then some p2 else none
  | _ => none

/-- The two assignments of the side loop of setFaceRelationships for the face `con` of a
cell and the sub-face position `pos`. -/
def linkFaces (fs : FaceStore) (cellId parentId con pos : Nat) : FaceStore :=
  (fs.set (cellId, con) { fs cellId con with parent := some (parentId, con) }).set
    (parentId, con)
    { (fs.set (cellId, con) { fs cellId con with parent := some (parentId, con) })
        parentId con with
      children :=
        ((fs.set (cellId, con) { fs cellId con with parent := some (parentId, con) })
          parentId con).children.set pos (some (cellId, con)) }

/-- The twin of a face, when there is one, is one of the 6 faces of a cell of the tree. -/
def TwinInTree (t : OctTree) (F : Face) : Prop :=
  ∀ tw, F.twin = some tw → tw.2 < 6 ∧ ∃ c ∈ t.cells, c.id = tw.1

mutual
/-- Every node of a tree together with the child slots taken, step by step, on the way from
the top cell down to it. -/
def OctTree.paths : OctTree → List (List Nat × OctTree)
  | .mk c ks => ([], OctTree.mk c ks) :: OctTree.pathsList 0 ks
/-- The nodes below a list of siblings, the first of which sits in slot `i`. -/
def OctTree.pathsList : Nat → List OctTree → List (List Nat × OctTree)
  | _, [] => []
  | i, k :: ks =>
    (OctTree.paths k).map (fun e => (i :: e.1, e.2)) ++ OctTree.pathsList (i + 1) ks
end

/-- The raw address that spells a path: `slot + 1` for each step, then zeros up to the 8
slots of an Address. -/
def pathAddress (p : List Nat) : List Nat :=
  p.map (fun i => i + 1) ++ List.replicate (8 - p.length) 0

/-- The octree of `new AlgCMS(fn, undefined, 9, 9)` for the unit sphere: levels 9 and 9 on
the 513 x 513 x 513 grid, before sampleFunction has stored any value. -/
def octNine : Octree :=
  (AlgCMS.initialState sphereField Rat.sqrt false 9 9 defaultContainer (initSamples 9)).octree

/-- The slot on the other side of a parent along axis `a` (0 for z, 1 for y, 2 for x): bit
`a` of the slot `4 x + 2 y + z` flipped. -/
def flipSlot (a d : Nat) : Nat := if (d / 2 ^ a) % 2 = 0 then d + 2 ^ a else d - 2 ^ a

/-- The face that touches face `f` from the other side: `f xor 1`. -/
def oppFace (f : Nat) : Nat := if f % 2 = 0 then f + 1 else f - 1

/-- The path of the same-level neighbour across face `f`, both paths written from the
deepest slot up: the slot is flipped along the axis of `f`, and as long as the cell lies on
side `f` of its parent the step is carried to the parent. -/
def nbRev (f : Nat) : List Nat → List Nat
  | [] => []
  | d :: rest =>
    if onSide d f then flipSlot (f / 2) d :: nbRev f rest else flipSlot (f / 2) d :: rest

/-- The path, from the root, of the same-level neighbour across face `f`. -/
def nbPath (f : Nat) (p : List Nat) : List Nat := (nbRev f p.reverse).reverse

/-- The twin that the neighbour lookup gives to face `f` of the cell with id `X`: the cell
has a path `p` from the root, not empty, the tree has a cell at the neighbour path, and the
twin is face `f xor 1` of that cell. -/
def TwinOf (t : OctTree) (X f : Nat) (tw : FaceRef) : Prop :=
  ∃ p s u, (p, s) ∈ t.paths ∧ (nbPath f p, u) ∈ t.paths ∧ p ≠ [] ∧ f < 6 ∧
    X = s.cell.id ∧ tw = (u.cell.id, oppFace f)

/-- The sum of the weights `w (lvl + 1), w (lvl + 2), ...` at the positions where the bit
list holds `true`. -/
def bsum (w : Nat → Int) : Nat → List Bool → Int
  | _, [] => 0
  | lvl, b :: rest => (if b then w (lvl + 1) else 0) + bsum w (lvl + 1) rest

/-- Binary increment of a bit list written from the most significant bit. -/
def incBits : List Bool → List Bool
  | [] => []
  | b :: rest => if rest.all id then (!b) :: rest.map (fun _ => false) else b :: incBits rest

/-- Bit `a` of a child slot `4 x + 2 y + z`. -/
def slotBit (a d : Nat) : Bool := (d / 2 ^ a) % 2 == 1

/-- The coordinate of a grid index along axis `a`, the axes numbered as the faces are:
0 for z, 1 for y, 2 for x. -/
def axisCoord (a : Nat) (v : Index3D) : Int :=
  match a with
  | 0 => v.z
  | 1 => v.y
  | _ => v.x

/-- Cell `B` lies across face `f` of cell `A`: along the axis of `f` the box of `B` starts
where the box of `A` ends (high faces 1, 3, 5) or ends where the box of `A` starts (low
faces 0, 2, 4), and along the other two axes the two boxes start at the same index. -/
def adjacentAcross (A B : Cell) (f : Nat) : Prop :=
  (if f % 2 = 1 then
      axisCoord (f / 2) B.c000 = axisCoord (f / 2) A.c000 + axisCoord (f / 2) A.offsets
    else
      axisCoord (f / 2) B.c000 + axisCoord (f / 2) B.offsets = axisCoord (f / 2) A.c000) ∧
  ∀ b, b < 3 → b ≠ f / 2 → axisCoord b B.c000 = axisCoord b A.c000

/-- The octree after `setOctreeLevels(0, 0)` and `setSamples(9, 9, 9)` on an instance for the
unit sphere: levels 0 and 0 on the 9 x 9 x 9 grid, before sampleFunction has stored any
value. -/
def octFlat : Octree :=
  (AlgCMS.initialState sphereField Rat.sqrt false 0 0 defaultContainer ⟨9, 9, 9⟩).octree

/-- The strip joins the ids `a` and `b`: they are its two end ids, in either order. -/
def linked (a b : Int) (s : Strip) : Prop :=
  (s.data.1 = a ∧ s.data.2 = b) ∨ (s.data.2 = a ∧ s.data.1 = b)

/-- The strip has an end with the id `e`. -/
def touches (e : Int) (s : Strip) : Prop := s.data.1 = e ∨ s.data.2 = e

/-- The pairs of consecutive ids of a chain. -/
def ringPairs : List Int → List (Int × Int)
  | a :: b :: rest => (a, b) :: ringPairs (b :: rest)
  | _ => []

/-- The smaller end id of a strip. -/
def Strip.minEnd (s : Strip) : Int := min s.data.1 s.data.2

/-- The pairs of cyclically consecutive entries of a ring: `(l[i], l[(i + 1) % n])`. -/
def cyclicPairs {α : Type} (l : List α) : List (α × α) := l.zip (l.rotate 1)

/-- Array3D.getValueAt called with three numbers `(x, y, z)`: the second branch of the
`typeof x === 'object'` test. -/
def Array3D.getValueAtXYZ {α : Type} (a : Array3D α) (x y z : Int) : Option α :=
  if decide (x ≥ a.indices.x) || decide (y ≥ a.indices.y) || decide (z ≥ a.indices.z) ||
      decide (x < 0) || decide (y < 0) || decide (z < 0) then none
  else a.data ((x * a.indices.y + y) * a.indices.z + z)

/-- Array3D.setValueAt called with three numbers and a value `(x, y, z, value)`: the second
branch of the `typeof x === 'object'` test. -/
def Array3D.setValueAtXYZ {α : Type} (a : Array3D α) (x y z : Int) (value : α) : Array3D α :=
  if decide (x ≥ a.indices.x) || decide (y ≥ a.indices.y) || decide (z ≥ a.indices.z) ||
      decide (x < 0) || decide (y < 0) || decide (z < 0) then a
  else { a with data := fun i => if i = (x * a.indices.y + y) * a.indices.z + z then some value
                                 else a.data i }

/-- Array3D.setValueAt called as `setValueAt(idx, v)` with an Index3D, the call shape of
makeVertex: the parameters are `(x, y, z, value)`, so `idx` is bound to `x`, `v` to `y`, and
`value` is undefined; the first branch of the `typeof x === 'object'` test stores `value`. -/
def Array3D.setValueAtIndex {α : Type} (a : Array3D α) (idx : Index3D) (_v : α) : Array3D α :=
  if decide (idx.x ≥ a.indices.x) || decide (idx.y ≥ a.indices.y) ||
      decide (idx.z ≥ a.indices.z) || decide (idx.x < 0) || decide (idx.y < 0) ||
      decide (idx.z < 0) then a
  else { a with data := fun i =>
           if i = (idx.x * a.indices.y + idx.y) * a.indices.z + idx.z then none else a.data i }

/-- The point `X` lies on the segment from `P0` to `P1`. -/
def onSegment (P0 P1 X : Vec3) : Prop :=
  ∃ t : ℚ, 0 ≤ t ∧ t ≤ 1 ∧
    X = ⟨P0.x + t * (P1.x - P0.x), P0.y + t * (P1.y - P0.y), P0.z + t * (P1.z - P0.z)⟩

/-- The interpolation parameter `alpha = (isoValue - v0) / (v1 - v0)` of findCrossingPoint. -/
def crossingAlpha (pt0 pt1 : Point) : ℚ := (0 - pt0.value) / (pt1.value - pt0.value)

/-- The two cell corners that bound edge `e` of face `f`: the corners
`FACE_VERTEX[f][VERTEX_MAP[e][0]]` and `FACE_VERTEX[f][VERTEX_MAP[e][1]]`. -/
def faceEdgeCorners (f e : Nat) : Option (Nat × Nat) :=
  match FACE_VERTEX[f]?, VERTEX_MAP[e]? with
  | some verts, some (v0, v1) =>
    match verts[v0]?, verts[v1]? with
    | some c0, some c1 => some (c0, c1)
    | _, _ => none
  | _, _ => none

/-- The two grid indices `ind0` and `ind1` that populateStrip hands to getEdgesBetwixt for
edge `e` of face `f` of a cell: generateSegments gathers the four corner indices of the
face through FACE_VERTEX, populateStrip picks two of them through VERTEX_MAP. -/
def faceEdgeIndices (cell : Cell) (f e : Nat) : Option (Index3D × Index3D) :=
  match FACE_VERTEX[f]?, VERTEX_MAP[e]? with
  | some verts, some (v0, v1) =>
    match (verts.filterMap (fun v => cell.pointInds[v]?))[v0]?,
          (verts.filterMap (fun v => cell.pointInds[v]?))[v1]? with
    | some ind0, some ind1 => some (ind0, ind1)
    | _, _ => none
  | _, _ => none

/-- The end ids of a list of strips, two per strip. -/
def stripEnds (strips : List Strip) : List Int := strips.flatMap (fun s => [s.data.1, s.data.2])

/-- The strips form closed loops: every id that is an end of a strip is an end exactly
twice, no strip joins an id to itself, and no two strips join the same two ids. -/
def ClosedStrips (strips : List Strip) : Prop :=
  (∀ x ∈ stripEnds strips, (stripEnds strips).count x = 2) ∧
  (∀ s ∈ strips, s.data.1 ≠ s.data.2) ∧
  strips.Pairwise (fun s t => ¬ linked s.data.1 s.data.2 t)
/-- The edge cache is consistent with the vertex list, as it is after initialize and stays
during generateSegments: the cache has the dimensions of the sample grid and holds a block
at every in-bounds index; a block marked empty has no vertex id; every cached vertex id is
an index of the vertex list; and no vertex id is cached for two grid edges. -/
def EdgeCacheOK (a : AlgCMS) : Prop :=
  a.edgeData.indices = a.sampleData.indices ∧
  (∀ p, a.edgeData.inBounds p = true → ∃ blk, a.edgeData.getValueAt p = some blk) ∧
  (∀ p blk, a.edgeData.getValueAt p = some blk → blk.empty = true →
    blk.edgeIndices = ⟨-1, -1, -1⟩) ∧
  (∀ p d v, cachedVertex a.edgeData p d = some v → 0 ≤ v ∧ v < (a.vertices.length : Int)) ∧
  (∀ p q d e v, cachedVertex a.edgeData p d = some v → cachedVertex a.edgeData q e = some v →
    p = q ∧ d = e)

/-- The grid edge (axis and the two crossing indices) that populateStrip resolves face
edge `e` of the face with the corner indices `inds` to. -/
def edgeCrossing (sampleData : Array3D ℚ) (inds : List Index3D) (e : Int) :
    Option (Int × Index3D × Index3D) :=
  resolveCrossing sampleData (newStrip false e e) inds 0

/-- The strip `s` joins the face edges `p.1` and `p.2` of the face with the corner indices
`inds`: its two end ids are the vertex ids that the edge cache holds for the grid edges of
these two face edges. -/
def StripOn (sampleData : Array3D ℚ) (edgeData : Array3D EdgeBlock) (inds : List Index3D)
    (p : Int × Int) (s : Strip) : Prop :=
  (∃ d k k1, edgeCrossing sampleData inds p.1 = some (d, k, k1) ∧
    cachedVertex edgeData k d = some s.data.1) ∧
  (∃ d k k1, edgeCrossing sampleData inds p.2 = some (d, k, k1) ∧
    cachedVertex edgeData k d = some s.data.2)

/-- State `b` comes later in a run of generateSegments than state `a`: the edge cache is
still consistent, the samples are the same, every cached vertex id is still cached, and
no face has changed its state. -/
def Later (a b : AlgCMS) : Prop :=
  EdgeCacheOK b ∧ b.sampleData = a.sampleData ∧
  (∀ k d v, cachedVertex a.edgeData k d = some v → cachedVertex b.edgeData k d = some v) ∧
  (∀ i f, (b.faces i f).state = (a.faces i f).state)
/-- The four corner indices of face `f` of a cell, in the order of FACE_VERTEX, as the face
loop of generateSegments gathers them. -/
def faceInds (cell : Cell) (f : Nat) : List Index3D :=
  match FACE_VERTEX[f]? with
  | some verts => verts.filterMap (fun v => cell.pointInds[v]?)
  | none => []

mutual
/-- The cells on which generateSegments runs its face loop, in the order of the traversal:
below a Branch cell those of its children, any other cell itself. -/
def leafVisits : OctTree → List Cell
  | .mk cell kids => if cell.state = CellState.BRANCH then leafVisitsList kids else [cell]
/-- The cells visited below a list of children. -/
def leafVisitsList : List OctTree → List Cell
  | [] => []
  | k :: ks => leafVisits k ++ leafVisitsList ks
end
/-- The grid edge that populateStrip finds between the corner indices `ind0` and `ind1`:
the axis of getEdgesBetwixt and the two indices next to the sign change found by
exactSignChangeIndex; `none` when the code throws. -/
def crossingOf (sampleData : Array3D ℚ) (ind0 ind1 : Index3D) :
    Option (Int × Index3D × Index3D) :=
  match exactSignChangeIndex sampleData (getEdgesBetwixt ind0 ind1).2
      (getEdgesBetwixt ind0 ind1).1 ind0 ind1 with
  | some signChange =>
    match ind0.set (getEdgesBetwixt ind0 ind1).1 signChange,
          ind0.set (getEdgesBetwixt ind0 ind1).1 (signChange + 1) with
    | some crossingIndex0, some crossingIndex1 =>
      some ((getEdgesBetwixt ind0 ind1).1, crossingIndex0, crossingIndex1)
    | _, _ => none
  | none => none

/-- The cell edge on which edge `e` of face `f` lies, as the number `8 u + v` of its two
corners `u < v`; 64 when `f` or `e` is out of range. -/
def slotEdge (f e : Nat) : Nat :=
  match faceEdgeCorners f e with
  | some (c0, c1) => 8 * min c0 c1 + max c0 c1
  | none => 64
/-- The sign code of face `f` of a cell, from the negativity of its corners: bit `v` is
set when corner `FACE_VERTEX[f][v]` is negative. -/
def faceCode (neg : Nat → Bool) (f : Nat) : Nat :=
  match FACE_VERTEX[f]? with
  | some verts =>
    (if neg (verts.getD 0 0) then 1 else 0) + (if neg (verts.getD 1 0) then 2 else 0) +
    (if neg (verts.getD 2 0) then 4 else 0) + (if neg (verts.getD 3 0) then 8 else 0)
  | none => 0

/-- The strips that makeFaceSegments makes on face `f`, each as the pair of cell edges
that it joins. -/
def faceEdgePairs (neg : Nat → Bool) (f : Nat) : List (Nat × Nat) :=
  ((faceStripEdges (faceCode neg f)).getD []).map
    (fun p => (slotEdge f p.1.toNat, slotEdge f p.2.toNat))

/-- The strips of the six faces of a cell, each as the pair of cell edges that it joins. -/
def cellEdgePairs (neg : Nat → Bool) : List (Nat × Nat) :=
  (List.range 6).flatMap (faceEdgePairs neg)

/-- The ends of a list of pairs, two per pair. -/
def pairEnds (l : List (Nat × Nat)) : List Nat := l.flatMap (fun p => [p.1, p.2])

/-- The pairs form closed loops: every end occurs exactly twice, no pair joins an end to
itself, and no two pairs join the same two ends. -/
def ClosedPairs (A : List (Nat × Nat)) : Prop :=
  (∀ x ∈ pairEnds A, (pairEnds A).count x = 2) ∧ (∀ p ∈ A, p.1 ≠ p.2) ∧
  A.Pairwise (fun p q => ¬ ((q.1 = p.1 ∧ q.2 = p.2) ∨ (q.2 = p.1 ∧ q.1 = p.2)))

instance (A : List (Nat × Nat)) : Decidable (ClosedPairs A) := by
  unfold ClosedPairs
  infer_instance

/-- All lists of `n` truth values. -/
def boolVectors : Nat → List (List Bool)
  | 0 => [[]]
  | n + 1 => (boolVectors n).flatMap (fun l => [false :: l, true :: l])
/-- The negativity of corner `v` of a cell, as makeFaceSegments tests it:
`sampleData.getValueAt(pointInds[v]) < 0`. -/
def cornerNeg (sampleData : Array3D ℚ) (cell : Cell) (v : Nat) : Bool :=
  isNeg ((cell.pointInds[v]?).bind sampleData.getValueAt)

/-- The vertex id `v` is the one that the edge cache holds for the cell edge `E` of the
cell: `E` is the cell edge of a face edge `e` of a face `f`, populateStrip resolves that
face edge to a grid edge, and the cache holds `v` for this grid edge. -/
def EdgeVertex (sampleData : Array3D ℚ) (edgeData : Array3D EdgeBlock) (cell : Cell) (E : Nat)
    (v : Int) : Prop :=
  ∃ f e, f < 6 ∧ e < 4 ∧ slotEdge f e = E ∧
    ∃ d k k1, edgeCrossing sampleData (faceInds cell f) (e : Int) = some (d, k, k1) ∧
      cachedVertex edgeData k d = some v

/-- A dip supported in the box of half-widths 1/8, 1/8 and 1/16 around the sample (0, 0, 1)
of the 9 x 9 x 17 grid on the default container, the point (-1, -1, -7/8): it vanishes at
every other sample and at the points half a grid step away from a sample where the octree
takes its differences. -/
def dip (x y z : ℚ) : ℚ :=
  if x ≤ -9 / 8 ∨ -7 / 8 ≤ x ∨ y ≤ -9 / 8 ∨ -7 / 8 ≤ y ∨ z ≤ -15 / 16 ∨ -13 / 16 ≤ z then 0
  else tent (-1) x * tent (-1) y * (if z ≤ -7 / 8 then z + 15 / 16 else -13 / 16 - z)

/-- The field `y + 2`, positive on the whole container, with a dip that makes the sample
(0, 0, 1) of the 9 x 9 x 17 grid negative. -/
def flatField : ℚ → ℚ → ℚ → ℚ := fun x y z => y + 2 - 2048 * dip x y z

/-- The state after `setOctreeLevels(1, 4)`, `setSamples(9, 9, 17)` and sampleFunction for
the field `flatField`. -/
def flatState : AlgCMS :=
  (AlgCMS.initialState flatField exSqrt false 1 4 defaultContainer ⟨9, 9, 17⟩).sampledState

/-- The octree of the flat example: levels 1 to 4 on the sampled 9 x 9 x 17 grid. -/
def flatOct : Octree := flatState.octree

/-- A cell written out: id, state, parent, level, base corner, extents, slot and address;
its corner indices are those of acquireCellInfo for a cell inside the grid. -/
def boxCell (id : Nat) (leaf : Bool) (parent : Option Nat) (lvl : Int) (c000 offsets : Index3D)
    (pos : Nat) (address : List Nat) : Cell :=
  { id := id, state := if leaf then CellState.LEAF else CellState.BRANCH, parent := parent,
    subdivLvl := lvl, c000 := c000, offsets := offsets, posInParent := pos,
    pointInds := cornerIndices c000 offsets, address := address }
/-- The sub-tree of cell 3 in the tree that makeStructure builds for `flatOct`: the level-3
cell at the corner (0, 0, 0) of the grid and its 8 children, which have the extents
(0, 0, 1) and are leaves. -/
def flatSub3 : OctTree :=
  .mk (boxCell 3 false (some 2) 3 ⟨0, 0, 0⟩ ⟨1, 1, 2⟩ 0 [1, 1, 1, 0, 0, 0, 0, 0])
    [.mk (boxCell 4 true (some 3) 4 ⟨0, 0, 0⟩ ⟨0, 0, 1⟩ 0 [1, 1, 1, 1, 0, 0, 0, 0]) [],
     .mk (boxCell 5 true (some 3) 4 ⟨0, 0, 1⟩ ⟨0, 0, 1⟩ 1 [1, 1, 1, 2, 0, 0, 0, 0]) [],
     .mk (boxCell 6 true (some 3) 4 ⟨0, 0, 0⟩ ⟨0, 0, 1⟩ 2 [1, 1, 1, 3, 0, 0, 0, 0]) [],
     .mk (boxCell 7 true (some 3) 4 ⟨0, 0, 1⟩ ⟨0, 0, 1⟩ 3 [1, 1, 1, 4, 0, 0, 0, 0]) [],
     .mk (boxCell 8 true (some 3) 4 ⟨0, 0, 0⟩ ⟨0, 0, 1⟩ 4 [1, 1, 1, 5, 0, 0, 0, 0]) [],
     .mk (boxCell 9 true (some 3) 4 ⟨0, 0, 1⟩ ⟨0, 0, 1⟩ 5 [1, 1, 1, 6, 0, 0, 0, 0]) [],
     .mk (boxCell 10 true (some 3) 4 ⟨0, 0, 0⟩ ⟨0, 0, 1⟩ 6 [1, 1, 1, 7, 0, 0, 0, 0]) [],
     .mk (boxCell 11 true (some 3) 4 ⟨0, 0, 1⟩ ⟨0, 0, 1⟩ 7 [1, 1, 1, 8, 0, 0, 0, 0]) []]

/-- The sub-tree of cell 2, the level-2 cell at the corner (0, 0, 0) of the grid. -/
def flatSub2 : OctTree :=
  .mk (boxCell 2 false (some 1) 2 ⟨0, 0, 0⟩ ⟨2, 2, 4⟩ 0 [1, 1, 0, 0, 0, 0, 0, 0])
    [flatSub3,
     .mk (boxCell 12 false (some 2) 3 ⟨0, 0, 2⟩ ⟨1, 1, 2⟩ 1 [1, 1, 2, 0, 0, 0, 0, 0]) [],
     .mk (boxCell 13 false (some 2) 3 ⟨0, 1, 0⟩ ⟨1, 1, 2⟩ 2 [1, 1, 3, 0, 0, 0, 0, 0]) [],
     .mk (boxCell 14 false (some 2) 3 ⟨0, 1, 2⟩ ⟨1, 1, 2⟩ 3 [1, 1, 4, 0, 0, 0, 0, 0]) [],
     .mk (boxCell 15 false (some 2) 3 ⟨1, 0, 0⟩ ⟨1, 1, 2⟩ 4 [1, 1, 5, 0, 0, 0, 0, 0]) [],
     .mk (boxCell 16 false (some 2) 3 ⟨1, 0, 2⟩ ⟨1, 1, 2⟩ 5 [1, 1, 6, 0, 0, 0, 0, 0]) [],
     .mk (boxCell 17 false (some 2) 3 ⟨1, 1, 0⟩ ⟨1, 1, 2⟩ 6 [1, 1, 7, 0, 0, 0, 0, 0]) [],
     .mk (boxCell 18 false (some 2) 3 ⟨1, 1, 2⟩ ⟨1, 1, 2⟩ 7 [1, 1, 8, 0, 0, 0, 0, 0]) []]

/-- The sub-tree of cell 1, the level-1 cell at the corner (0, 0, 0) of the grid. -/
def flatSub1 : OctTree :=
  .mk (boxCell 1 false (some 0) 1 ⟨0, 0, 0⟩ ⟨4, 4, 8⟩ 0 [1, 0, 0, 0, 0, 0, 0, 0])
    [flatSub2,
     .mk (boxCell 19 false (some 1) 2 ⟨0, 0, 4⟩ ⟨2, 2, 4⟩ 1 [1, 2, 0, 0, 0, 0, 0, 0]) [],
     .mk (boxCell 20 false (some 1) 2 ⟨0, 2, 0⟩ ⟨2, 2, 4⟩ 2 [1, 3, 0, 0, 0, 0, 0, 0]) [],
     .mk (boxCell 21 false (some 1) 2 ⟨0, 2, 4⟩ ⟨2, 2, 4⟩ 3 [1, 4, 0, 0, 0, 0, 0, 0]) [],
     .mk (boxCell 22 false (some 1) 2 ⟨2, 0, 0⟩ ⟨2, 2, 4⟩ 4 [1, 5, 0, 0, 0, 0, 0, 0]) [],
     .mk (boxCell 23 false (some 1) 2 ⟨2, 0, 4⟩ ⟨2, 2, 4⟩ 5 [1, 6, 0, 0, 0, 0, 0, 0]) [],
     .mk (boxCell 24 false (some 1) 2 ⟨2, 2, 0⟩ ⟨2, 2, 4⟩ 6 [1, 7, 0, 0, 0, 0, 0, 0]) [],
     .mk (boxCell 25 false (some 1) 2 ⟨2, 2, 4⟩ ⟨2, 2, 4⟩ 7 [1, 8, 0, 0, 0, 0, 0, 0]) []]

/-- The tree that makeStructure builds for `flatOct`, written out: 33 cells; the leaves are
the 8 cells of level 4, the cells 1, 2 and 3 are subdivided, every other cell is a childless
Branch cell. -/
def flatTree : OctTree :=
  .mk (boxCell 0 false none 0 ⟨0, 0, 0⟩ ⟨8, 8, 16⟩ 0 [0, 0, 0, 0, 0, 0, 0, 0])
    [flatSub1,
     .mk (boxCell 26 false (some 0) 1 ⟨0, 0, 8⟩ ⟨4, 4, 8⟩ 1 [2, 0, 0, 0, 0, 0, 0, 0]) [],
     .mk (boxCell 27 false (some 0) 1 ⟨0, 4, 0⟩ ⟨4, 4, 8⟩ 2 [3, 0, 0, 0, 0, 0, 0, 0]) [],
     .mk (boxCell 28 false (some 0) 1 ⟨0, 4, 8⟩ ⟨4, 4, 8⟩ 3 [4, 0, 0, 0, 0, 0, 0, 0]) [],
     .mk (boxCell 29 false (some 0) 1 ⟨4, 0, 0⟩ ⟨4, 4, 8⟩ 4 [5, 0, 0, 0, 0, 0, 0, 0]) [],
     .mk (boxCell 30 false (some 0) 1 ⟨4, 0, 8⟩ ⟨4, 4, 8⟩ 5 [6, 0, 0, 0, 0, 0, 0, 0]) [],
     .mk (boxCell 31 false (some 0) 1 ⟨4, 4, 0⟩ ⟨4, 4, 8⟩ 6 [7, 0, 0, 0, 0, 0, 0, 0]) [],
     .mk (boxCell 32 false (some 0) 1 ⟨4, 4, 8⟩ ⟨4, 4, 8⟩ 7 [8, 0, 0, 0, 0, 0, 0, 0]) []]
/-- The faces after buildOctree on the flat example: populateHalfFaces, setFaceRelationships
and markTransitionalFaces on `flatTree`. -/
def flatFaces : FaceStore :=
  markTransitionalFaces flatTree (setFaceRelationships flatTree
    (flatTree.cells.foldl (findNeighbours flatOct.maxLvl.toNat flatTree.addressEntries)
      initialFaces))

/-! # Theorems -/
/-! ## Lemmas on trees -/

theorem OctTree.induct {P : OctTree → Prop}
    (h : ∀ c ks, (∀ k ∈ ks, P k) → P (OctTree.mk c ks)) : ∀ t, P t := by
  intro t
  exact @OctTree.rec P (fun ks => ∀ k ∈ ks, P k)
    (fun c ks ih => h c ks ih)
    (by intro k hk; cases hk)
    (fun t ts iht ihts k hk => by
      rcases List.mem_cons.1 hk with rfl | hk
      · exact iht
      · exact ihts k hk) t

theorem OctTree.subtreesList_eq (ks : List OctTree) :
    OctTree.subtreesList ks = ks.flatMap OctTree.subtrees := by
  induction ks with
  | nil => simp [OctTree.subtreesList]
  | cons t ts ih => simp [OctTree.subtreesList, ih]

theorem OctTree.subtrees_mk (c : Cell) (ks : List OctTree) :
    (OctTree.mk c ks).subtrees = OctTree.mk c ks :: ks.flatMap OctTree.subtrees := by
  rw [OctTree.subtrees, OctTree.subtreesList_eq]

theorem OctTree.cellsList_eq (ks : List OctTree) :
    OctTree.cellsList ks = ks.flatMap OctTree.cells := by
  induction ks with
  | nil => simp [OctTree.cellsList]
  | cons t ts ih => simp [OctTree.cellsList, ih]

theorem OctTree.cells_mk (c : Cell) (ks : List OctTree) :
    (OctTree.mk c ks).cells = c :: ks.flatMap OctTree.cells := by
  rw [OctTree.cells, OctTree.cellsList_eq]

theorem OctTree.cells_eq_map (t : OctTree) : t.cells = t.subtrees.map OctTree.cell := by
  induction t using OctTree.induct with
  | h c ks ih =>
    rw [OctTree.cells_mk, OctTree.subtrees_mk]
    simp only [List.map_cons, OctTree.cell, List.map_flatMap]
    congr 1
    induction ks with
    | nil => rfl
    | cons k ks ihk =>
      simp only [List.flatMap_cons]
      rw [ih k (List.mem_cons_self _ _), ihk (fun k hk => ih k (List.mem_cons_of_mem _ hk))]

theorem OctTree.self_mem_subtrees (t : OctTree) : t ∈ t.subtrees := by
  cases t with
  | mk c ks => rw [OctTree.subtrees_mk]; exact List.mem_cons_self _ _

theorem OctTree.subtrees_trans {s t u : OctTree} (hs : s ∈ t.subtrees) (ht : t ∈ u.subtrees) :
    s ∈ u.subtrees := by
  induction u using OctTree.induct with
  | h c ks ih =>
    rw [OctTree.subtrees_mk] at ht ⊢
    rcases List.mem_cons.1 ht with rfl | ht
    · rw [OctTree.subtrees_mk] at hs; exact hs
    · obtain ⟨k, hk, htk⟩ := List.mem_flatMap.1 ht
      exact List.mem_cons_of_mem _ (List.mem_flatMap.2 ⟨k, hk, ih k hk htk⟩)

/-! ## The builder satisfies the node invariant -/

theorem childCell_subdivLvl (o : Octree) (parent : Cell) (i next : Nat) :
    (childCell o parent i next).subdivLvl = parent.subdivLvl + 1 := rfl

theorem subdivideChild_eq (o : Octree) (recurse : Cell → Nat → List OctTree × Nat)
    (parent : Cell) (i next : Nat) :
    subdivideChild o recurse parent i next =
      if shouldSubdivide o (childCell o parent i next) = true then
        (OctTree.mk (childCell o parent i next) (recurse (childCell o parent i next) (next + 1)).1,
         (recurse (childCell o parent i next) (next + 1)).2)
      else (OctTree.mk (finalChildCell o parent i next) [], next + 1) := by
  unfold subdivideChild finalChildCell shouldSubdivide
  rw [childCell_subdivLvl]
  by_cases h1 : parent.subdivLvl + 1 < o.minLvl
  · simp [h1]
  · by_cases h2 : parent.subdivLvl + 1 ≥ o.minLvl ∧ parent.subdivLvl + 1 < o.maxLvl
    · by_cases h3 : checkForSubdivision o (childCell o parent i next) = true
      · simp [h1, h2, h3]
      · by_cases h4 : checkForSurface o (childCell o parent i next) = true
        · simp [h1, h2, h3, h4]
        · simp [h1, h2, h3, h4]
    · by_cases h4 : checkForSurface o (childCell o parent i next) = true
      · simp [h1, h2, h4]
      · simp [h1, h2, h4]

theorem kidsFrom_forall₂ (step : Nat → Nat → OctTree × Nat) (R : Nat → OctTree → Prop) :
    ∀ (is : List Nat), (∀ i ∈ is, ∀ n, R i (step i n).1) →
      ∀ n, List.Forall₂ R is (kidsFrom step is n).1 := by
  intro is
  induction is with
  | nil => intro _ n; exact List.Forall₂.nil
  | cons i rest ih =>
    intro h n
    unfold kidsFrom
    exact List.Forall₂.cons (h i (List.mem_cons_self _ _) n)
      (ih (fun j hj m => h j (List.mem_cons_of_mem _ hj) m) _)

theorem forall₂_mem_right {α β : Type} {R : α → β → Prop} {as : List α} {bs : List β}
    (h : List.Forall₂ R as bs) : ∀ b ∈ bs, ∃ a ∈ as, R a b := by
  induction h with
  | nil => intro b hb; cases hb
  | cons hab _ ih =>
    intro b hb
    rcases List.mem_cons.1 hb with rfl | hb
    · exact ⟨_, List.mem_cons_self _ _, hab⟩
    · obtain ⟨a, ha, hr⟩ := ih b hb
      exact ⟨a, List.mem_cons_of_mem _ ha, hr⟩

theorem forall₂_range_ne_nil {R : Nat → OctTree → Prop} {ks : List OctTree}
    (h : List.Forall₂ R (List.range 8) ks) : ks ≠ [] := by
  intro hk
  have := h.length_eq
  simp [hk] at this

theorem subdivideCell_inv (o : Octree) : ∀ (fuel : Nat) (parent : Cell) (next : Nat),
    1 ≤ fuel → 0 ≤ parent.subdivLvl →
    max o.minLvl o.maxLvl + 1 ≤ (fuel : Int) + parent.subdivLvl →
    parent.subdivLvl + 1 ≤ max 1 (max o.minLvl o.maxLvl) →
    List.Forall₂ (fun i k => KidRel o parent i k ∧ ∀ s ∈ k.subtrees, NodeInv o s)
      (List.range 8) (subdivideCell o fuel parent next).1 := by
  intro fuel
  induction fuel with
  | zero => intro _ _ h; omega
  | succ f ih =>
    intro parent next _ hlvl hfuel hmax
    unfold subdivideCell
    apply kidsFrom_forall₂
    intro i hi n
    have hi8 : i < 8 := List.mem_range.1 hi
    rw [subdivideChild_eq]
    by_cases hs : shouldSubdivide o (childCell o parent i n) = true
    · rw [if_pos hs]
      have hlt : parent.subdivLvl + 1 < max o.minLvl o.maxLvl := by
        unfold shouldSubdivide at hs
        rw [childCell_subdivLvl] at hs
        simp only [Bool.or_eq_true, Bool.and_eq_true, decide_eq_true_eq] at hs
        rcases hs with h | ⟨⟨_, h⟩, _⟩
        · exact lt_of_lt_of_le h (le_max_left _ _)
        · exact lt_of_lt_of_le h (le_max_right _ _)
      have hrec := ih (childCell o parent i n) (n + 1) (by omega)
        (by rw [childCell_subdivLvl]; omega)
        (by rw [childCell_subdivLvl]; push_cast at hfuel ⊢; omega)
        (by rw [childCell_subdivLvl]; exact le_trans (by omega) (le_max_right _ _))
      have hne := forall₂_range_ne_nil hrec
      have hfin : finalChildCell o parent i n = childCell o parent i n := by
        unfold finalChildCell; rw [if_pos hs]
      refine ⟨⟨n, by simp [OctTree.cell, hfin], by simp [OctTree.kids, hs, hne]⟩, ?_⟩
      intro s hsmem
      rw [OctTree.subtrees_mk] at hsmem
      rcases List.mem_cons.1 hsmem with rfl | hsmem
      · refine ⟨Or.inr (hrec.imp (fun _ _ h => h.1)), Or.inr ⟨parent, i, n, hi8, hlvl, hmax, ?_, ?_⟩⟩
        · simp [OctTree.cell, hfin]
        · simp [OctTree.kids, hs, hne]
      · obtain ⟨k, hk, hsk⟩ := List.mem_flatMap.1 hsmem
        obtain ⟨j, _, hjk⟩ := forall₂_mem_right hrec k hk
        exact hjk.2 s hsk
    · rw [if_neg hs]
      refine ⟨⟨n, by simp [OctTree.cell], by simp [OctTree.kids, hs]⟩, ?_⟩
      intro s hsmem
      rw [OctTree.subtrees_mk] at hsmem
      simp only [List.flatMap_nil, List.mem_singleton] at hsmem
      subst hsmem
      exact ⟨Or.inl rfl, Or.inr ⟨parent, i, n, hi8, hlvl, hmax, by simp [OctTree.cell],
        by simp [OctTree.kids, hs]⟩⟩

theorem makeStructure_inv (o : Octree) : ∀ s ∈ (makeStructure o).subtrees, NodeInv o s := by
  have hroot : (rootCell o).subdivLvl = 0 := rfl
  have hrec := subdivideCell_inv o (buildFuel o) (rootCell o) 1 (by unfold buildFuel; omega)
    (by rw [hroot]) (by rw [hroot]; unfold buildFuel; push_cast; omega)
    (by rw [hroot]; exact le_max_left _ _)
  have hne := forall₂_range_ne_nil hrec
  intro s hs
  unfold makeStructure at hs
  rw [OctTree.subtrees_mk] at hs
  rcases List.mem_cons.1 hs with rfl | hs
  · exact ⟨Or.inr (hrec.imp (fun _ _ h => h.1)), Or.inl ⟨rfl, hne⟩⟩
  · obtain ⟨k, hk, hsk⟩ := List.mem_flatMap.1 hs
    obtain ⟨j, _, hjk⟩ := forall₂_mem_right hrec k hk
    exact hjk.2 s hsk

/-! ## Fields of the cells of the tree -/

theorem finalChildCell_cases (o : Octree) (pc : Cell) (i n : Nat) :
    (shouldSubdivide o (childCell o pc i n) = false ∧ checkForSurface o (childCell o pc i n) = true ∧
      finalChildCell o pc i n = (childCell o pc i n).setState CellState.LEAF) ∨
    ((shouldSubdivide o (childCell o pc i n) = true ∨ checkForSurface o (childCell o pc i n) = false) ∧
      finalChildCell o pc i n = childCell o pc i n) := by
  unfold finalChildCell
  by_cases h1 : shouldSubdivide o (childCell o pc i n) = true
  · right; simp [h1]
  · by_cases h2 : checkForSurface o (childCell o pc i n) = true
    · left; simp [h1, h2]
    · right; simp [h1, h2]

theorem finalChildCell_subdivLvl (o : Octree) (pc : Cell) (i n : Nat) :
    (finalChildCell o pc i n).subdivLvl = pc.subdivLvl + 1 := by
  rcases finalChildCell_cases o pc i n with ⟨_, _, h⟩ | ⟨_, h⟩ <;> (rw [h]; rfl)

theorem finalChildCell_pointInds (o : Octree) (pc : Cell) (i n : Nat) :
    (finalChildCell o pc i n).pointInds = (childCell o pc i n).pointInds := by
  rcases finalChildCell_cases o pc i n with ⟨_, _, h⟩ | ⟨_, h⟩ <;> rw [h] <;> rfl

theorem finalChildCell_parent (o : Octree) (pc : Cell) (i n : Nat) :
    (finalChildCell o pc i n).parent = some pc.id := by
  rcases finalChildCell_cases o pc i n with ⟨_, _, h⟩ | ⟨_, h⟩ <;> (rw [h]; rfl)

theorem finalChildCell_offsets (o : Octree) (pc : Cell) (i n : Nat) :
    (finalChildCell o pc i n).offsets = levelOffsets o (pc.subdivLvl + 1) := by
  rcases finalChildCell_cases o pc i n with ⟨_, _, h⟩ | ⟨_, h⟩ <;> (rw [h]; rfl)

theorem finalChildCell_c000 (o : Octree) (pc : Cell) (i n : Nat) :
    (finalChildCell o pc i n).c000 =
      childC000 pc.c000 (levelOffsets o (pc.subdivLvl + 1)) i := by
  rcases finalChildCell_cases o pc i n with ⟨_, _, h⟩ | ⟨_, h⟩ <;> (rw [h]; rfl)

theorem finalChildCell_state (o : Octree) (pc : Cell) (i n : Nat) :
    (finalChildCell o pc i n).state = CellState.LEAF ↔
      (shouldSubdivide o (childCell o pc i n) = false ∧
       checkForSurface o (childCell o pc i n) = true) := by
  have hb : (childCell o pc i n).state = CellState.BRANCH := rfl
  rcases finalChildCell_cases o pc i n with ⟨h1, h2, h⟩ | ⟨h1, h⟩
  · rw [h]; simp [Cell.setState, h1, h2]
  · rw [h, hb]
    rcases h1 with h1 | h1 <;> simp [h1]

theorem checkForSurface_congr (o : Octree) {c d : Cell} (h : c.pointInds = d.pointInds) :
    checkForSurface o c = checkForSurface o d := by
  unfold checkForSurface; rw [h]

theorem checkForSubdivision_congr (o : Octree) {c d : Cell} (h : c.pointInds = d.pointInds) :
    checkForSubdivision o c = checkForSubdivision o d := by
  unfold checkForSubdivision checkForEdgeAmbiguity checkForComplexSurface edgeAmbiguous
  rw [h]

theorem childCell_pointInds_length (o : Octree) (pc : Cell) (i n : Nat) :
    (childCell o pc i n).pointInds.length = 8 := by
  simp [childCell, acquireCellInfo, cornerIndices]

theorem checkForSurface_iff (o : Octree) (c : Cell) (h : c.pointInds.length = 8) :
    checkForSurface o c = true ↔ c.mixedCorners o := by
  unfold checkForSurface Cell.mixedCorners
  simp only [Bool.and_eq_true, bne_iff_ne, ne_eq]
  rw [← h, List.countP_eq_length, List.countP_eq_zero]
  constructor
  · rintro ⟨h1, h2⟩
    push_neg at h1 h2
    obtain ⟨p, hp, hp'⟩ := h1
    obtain ⟨q, hq, hq'⟩ := h2
    exact ⟨⟨p, hp, by simpa using hp'⟩, ⟨q, hq, by simpa using hq'⟩⟩
  · rintro ⟨⟨p, hp, hp'⟩, ⟨q, hq, hq'⟩⟩
    constructor
    · intro hall; exact absurd hp' (by simpa using hall p hp)
    · intro hall; exact absurd (hall q hq) (by simp [hq'])

/-! ## Level bounds and leaf classification -/

theorem makeStructure_kids_ne_nil (o : Octree) : (makeStructure o).kids ≠ [] := by
  rcases (makeStructure_inv o _ (OctTree.self_mem_subtrees _)).2 with h | ⟨pc, i, n, _, _, _, h, _⟩
  · exact h.2
  · exfalso
    have hp : (makeStructure o).cell.parent = none := rfl
    rw [h, finalChildCell_parent] at hp
    cases hp

theorem nodeInv_kids_length {o : Octree} {s : OctTree} (h : NodeInv o s) (hk : s.kids ≠ []) :
    s.kids.length = 8 := by
  rcases h.1 with h | h
  · exact absurd h hk
  · rw [← h.length_eq]; simp

theorem shouldSubdivide_lt_max {o : Octree} {c : Cell} (h : shouldSubdivide o c = true) :
    c.subdivLvl < max o.minLvl o.maxLvl := by
  unfold shouldSubdivide at h
  simp only [Bool.or_eq_true, Bool.and_eq_true, decide_eq_true_eq] at h
  rcases h with h | ⟨⟨_, h⟩, _⟩
  · exact lt_of_lt_of_le h (le_max_left _ _)
  · exact lt_of_lt_of_le h (le_max_right _ _)

/-- C8 (counterexample): with minLvl = maxLvl = 0 the root, a cell of level maxLvl, has
children, so the level bounds fail as stated. -/
theorem C8_levelBounds_fails_at_level_zero :
    octLevelZero.minLvl ≤ octLevelZero.maxLvl ∧
      ¬ LevelBounds octLevelZero (makeStructure octLevelZero) := by
  refine ⟨le_refl _, fun h => ?_⟩
  exact makeStructure_kids_ne_nil octLevelZero
    ((h (makeStructure octLevelZero) (OctTree.self_mem_subtrees _)).2.2.1 rfl)

/-- C8 (amended): after makeStructure with minLvl <= maxLvl and maxLvl >= 1, every cell
whose level is below minLvl is a BRANCH with all 8 children, no cell has a level above
maxLvl, cells of level maxLvl have no children, and every LEAF cell has a level in
[minLvl, maxLvl]. -/
theorem C8_levelBounds (o : Octree) (hmin : o.minLvl ≤ o.maxLvl) (hmax : 1 ≤ o.maxLvl) :
    LevelBounds o (makeStructure o) := by
  intro s hs
  have hinv := makeStructure_inv o s hs
  have hM : max 1 (max o.minLvl o.maxLvl) = o.maxLvl := by
    rw [max_eq_right hmin, max_eq_right hmax]
  rcases hinv.2 with ⟨hroot, hk⟩ | ⟨pc, i, n, _, hpc, hle, hcell, hkids⟩
  · have hl : s.cell.subdivLvl = 0 := by rw [hroot]; rfl
    have hst : s.cell.state = CellState.BRANCH := by rw [hroot]; rfl
    refine ⟨fun _ => ⟨hst, nodeInv_kids_length hinv hk⟩, by omega, fun h => by omega, ?_⟩
    intro h; rw [hst] at h; cases h
  · have hl : s.cell.subdivLvl = pc.subdivLvl + 1 := by rw [hcell, finalChildCell_subdivLvl]
    rw [hM] at hle
    have hsub : shouldSubdivide o (childCell o pc i n) = true →
        pc.subdivLvl + 1 < o.maxLvl := by
      intro h
      have := shouldSubdivide_lt_max h
      rwa [childCell_subdivLvl, max_eq_right hmin] at this
    refine ⟨?_, by omega, ?_, ?_⟩
    · intro hlt
      have hs' : shouldSubdivide o (childCell o pc i n) = true := by
        unfold shouldSubdivide
        rw [childCell_subdivLvl]
        simp only [Bool.or_eq_true, decide_eq_true_eq]
        left; omega
      refine ⟨?_, nodeInv_kids_length hinv (hkids.2 hs')⟩
      rcases finalChildCell_cases o pc i n with ⟨h1, _, _⟩ | ⟨_, h⟩
      · rw [hs'] at h1; cases h1
      · rw [hcell, h]; rfl
    · intro heq
      by_contra hne
      have := hsub (hkids.1 hne)
      omega
    · intro hleaf
      rw [hcell, finalChildCell_state] at hleaf
      refine ⟨?_, by omega⟩
      by_contra hlt
      have hs' : shouldSubdivide o (childCell o pc i n) = true := by
        unfold shouldSubdivide
        rw [childCell_subdivLvl]
        simp only [Bool.or_eq_true, decide_eq_true_eq]
        left; omega
      rw [hs'] at hleaf
      exact absurd hleaf.1 (by simp)

/-- C8 (witness): the amended level bounds at the octree of levels 2 and 3 on an unsampled
9 x 9 x 9 grid. -/
theorem C8_levelBounds_witness :
    (octUnsampled.minLvl ≤ octUnsampled.maxLvl ∧ 1 ≤ octUnsampled.maxLvl) ∧
    LevelBounds octUnsampled (makeStructure octUnsampled) :=
  ⟨by decide, C8_levelBounds octUnsampled (by decide) (by decide)⟩

theorem classification_core (o : Octree) (s : OctTree)
    (hs : s ∈ (makeStructure o).subtrees) :
    (s.cell.parent ≠ none → o.minLvl ≤ s.cell.subdivLvl →
    (s.subdivided ↔ (s.cell.subdivLvl < o.maxLvl ∧ checkForSubdivision o s.cell = true))) ∧
  (s.cell.state = CellState.LEAF ↔
    (¬ s.subdivided ∧ o.minLvl ≤ s.cell.subdivLvl ∧ s.cell.mixedCorners o)) := by
  have hinv := makeStructure_inv o s hs
  unfold OctTree.subdivided
  rcases hinv.2 with ⟨hroot, hk⟩ | ⟨pc, i, n, _, hpc, hle, hcell, hkids⟩
  · have hp : s.cell.parent = none := by rw [hroot]; rfl
    have hst : s.cell.state = CellState.BRANCH := by rw [hroot]; rfl
    refine ⟨fun h => absurd hp h, ?_⟩
    rw [hst]
    constructor
    · intro h; cases h
    · intro h; exact absurd hk h.1
  · have hl : s.cell.subdivLvl = pc.subdivLvl + 1 := by rw [hcell, finalChildCell_subdivLvl]
    have hpts : s.cell.pointInds = (childCell o pc i n).pointInds := by
      rw [hcell, finalChildCell_pointInds]
    have hchk := checkForSubdivision_congr o hpts
    have hsurf := checkForSurface_congr o hpts
    have hmix := checkForSurface_iff o s.cell (by rw [hpts]; exact childCell_pointInds_length o pc i n)
    have hshould : shouldSubdivide o (childCell o pc i n) = true ↔
        (s.cell.subdivLvl < o.minLvl ∨
          ((o.minLvl ≤ s.cell.subdivLvl ∧ s.cell.subdivLvl < o.maxLvl) ∧
            checkForSubdivision o s.cell = true)) := by
      unfold shouldSubdivide
      rw [childCell_subdivLvl, hchk, hl]
      simp only [Bool.or_eq_true, Bool.and_eq_true, decide_eq_true_eq, ge_iff_le]
    constructor
    · intro _ hge
      rw [hkids, hshould]
      constructor
      · rintro (h | ⟨⟨_, h2⟩, h3⟩)
        · omega
        · exact ⟨h2, h3⟩
      · rintro ⟨h2, h3⟩
        exact Or.inr ⟨⟨hge, h2⟩, h3⟩
    · rw [hcell, finalChildCell_state, ← hcell, ← hsurf, hmix, hkids]
      constructor
      · rintro ⟨h1, h2⟩
        refine ⟨by simp [h1], ?_, h2⟩
        by_contra hlt
        have : shouldSubdivide o (childCell o pc i n) = true := hshould.2 (Or.inl (by omega))
        rw [this] at h1; cases h1
      · rintro ⟨h1, _, h3⟩
        exact ⟨by simpa using h1, h3⟩

/-- C9: after makeStructure, a non-root cell of level >= minLvl is subdivided iff its level
is below maxLvl and checkForSubdivision holds; a cell is LEAF iff it is not subdivided, its
level is >= minLvl and its 8 corner samples are mixed; every other childless cell is BRANCH. -/
theorem C9_leaf_classification (o : Octree) (s : OctTree)
    (hs : s ∈ (makeStructure o).subtrees) :
    (s.cell.parent ≠ none → o.minLvl ≤ s.cell.subdivLvl →
      (s.subdivided ↔ (s.cell.subdivLvl < o.maxLvl ∧ checkForSubdivision o s.cell = true))) ∧
    (s.cell.state = CellState.LEAF ↔
      (¬ s.subdivided ∧ o.minLvl ≤ s.cell.subdivLvl ∧ s.cell.mixedCorners o)) ∧
    (¬ s.subdivided → ¬ (o.minLvl ≤ s.cell.subdivLvl ∧ s.cell.mixedCorners o) →
      s.cell.state = CellState.BRANCH) := by
  have key := classification_core o s hs
  refine ⟨key.1, key.2, ?_⟩
  intro h1 h2
  cases hst : s.cell.state with
  | BRANCH => rfl
  | LEAF => exact absurd (key.2.1 hst).2 h2

/-! ## Index geometry of the cells -/

theorem getPowerOfTwo_eq (e : Int) (h0 : 0 ≤ e) (h30 : e ≤ 30) :
    getPowerOfTwo e = 2 ^ e.toNat := by
  unfold getPowerOfTwo
  have hmod : e % 32 = e := Int.emod_eq_of_lt h0 (by omega)
  rw [hmod]
  have hlt : (2 : Int) ^ e.toNat < 2 ^ 31 :=
    pow_lt_pow_right₀ (by norm_num) (by omega)
  rw [if_pos hlt]

theorem getPowerOfTwo_succ (e : Int) (h0 : 0 ≤ e) (h30 : e + 1 ≤ 30) :
    getPowerOfTwo (e + 1) = getPowerOfTwo e * 2 := by
  rw [getPowerOfTwo_eq e h0 (by omega), getPowerOfTwo_eq (e + 1) (by omega) h30]
  have : (e + 1).toNat = e.toNat + 1 := by omega
  rw [this, pow_succ]

theorem getPowerOfTwo_pos (e : Int) (h0 : 0 ≤ e) (h30 : e ≤ 30) : 0 < getPowerOfTwo e := by
  rw [getPowerOfTwo_eq e h0 h30]; positivity

theorem fdiv_halve (n : Int) (e : Int) (h0 : 0 ≤ e) (h30 : e + 1 ≤ 30) :
    2 * Int.fdiv n (getPowerOfTwo (e + 1)) ≤ Int.fdiv n (getPowerOfTwo e) := by
  have hp := getPowerOfTwo_pos e h0 (by omega)
  rw [getPowerOfTwo_succ e h0 h30, Int.fdiv_eq_ediv _ (by omega), Int.fdiv_eq_ediv _ (by omega)]
  apply Int.le_ediv_of_mul_le hp
  have := Int.ediv_mul_le n (b := getPowerOfTwo e * 2) (by omega)
  calc 2 * (n / (getPowerOfTwo e * 2)) * getPowerOfTwo e
      = n / (getPowerOfTwo e * 2) * (getPowerOfTwo e * 2) := by ring
    _ ≤ n := this

theorem fdiv_halve_exact (m e : Int) (h0 : 0 ≤ e) (hm : e + 1 ≤ m) (h30 : m ≤ 30) :
    2 * Int.fdiv (2 ^ m.toNat) (getPowerOfTwo (e + 1)) = Int.fdiv (2 ^ m.toNat) (getPowerOfTwo e) := by
  have hp := getPowerOfTwo_pos e h0 (by omega)
  have hp1 := getPowerOfTwo_pos (e + 1) (by omega) (by omega)
  rw [Int.fdiv_eq_ediv _ (le_of_lt hp), Int.fdiv_eq_ediv _ (le_of_lt hp1)]
  rw [getPowerOfTwo_eq e h0 (by omega), getPowerOfTwo_eq (e + 1) (by omega) (by omega)]
  have e1 : m.toNat = (e + 1).toNat + (m - (e + 1)).toNat := by omega
  have e2 : m.toNat = e.toNat + ((m - (e + 1)).toNat + 1) := by omega
  have hne1 : ((2 : Int) ^ (e + 1).toNat) ≠ 0 := by positivity
  have hne2 : ((2 : Int) ^ e.toNat) ≠ 0 := by positivity
  conv_lhs => rw [e1, pow_add, Int.mul_ediv_cancel_left _ hne1]
  conv_rhs => rw [e2, pow_add, Int.mul_ediv_cancel_left _ hne2]
  rw [pow_succ]; ring

theorem nodeInv_level {o : Octree} {s : OctTree} (h : NodeInv o s) :
    0 ≤ s.cell.subdivLvl ∧ s.cell.subdivLvl ≤ max 1 (max o.minLvl o.maxLvl) ∧
    s.cell.offsets = levelOffsets o s.cell.subdivLvl := by
  rcases h.2 with ⟨hroot, _⟩ | ⟨pc, i, n, _, hpc, hle, hcell, _⟩
  · rw [hroot]
    refine ⟨le_refl _, le_trans (show (0 : Int) ≤ 1 by decide) (le_max_left _ _), ?_⟩
    show (rootCell o).offsets = levelOffsets o 0
    have h1 : getPowerOfTwo 0 = 1 := by decide
    simp [rootCell, acquireCellInfo, newCell, levelOffsets, h1]
  · rw [hcell, finalChildCell_subdivLvl, finalChildCell_offsets]
    exact ⟨by omega, hle, rfl⟩

theorem nodeInv_kid {o : Octree} {s : OctTree} (h : NodeInv o s) (hk : s.kids ≠ []) :
    ∀ i, i < 8 → ∃ k, s.kids[i]? = some k ∧
      k.cell.c000 = childC000 s.cell.c000 (levelOffsets o (s.cell.subdivLvl + 1)) i ∧
      k.cell.offsets = levelOffsets o (s.cell.subdivLvl + 1) ∧
      k.cell.subdivLvl = s.cell.subdivLvl + 1 := by
  rcases h.1 with h1 | h1
  · exact absurd h1 hk
  · intro i hi
    have hlen : s.kids.length = 8 := by rw [← h1.length_eq]; simp
    have hget := List.Forall₂.get h1 (i := i) (by simpa using hi) (by omega)
    obtain ⟨n, hn, _⟩ := hget
    simp only [List.get_eq_getElem, List.getElem_range] at hn
    refine ⟨s.kids[i], List.getElem?_eq_getElem (by omega), ?_, ?_, ?_⟩
    · rw [hn, finalChildCell_c000]
    · rw [hn, finalChildCell_offsets]
    · rw [hn, finalChildCell_subdivLvl]

theorem nodeInv_leaf_kids {o : Octree} {s : OctTree} (h : NodeInv o s)
    (hl : s.cell.state = CellState.LEAF) : s.kids = [] := by
  rcases h.2 with ⟨hroot, _⟩ | ⟨pc, i, n, _, _, _, hcell, hkids⟩
  · rw [hroot] at hl; cases hl
  · rw [hcell, finalChildCell_state] at hl
    by_contra hne
    rw [hkids.1 hne] at hl
    cases hl.1

theorem child_disjoint (p b u : Index3D) (i j : Nat) (hi : i < 8) (hj : j < 8) (hij : i ≠ j) :
    ¬ (boxHas (childC000 p b i) b u ∧ boxHas (childC000 p b j) b u) := by
  unfold boxHas
  interval_cases i <;> interval_cases j <;> simp only [childC000] <;>
    first
      | exact absurd rfl hij
      | omega

theorem child_within (p a b u : Index3D) (i : Nat) (hi : i < 8)
    (h2 : 2 * b.x ≤ a.x ∧ 2 * b.y ≤ a.y ∧ 2 * b.z ≤ a.z)
    (h : boxHas (childC000 p b i) b u) : boxHas p a u := by
  unfold boxHas at *
  interval_cases i <;> simp only [childC000] at h <;> omega

theorem child_exists (p a b u : Index3D)
    (h2 : 2 * b.x = a.x ∧ 2 * b.y = a.y ∧ 2 * b.z = a.z) (h : boxHas p a u) :
    ∃ i, i < 8 ∧ boxHas (childC000 p b i) b u := by
  unfold boxHas at *
  by_cases hx : u.x + 1 ≤ p.x + b.x <;> by_cases hy : u.y + 1 ≤ p.y + b.y <;>
    by_cases hz : u.z + 1 ≤ p.z + b.z
  · exact ⟨0, by decide, by simp only [childC000]; omega⟩
  · exact ⟨1, by decide, by simp only [childC000]; omega⟩
  · exact ⟨2, by decide, by simp only [childC000]; omega⟩
  · exact ⟨3, by decide, by simp only [childC000]; omega⟩
  · exact ⟨4, by decide, by simp only [childC000]; omega⟩
  · exact ⟨5, by decide, by simp only [childC000]; omega⟩
  · exact ⟨6, by decide, by simp only [childC000]; omega⟩
  · exact ⟨7, by decide, by simp only [childC000]; omega⟩

theorem childC000_bits (p b : Index3D) (i : Nat) (hi : i < 8) :
    (childC000 p b i).x = p.x + (if i / 4 % 2 = 1 then b.x else 0) ∧
    (childC000 p b i).y = p.y + (if i / 2 % 2 = 1 then b.y else 0) ∧
    (childC000 p b i).z = p.z + (if i % 2 = 1 then b.z else 0) := by
  interval_cases i <;> simp [childC000]

/-- C5: on a grid of 2^maxLvl + 1 samples per axis (maxLvl at most 30, the range in which
the 32-bit shift of getPowerOfTwo is exact), the 8 children of every cell subdivided at a
level below maxLvl exactly cover it. -/
theorem C5_children_cover (o : Octree) (h30 : o.maxLvl ≤ 30)
    (hgrid : o.samples = ⟨2 ^ o.maxLvl.toNat + 1, 2 ^ o.maxLvl.toNat + 1,
      2 ^ o.maxLvl.toNat + 1⟩)
    (s : OctTree) (hs : s ∈ (makeStructure o).subtrees) (hsub : s.subdivided)
    (hlvl : s.cell.subdivLvl < o.maxLvl) : ChildrenCover s := by
  have hinv := makeStructure_inv o s hs
  obtain ⟨hl0, _, hoff⟩ := nodeInv_level hinv
  have hkid := nodeInv_kid hinv hsub
  have hlen := nodeInv_kids_length hinv hsub
  have hx : o.samples.x - 1 = 2 ^ o.maxLvl.toNat := by rw [hgrid]; ring
  have hy : o.samples.y - 1 = 2 ^ o.maxLvl.toNat := by rw [hgrid]; ring
  have hz : o.samples.z - 1 = 2 ^ o.maxLvl.toNat := by rw [hgrid]; ring
  have hhalf : 2 * (levelOffsets o (s.cell.subdivLvl + 1)).x = s.cell.offsets.x ∧
      2 * (levelOffsets o (s.cell.subdivLvl + 1)).y = s.cell.offsets.y ∧
      2 * (levelOffsets o (s.cell.subdivLvl + 1)).z = s.cell.offsets.z := by
    rw [hoff]
    simp only [levelOffsets, hx, hy, hz]
    have := fdiv_halve_exact o.maxLvl s.cell.subdivLvl hl0 (by omega) h30
    exact ⟨this, this, this⟩
  refine ⟨?_, ?_, ?_⟩
  · intro i hi
    obtain ⟨k, hk, hc, ho, _⟩ := hkid i hi
    refine ⟨k, hk, by rw [ho]; exact hhalf, ?_⟩
    rw [hc, ho]
    exact childC000_bits _ _ i hi
  · intro u hu
    obtain ⟨i, hi, hbox⟩ := child_exists s.cell.c000 s.cell.offsets
      (levelOffsets o (s.cell.subdivLvl + 1)) u hhalf hu
    obtain ⟨k, hk, hc, ho, _⟩ := hkid i hi
    refine ⟨i, ⟨hi, k, hk, ?_⟩, ?_⟩
    · show boxHas k.cell.c000 k.cell.offsets u
      rw [hc, ho]; exact hbox
    · rintro j ⟨hj, k', hk', hbox'⟩
      by_contra hne
      obtain ⟨k'', hk'', hc', ho', _⟩ := hkid j hj
      rw [hk'] at hk''
      cases hk''
      have hb' : boxHas k'.cell.c000 k'.cell.offsets u := hbox'
      rw [hc', ho'] at hb'
      exact child_disjoint _ _ u i j hi hj (fun h => hne h.symm) ⟨hbox, hb'⟩
  · intro k hk u hu
    obtain ⟨j, hj, hjk⟩ := List.mem_iff_getElem.1 hk
    obtain ⟨k', hk', hc, ho, _⟩ := hkid j (by omega)
    rw [List.getElem?_eq_getElem hj, hjk] at hk'
    cases hk'
    have hb : boxHas k.cell.c000 k.cell.offsets u := hu
    rw [hc, ho] at hb
    exact child_within s.cell.c000 s.cell.offsets _ u j (by omega)
      ⟨le_of_eq hhalf.1, le_of_eq hhalf.2.1, le_of_eq hhalf.2.2⟩ hb

theorem kid_mem_subtrees {c : Cell} {ks : List OctTree} {k s : OctTree} (hk : k ∈ ks)
    (hs : s ∈ k.subtrees) : s ∈ (OctTree.mk c ks).subtrees := by
  rw [OctTree.subtrees_mk]
  exact List.mem_cons_of_mem _ (List.mem_flatMap.2 ⟨k, hk, hs⟩)

theorem kid_within (o : Octree) (h30 : max o.minLvl o.maxLvl ≤ 30) {t k : OctTree}
    (ht : NodeInv o t) (hkinv : NodeInv o k) (hk : k ∈ t.kids) :
    ∀ u, k.cell.containsCube u → t.cell.containsCube u := by
  intro u hu
  have hne : t.kids ≠ [] := List.ne_nil_of_mem hk
  obtain ⟨j, hj, hjk⟩ := List.mem_iff_getElem.1 hk
  have hlen := nodeInv_kids_length ht hne
  obtain ⟨k', hk', hc, ho, hl⟩ := nodeInv_kid ht hne j (by omega)
  rw [List.getElem?_eq_getElem hj, hjk] at hk'
  cases hk'
  obtain ⟨hl0, _, hoff⟩ := nodeInv_level ht
  obtain ⟨_, hkle, _⟩ := nodeInv_level hkinv
  have hle30 : t.cell.subdivLvl + 1 ≤ 30 := by
    rw [← hl]; exact le_trans hkle (max_le (by decide) h30)
  have hb : boxHas k.cell.c000 k.cell.offsets u := hu
  rw [hc, ho] at hb
  refine child_within t.cell.c000 t.cell.offsets _ u j (by omega) ?_ hb
  rw [hoff]
  exact ⟨fdiv_halve _ _ hl0 hle30, fdiv_halve _ _ hl0 hle30, fdiv_halve _ _ hl0 hle30⟩

theorem cells_within (o : Octree) (h30 : max o.minLvl o.maxLvl ≤ 30) :
    ∀ t : OctTree, (∀ s ∈ t.subtrees, NodeInv o s) →
      ∀ c ∈ t.cells, ∀ u, c.containsCube u → t.cell.containsCube u := by
  intro t
  induction t using OctTree.induct with
  | h c ks ih =>
    intro hinv x hx u hu
    rw [OctTree.cells_mk] at hx
    rcases List.mem_cons.1 hx with rfl | hx
    · exact hu
    · obtain ⟨k, hk, hxk⟩ := List.mem_flatMap.1 hx
      have hkin := ih k hk (fun s hs => hinv s (kid_mem_subtrees hk hs)) x hxk u hu
      exact kid_within o h30 (hinv _ (OctTree.self_mem_subtrees _))
        (hinv k (kid_mem_subtrees hk (OctTree.self_mem_subtrees _))) hk u hkin

theorem leaves_disjoint (o : Octree) (h30 : max o.minLvl o.maxLvl ≤ 30) :
    ∀ t : OctTree, (∀ s ∈ t.subtrees, NodeInv o s) →
      List.Pairwise Cell.disjointFrom t.leafCells := by
  intro t
  induction t using OctTree.induct with
  | h c ks ih =>
    intro hinv
    have htop := hinv _ (OctTree.self_mem_subtrees _)
    unfold OctTree.leafCells
    rw [OctTree.cells_mk]
    by_cases hks : ks = []
    · subst hks
      simp only [List.flatMap_nil]
      exact List.Pairwise.sublist (List.filter_sublist _) (List.pairwise_singleton _ _)
    · have hc : c.state ≠ CellState.LEAF := fun h => hks (nodeInv_leaf_kids htop h)
      have hdrop : List.filter (fun c => decide (c.state = CellState.LEAF))
          (c :: ks.flatMap OctTree.cells) =
          List.filter (fun c => decide (c.state = CellState.LEAF)) (ks.flatMap OctTree.cells) := by
        simp [List.filter_cons, hc]
      rw [hdrop, List.filter_flatMap, List.pairwise_flatMap]
      refine ⟨fun k hk => ih k hk (fun s hs => hinv s (kid_mem_subtrees hk hs)), ?_⟩
      rw [List.pairwise_iff_getElem]
      intro i j hi hj hij x hx y hy u hu
      have hlen : ks.length = 8 := nodeInv_kids_length htop hks
      obtain ⟨ki, hki, hci, hoi, _⟩ := nodeInv_kid htop hks i (by omega)
      obtain ⟨kj, hkj, hcj, hoj, _⟩ := nodeInv_kid htop hks j (by omega)
      have e1 : (OctTree.mk c ks).kids[i]? = some ks[i] := List.getElem?_eq_getElem hi
      have e2 : (OctTree.mk c ks).kids[j]? = some ks[j] := List.getElem?_eq_getElem hj
      rw [e1] at hki; rw [e2] at hkj
      cases hki; cases hkj
      have hxi := cells_within o h30 ks[i]
        (fun s hs => hinv s (kid_mem_subtrees (List.getElem_mem _) hs)) x
        (List.mem_of_mem_filter hx) u hu.1
      have hyj := cells_within o h30 ks[j]
        (fun s hs => hinv s (kid_mem_subtrees (List.getElem_mem _) hs)) y
        (List.mem_of_mem_filter hy) u hu.2
      have hbi : boxHas ks[i].cell.c000 ks[i].cell.offsets u := hxi
      have hbj : boxHas ks[j].cell.c000 ks[j].cell.offsets u := hyj
      rw [hci, hoi] at hbi
      rw [hcj, hoj] at hbj
      exact child_disjoint _ _ u i j (by omega) (by omega) (by omega) ⟨hbi, hbj⟩

/-- C6: after makeStructure (levels at most 30, the range in which the 32-bit shift of
getPowerOfTwo is exact), any two distinct LEAF cells share no unit grid cube, and a LEAF
cell has no children. -/
theorem C6_leaf_cells_disjoint (o : Octree) (h30 : max o.minLvl o.maxLvl ≤ 30) :
    List.Pairwise Cell.disjointFrom (makeStructure o).leafCells ∧
    ∀ s ∈ (makeStructure o).subtrees, s.cell.state = CellState.LEAF → s.kids = [] :=
  ⟨leaves_disjoint o h30 _ (makeStructure_inv o),
   fun s hs hl => nodeInv_leaf_kids (makeStructure_inv o s hs) hl⟩

/-! ## Tessellation keeps the mesh well formed -/

theorem componentVertices_some (vertices : List Vertex) :
    ∀ component : List Int, (∀ id ∈ component, 0 ≤ id ∧ id < (vertices.length : Int)) →
      ∃ vs, componentVertices vertices component = some vs ∧ vs.length = component.length := by
  intro component
  induction component with
  | nil => intro _; exact ⟨[], rfl, rfl⟩
  | cons id rest ih =>
    intro h
    obtain ⟨vs, hvs, hlen⟩ := ih (fun j hj => h j (List.mem_cons_of_mem _ hj))
    obtain ⟨h0, h1⟩ := h id (List.mem_cons_self _ _)
    have hlt : id.toNat < vertices.length := by omega
    refine ⟨vertices[id.toNat] :: vs, ?_, by simp [hlen]⟩
    unfold componentVertices vertexAt
    rw [if_neg (by omega), List.getElem?_eq_getElem hlt]
    simp [hvs]

theorem triangleIndices_spec (msqrt : ℚ → ℚ) (component : List Int) (vs : List Vertex)
    (hc : component.length = 3) (hv : vs.length = 3) :
    (triangleIndices msqrt component vs).length = 3 ∧
    ∀ id ∈ triangleIndices msqrt component vs, id ∈ component := by
  match component, vs, hc, hv with
  | [c0, c1, c2], [v0, v1, v2], _, _ =>
    simp only [triangleIndices]
    split_ifs <;> simp

theorem fanIndices_length (c : Int) (ring : List Int) :
    (fanIndices c ring).length = 3 * ring.length := by
  unfold fanIndices
  rw [List.length_flatten]
  have hconst : ∀ x ∈ List.map List.length ((List.range ring.length).map (fun i =>
      match ring[i]?, ring[(i + 1) % ring.length]? with
      | some r0, some r1 => [c, r0, r1]
      | _, _ => [])), x = 3 := by
    intro x hx
    simp only [List.mem_map, List.mem_range] at hx
    obtain ⟨l, ⟨i, hi, rfl⟩, rfl⟩ := hx
    have h1 : (i + 1) % ring.length < ring.length := Nat.mod_lt _ (by omega)
    rw [List.getElem?_eq_getElem hi, List.getElem?_eq_getElem h1]
    rfl
  rw [List.sum_eq_card_nsmul _ 3 hconst]
  simp [mul_comm]

theorem fanIndices_mem (c : Int) (ring : List Int) :
    ∀ id ∈ fanIndices c ring, id = c ∨ id ∈ ring := by
  intro id hid
  unfold fanIndices at hid
  simp only [List.mem_flatten, List.mem_map, List.mem_range] at hid
  obtain ⟨l, ⟨i, hi, rfl⟩, hmem⟩ := hid
  have h1 : (i + 1) % ring.length < ring.length := Nat.mod_lt _ (by omega)
  rw [List.getElem?_eq_getElem hi, List.getElem?_eq_getElem h1] at hmem
  simp only [List.mem_cons, List.mem_singleton, List.not_mem_nil, or_false] at hmem
  rcases hmem with h | h | h
  · exact Or.inl h
  · exact Or.inr (h ▸ List.getElem_mem _)
  · exact Or.inr (h ▸ List.getElem_mem _)

theorem orientedRing_mem (a : AlgCMS) (component : List Int) (vs : List Vertex) (cellId : Nat) :
    ∀ id ∈ orientedRing a component vs cellId, id ∈ component := by
  intro id hid
  unfold orientedRing at hid
  have key : ∀ id ∈ component.drop (minIndex component) ++ component.take (minIndex component),
      id ∈ component := by
    intro j hj
    rcases List.mem_append.1 hj with h | h
    · exact List.mem_of_mem_drop h
    · exact List.mem_of_mem_take h
  split_ifs at hid
  · exact key id hid
  · exact key id (List.mem_reverse.1 hid)

theorem tessellateComponent_inv (a : AlgCMS) (component : List Int) (cellId : Nat)
    (hinv : TessInv a) (hc : ∀ id ∈ component, 0 ≤ id ∧ id < (a.vertices.length : Int)) :
    ∃ b, tessellateComponent a component cellId = some b ∧ TessInv b ∧
      b.components = a.components ∧ b.desiredCells = a.desiredCells ∧
      a.vertices.length ≤ b.vertices.length := by
  unfold tessellateComponent
  by_cases h3 : component.length < 3
  · rw [if_pos h3]; exact ⟨a, rfl, hinv, rfl, rfl, le_refl _⟩
  · rw [if_neg h3]
    obtain ⟨vs, hvs, hlen⟩ := componentVertices_some a.vertices component hc
    rw [hvs]
    by_cases h4 : component.length = 3
    · simp only [h4, if_true]
      obtain ⟨htl, htm⟩ := triangleIndices_spec a.msqrt component vs h4 (by omega)
      refine ⟨_, rfl, ⟨hinv.1, ?_, ?_⟩, rfl, rfl, le_refl _⟩
      · simp only [List.length_append, htl]; have := hinv.2.1; omega
      · intro id hid
        rcases List.mem_append.1 hid with h | h
        · exact hinv.2.2 id h
        · exact hc id (htm id h)
    · simp only [h4, if_false]
      refine ⟨_, rfl, ⟨?_, ?_, ?_⟩, rfl, rfl, by simp⟩
      · intro c comp hcomp id hid
        have := hinv.1 c comp hcomp id hid
        simp only [List.length_append, List.length_singleton]
        push_cast; omega
      · simp only [List.length_append, fanIndices_length]; have := hinv.2.1; omega
      · intro id hid
        simp only [List.length_append, List.length_singleton]
        push_cast
        rcases List.mem_append.1 hid with h | h
        · have := hinv.2.2 id h; omega
        · rcases fanIndices_mem _ _ id h with h | h
          · omega
          · have := hc id (orientedRing_mem a component vs cellId id h); omega

theorem foldl_tessellate_inv (cellId : Nat) :
    ∀ (comps : List (List Int)) (a : AlgCMS), TessInv a →
      (∀ component ∈ comps, ∀ id ∈ component, 0 ≤ id ∧ id < (a.vertices.length : Int)) →
      ∃ b, foldlOpt (fun s component => tessellateComponent s component cellId) a comps = some b ∧
        TessInv b ∧ b.components = a.components ∧ b.desiredCells = a.desiredCells ∧
        a.vertices.length ≤ b.vertices.length := by
  intro comps
  induction comps with
  | nil => intro a h _; exact ⟨a, rfl, h, rfl, rfl, le_refl _⟩
  | cons c rest ih =>
    intro a h hc
    obtain ⟨b, hb, hbinv, hbc, hbd, hble⟩ :=
      tessellateComponent_inv a c cellId h (hc c (List.mem_cons_self _ _))
    obtain ⟨d, hd, hdinv, hdc, hdd, hdle⟩ := ih b hbinv (by
      intro comp hcomp id hid
      have := hc comp (List.mem_cons_of_mem _ hcomp) id hid
      omega)
    refine ⟨d, ?_, hdinv, by rw [hdc, hbc], by rw [hdd, hbd], le_trans hble hdle⟩
    simp only [foldlOpt, hb, hd]

theorem tessellationTraversalList_eq (a : AlgCMS) (ks : List OctTree) :
    tessellationTraversalList a ks = foldlOpt tessellationTraversal a ks := by
  induction ks generalizing a with
  | nil => simp [tessellationTraversalList, foldlOpt]
  | cons k rest ih =>
    simp only [tessellationTraversalList, foldlOpt]
    cases tessellationTraversal a k with
    | none => rfl
    | some a1 => exact ih a1

theorem tessellationTraversal_inv :
    ∀ (t : OctTree) (a : AlgCMS), TessInv a →
      ∃ b, tessellationTraversal a t = some b ∧ TessInv b ∧ b.components = a.components ∧
        b.desiredCells = a.desiredCells := by
  intro t
  induction t using OctTree.induct with
  | h c ks ih =>
    intro a hinv
    unfold tessellationTraversal
    by_cases hb : c.state = CellState.BRANCH
    · rw [if_pos hb, tessellationTraversalList_eq]
      clear hb
      induction ks generalizing a with
      | nil => exact ⟨a, rfl, hinv, rfl, rfl⟩
      | cons k rest ihr =>
        obtain ⟨b, hb, hbinv, hbc, hbd⟩ := ih k (List.mem_cons_self _ _) a hinv
        obtain ⟨d, hd, hdinv, hdc, hdd⟩ :=
          ihr (fun k hk => ih k (List.mem_cons_of_mem _ hk)) b hbinv
        exact ⟨d, by simp only [foldlOpt, hb, hd], hdinv, by rw [hdc, hbc], by rw [hdd, hbd]⟩
    · rw [if_neg hb]
      by_cases hd : a.desiredCells.length > 0 ∧ ¬ c.id ∈ a.desiredCells
      · rw [if_pos hd]; exact ⟨a, rfl, hinv, rfl, rfl⟩
      · rw [if_neg hd]
        obtain ⟨b, hb, hbinv, hbc, hbd, _⟩ :=
          foldl_tessellate_inv c.id (a.components c.id) a hinv (fun comp hcomp => hinv.1 c.id comp hcomp)
        exact ⟨b, hb, hbinv, hbc, hbd⟩

theorem flatMap_triple_length {α β : Type} (f g h : α → β) (l : List α) :
    (l.flatMap (fun v => [f v, g v, h v])).length = 3 * l.length := by
  induction l with
  | nil => rfl
  | cons x xs ih => simp only [List.flatMap_cons, List.length_append, List.length_cons,
      List.length_nil, ih]; omega

theorem flatMap_triple_get {α β : Type} (f g h : α → β) :
    ∀ (l : List α) (i : Nat) (v : α), l[i]? = some v →
      (l.flatMap (fun v => [f v, g v, h v]))[3 * i]? = some (f v) ∧
      (l.flatMap (fun v => [f v, g v, h v]))[3 * i + 1]? = some (g v) ∧
      (l.flatMap (fun v => [f v, g v, h v]))[3 * i + 2]? = some (h v) := by
  intro l
  induction l with
  | nil => intro i v hv; simp at hv
  | cons x xs ih =>
    intro i v hv
    cases i with
    | zero =>
      simp only [List.getElem?_cons_zero, Option.some.injEq] at hv
      subst hv
      simp [List.flatMap_cons]
    | succ n =>
      simp only [List.getElem?_cons_succ] at hv
      obtain ⟨h1, h2, h3⟩ := ih n v hv
      have e : ∀ (L : List β) (k : Nat), (f x :: g x :: h x :: L)[k + 3]? = L[k]? :=
        fun L k => by
          rw [show k + 3 = (k + 1 + 1) + 1 by ring]
          simp only [List.getElem?_cons_succ]
      simp only [List.flatMap_cons, List.cons_append, List.nil_append]
      refine ⟨?_, ?_, ?_⟩
      · rw [show 3 * (n + 1) = 3 * n + 3 by ring, e]; exact h1
      · rw [show 3 * (n + 1) + 1 = 3 * n + 1 + 3 by ring, e]; exact h2
      · rw [show 3 * (n + 1) + 2 = 3 * n + 2 + 3 by ring, e]; exact h3

/-- C1: when every id of every component is a valid vertex id (and the indices emitted
before are valid triples, as the empty index list of a fresh run is), tessellationTraversal
returns, and the mesh that createMesh fills has 3 numbers per vertex in both `vertices` and
`normals`, vertex `i` at offsets 3i..3i+2, an index count divisible by 3, and only indices
below the vertex count. -/
theorem C1_mesh_well_formed (a : AlgCMS) (t : OctTree) (h : TessInv a) :
    ∃ b, tessellationTraversal a t = some b ∧ (createMesh b).wellFormed b.vertices := by
  obtain ⟨b, hb, hbinv, _, _⟩ := tessellationTraversal_inv t a h
  refine ⟨b, hb, ?_, ?_, ?_, hbinv.2.1, hbinv.2.2⟩
  · exact flatMap_triple_length _ _ _ _
  · exact flatMap_triple_length _ _ _ _
  · intro i v hv
    exact ⟨flatMap_triple_get _ _ _ _ i v hv, flatMap_triple_get _ _ _ _ i v hv⟩

/-! ## The edge cache -/

theorem Array3D.inBounds_setValueAt {α : Type} (a : Array3D α) (p q : Index3D) (v : α) :
    (a.setValueAt p v).inBounds q = a.inBounds q := by
  unfold Array3D.setValueAt
  split_ifs <;> rfl

theorem Array3D.getValueAt_setValueAt {α : Type} (a : Array3D α) (p q : Index3D) (v : α) :
    (a.setValueAt p v).getValueAt q =
      if a.inBounds p = true ∧ a.inBounds q = true ∧ a.getIndexAt q = a.getIndexAt p then some v
      else a.getValueAt q := by
  unfold Array3D.getValueAt
  rw [Array3D.inBounds_setValueAt]
  unfold Array3D.setValueAt
  by_cases hp : a.inBounds p = true
  · by_cases hq : a.inBounds q = true
    · simp only [hp, hq, if_true, true_and]
      rfl
    · simp [hp, hq]
  · simp [hp]

theorem Index3D.get_set (p p1 : Index3D) (d d1 : Int) (v : Int) (h : p.set d v = some p1) :
    p1.get d1 = if d1 = d then some v else p.get d1 := by
  unfold Index3D.set at h
  unfold Index3D.get
  by_cases h0 : d = 0
  · subst h0; simp at h; subst h
    by_cases e0 : d1 = 0 <;> by_cases e1 : d1 = 1 <;> by_cases e2 : d1 = 2 <;> simp [*]
  · by_cases h1 : d = 1
    · subst h1; simp at h; subst h
      by_cases e0 : d1 = 0 <;> by_cases e1 : d1 = 1 <;> by_cases e2 : d1 = 2 <;> simp [*]
    · by_cases h2 : d = 2
      · subst h2; simp at h; subst h
        by_cases e0 : d1 = 0 <;> by_cases e1 : d1 = 1 <;> by_cases e2 : d1 = 2 <;> simp [*]
      · simp [h0, h1, h2] at h

theorem cachedVertex_some_iff (edgeData : Array3D EdgeBlock) (k : Index3D) (d : Int) (v : Int) :
    cachedVertex edgeData k d = some v ↔
      ∃ blk, edgeData.getValueAt k = some blk ∧ blk.empty = false ∧
        blk.edgeIndices.get d = some v ∧ v ≠ -1 := by
  unfold cachedVertex
  constructor
  · intro h
    cases hb : edgeData.getValueAt k with
    | none => rw [hb] at h; cases h
    | some blk =>
      rw [hb] at h
      simp only at h
      by_cases he : blk.empty = true
      · simp [he] at h
      · cases hg : blk.edgeIndices.get d with
        | none => simp [he, hg] at h
        | some w =>
          simp only [he, hg] at h
          by_cases hw : w ≠ -1
          · simp [hw] at h
            subst h
            exact ⟨blk, rfl, by simpa using he, hg, hw⟩
          · simp [hw] at h
  · rintro ⟨blk, hb, he, hg, hv⟩
    simp [hb, he, hg, hv]

theorem makeVertex_spec (a : AlgCMS) (strip : Strip) (dir : Int) (c0 c1 : Index3D) (index : Nat)
    (b : AlgCMS) (s : Strip) (h : makeVertex a strip dir c0 c1 index = some (b, s)) :
    ∃ inds val0 val1,
      ((a.edgeData.getValueAt c0).getD (newEdgeBlock false)).edgeIndices.set dir
        (a.vertices.length : Int) = some inds ∧
      b = { a with
              vertices := a.vertices ++ [crossingVertex a c0 c1 val0 val1],
              edgeData := recordEdge a.edgeData c0 inds } ∧
      s = strip.setEnd index (a.vertices.length : Int) c0 dir := by
  unfold makeVertex at h
  cases h0 : a.sampleData.getValueAt c0 with
  | none => simp [h0] at h
  | some val0 =>
    cases h1 : a.sampleData.getValueAt c1 with
    | none => simp [h0, h1] at h
    | some val1 =>
      cases hi : ((a.edgeData.getValueAt c0).getD (newEdgeBlock false)).edgeIndices.set dir
          (a.vertices.length : Int) with
      | none => simp [h0, h1, hi] at h
      | some inds =>
        simp only [h0, h1, hi, Option.some.injEq, Prod.mk.injEq] at h
        exact ⟨inds, val0, val1, rfl, h.1.symm, h.2.symm⟩

theorem populateStrip_cases (a : AlgCMS) (strip : Strip) (inds : List Index3D) (index : Nat)
    (b : AlgCMS) (s : Strip) (h : populateStrip a strip inds index = some (b, s)) :
    ∃ dir c0 c1, resolveCrossing a.sampleData strip inds index = some (dir, c0, c1) ∧
      ((∃ v, cachedVertex a.edgeData c0 dir = some v ∧ b = a ∧ s = strip.setEnd index v c0 dir) ∨
       (cachedVertex a.edgeData c0 dir = none ∧ makeVertex a strip dir c0 c1 index = some (b, s))) := by
  unfold populateStrip at h
  cases hr : resolveCrossing a.sampleData strip inds index with
  | none => simp [hr] at h
  | some r =>
    obtain ⟨dir, c0, c1⟩ := r
    refine ⟨dir, c0, c1, rfl, ?_⟩
    simp only [hr] at h
    cases hc : cachedVertex a.edgeData c0 dir with
    | none => simp only [hc] at h; exact Or.inr ⟨rfl, h⟩
    | some v =>
      simp only [hc, Option.some.injEq, Prod.mk.injEq] at h
      exact Or.inl ⟨v, rfl, h.1.symm, h.2.symm⟩

theorem populateStrip_keeps_cache (a : AlgCMS) (strip : Strip) (inds : List Index3D) (index : Nat)
    (b : AlgCMS) (s : Strip) (h : populateStrip a strip inds index = some (b, s))
    (k : Index3D) (d : Int) (v : Int) (hk : cachedVertex a.edgeData k d = some v) :
    cachedVertex b.edgeData k d = some v ∧ b.sampleData = a.sampleData := by
  obtain ⟨dir, c0, c1, _, hcase⟩ := populateStrip_cases a strip inds index b s h
  rcases hcase with ⟨w, _, hb, _⟩ | ⟨hnone, hmk⟩
  · subst hb; exact ⟨hk, rfl⟩
  · obtain ⟨ix, val0, val1, hix, hb, _⟩ := makeVertex_spec a strip dir c0 c1 index b s hmk
    subst hb
    refine ⟨?_, rfl⟩
    obtain ⟨blk, hblk, hemp, hget, hv⟩ := (cachedVertex_some_iff _ _ _ _).1 hk
    rw [cachedVertex_some_iff]
    simp only
    unfold recordEdge
    rcases hstored : a.edgeData.getValueAt c0 with _ | stored
    · exact ⟨blk, hblk, hemp, hget, hv⟩
    · simp only
      rw [Array3D.getValueAt_setValueAt]
      by_cases hsame : a.edgeData.inBounds c0 = true ∧ a.edgeData.inBounds k = true ∧
          a.edgeData.getIndexAt k = a.edgeData.getIndexAt c0
      · rw [if_pos hsame]
        have hslot : a.edgeData.getValueAt c0 = some blk := by
          unfold Array3D.getValueAt at hblk ⊢
          rw [hsame.1, if_pos rfl]
          rw [hsame.2.1, if_pos rfl, hsame.2.2] at hblk
          exact hblk
        rw [hslot] at hix
        simp only [Option.getD_some] at hix
        have hgetd := Index3D.get_set _ _ dir d _ hix
        refine ⟨_, rfl, rfl, ?_, hv⟩
        simp only
        rw [hgetd]
        by_cases hd : d = dir
        · exfalso
          subst hd
          have : cachedVertex a.edgeData c0 d = some v :=
            (cachedVertex_some_iff _ _ _ _).2 ⟨blk, hslot, hemp, hget, hv⟩
          rw [hnone] at this
          cases this
        · rw [if_neg hd]; exact hget
      · rw [if_neg hsame]
        exact ⟨blk, hblk, hemp, hget, hv⟩

theorem laterInRun_keeps_cache {a b : AlgCMS} (h : LaterInRun a b) (k : Index3D) (d : Int)
    (v : Int) (hk : cachedVertex a.edgeData k d = some v) :
    cachedVertex b.edgeData k d = some v ∧ b.sampleData = a.sampleData := by
  induction h with
  | refl => exact ⟨hk, rfl⟩
  | populate _ hp ih =>
    obtain ⟨h1, h2⟩ := populateStrip_keeps_cache _ _ _ _ _ _ hp k d v ih.1
    exact ⟨h1, h2.trans ih.2⟩
  | faces _ _ ih => exact ih

/-- C2: when populateStrip resolves a strip end to a grid edge (`c0`, `dir`) that is in
bounds (the edge cache holds a block for `c0`, as it does for every in-bounds index after
initialize), has defined samples at both ends and no cached vertex yet, it appends exactly one
vertex, gives the end the new vertex id and records it in the edge cache; every later
request in the run that resolves to the same grid index and axis returns that same id
and leaves the state (so the vertex list) unchanged. -/
theorem C2_no_duplicate_vertices (a : AlgCMS) (strip : Strip) (inds : List Index3D) (index : Nat)
    (dir : Int) (c0 c1 : Index3D)
    (hres : resolveCrossing a.sampleData strip inds index = some (dir, c0, c1))
    (hblk : (a.edgeData.getValueAt c0).isSome)
    (hdef : (a.sampleData.getValueAt c0).isSome ∧ (a.sampleData.getValueAt c1).isSome)
    (hfirst : cachedVertex a.edgeData c0 dir = none) :
    ∃ b s, populateStrip a strip inds index = some (b, s) ∧
      b.vertices.length = a.vertices.length + 1 ∧
      getPair s.data index = (a.vertices.length : Int) ∧
      cachedVertex b.edgeData c0 dir = some (a.vertices.length : Int) ∧
      ∀ (d : AlgCMS), LaterInRun b d →
        ∀ (strip1 : Strip) (inds1 : List Index3D) (index1 : Nat) (c2 : Index3D),
          resolveCrossing d.sampleData strip1 inds1 index1 = some (dir, c0, c2) →
          ∃ s1, populateStrip d strip1 inds1 index1 = some (d, s1) ∧
            getPair s1.data index1 = (a.vertices.length : Int) := by
  have hdir : ∃ ix, ((a.edgeData.getValueAt c0).getD (newEdgeBlock false)).edgeIndices.set dir
      (a.vertices.length : Int) = some ix := by
    unfold resolveCrossing at hres
    cases hv : VERTEX_MAP[(getPair strip.edge index).toNat]? with
    | none => simp [hv] at hres
    | some vp =>
      obtain ⟨v0, v1⟩ := vp
      simp only [hv] at hres
      split_ifs at hres
      cases hi0 : inds[v0]? with
      | none => simp [hi0] at hres
      | some ind0 =>
        cases hi1 : inds[v1]? with
        | none => simp [hi0, hi1] at hres
        | some ind1 =>
          simp only [hi0, hi1] at hres
          cases hsc : exactSignChangeIndex a.sampleData (getEdgesBetwixt ind0 ind1).2
              (getEdgesBetwixt ind0 ind1).1 ind0 ind1 with
          | none => simp [hsc] at hres
          | some sc =>
            simp only [hsc] at hres
            cases hs0 : ind0.set (getEdgesBetwixt ind0 ind1).1 sc with
            | none => simp [hs0] at hres
            | some q0 =>
              cases hs1 : ind0.set (getEdgesBetwixt ind0 ind1).1 (sc + 1) with
              | none => simp [hs0, hs1] at hres
              | some q1 =>
                simp only [hs0, hs1, Option.some.injEq, Prod.mk.injEq] at hres
                obtain ⟨hd, _, _⟩ := hres
                rw [← hd]
                unfold Index3D.set at hs0 ⊢
                split_ifs at hs0 ⊢ <;> exact ⟨_, rfl⟩
  obtain ⟨ix, hix⟩ := hdir
  obtain ⟨val0, h0⟩ := Option.isSome_iff_exists.1 hdef.1
  obtain ⟨val1, h1⟩ := Option.isSome_iff_exists.1 hdef.2
  obtain ⟨stored, hstored⟩ := Option.isSome_iff_exists.1 hblk
  have hin : a.edgeData.inBounds c0 = true := by
    unfold Array3D.getValueAt at hstored
    by_contra hne
    rw [if_neg hne] at hstored
    cases hstored
  have hrec : recordEdge a.edgeData c0 ix = a.edgeData.setValueAt c0 ⟨false, ix⟩ := by
    unfold recordEdge; rw [hstored]
  have hpop : populateStrip a strip inds index =
      some ({ a with
                vertices := a.vertices ++ [crossingVertex a c0 c1 val0 val1],
                edgeData := a.edgeData.setValueAt c0 ⟨false, ix⟩ },
            strip.setEnd index (a.vertices.length : Int) c0 dir) := by
    unfold populateStrip
    simp only [hres, hfirst]
    unfold makeVertex
    simp only [h0, h1, hix, hrec]
  have hget := Index3D.get_set _ _ dir dir _ hix
  rw [if_pos rfl] at hget
  have hcache : cachedVertex (a.edgeData.setValueAt c0 ⟨false, ix⟩) c0 dir =
      some (a.vertices.length : Int) := by
    rw [cachedVertex_some_iff]
    refine ⟨⟨false, ix⟩, ?_, rfl, hget, by omega⟩
    rw [Array3D.getValueAt_setValueAt, if_pos ⟨hin, hin, rfl⟩]
  refine ⟨_, _, hpop, by simp, ?_, hcache, ?_⟩
  · unfold Strip.setEnd getPair setPair
    by_cases hi : index = 0 <;> simp [hi]
  · intro d hlater strip1 inds1 index1 c2 hres1
    obtain ⟨hc, _⟩ := laterInRun_keeps_cache hlater c0 dir _ hcache
    refine ⟨strip1.setEnd index1 (a.vertices.length : Int) c0 dir, ?_, ?_⟩
    · unfold populateStrip
      simp only [hres1, hc]
    · unfold Strip.setEnd getPair setPair
      by_cases hi : index1 = 0 <;> simp [hi]

theorem dartState_tessInv : TessInv dartState := by
  refine ⟨?_, by decide, ?_⟩
  · intro cellId component hc id hid
    have hlen : (dartState.vertices.length : Int) = 4 := rfl
    rw [hlen]
    by_cases h0 : cellId = 0
    · subst h0
      have : component = [0, 1, 2, 3] := by simpa [dartState] using hc
      subst this
      simp only [List.mem_cons, List.mem_singleton, List.not_mem_nil, or_false] at hid
      rcases hid with h | h | h | h <;> subst h <;> decide
    · have : component ∈ ([] : List (List Int)) := by simpa [dartState, h0] using hc
      cases this
  · intro id hid; cases hid

/-- C1 (witness): the theorem at the dart state and the one-leaf tree. -/
theorem C1_mesh_well_formed_witness :
    TessInv dartState ∧
    ∃ b, tessellationTraversal dartState oneLeafTree = some b ∧
      (createMesh b).wellFormed b.vertices :=
  ⟨dartState_tessInv, C1_mesh_well_formed dartState oneLeafTree dartState_tessInv⟩

/-- C2 (witness): the first request for the grid edge from (0,0,0) along x on the small
grid. -/
theorem C2_no_duplicate_vertices_witness :
    ∃ b s, populateStrip smallState (newStrip false 0 2) smallFaceInds 0 = some (b, s) ∧
      b.vertices.length = smallState.vertices.length + 1 ∧
      getPair s.data 0 = (smallState.vertices.length : Int) ∧
      cachedVertex b.edgeData ⟨0, 0, 0⟩ 0 = some (smallState.vertices.length : Int) ∧
      ∀ (d : AlgCMS), LaterInRun b d →
        ∀ (strip1 : Strip) (inds1 : List Index3D) (index1 : Nat) (c2 : Index3D),
          resolveCrossing d.sampleData strip1 inds1 index1 = some (0, ⟨0, 0, 0⟩, c2) →
          ∃ s1, populateStrip d strip1 inds1 index1 = some (d, s1) ∧
            getPair s1.data index1 = (smallState.vertices.length : Int) :=
  C2_no_duplicate_vertices smallState (newStrip false 0 2) smallFaceInds 0 0 ⟨0, 0, 0⟩ ⟨1, 0, 0⟩
    (by decide!) (by decide!) (by decide!) (by decide!)

/-- C5 (witness): the root of the octree of levels 2 and 3 on the 9 x 9 x 9 grid. -/
theorem C5_children_cover_witness :
    (octUnsampled.maxLvl ≤ 30 ∧
      octUnsampled.samples = ⟨2 ^ octUnsampled.maxLvl.toNat + 1, 2 ^ octUnsampled.maxLvl.toNat + 1,
        2 ^ octUnsampled.maxLvl.toNat + 1⟩ ∧
      makeStructure octUnsampled ∈ (makeStructure octUnsampled).subtrees ∧
      (makeStructure octUnsampled).subdivided ∧
      (makeStructure octUnsampled).cell.subdivLvl < octUnsampled.maxLvl) ∧
    ChildrenCover (makeStructure octUnsampled) :=
  ⟨⟨by decide, by decide, OctTree.self_mem_subtrees _, makeStructure_kids_ne_nil _, by decide⟩,
   C5_children_cover octUnsampled (by decide) (by decide) _ (OctTree.self_mem_subtrees _)
     (makeStructure_kids_ne_nil _) (by decide)⟩

/-! ## Array3D as an array over in-bounds triples -/

theorem Array3D.inBounds_iff {α : Type} (a : Array3D α) (p : Index3D) :
    a.inBounds p = true ↔
      (0 ≤ p.x ∧ p.x < a.indices.x) ∧ (0 ≤ p.y ∧ p.y < a.indices.y) ∧
      (0 ≤ p.z ∧ p.z < a.indices.z) := by
  unfold Array3D.inBounds
  simp only [Bool.not_eq_true', Bool.or_eq_false_iff, decide_eq_false_iff_not, not_le, not_lt,
    ge_iff_le]
  constructor
  · rintro ⟨⟨⟨⟨⟨h1, h2⟩, h3⟩, h4⟩, h5⟩, h6⟩; exact ⟨⟨h4, h1⟩, ⟨h5, h2⟩, ⟨h6, h3⟩⟩
  · rintro ⟨⟨h4, h1⟩, ⟨h5, h2⟩, ⟨h6, h3⟩⟩; exact ⟨⟨⟨⟨⟨h1, h2⟩, h3⟩, h4⟩, h5⟩, h6⟩

theorem flat_injective (ny nz x y z x1 y1 z1 : Int)
    (hy : 0 ≤ y ∧ y < ny) (hz : 0 ≤ z ∧ z < nz) (hy1 : 0 ≤ y1 ∧ y1 < ny) (hz1 : 0 ≤ z1 ∧ z1 < nz)
    (h : (x * ny + y) * nz + z = (x1 * ny + y1) * nz + z1) : x = x1 ∧ y = y1 ∧ z = z1 := by
  have hnz : 0 < nz := by omega
  have hny : 0 < ny := by omega
  have key : ∀ (n a b c d : Int), 0 < n → 0 ≤ b → b < n → 0 ≤ d → d < n →
      a * n + b = c * n + d → a = c ∧ b = d := by
    intro n a b c d hn hb0 hb hd0 hd he
    have hac : a = c := by
      by_contra hne
      rcases lt_or_gt_of_ne hne with hlt | hgt
      · have : (a + 1) * n ≤ c * n := Int.mul_le_mul_of_nonneg_right (by omega) (le_of_lt hn)
        nlinarith
      · have : (c + 1) * n ≤ a * n := Int.mul_le_mul_of_nonneg_right (by omega) (le_of_lt hn)
        nlinarith
    subst hac
    exact ⟨rfl, by omega⟩
  obtain ⟨h1, h2⟩ := key nz _ z _ z1 hnz hz.1 hz.2 hz1.1 hz1.2 h
  obtain ⟨h3, h4⟩ := key ny x y x1 y1 hny hy.1 hy.2 hy1.1 hy1.2 h1
  exact ⟨h3, h4, h2⟩

theorem Array3D.getIndexAt_injective {α : Type} (a : Array3D α) (p q : Index3D)
    (hp : a.inBounds p = true) (hq : a.inBounds q = true)
    (h : a.getIndexAt p = a.getIndexAt q) : p = q := by
  rw [Array3D.inBounds_iff] at hp hq
  unfold Array3D.getIndexAt at h
  obtain ⟨h1, h2, h3⟩ := flat_injective _ _ _ _ _ _ _ _ hp.2.1 hp.2.2 hq.2.1 hq.2.2 h
  cases p; cases q; simp_all

theorem Array3D.getIndexAt_range {α : Type} (a : Array3D α) (p : Index3D)
    (hp : a.inBounds p = true) :
    0 ≤ a.getIndexAt p ∧ a.getIndexAt p < a.indices.x * a.indices.y * a.indices.z := by
  rw [Array3D.inBounds_iff] at hp
  obtain ⟨⟨hx0, hx⟩, ⟨hy0, hy⟩, ⟨hz0, hz⟩⟩ := hp
  unfold Array3D.getIndexAt
  have h1 : 0 ≤ p.x * a.indices.y := Int.mul_nonneg hx0 (by omega)
  have h2 : 0 ≤ (p.x * a.indices.y + p.y) * a.indices.z := Int.mul_nonneg (by omega) (by omega)
  refine ⟨by omega, ?_⟩
  have h3 : (p.x + 1) * a.indices.y ≤ a.indices.x * a.indices.y :=
    Int.mul_le_mul_of_nonneg_right (by omega) (by omega)
  have h4 : (p.x * a.indices.y + p.y + 1) * a.indices.z ≤ a.indices.x * a.indices.y * a.indices.z :=
    Int.mul_le_mul_of_nonneg_right (by nlinarith) (by omega)
  nlinarith

/-- C19: for an in-bounds position, getValueAt after setValueAt returns the value set there
and what it returned before at every other in-bounds position; the flat index is injective
on in-bounds triples and lies in `[0, Nx*Ny*Nz)`; out of bounds, setValueAt changes nothing
and getValueAt is undefined. -/
theorem C19_array3D_get_set {α : Type} (a : Array3D α) (p : Index3D) (v : α) :
    (a.inBounds p = true →
      (a.setValueAt p v).getValueAt p = some v ∧
      (∀ q, a.inBounds q = true → q ≠ p → (a.setValueAt p v).getValueAt q = a.getValueAt q) ∧
      (∀ q, a.inBounds q = true → a.getIndexAt q = a.getIndexAt p → q = p) ∧
      (0 ≤ a.getIndexAt p ∧ a.getIndexAt p < a.indices.x * a.indices.y * a.indices.z)) ∧
    (a.inBounds p = false → a.setValueAt p v = a ∧ a.getValueAt p = none) := by
  constructor
  · intro hp
    refine ⟨?_, ?_, ?_, Array3D.getIndexAt_range a p hp⟩
    · rw [Array3D.getValueAt_setValueAt, if_pos ⟨hp, hp, rfl⟩]
    · intro q hq hne
      rw [Array3D.getValueAt_setValueAt, if_neg]
      rintro ⟨_, _, h⟩
      exact hne (Array3D.getIndexAt_injective a q p hq hp h)
    · intro q hq h
      exact Array3D.getIndexAt_injective a q p hq hp h
  · intro hp
    constructor
    · unfold Array3D.setValueAt; simp [hp]
    · unfold Array3D.getValueAt; simp [hp]

/-- C19 (witness): setting the sample at (1, 0, 1) of the small grid. -/
theorem C19_array3D_get_set_witness :
    smallGrid.inBounds ⟨1, 0, 1⟩ = true ∧
    (smallGrid.setValueAt ⟨1, 0, 1⟩ 7).getValueAt ⟨1, 0, 1⟩ = some 7 :=
  ⟨by decide, ((C19_array3D_get_set smallGrid ⟨1, 0, 1⟩ 7).1 (by decide)).1⟩

theorem signCode_lt (sampleData : Array3D ℚ) (inds : List Index3D) :
    signCode sampleData inds < 16 := by
  unfold signCode
  split_ifs <;> omega

theorem makeFaceSegments_eq (a : AlgCMS) (inds : List Index3D) (face : FaceRef) :
    makeFaceSegments a inds face =
      match faceStripEdges (signCode a.sampleData inds) with
      | none => none
      | some strips => emitStrips inds face a 0 strips := by
  have hlt := signCode_lt a.sampleData inds
  unfold makeFaceSegments
  generalize signCode a.sampleData inds = c at hlt ⊢
  interval_cases c <;>
    simp [faceStripEdges, EDGE_MAP, emitStrips, Option.bind] <;>
    (cases makeStrip a _ _ inds face 0 <;> simp <;>
      (try (rename_i a1; cases makeStrip a1 _ _ inds face 1 <;> simp)))

theorem faceStripEdges_table (c : Nat) (hc : c < 16) :
    ∃ strips, faceStripEdges c = some strips ∧
      (∀ e ∈ stripEndpoints strips, 0 ≤ e ∧ e < 4) ∧
      (∀ e : Nat, e < 4 →
        (stripEndpoints strips).count (e : Int) = if edgeChangesSign c e then 1 else 0) ∧
      (∀ s ∈ strips, s.1 ≠ s.2) := by
  interval_cases c <;> exact ⟨_, rfl, by decide, by decide, by decide⟩

/-- C13: for every face and every sample state, the strips that makeFaceSegments makes are
those of `faceStripEdges` at the face's sign code; they reference only face edges 0..3,
reference each face edge whose two corners (VERTEX_MAP) have different sign bits exactly
once and every other face edge not at all, and the two edges of every strip are distinct. -/
theorem C13_strip_endpoints (a : AlgCMS) (inds : List Index3D) (face : FaceRef) :
    ∃ strips, faceStripEdges (signCode a.sampleData inds) = some strips ∧
      makeFaceSegments a inds face = emitStrips inds face a 0 strips ∧
      (∀ e ∈ stripEndpoints strips, 0 ≤ e ∧ e < 4) ∧
      (∀ e : Nat, e < 4 →
        (stripEndpoints strips).count (e : Int) =
          if edgeChangesSign (signCode a.sampleData inds) e then 1 else 0) ∧
      (∀ s ∈ strips, s.1 ≠ s.2) := by
  obtain ⟨strips, h1, h2, h3, h4⟩ :=
    faceStripEdges_table (signCode a.sampleData inds) (signCode_lt _ _)
  refine ⟨strips, h1, ?_, h2, h3, h4⟩
  rw [makeFaceSegments_eq, h1]

/-! ## Sampling -/

theorem mem_gridPoints (samples p : Index3D) :
    p ∈ gridPoints samples ↔
      (0 ≤ p.x ∧ p.x < samples.x) ∧ (0 ≤ p.y ∧ p.y < samples.y) ∧ (0 ≤ p.z ∧ p.z < samples.z) := by
  unfold gridPoints
  constructor
  · intro h
    obtain ⟨i, hi, h1⟩ := List.mem_flatMap.1 h
    obtain ⟨j, hj, h2⟩ := List.mem_flatMap.1 h1
    obtain ⟨k, hk, h3⟩ := List.mem_map.1 h2
    have hi1 := (Int.lt_toNat).1 (List.mem_range.1 hi)
    have hj1 := (Int.lt_toNat).1 (List.mem_range.1 hj)
    have hk1 := (Int.lt_toNat).1 (List.mem_range.1 hk)
    subst h3
    simp only
    omega
  · rintro ⟨⟨hx0, hx⟩, ⟨hy0, hy⟩, ⟨hz0, hz⟩⟩
    refine List.mem_flatMap.2 ⟨p.x.toNat,
      List.mem_range.2 ((Int.toNat_lt_toNat (by omega)).2 hx), ?_⟩
    refine List.mem_flatMap.2 ⟨p.y.toNat,
      List.mem_range.2 ((Int.toNat_lt_toNat (by omega)).2 hy), ?_⟩
    refine List.mem_map.2 ⟨p.z.toNat,
      List.mem_range.2 ((Int.toNat_lt_toNat (by omega)).2 hz), ?_⟩
    rw [Int.toNat_of_nonneg hx0, Int.toNat_of_nonneg hy0, Int.toNat_of_nonneg hz0]

theorem Array3D.setValueAt_indices {α : Type} (a : Array3D α) (p : Index3D) (v : α) :
    (a.setValueAt p v).indices = a.indices ∧ (a.setValueAt p v).bbox = a.bbox := by
  unfold Array3D.setValueAt
  split_ifs <;> exact ⟨rfl, rfl⟩

theorem fold_setValueAt {α : Type} (g : Index3D → α) (pts : List Index3D) (arr : Array3D α) :
    (pts.foldl (fun e p => e.setValueAt p (g p)) arr).indices = arr.indices ∧
    (pts.foldl (fun e p => e.setValueAt p (g p)) arr).bbox = arr.bbox ∧
    ∀ q, (pts.foldl (fun e p => e.setValueAt p (g p)) arr).getValueAt q =
      if q ∈ pts ∧ arr.inBounds q = true then some (g q) else arr.getValueAt q := by
  induction pts generalizing arr with
  | nil => exact ⟨rfl, rfl, fun q => by simp⟩
  | cons p rest ih =>
    obtain ⟨h1, h2, h3⟩ := ih (arr.setValueAt p (g p))
    obtain ⟨hi, hb⟩ := Array3D.setValueAt_indices arr p (g p)
    refine ⟨by rw [List.foldl_cons, h1, hi], by rw [List.foldl_cons, h2, hb], ?_⟩
    intro q
    rw [List.foldl_cons, h3 q]
    have hin : (arr.setValueAt p (g p)).inBounds q = arr.inBounds q := by
      unfold Array3D.inBounds; rw [hi]
    rw [hin, Array3D.getValueAt_setValueAt]
    by_cases hq : arr.inBounds q = true
    · by_cases hrest : q ∈ rest
      · rw [if_pos ⟨hrest, hq⟩, if_pos ⟨List.mem_cons_of_mem _ hrest, hq⟩]
      · rw [if_neg (fun h => hrest h.1)]
        by_cases hqp : q = p
        · subst hqp
          rw [if_pos ⟨hq, hq, rfl⟩, if_pos ⟨List.mem_cons_self _ _, hq⟩]
        · have hne : ¬ (arr.inBounds p = true ∧ arr.inBounds q = true ∧
              arr.getIndexAt q = arr.getIndexAt p) := by
            rintro ⟨hp, _, hflat⟩
            exact hqp (Array3D.getIndexAt_injective arr q p hq hp hflat)
          rw [if_neg hne, if_neg]
          rintro ⟨hmem, _⟩
          rcases List.mem_cons.1 hmem with h | h
          · exact hqp h
          · exact hrest h
    · rw [if_neg (fun h => hq h.2), if_neg (fun h => hq h.2.1), if_neg (fun h => hq h.2)]

theorem foldlOpt_sampleStep_some {α : Type} (evaluate : ℚ → ℚ → ℚ → Option α)
    (container : Range ℚ × Range ℚ × Range ℚ) (samples : Index3D) (g : Index3D → α)
    (pts : List Index3D)
    (hg : ∀ p ∈ pts, evaluate (samplePosition container samples p).x
      (samplePosition container samples p).y (samplePosition container samples p).z = some (g p))
    (arr : Array3D α) (n : Nat) :
    foldlOpt (sampleStep evaluate container samples) (arr, n) pts =
      some (pts.foldl (fun e p => e.setValueAt p (g p)) arr, n + pts.length) := by
  induction pts generalizing arr n with
  | nil => rfl
  | cons p rest ih =>
    have hp := hg p (List.mem_cons_self _ _)
    simp only [foldlOpt, sampleStep, hp, List.foldl_cons, List.length_cons]
    rw [ih (fun q hq => hg q (List.mem_cons_of_mem _ hq))]
    congr 2
    omega

theorem foldlOpt_sampleStep_none {α : Type} (evaluate : ℚ → ℚ → ℚ → Option α)
    (container : Range ℚ × Range ℚ × Range ℚ) (samples : Index3D)
    (pts : List Index3D) (p : Index3D) (hp : p ∈ pts)
    (hthrow : evaluate (samplePosition container samples p).x
      (samplePosition container samples p).y (samplePosition container samples p).z = none)
    (s : Array3D α × Nat) :
    foldlOpt (sampleStep evaluate container samples) s pts = none := by
  induction pts generalizing s with
  | nil => cases hp
  | cons q rest ih =>
    simp only [foldlOpt]
    cases hs : sampleStep evaluate container samples s q with
    | none => rfl
    | some s1 =>
      simp only
      rcases List.mem_cons.1 hp with h | h
      · subst h
        unfold sampleStep at hs
        rw [hthrow] at hs
        cases hs
      · exact ih h s1

theorem sampleFunction_small (a : AlgCMS)
    (h : a.samples.x ≤ 8 ∨ a.samples.y ≤ 8 ∨ a.samples.z ≤ 8) :
    a.sampleFunction = some (false, a, 0) := by
  unfold AlgCMS.sampleFunction sampleGrid
  rw [if_pos h]

theorem sampleFunction_large (a : AlgCMS)
    (h : ¬ (a.samples.x ≤ 8 ∨ a.samples.y ≤ 8 ∨ a.samples.z ≤ 8)) :
    a.sampleFunction =
      some (true,
        { a with
          sampleData := (gridPoints a.samples).foldl
            (fun e p => e.setValueAt p
              (a.fn (samplePosition a.container a.samples p).x
                (samplePosition a.container a.samples p).y
                (samplePosition a.container a.samples p).z)) a.sampleData,
          sampled := true },
        (gridPoints a.samples).length) := by
  unfold AlgCMS.sampleFunction sampleGrid
  rw [if_neg h, foldlOpt_sampleStep_some _ _ _
    (fun p => a.fn (samplePosition a.container a.samples p).x
      (samplePosition a.container a.samples p).y (samplePosition a.container a.samples p).z)
    _ (fun _ _ => rfl)]
  simp

/-- C15: sampleFunction always returns; it returns false exactly when some axis has at
most 8 samples, and then it has called the field zero times and left the whole state (the
samples and `sampled`) as it was; otherwise it returns true with `sampled` set, and, the
sample array having the dimensions of the grid, every in-bounds entry holds a value. -/
theorem C15_sampleFunction_fails_fast (a : AlgCMS) (hdims : a.sampleData.indices = a.samples) :
    ∃ ok b count, a.sampleFunction = some (ok, b, count) ∧
      (ok = false ↔ (a.samples.x ≤ 8 ∨ a.samples.y ≤ 8 ∨ a.samples.z ≤ 8)) ∧
      (ok = false → count = 0 ∧ b = a) ∧
      (ok = true → b.sampled = true ∧
        ∀ p, b.sampleData.inBounds p = true → (b.sampleData.getValueAt p).isSome = true) := by
  by_cases h : a.samples.x ≤ 8 ∨ a.samples.y ≤ 8 ∨ a.samples.z ≤ 8
  · exact ⟨false, a, 0, sampleFunction_small a h, by simp [h], fun _ => ⟨rfl, rfl⟩,
      fun hc => by cases hc⟩
  · refine ⟨true, _, _, sampleFunction_large a h, by simp [h], fun hc => (by cases hc),
      fun _ => ⟨rfl, ?_⟩⟩
    intro p hp
    simp only at hp ⊢
    obtain ⟨h1, _, h3⟩ := fold_setValueAt
      (fun p => a.fn (samplePosition a.container a.samples p).x
        (samplePosition a.container a.samples p).y (samplePosition a.container a.samples p).z)
      (gridPoints a.samples) a.sampleData
    have hin : a.sampleData.inBounds p = true := by
      unfold Array3D.inBounds at hp ⊢
      rw [h1] at hp
      exact hp
    have hmem : p ∈ gridPoints a.samples := by
      rw [mem_gridPoints, ← hdims]
      exact (Array3D.inBounds_iff _ _).1 hin
    rw [h3 p, if_pos ⟨hmem, hin⟩]
    rfl

/-- C18: after a successful sampleFunction (more than 8 samples on each axis, the sample
array having the dimensions of the grid and the container as its box), every in-bounds
entry holds the field value at `getPositionAt` of its index; `getPositionAt` is
`lower + (upper - lower) * (index / (N - 1))` on each axis, index 0 is the lower corner
of the box and index `N - 1` its upper corner. -/
theorem C18_sampling_lattice (a : AlgCMS) (hdims : a.sampleData.indices = a.samples)
    (hbox : a.sampleData.bbox = a.container)
    (hbig : 8 < a.samples.x ∧ 8 < a.samples.y ∧ 8 < a.samples.z) :
    ∃ b count, a.sampleFunction = some (true, b, count) ∧
      (∀ p, b.sampleData.inBounds p = true →
        b.sampleData.getValueAt p =
          some (a.fn (b.sampleData.getPositionAt p).x (b.sampleData.getPositionAt p).y
            (b.sampleData.getPositionAt p).z)) ∧
      (∀ p, b.sampleData.getPositionAt p =
        ⟨a.container.1.lower +
           (a.container.1.upper - a.container.1.lower) * ((p.x : ℚ) / ((a.samples.x : ℚ) - 1)),
         a.container.2.1.lower +
           (a.container.2.1.upper - a.container.2.1.lower) * ((p.y : ℚ) / ((a.samples.y : ℚ) - 1)),
         a.container.2.2.lower +
           (a.container.2.2.upper - a.container.2.2.lower) *
             ((p.z : ℚ) / ((a.samples.z : ℚ) - 1))⟩) ∧
      b.sampleData.getPositionAt ⟨0, 0, 0⟩ =
        ⟨a.container.1.lower, a.container.2.1.lower, a.container.2.2.lower⟩ ∧
      b.sampleData.getPositionAt ⟨a.samples.x - 1, a.samples.y - 1, a.samples.z - 1⟩ =
        ⟨a.container.1.upper, a.container.2.1.upper, a.container.2.2.upper⟩ := by
  have hnot : ¬ (a.samples.x ≤ 8 ∨ a.samples.y ≤ 8 ∨ a.samples.z ≤ 8) := by omega
  obtain ⟨h1, h2, h3⟩ := fold_setValueAt
    (fun p => a.fn (samplePosition a.container a.samples p).x
      (samplePosition a.container a.samples p).y (samplePosition a.container a.samples p).z)
    (gridPoints a.samples) a.sampleData
  have hpos : ∀ p, ((gridPoints a.samples).foldl
      (fun e p => e.setValueAt p
        (a.fn (samplePosition a.container a.samples p).x
          (samplePosition a.container a.samples p).y
          (samplePosition a.container a.samples p).z)) a.sampleData).getPositionAt p =
      samplePosition a.container a.samples p := by
    intro p
    unfold Array3D.getPositionAt
    rw [h1, h2, hdims, hbox]
    rfl
  refine ⟨_, _, sampleFunction_large a hnot, ?_, ?_, ?_, ?_⟩
  · intro p hp
    simp only at hp ⊢
    have hin : a.sampleData.inBounds p = true := by
      unfold Array3D.inBounds at hp ⊢
      rw [h1] at hp
      exact hp
    have hmem : p ∈ gridPoints a.samples := by
      rw [mem_gridPoints, ← hdims]
      exact (Array3D.inBounds_iff _ _).1 hin
    rw [h3 p, if_pos ⟨hmem, hin⟩, hpos p]
  · intro p
    simp only
    rw [hpos p]
    rfl
  · simp only
    rw [hpos]
    unfold samplePosition
    simp
  · simp only
    rw [hpos]
    unfold samplePosition
    have hx : ((a.samples.x : ℚ) - 1) ≠ 0 := by
      have : (8 : ℚ) < (a.samples.x : ℚ) := by exact_mod_cast hbig.1
      linarith
    have hy : ((a.samples.y : ℚ) - 1) ≠ 0 := by
      have : (8 : ℚ) < (a.samples.y : ℚ) := by exact_mod_cast hbig.2.1
      linarith
    have hz : ((a.samples.z : ℚ) - 1) ≠ 0 := by
      have : (8 : ℚ) < (a.samples.z : ℚ) := by exact_mod_cast hbig.2.2
      linarith
    simp only [Int.cast_sub, Int.cast_one, div_self hx, div_self hy, div_self hz, mul_one]
    congr 1 <;> ring

/-- C18 (witness): the 9 x 9 x 9 grid over `[-1, 1]^3`. -/
theorem C18_sampling_lattice_witness :
    (nineState.sampleData.indices = nineState.samples ∧
      nineState.sampleData.bbox = nineState.container ∧
      8 < nineState.samples.x ∧ 8 < nineState.samples.y ∧ 8 < nineState.samples.z) ∧
    ∃ b count, nineState.sampleFunction = some (true, b, count) ∧
      (∀ p, b.sampleData.inBounds p = true →
        b.sampleData.getValueAt p =
          some (nineState.fn (b.sampleData.getPositionAt p).x (b.sampleData.getPositionAt p).y
            (b.sampleData.getPositionAt p).z)) ∧
      (∀ p, b.sampleData.getPositionAt p =
        ⟨nineState.container.1.lower +
           (nineState.container.1.upper - nineState.container.1.lower) *
             ((p.x : ℚ) / ((nineState.samples.x : ℚ) - 1)),
         nineState.container.2.1.lower +
           (nineState.container.2.1.upper - nineState.container.2.1.lower) *
             ((p.y : ℚ) / ((nineState.samples.y : ℚ) - 1)),
         nineState.container.2.2.lower +
           (nineState.container.2.2.upper - nineState.container.2.2.lower) *
             ((p.z : ℚ) / ((nineState.samples.z : ℚ) - 1))⟩) ∧
      b.sampleData.getPositionAt ⟨0, 0, 0⟩ =
        ⟨nineState.container.1.lower, nineState.container.2.1.lower,
          nineState.container.2.2.lower⟩ ∧
      b.sampleData.getPositionAt
          ⟨nineState.samples.x - 1, nineState.samples.y - 1, nineState.samples.z - 1⟩ =
        ⟨nineState.container.1.upper, nineState.container.2.1.upper,
          nineState.container.2.2.upper⟩ :=
  ⟨⟨rfl, rfl, by decide, by decide, by decide⟩,
   C18_sampling_lattice nineState rfl rfl ⟨by decide, by decide, by decide⟩⟩

/-- C15 (witness): the state with 9 samples per axis. -/
theorem C15_sampleFunction_fails_fast_witness :
    nineState.sampleData.indices = nineState.samples ∧
    ∃ ok b count, nineState.sampleFunction = some (ok, b, count) ∧
      (ok = false ↔
        (nineState.samples.x ≤ 8 ∨ nineState.samples.y ≤ 8 ∨ nineState.samples.z ≤ 8)) ∧
      (ok = false → count = 0 ∧ b = nineState) ∧
      (ok = true → b.sampled = true ∧
        ∀ p, b.sampleData.inBounds p = true → (b.sampleData.getValueAt p).isSome = true) :=
  ⟨rfl, C15_sampleFunction_fails_fast nineState rfl⟩

/-- C17 (counterexample): on the 9 x 9 x 9 grid, a field that returns a non-finite
number at every sample position does not make sampleFunction abort: it returns true, and
the non-finite number is stored as the sample at index (0, 0, 0). -/
theorem C17_nonFinite_sample_is_stored :
    nonFiniteField (samplePosition defaultContainer ⟨9, 9, 9⟩ ⟨0, 0, 0⟩).x
        (samplePosition defaultContainer ⟨9, 9, 9⟩ ⟨0, 0, 0⟩).y
        (samplePosition defaultContainer ⟨9, 9, 9⟩ ⟨0, 0, 0⟩).z = some FieldValue.nonFinite ∧
    ∃ data count,
      sampleGrid nonFiniteField defaultContainer ⟨9, 9, 9⟩
          { indices := ⟨9, 9, 9⟩, data := fun _ => none, bbox := defaultContainer } =
        some (true, data, count) ∧
      data.getValueAt ⟨0, 0, 0⟩ = some FieldValue.nonFinite := by
  refine ⟨rfl,
    (gridPoints ⟨9, 9, 9⟩).foldl (fun e p => e.setValueAt p FieldValue.nonFinite)
      { indices := ⟨9, 9, 9⟩, data := fun _ => none, bbox := defaultContainer },
    0 + (gridPoints ⟨9, 9, 9⟩).length, ?_, ?_⟩
  · unfold sampleGrid
    rw [if_neg (by decide), foldlOpt_sampleStep_some nonFiniteField _ _
      (fun _ => FieldValue.nonFinite) _ (fun _ _ => rfl)]
  · rw [(fold_setValueAt (fun _ => FieldValue.nonFinite) _ _).2.2, if_pos]
    exact ⟨(mem_gridPoints _ _).2 (by decide), by decide⟩

/-- C17 (amended): when the field throws at some grid sample position of a grid with more
than 8 samples on each axis, sampleFunction does not return: the run ends inside the
sampling loops, which are the first step of extractSurface. -/
theorem C17_throwing_field_aborts_sampling {α : Type} (evaluate : ℚ → ℚ → ℚ → Option α)
    (container : Range ℚ × Range ℚ × Range ℚ) (samples : Index3D) (sampleData : Array3D α)
    (hbig : 8 < samples.x ∧ 8 < samples.y ∧ 8 < samples.z) (p : Index3D)
    (hp : (0 ≤ p.x ∧ p.x < samples.x) ∧ (0 ≤ p.y ∧ p.y < samples.y) ∧ (0 ≤ p.z ∧ p.z < samples.z))
    (hthrow : evaluate (samplePosition container samples p).x
      (samplePosition container samples p).y (samplePosition container samples p).z = none) :
    sampleGrid evaluate container samples sampleData = none := by
  unfold sampleGrid
  rw [if_neg (by omega),
    foldlOpt_sampleStep_none evaluate container samples _ p ((mem_gridPoints _ _).2 hp) hthrow]

/-- C17 (witness): the field that throws where `x + y + z > 2`, at the last sample of the
9 x 9 x 9 grid over `[-1, 1]^3`. -/
theorem C17_throwing_field_aborts_sampling_witness :
    ((8 : Int) < 9 ∧ (8 : Int) < 9 ∧ (8 : Int) < 9) ∧
    throwingField (samplePosition defaultContainer ⟨9, 9, 9⟩ ⟨8, 8, 8⟩).x
      (samplePosition defaultContainer ⟨9, 9, 9⟩ ⟨8, 8, 8⟩).y
      (samplePosition defaultContainer ⟨9, 9, 9⟩ ⟨8, 8, 8⟩).z = none ∧
    sampleGrid throwingField defaultContainer ⟨9, 9, 9⟩
      { indices := ⟨9, 9, 9⟩, data := fun _ => none, bbox := defaultContainer } = none :=
  ⟨by decide, by decide!,
   C17_throwing_field_aborts_sampling throwingField defaultContainer ⟨9, 9, 9⟩ _
     (by decide) ⟨8, 8, 8⟩ (by decide) (by decide!)⟩

/-- C14: `new AlgCMS(fn, null, 2, 32)` succeeds with `octMinLvl = 2` and
`octMaxLvl = 32`, but its grid has 2 samples per axis, not `2^32 + 1`:
`getPowerOfTwo(32)` is `1 << 32`, which is 1. -/
theorem C14_grid_size_at_depth_32 (fn : ℚ → ℚ → ℚ → ℚ) (msqrt : ℚ → ℚ) :
    getPowerOfTwo 32 = 1 ∧
    ∃ a, AlgCMS.create fn msqrt none 2 32 = some a ∧ a.octMinLvl = 2 ∧ a.octMaxLvl = 32 ∧
      a.samples = ⟨2, 2, 2⟩ ∧ a.samples.x ≠ 2 ^ 32 + 1 := by
  refine ⟨by decide, ?_⟩
  have h : AlgCMS.create fn msqrt none 2 32 =
      AlgCMS.initialize fn msqrt false 2 32 defaultContainer ⟨2, 2, 2⟩ := rfl
  rw [h]
  unfold AlgCMS.initialize Array3D.allocate
  rw [if_pos (by decide), if_pos (by decide)]
  exact ⟨_, rfl, rfl, rfl, rfl, (by decide : (2 : Int) ≠ 2 ^ 32 + 1)⟩

/-! ## Component tracing -/

theorem findLink_length (current : Int) (strips : List Strip) (v : Int) (rest : List Strip)
    (h : findLink current strips = some (v, rest)) : rest.length + 1 = strips.length := by
  induction strips generalizing v rest with
  | nil => simp [findLink] at h
  | cons s tl ih =>
    unfold findLink at h
    split_ifs at h with h1 h2
    · simp only [Option.some.injEq, Prod.mk.injEq] at h
      rw [← h.2]; rfl
    · simp only [Option.some.injEq, Prod.mk.injEq] at h
      rw [← h.2]; rfl
    · cases hf : findLink current tl with
      | none => rw [hf] at h; cases h
      | some r =>
        obtain ⟨w, r1⟩ := r
        rw [hf] at h
        simp only [Option.some.injEq, Prod.mk.injEq] at h
        rw [← h.2, List.length_cons, List.length_cons, ih w r1 hf]

theorem findLink_nil (current : Int) : findLink current [] = none := rfl

theorem extendBack_spec (n : Nat) (ring : List Int) (current : Int) (strips : List Strip)
    (hn : strips.length ≤ n) :
    (extendBack n ring current strips).2.length ≤ strips.length ∧
    ring.length ≤ (extendBack n ring current strips).1.length ∧
    ((extendBack n ring current strips).2 = [] ∨
      ∃ cur, findLink cur (extendBack n ring current strips).2 = none) := by
  induction n generalizing ring current strips with
  | zero =>
    have : strips = [] := List.length_eq_zero.1 (Nat.le_zero.1 hn)
    subst this
    exact ⟨le_refl _, le_refl _, Or.inl rfl⟩
  | succ n ih =>
    unfold extendBack
    cases hf : findLink current strips with
    | none => exact ⟨le_refl _, le_refl _, Or.inr ⟨current, hf⟩⟩
    | some r =>
      obtain ⟨v, rest⟩ := r
      have hlen := findLink_length current strips v rest hf
      obtain ⟨h1, h2, h3⟩ := ih (ring ++ [v]) v rest (by omega)
      simp only
      refine ⟨by omega, ?_, h3⟩
      rw [List.length_append] at h2
      omega

theorem extendFront_spec (n : Nat) (ring : List Int) (current : Int) (strips : List Strip)
    (hn : strips.length ≤ n) :
    (extendFront n ring current strips).2.length ≤ strips.length ∧
    ring.length ≤ (extendFront n ring current strips).1.length ∧
    ((extendFront n ring current strips).2 = [] ∨
      ∃ cur, findLink cur (extendFront n ring current strips).2 = none) := by
  induction n generalizing ring current strips with
  | zero =>
    have : strips = [] := List.length_eq_zero.1 (Nat.le_zero.1 hn)
    subst this
    exact ⟨le_refl _, le_refl _, Or.inl rfl⟩
  | succ n ih =>
    unfold extendFront
    cases hf : findLink current strips with
    | none => exact ⟨le_refl _, le_refl _, Or.inr ⟨current, hf⟩⟩
    | some r =>
      obtain ⟨v, rest⟩ := r
      have hlen := findLink_length current strips v rest hf
      obtain ⟨h1, h2, h3⟩ := ih (v :: ring) v rest (by omega)
      simp only
      refine ⟨by omega, ?_, h3⟩
      rw [List.length_cons] at h2
      omega

theorem dropClosing_length (ring : List Int) (h : 2 ≤ ring.length) :
    2 ≤ (dropClosing ring).length := by
  unfold dropClosing
  split_ifs with hc
  · rw [List.length_dropLast]; omega
  · exact h

theorem minStrip_fold_lt (rest : List Strip) (acc : Nat × Nat × Int) (h : acc.2.1 < acc.1) :
    (rest.foldl
      (fun (acc : Nat × Nat × Int) s =>
        if min s.data.1 s.data.2 < acc.2.2 then (acc.1 + 1, acc.1, min s.data.1 s.data.2)
        else (acc.1 + 1, acc.2.1, acc.2.2)) acc).2.1 < acc.1 + rest.length := by
  induction rest generalizing acc with
  | nil => simpa using h
  | cons s tl ih =>
    rw [List.foldl_cons, List.length_cons]
    split_ifs with hc
    · have := ih (acc.1 + 1, acc.1, min s.data.1 s.data.2) (by simp)
      simp only at this
      omega
    · have := ih (acc.1 + 1, acc.2.1, acc.2.2) (by simp only; omega)
      simp only at this
      omega

theorem minStripIdx_lt (strips : List Strip) (h : strips ≠ []) :
    ∃ minIdx, minStripIdx strips = some minIdx ∧ minIdx < strips.length := by
  cases strips with
  | nil => exact absurd rfl h
  | cons s0 rest =>
    refine ⟨_, rfl, ?_⟩
    have := minStrip_fold_lt rest (1, 0, min s0.data.1 s0.data.2) (by simp)
    simp only at this
    rw [List.length_cons]
    omega

theorem linkStrips_some (strips : List Strip) (h : strips ≠ []) :
    ∃ chain rest, linkStrips strips = some (chain, rest) ∧ 2 ≤ chain.length ∧
      rest.length < strips.length := by
  obtain ⟨minIdx, hmin, hlt⟩ := minStripIdx_lt strips h
  obtain ⟨startStrip, hstart⟩ : ∃ s, strips[minIdx]? = some s :=
    ⟨strips[minIdx], List.getElem?_eq_getElem hlt⟩
  have herase : (strips.eraseIdx minIdx).length + 1 = strips.length := by
    rw [List.length_eraseIdx, if_pos hlt]; omega
  obtain ⟨b1, b2, _⟩ := extendBack_spec (strips.eraseIdx minIdx).length
    [startStrip.data.1, startStrip.data.2] startStrip.data.2 (strips.eraseIdx minIdx) (le_refl _)
  obtain ⟨f1, f2, _⟩ := extendFront_spec
    (extendBack (strips.eraseIdx minIdx).length [startStrip.data.1, startStrip.data.2]
      startStrip.data.2 (strips.eraseIdx minIdx)).2.length
    (extendBack (strips.eraseIdx minIdx).length [startStrip.data.1, startStrip.data.2]
      startStrip.data.2 (strips.eraseIdx minIdx)).1
    startStrip.data.1
    (extendBack (strips.eraseIdx minIdx).length [startStrip.data.1, startStrip.data.2]
      startStrip.data.2 (strips.eraseIdx minIdx)).2 (le_refl _)
  cases hls : linkStrips strips with
  | none =>
    unfold linkStrips at hls
    rw [hmin] at hls
    simp only [hstart] at hls
    cases hls
  | some r =>
    obtain ⟨chain, rest⟩ := r
    refine ⟨chain, rest, rfl, ?_, ?_⟩
    · unfold linkStrips at hls
      rw [hmin] at hls
      simp only [hstart, Option.some.injEq, Prod.mk.injEq] at hls
      rw [← hls.1]
      apply dropClosing_length
      simp only [List.length_cons, List.length_nil] at b2
      omega
    · unfold linkStrips at hls
      rw [hmin] at hls
      simp only [hstart, Option.some.injEq, Prod.mk.injEq] at hls
      rw [← hls.2]
      omega

theorem traceLoop_fuel (n : Nat) :
    ∀ (m : Nat) (strips : List Strip) (components : List (List Int)),
      strips.length ≤ n → strips.length ≤ m →
      traceLoop n strips components = traceLoop m strips components := by
  induction n with
  | zero =>
    intro m strips components hn _
    have : strips = [] := List.length_eq_zero.1 (Nat.le_zero.1 hn)
    subst this
    cases m <;> simp [traceLoop]
  | succ n ih =>
    intro m strips components hn hm
    cases m with
    | zero =>
      have : strips = [] := List.length_eq_zero.1 (Nat.le_zero.1 hm)
      subst this
      simp [traceLoop]
    | succ m =>
      unfold traceLoop
      by_cases hpos : strips.length > 0
      · rw [if_pos hpos, if_pos hpos]
        obtain ⟨chain, rest, hl, _, hrest⟩ :=
          linkStrips_some strips (by intro h0; subst h0; simp at hpos)
        rw [hl]
        exact ih m rest _ (by omega) (by omega)
      · rw [if_neg hpos, if_neg hpos]

theorem traceLoop_total (n : Nat) :
    ∀ (strips : List Strip) (components : List (List Int)), strips.length ≤ n →
      ∃ pushed, traceLoop n strips components = some (components ++ pushed, []) ∧
        ∀ c ∈ pushed, 3 ≤ c.length := by
  induction n with
  | zero =>
    intro strips components hn
    have : strips = [] := List.length_eq_zero.1 (Nat.le_zero.1 hn)
    subst this
    exact ⟨[], by simp [traceLoop], fun c hc => by cases hc⟩
  | succ n ih =>
    intro strips components hn
    unfold traceLoop
    by_cases hpos : strips.length > 0
    · rw [if_pos hpos]
      obtain ⟨chain, rest, hl, _, hrest⟩ :=
        linkStrips_some strips (by intro h0; subst h0; simp at hpos)
      rw [hl]
      simp only
      by_cases h3 : chain.length ≥ 3
      · rw [if_pos h3]
        obtain ⟨pushed, hp, hall⟩ := ih rest (components ++ [chain]) (by omega)
        refine ⟨chain :: pushed, by rw [hp]; simp, ?_⟩
        intro c hc
        rcases List.mem_cons.1 hc with h | h
        · subst h; exact h3
        · exact hall c h
      · rw [if_neg h3]
        exact ih rest components (by omega)
    · rw [if_neg hpos]
      have : strips = [] := List.length_eq_zero.1 (by omega)
      subst this
      exact ⟨[], by simp, fun c hc => by cases hc⟩

theorem traceLoop_step (cellStrips : List Strip) (components : List (List Int))
    (hne : cellStrips ≠ []) :
    ∃ chain rest, linkStrips cellStrips = some (chain, rest) ∧ 2 ≤ chain.length ∧
      rest.length < cellStrips.length ∧
      traceLoop cellStrips.length cellStrips components =
        traceLoop rest.length rest
          (if chain.length ≥ 3 then components ++ [chain] else components) := by
  obtain ⟨chain, rest, hl, h2, hrest⟩ := linkStrips_some cellStrips hne
  refine ⟨chain, rest, hl, h2, hrest, ?_⟩
  obtain ⟨k, hk⟩ : ∃ k, cellStrips.length = k + 1 :=
    ⟨cellStrips.length - 1, by
      have : 0 < cellStrips.length := List.length_pos.2 hne
      omega⟩
  have hstep : traceLoop (k + 1) cellStrips components =
      traceLoop k rest (if chain.length ≥ 3 then components ++ [chain] else components) := by
    conv_lhs => unfold traceLoop
    rw [if_pos (by omega), hl]
  rw [hk, hstep]
  exact traceLoop_fuel k rest.length rest _ (by omega) (le_refl _)

/-- C12: for every cell, the tracing of its collected strips ends without an error with
no strip left, and what it appends to the cell's components are chains of at least 3 ids;
and on every non-empty strip list, linkStrips returns a chain (of at least 2 ids) and
removes at least one strip, after which the `while` loop goes on with the rest, the chain
being appended exactly when it has at least 3 ids. -/
theorem C12_components_have_three_ids (fs : FaceStore) (components : Nat → List (List Int))
    (cell : Cell) :
    (∃ pushed,
      traceLoop (collectStrips fs cell).length (collectStrips fs cell) (components cell.id) =
        some (components cell.id ++ pushed, []) ∧
      traceCell fs components cell =
        some (fun id => if id = cell.id then components cell.id ++ pushed else components id) ∧
      ∀ c ∈ pushed, 3 ≤ c.length) ∧
    (∀ (cellStrips : List Strip) (comps : List (List Int)), cellStrips ≠ [] →
      ∃ chain rest, linkStrips cellStrips = some (chain, rest) ∧ 2 ≤ chain.length ∧
        rest.length < cellStrips.length ∧
        traceLoop cellStrips.length cellStrips comps =
          traceLoop rest.length rest (if chain.length ≥ 3 then comps ++ [chain] else comps)) := by
  refine ⟨?_, fun cellStrips comps hne => traceLoop_step cellStrips comps hne⟩
  obtain ⟨pushed, hp, hall⟩ :=
    traceLoop_total _ (collectStrips fs cell) (components cell.id) (le_refl _)
  refine ⟨pushed, hp, ?_, hall⟩
  unfold traceCell
  rw [hp]

/-- C12 (witness): two strips that share the vertex id 1 give the chain 0, 1, 2, which is
pushed; a single strip gives a chain of 2 ids, which is dropped. -/
theorem C12_components_have_three_ids_witness :
    ([{ newStrip false 0 1 with data := (0, 1) }, { newStrip false 1 2 with data := (1, 2) }] ≠
      ([] : List Strip)) ∧
    traceLoop 2 [{ newStrip false 0 1 with data := (0, 1) },
      { newStrip false 1 2 with data := (1, 2) }] [] = some ([[0, 1, 2]], []) ∧
    traceLoop 1 [{ newStrip false 0 1 with data := (0, 1) }] [] = some ([], []) ∧
    ∃ chain rest,
      linkStrips [{ newStrip false 0 1 with data := (0, 1) },
        { newStrip false 1 2 with data := (1, 2) }] = some (chain, rest) ∧ 2 ≤ chain.length :=
  ⟨by decide, by decide, by decide,
   (((C12_components_have_three_ids initialFaces (fun _ => []) oneLeafTree.cell).2
      [{ newStrip false 0 1 with data := (0, 1) }, { newStrip false 1 2 with data := (1, 2) }]
      [] (by decide)).imp fun _ h => h.imp fun _ h1 => ⟨h1.1, h1.2.1⟩)⟩

/-! ## The grid loops in closed form -/

theorem fold_data_outside {α : Type} (g : Index3D → α) (pts : List Index3D) (arr : Array3D α)
    (i : Int) (h : ∀ q, arr.inBounds q = true → arr.getIndexAt q ≠ i) :
    (pts.foldl (fun e p => e.setValueAt p (g p)) arr).data i = arr.data i := by
  induction pts generalizing arr with
  | nil => rfl
  | cons p rest ih =>
    rw [List.foldl_cons]
    obtain ⟨hi, _⟩ := Array3D.setValueAt_indices arr p (g p)
    rw [ih (arr.setValueAt p (g p))]
    · unfold Array3D.setValueAt
      by_cases hp : arr.inBounds p = true
      · rw [if_pos hp]
        simp only
        rw [if_neg (fun hc => h p hp hc.symm)]
      · rw [if_neg hp]
    · intro q hq
      have hq1 : arr.inBounds q = true := by
        unfold Array3D.inBounds at hq ⊢
        rw [hi] at hq
        exact hq
      have := h q hq1
      unfold Array3D.getIndexAt at this ⊢
      rw [hi]
      exact this

theorem fold_closed {α : Type} (g : Index3D → α) (arr : Array3D α) (n : Index3D)
    (hn : arr.indices = n) (hy : 0 < n.y) (hz : 0 < n.z) :
    (gridPoints n).foldl (fun e p => e.setValueAt p (g p)) arr =
      { indices := n,
        data := fun i =>
          if 0 ≤ i ∧ i < n.x * n.y * n.z then some (g ⟨i / n.z / n.y, i / n.z % n.y, i % n.z⟩)
          else arr.data i,
        bbox := arr.bbox } := by
  obtain ⟨h1, h2, h3⟩ := fold_setValueAt g (gridPoints n) arr
  have hdata : ((gridPoints n).foldl (fun e p => e.setValueAt p (g p)) arr).data =
      fun i =>
        if 0 ≤ i ∧ i < n.x * n.y * n.z then some (g ⟨i / n.z / n.y, i / n.z % n.y, i % n.z⟩)
        else arr.data i := by
    funext i
    by_cases hi : 0 ≤ i ∧ i < n.x * n.y * n.z
    · rw [if_pos hi]
      have hz0 : 0 ≤ i % n.z := Int.emod_nonneg _ (by omega)
      have hz1 : i % n.z < n.z := Int.emod_lt_of_pos _ hz
      have ha0 : 0 ≤ i / n.z := Int.ediv_nonneg hi.1 (by omega)
      have ha1 : i / n.z < n.x * n.y := Int.ediv_lt_of_lt_mul hz hi.2
      have hy0 : 0 ≤ i / n.z % n.y := Int.emod_nonneg _ (by omega)
      have hy1 : i / n.z % n.y < n.y := Int.emod_lt_of_pos _ hy
      have hx0 : 0 ≤ i / n.z / n.y := Int.ediv_nonneg ha0 (by omega)
      have hx1 : i / n.z / n.y < n.x := Int.ediv_lt_of_lt_mul hy ha1
      have hflat : (i / n.z / n.y * n.y + i / n.z % n.y) * n.z + i % n.z = i := by
        have e1 := Int.ediv_add_emod (i / n.z) n.y
        have e2 := Int.ediv_add_emod i n.z
        have e3 : i / n.z / n.y * n.y + i / n.z % n.y = i / n.z := by linarith
        rw [e3]
        linarith
      have hin : arr.inBounds ⟨i / n.z / n.y, i / n.z % n.y, i % n.z⟩ = true := by
        rw [Array3D.inBounds_iff, hn]
        exact ⟨⟨hx0, hx1⟩, ⟨hy0, hy1⟩, ⟨hz0, hz1⟩⟩
      have hmem : (⟨i / n.z / n.y, i / n.z % n.y, i % n.z⟩ : Index3D) ∈ gridPoints n :=
        (mem_gridPoints _ _).2 ⟨⟨hx0, hx1⟩, ⟨hy0, hy1⟩, ⟨hz0, hz1⟩⟩
      have hget := h3 ⟨i / n.z / n.y, i / n.z % n.y, i % n.z⟩
      rw [if_pos ⟨hmem, hin⟩] at hget
      have hin2 : ((gridPoints n).foldl (fun e p => e.setValueAt p (g p)) arr).inBounds
          ⟨i / n.z / n.y, i / n.z % n.y, i % n.z⟩ = true := by
        unfold Array3D.inBounds at hin ⊢
        rw [h1]
        exact hin
      unfold Array3D.getValueAt at hget
      rw [if_pos hin2] at hget
      unfold Array3D.getIndexAt at hget
      rw [h1, hn] at hget
      simp only at hget
      rw [hflat] at hget
      exact hget
    · rw [if_neg hi]
      apply fold_data_outside
      intro q hq hflat
      have := Array3D.getIndexAt_range arr q hq
      rw [hflat, hn] at this
      exact hi this
  calc (gridPoints n).foldl (fun e p => e.setValueAt p (g p)) arr
      = { indices := ((gridPoints n).foldl (fun e p => e.setValueAt p (g p)) arr).indices,
          data := ((gridPoints n).foldl (fun e p => e.setValueAt p (g p)) arr).data,
          bbox := ((gridPoints n).foldl (fun e p => e.setValueAt p (g p)) arr).bbox } := rfl
    _ = _ := by rw [h1, h2, hdata, hn]

theorem initialize_eq (fn : ℚ → ℚ → ℚ → ℚ) (msqrt : ℚ → ℚ) (sampled : Bool)
    (octMinLvl octMaxLvl : Int) (container : Range ℚ × Range ℚ × Range ℚ) (samples : Index3D)
    (hvalid : validArrayLength (samples.x * samples.y * samples.z) = true)
    (hy : 0 < samples.y) (hz : 0 < samples.z) :
    AlgCMS.initialize fn msqrt sampled octMinLvl octMaxLvl container samples =
      some (AlgCMS.initialState fn msqrt sampled octMinLvl octMaxLvl container samples) := by
  unfold AlgCMS.initialize Array3D.allocate
  rw [if_pos hvalid, if_pos hvalid]
  simp only
  rw [fold_closed (fun _ => newEdgeBlock true) _ samples rfl hy hz]
  rfl

theorem planeInstance_eq : planeInstance = some planeFresh := by
  unfold planeInstance AlgCMS.create
  rw [initialize_eq _ _ _ _ _ _ _ (by decide) (by decide) (by decide)]
  simp only [Option.bind, AlgCMS.setOctreeLevels]
  rw [initialize_eq _ _ _ _ _ _ _ (by decide) (by decide) (by decide)]
  simp only [AlgCMS.setSamples]
  rw [initialize_eq _ _ _ _ _ _ _ (by decide) (by decide) (by decide)]
  rfl

theorem sampleFunction_closed (a : AlgCMS) (hdims : a.sampleData.indices = a.samples)
    (h : 8 < a.samples.x ∧ 8 < a.samples.y ∧ 8 < a.samples.z) :
    a.sampleFunction = some (true, a.sampledState, (gridPoints a.samples).length) := by
  rw [sampleFunction_large a (by omega), fold_closed _ _ a.samples hdims (by omega) (by omega)]
  rfl

theorem extractSurface_plane : extractSurface planeFresh = extractStages planeFresh.sampledState := by
  unfold extractSurface
  rw [if_neg (by decide), sampleFunction_closed planeFresh rfl (by decide)]

set_option maxRecDepth 1000000 in
theorem plane_runs :
    (extractStages planeFresh.sampledState).bind (fun r1 =>
      (r1.2.1.setSamples 9 9 9).bind (fun a2 =>
        (extractSurface a2).map (fun r2 =>
          (r1.1 && a2.sampled && r2.1 &&
              decide (a2.samples = ⟨9, 9, 9⟩ ∧ a2.octMinLvl = 1 ∧ a2.octMaxLvl = 1),
            r1.2.2.indices.length, r2.2.2.indices)))) =
      some (true, 48, []) := by
  decide!

/-- C20: two runs with identical inputs on one instance differ. On the instance made by
`new AlgCMS(fn, null, 2, 2)`, `setOctreeLevels(1, 1)` and `setSamples(9, 9, 9)` for the plane
field, extractSurface fills the mesh with 48 indices; after `setSamples(9, 9, 9)` is called
again on that instance (same field, same levels, same grid, same box) a second
extractSurface returns true with an empty mesh. The constructor sets `sampled` to false
before it calls initialize; setSamples calls initialize, which replaces the sample array by
an empty one, but leaves `sampled` true, so the new sample array is never filled. -/
theorem C20_second_run_differs :
    ∃ a r1 a2 r2, planeInstance = some a ∧ extractSurface a = some r1 ∧
      r1.2.1.setSamples 9 9 9 = some a2 ∧ extractSurface a2 = some r2 ∧
      (a2.samples = a.samples ∧ a2.octMinLvl = a.octMinLvl ∧ a2.octMaxLvl = a.octMaxLvl) ∧
      a2.sampled = true ∧ r1.1 = true ∧ r2.1 = true ∧
      r1.2.2.indices.length = 48 ∧ r2.2.2.indices = [] := by
  have h := plane_runs
  obtain ⟨r1, hr1, h⟩ := Option.bind_eq_some.1 h
  obtain ⟨a2, ha2, h⟩ := Option.bind_eq_some.1 h
  obtain ⟨r2, hr2, h⟩ := Option.map_eq_some'.1 h
  simp only [Prod.mk.injEq, Bool.and_eq_true, decide_eq_true_eq] at h
  obtain ⟨⟨⟨⟨h1, h2⟩, h3⟩, h4, h5, h6⟩, h7, h8⟩ := h
  refine ⟨planeFresh, r1, a2, r2, planeInstance_eq, ?_, ha2, hr2, ⟨?_, ?_, ?_⟩, h2, h1, h3,
    h7, h8⟩
  · rw [extractSurface_plane]; exact hr1
  · rw [h4]; rfl
  · rw [h5]; rfl
  · rw [h6]; rfl

theorem create_two_two : AlgCMS.create sphereField Rat.sqrt none 2 2 =
    some (AlgCMS.initialState sphereField Rat.sqrt false 2 2 defaultContainer ⟨5, 5, 5⟩) := by
  unfold AlgCMS.create
  rw [initialize_eq _ _ _ _ _ _ _ (by decide) (by decide) (by decide)]
  rfl

set_option maxRecDepth 1000000 in
theorem two_two_run :
    (extractSurface
      (AlgCMS.initialState sphereField Rat.sqrt false 2 2 defaultContainer ⟨5, 5, 5⟩)).map
      (fun r => (r.1 && !r.2.1.sampled, r.2.2.indices, r.2.2.vertices)) =
    some (true, [], []) := by
  decide!

/-- C16: on the instance made by `new AlgCMS(fn, null, 2, 2)` (5 samples per axis)
sampleFunction returns false without a single evaluation, and extractSurface nevertheless
builds the octree (73 cells) and returns true, with `sampled` still false and an empty
mesh. -/
theorem C16_extractSurface_ignores_failed_sampling :
    ∃ a, AlgCMS.create sphereField Rat.sqrt none 2 2 = some a ∧
      a.sampleFunction = some (false, a, 0) ∧
      (makeStructure a.octree).cells.length = 73 ∧
      ∃ r, extractSurface a = some r ∧ r.1 = true ∧ r.2.1.sampled = false ∧
        r.2.2.indices = [] ∧ r.2.2.vertices = [] := by
  refine ⟨_, create_two_two, sampleFunction_small _ (Or.inl (by decide)), by decide!, ?_⟩
  obtain ⟨r, hr, h⟩ := Option.map_eq_some'.1 two_two_run
  simp only [Prod.mk.injEq, Bool.and_eq_true, Bool.not_eq_true'] at h
  exact ⟨r, hr, h.1.1, h.1.2, h.2.1, h.2.2⟩

set_option maxRecDepth 1000000 in
/-- C11: in the octree of `new AlgCMS(fn, null, 2, 2)` the level-2 cell with id 2 has the
base corner (0, 0, 0) and extent 1, so its face 0 lies on the outer boundary `z = 0` of the
root volume; populateHalfFaces gives that face the twin face 1 of cell 12, a level-2 cell
with base corner (0, 0, 3) at the opposite side of the root volume. -/
theorem C11_boundary_face_gets_mirrored_twin :
    ((makeStructure octTwoTwo).cells[2]?).map (fun c => (c.id, c.subdivLvl, c.c000, c.offsets)) =
      some (2, 2, ⟨0, 0, 0⟩, ⟨1, 1, 1⟩) ∧
    ((makeStructure octTwoTwo).cells[12]?).map (fun c => (c.id, c.subdivLvl, c.c000, c.offsets)) =
      some (12, 2, ⟨0, 0, 3⟩, ⟨1, 1, 1⟩) ∧
    (populateHalfFaces octTwoTwo (makeStructure octTwoTwo) initialFaces).map
      (fun fs => (fs 2 0).twin) = some (some (12, 1)) :=
  ⟨by decide!, by decide!, by decide!⟩

/-! ## The example octree -/

theorem OctTree.beqList_sound (ks : List OctTree)
    (ih : ∀ k ∈ ks, ∀ u, OctTree.beq k u = true → k = u) :
    ∀ ls, OctTree.beqList ks ls = true → ks = ls := by
  induction ks with
  | nil =>
    intro ls h
    cases ls with
    | nil => rfl
    | cons l ls => simp [OctTree.beqList] at h
  | cons k ks ihk =>
    intro ls h
    cases ls with
    | nil => simp [OctTree.beqList] at h
    | cons l ls =>
      simp only [OctTree.beqList, Bool.and_eq_true] at h
      rw [ih k (List.mem_cons_self _ _) l h.1,
        ihk (fun k1 hk1 => ih k1 (List.mem_cons_of_mem _ hk1)) ls h.2]

theorem OctTree.beq_sound (t : OctTree) : ∀ u, OctTree.beq t u = true → t = u := by
  induction t using OctTree.induct with
  | _ c ks ih =>
    intro u h
    cases u with
    | mk d ls =>
      simp only [OctTree.beq, Bool.and_eq_true, decide_eq_true_eq] at h
      rw [h.1, OctTree.beqList_sound ks ih ls h.2]

theorem step_eq_of_beq (r : OctTree × Nat) (T : OctTree) (n : Nat)
    (h : (OctTree.beq r.1 T && decide (r.2 = n)) = true) : r = (T, n) := by
  simp only [Bool.and_eq_true, decide_eq_true_eq] at h
  exact Prod.ext (OctTree.beq_sound _ _ h.1) h.2

theorem exRoot_eq :
    rootCell exOct = litCell 0 false none 0 0 0 0 8 0 [0, 0, 0, 0, 0, 0, 0, 0] := by
  decide

set_option maxRecDepth 1000000 in
theorem exKid0_eq :
    subdivideChild exOct (subdivideCell exOct 2) (rootCell exOct) 0 1 = (exKid0, 10) :=
  step_eq_of_beq _ _ _ (by decide!)

set_option maxRecDepth 1000000 in
theorem exKid1_eq :
    subdivideChild exOct (subdivideCell exOct 2) (rootCell exOct) 1 10 =
      (.mk (litCell 10 true (some 0) 1 0 0 4 4 1 [2, 0, 0, 0, 0, 0, 0, 0]) [], 11) :=
  step_eq_of_beq _ _ _ (by decide!)

set_option maxRecDepth 1000000 in
theorem exKid2_eq :
    subdivideChild exOct (subdivideCell exOct 2) (rootCell exOct) 2 11 =
      (.mk (litCell 11 false (some 0) 1 0 4 0 4 2 [3, 0, 0, 0, 0, 0, 0, 0]) [], 12) :=
  step_eq_of_beq _ _ _ (by decide!)

set_option maxRecDepth 1000000 in
theorem exKid3_eq :
    subdivideChild exOct (subdivideCell exOct 2) (rootCell exOct) 3 12 =
      (.mk (litCell 12 false (some 0) 1 0 4 4 4 3 [4, 0, 0, 0, 0, 0, 0, 0]) [], 13) :=
  step_eq_of_beq _ _ _ (by decide!)

set_option maxRecDepth 1000000 in
theorem exKid4_eq :
    subdivideChild exOct (subdivideCell exOct 2) (rootCell exOct) 4 13 =
      (.mk (litCell 13 true (some 0) 1 4 0 0 4 4 [5, 0, 0, 0, 0, 0, 0, 0]) [], 14) :=
  step_eq_of_beq _ _ _ (by decide!)

set_option maxRecDepth 1000000 in
theorem exKid5_eq :
    subdivideChild exOct (subdivideCell exOct 2) (rootCell exOct) 5 14 =
      (.mk (litCell 14 true (some 0) 1 4 0 4 4 5 [6, 0, 0, 0, 0, 0, 0, 0]) [], 15) :=
  step_eq_of_beq _ _ _ (by decide!)

set_option maxRecDepth 1000000 in
theorem exKid6_eq :
    subdivideChild exOct (subdivideCell exOct 2) (rootCell exOct) 6 15 =
      (.mk (litCell 15 false (some 0) 1 4 4 0 4 6 [7, 0, 0, 0, 0, 0, 0, 0]) [], 16) :=
  step_eq_of_beq _ _ _ (by decide!)

set_option maxRecDepth 1000000 in
theorem exKid7_eq :
    subdivideChild exOct (subdivideCell exOct 2) (rootCell exOct) 7 16 =
      (.mk (litCell 16 false (some 0) 1 4 4 4 4 7 [8, 0, 0, 0, 0, 0, 0, 0]) [], 17) :=
  step_eq_of_beq _ _ _ (by decide!)

theorem exTree_eq : makeStructure exOct = exTree := by
  have hfuel : buildFuel exOct = 3 := by decide
  have hrange : List.range 8 = [0, 1, 2, 3, 4, 5, 6, 7] := by decide
  unfold makeStructure
  rw [hfuel]
  unfold subdivideCell
  rw [hrange]
  simp only [kidsFrom, exKid0_eq, exKid1_eq, exKid2_eq, exKid3_eq, exKid4_eq, exKid5_eq,
    exKid6_eq, exKid7_eq]
  rw [exRoot_eq]
  rfl

/-- C6 (witness): the 7 leaf cells of the example octree (levels 1 and 2 on the sampled
9 x 9 x 9 grid): four level-2 cells of extent 2 and three level-1 cells of extent 4. -/
theorem C6_leaf_cells_disjoint_witness :
    max exOct.minLvl exOct.maxLvl ≤ 30 ∧
    (makeStructure exOct).leafCells.map (fun c => (c.id, c.subdivLvl, c.c000, c.offsets)) =
      [(2, 2, ⟨0, 0, 0⟩, ⟨2, 2, 2⟩), (3, 2, ⟨0, 0, 2⟩, ⟨2, 2, 2⟩), (6, 2, ⟨2, 0, 0⟩, ⟨2, 2, 2⟩),
       (7, 2, ⟨2, 0, 2⟩, ⟨2, 2, 2⟩), (10, 1, ⟨0, 0, 4⟩, ⟨4, 4, 4⟩), (13, 1, ⟨4, 0, 0⟩, ⟨4, 4, 4⟩),
       (14, 1, ⟨4, 0, 4⟩, ⟨4, 4, 4⟩)] ∧
    List.Pairwise Cell.disjointFrom (makeStructure exOct).leafCells ∧
    ∀ s ∈ (makeStructure exOct).subtrees, s.cell.state = CellState.LEAF → s.kids = [] :=
  ⟨by decide, by rw [exTree_eq]; decide, C6_leaf_cells_disjoint exOct (by decide)⟩

/-- C9 (witness): three non-root cells of the example octree (minLvl 1, maxLvl 2): cell 1
(level 1) is subdivided, its level is below maxLvl and checkForSubdivision holds; cell 10
(level 1) is a LEAF, not subdivided, with mixed corner samples and checkForSubdivision
false; cell 16 (level 1) is childless, its corner samples are not mixed, and it stays
BRANCH. -/
theorem C9_leaf_classification_witness :
    (exKid0 ∈ (makeStructure exOct).subtrees ∧ exKid0.cell.parent ≠ none ∧
      exOct.minLvl ≤ exKid0.cell.subdivLvl ∧ exKid0.subdivided ∧
      exKid0.cell.subdivLvl < exOct.maxLvl ∧ checkForSubdivision exOct exKid0.cell = true) ∧
    (OctTree.mk (litCell 10 true (some 0) 1 0 0 4 4 1 [2, 0, 0, 0, 0, 0, 0, 0]) [] ∈
        (makeStructure exOct).subtrees ∧
      (litCell 10 true (some 0) 1 0 0 4 4 1 [2, 0, 0, 0, 0, 0, 0, 0]).state = CellState.LEAF ∧
      exOct.minLvl ≤ (litCell 10 true (some 0) 1 0 0 4 4 1 [2, 0, 0, 0, 0, 0, 0, 0]).subdivLvl ∧
      (litCell 10 true (some 0) 1 0 0 4 4 1 [2, 0, 0, 0, 0, 0, 0, 0]).mixedCorners exOct ∧
      (litCell 10 true (some 0) 1 0 0 4 4 1 [2, 0, 0, 0, 0, 0, 0, 0]).subdivLvl < exOct.maxLvl ∧
      checkForSubdivision exOct
        (litCell 10 true (some 0) 1 0 0 4 4 1 [2, 0, 0, 0, 0, 0, 0, 0]) ≠ true) ∧
    (OctTree.mk (litCell 16 false (some 0) 1 4 4 4 4 7 [8, 0, 0, 0, 0, 0, 0, 0]) [] ∈
        (makeStructure exOct).subtrees ∧
      ¬ (litCell 16 false (some 0) 1 4 4 4 4 7 [8, 0, 0, 0, 0, 0, 0, 0]).mixedCorners exOct ∧
      (litCell 16 false (some 0) 1 4 4 4 4 7 [8, 0, 0, 0, 0, 0, 0, 0]).state =
        CellState.BRANCH) := by
  have h1 : exKid0 ∈ (makeStructure exOct).subtrees := by
    rw [exTree_eq]; unfold exTree
    exact kid_mem_subtrees (by simp) (OctTree.self_mem_subtrees _)
  have h10 : OctTree.mk (litCell 10 true (some 0) 1 0 0 4 4 1 [2, 0, 0, 0, 0, 0, 0, 0]) [] ∈
      (makeStructure exOct).subtrees := by
    rw [exTree_eq]; unfold exTree
    exact kid_mem_subtrees (by simp) (OctTree.self_mem_subtrees _)
  have h16 : OctTree.mk (litCell 16 false (some 0) 1 4 4 4 4 7 [8, 0, 0, 0, 0, 0, 0, 0]) [] ∈
      (makeStructure exOct).subtrees := by
    rw [exTree_eq]; unfold exTree
    exact kid_mem_subtrees (by simp) (OctTree.self_mem_subtrees _)
  have hsub : exKid0.subdivided := by unfold OctTree.subdivided exKid0; simp [OctTree.kids]
  have hno : ¬ (OctTree.mk (litCell 10 true (some 0) 1 0 0 4 4 1 [2, 0, 0, 0, 0, 0, 0, 0])
      []).subdivided := fun h => h rfl
  have hmix : ¬ (litCell 16 false (some 0) 1 4 4 4 4 7 [8, 0, 0, 0, 0, 0, 0, 0]).mixedCorners
      exOct := by
    unfold Cell.mixedCorners
    decide!
  have a := C9_leaf_classification exOct exKid0 h1
  have b := C9_leaf_classification exOct _ h10
  have c := C9_leaf_classification exOct _ h16
  have ha := (a.1 (by decide) (by decide)).1 hsub
  have hb := b.2.1.1 rfl
  refine ⟨⟨h1, by decide, by decide, hsub, ha.1, ha.2⟩,
    ⟨h10, rfl, hb.2.1, hb.2.2, by decide, ?_⟩,
    ⟨h16, hmix, c.2.2 (fun h => h rfl) (fun h => hmix h.2)⟩⟩
  intro hchk
  exact hno ((b.1 (by decide) (by decide)).2 ⟨by decide, hchk⟩)

theorem exState_reached :
    (((AlgCMS.create exField exSqrt none 2 2).bind (fun a => a.setOctreeLevels 1 2)).bind
      (fun a => a.setSamples 9 9 9)).bind AlgCMS.sampleFunction =
      some (true, exState, (gridPoints ⟨9, 9, 9⟩).length) := by
  unfold AlgCMS.create
  rw [initialize_eq _ _ _ _ _ _ _ (by decide) (by decide) (by decide)]
  simp only [Option.bind, AlgCMS.setOctreeLevels]
  rw [initialize_eq _ _ _ _ _ _ _ (by decide) (by decide) (by decide)]
  simp only [AlgCMS.setSamples]
  rw [initialize_eq _ _ _ _ _ _ _ (by decide) (by decide) (by decide)]
  simp only
  rw [sampleFunction_closed _ rfl (by decide)]
  rfl

/-- C7 (counterexample): in the octree of levels 1 and 2 on the 9 x 9 x 9 grid sampled from
`exField`, the unit cube with lowest corner (5, 5, 5) has a negative sample at (5, 5, 5) and
a non-negative one at (6, 6, 6), but no LEAF cell contains it: it lies in the level-1 cell
with base corner (4, 4, 4), whose 8 corner samples are all non-negative and which is left a
childless Branch cell. -/
theorem C7_pruned_cell_holds_straddling_cube :
    ¬ PruningKeepsSurface exOct (makeStructure exOct) := by
  intro h
  have hneg : isNeg (exOct.sampleData.getValueAt ⟨5, 5, 5⟩) = true ∧
      isNeg (exOct.sampleData.getValueAt ⟨6, 6, 6⟩) = false := by decide!
  obtain ⟨c, hc, hcont⟩ := h ⟨5, 5, 5⟩ (by decide)
    ⟨⟨⟨5, 5, 5⟩, by decide, hneg.1⟩, ⟨⟨6, 6, 6⟩, by decide, hneg.2⟩⟩
  rw [exTree_eq] at hc
  have hy : ∀ c ∈ exTree.leafCells, c.c000.y + c.offsets.y ≤ 4 := by decide
  have := hy c hc
  have h2 := hcont.2.1.2
  simp only at h2
  omega

theorem childless_level (o : Octree) (s : OctTree) (hs : s ∈ (makeStructure o).subtrees)
    (hkids : ¬ s.subdivided) : o.minLvl ≤ s.cell.subdivLvl := by
  have hinv := makeStructure_inv o s hs
  unfold OctTree.subdivided at hkids
  rcases hinv.2 with ⟨_, hk⟩ | ⟨pc, i, n, _, _, _, hcell, hk⟩
  · exact absurd hk hkids
  · have hl : s.cell.subdivLvl = pc.subdivLvl + 1 := by rw [hcell, finalChildCell_subdivLvl]
    by_contra hlt
    have : shouldSubdivide o (childCell o pc i n) = true := by
      unfold shouldSubdivide
      rw [childCell_subdivLvl]
      simp only [Bool.or_eq_true, decide_eq_true_eq]
      exact Or.inl (by omega)
    exact hkids (hk.2 this)

/-- C7 (amended): after makeStructure, the 8 corner samples of every childless Branch cell
are all negative or all non-negative: a cell is pruned only when no surface shows at its own
corners. -/
theorem C7_childless_branch_has_unmixed_corners (o : Octree) (s : OctTree)
    (hs : s ∈ (makeStructure o).subtrees) (hkids : ¬ s.subdivided)
    (hstate : s.cell.state = CellState.BRANCH) : ¬ s.cell.mixedCorners o := by
  intro hmix
  have hleaf := (classification_core o s hs).2.2 ⟨hkids, childless_level o s hs hkids, hmix⟩
  rw [hstate] at hleaf
  cases hleaf

/-- C7 (witness): the level-1 cell with base corner (4, 4, 4) of the example octree. -/
theorem C7_childless_branch_has_unmixed_corners_witness :
    (OctTree.mk (litCell 16 false (some 0) 1 4 4 4 4 7 [8, 0, 0, 0, 0, 0, 0, 0]) [] ∈
        (makeStructure exOct).subtrees ∧
      ¬ (OctTree.mk (litCell 16 false (some 0) 1 4 4 4 4 7 [8, 0, 0, 0, 0, 0, 0, 0]) []).subdivided ∧
      (OctTree.mk (litCell 16 false (some 0) 1 4 4 4 4 7 [8, 0, 0, 0, 0, 0, 0, 0]) []).cell.state =
        CellState.BRANCH) ∧
    ¬ (OctTree.mk (litCell 16 false (some 0) 1 4 4 4 4 7 [8, 0, 0, 0, 0, 0, 0, 0]) []).cell.mixedCorners
        exOct :=
  have hmem : OctTree.mk (litCell 16 false (some 0) 1 4 4 4 4 7 [8, 0, 0, 0, 0, 0, 0, 0]) [] ∈
      (makeStructure exOct).subtrees := by
    rw [exTree_eq]
    unfold exTree
    exact kid_mem_subtrees (by simp) (OctTree.self_mem_subtrees _)
  ⟨⟨hmem, fun h => h rfl, rfl⟩,
   C7_childless_branch_has_unmixed_corners exOct _ hmem (fun h => h rfl) rfl⟩

set_option maxRecDepth 1000000 in
theorem exTree_twins :
    (populateHalfFaces exOct exTree initialFaces).map
      (fun fs => ((fs 6 5).twin, (fs 10 0).twin, (fs 1 1).twin)) =
    some (none, some (1, 1), some (10, 0)) := by
  decide!

/-- C10 (counterexample): in the example octree the level-2 cell 6 has the base corner
(2, 0, 0) and extent 2; its face 5 lies in the plane x = 4, inside the root volume (the grid
ends at x = 8), and beyond it lies the level-1 leaf cell 13. After populateHalfFaces that
face has no twin. -/
theorem C10_interior_face_without_twin :
    ∃ fs, populateHalfFaces exOct (makeStructure exOct) initialFaces = some fs ∧
      ¬ TwinsOnInteriorFaces exOct (makeStructure exOct) fs := by
  rw [exTree_eq]
  obtain ⟨fs, hfs, h⟩ := Option.map_eq_some'.1 exTree_twins
  simp only [Prod.mk.injEq] at h
  refine ⟨fs, hfs, fun hall => ?_⟩
  have hc : litCell 6 true (some 1) 2 2 0 0 2 4 [1, 5, 0, 0, 0, 0, 0, 0] ∈ exTree.cells := by
    decide
  have := hall _ hc (by decide) 5 (by decide) (by unfold faceOnBoundary; decide)
  exact this h.1

/-! ## Twins set by populateHalfFaces -/

theorem FaceStore.set_apply (fs : FaceStore) (r : FaceRef) (f : Face) (c p : Nat) :
    (fs.set r f) c p = if c = r.1 ∧ p = r.2 then f else fs c p := rfl

theorem setFaceTwins_keeps (fs : FaceStore) (a b : Cell) (contact : Nat) (c p : Nat)
    (h : (fs c p).twin ≠ none) : ((setFaceTwins fs a b contact) c p).twin ≠ none := by
  unfold setFaceTwins
  cases hk : FACE_TWIN_TABLE[contact]? with
  | none => exact h
  | some vals =>
    obtain ⟨valA, valB⟩ := vals
    simp only [FaceStore.set_apply]
    split_ifs
    · intro hx; cases hx
    · intro hx; cases hx
    · intro hx; cases hx
    · exact h

theorem setFaceTwins_sets (fs : FaceStore) (a b : Cell) (contact : Nat) (hc : contact < 6) :
    ((setFaceTwins fs a b contact) b.id contact).twin ≠ none := by
  unfold setFaceTwins
  have hk : ∃ valB, FACE_TWIN_TABLE[contact]? = some (contact, valB) := by
    interval_cases contact <;> exact ⟨_, rfl⟩
  obtain ⟨valB, hk⟩ := hk
  rw [hk]
  simp only [FaceStore.set_apply]
  split_ifs with h1 h2 h3
  · intro hx; cases hx
  · intro hx; cases hx
  · intro hx; cases hx
  · first
    | exact absurd (And.intro trivial trivial) h2
    | exact absurd (And.intro trivial trivial) h3

theorem findNeighbourStep_keeps (maxLvl : Nat) (entries : List (Nat × Cell)) (cellA : Cell)
    (fs : FaceStore) (i : Nat) (c p : Nat) (h : (fs c p).twin ≠ none) :
    ((findNeighbourStep maxLvl entries cellA fs i) c p).twin ≠ none := by
  unfold findNeighbourStep
  cases addressGet entries (getFormatted (neighbourSlots cellA.address i maxLvl false)) with
  | none => exact h
  | some cellB => exact setFaceTwins_keeps fs cellB cellA i c p h

theorem foldl_keeps_and_sets {σ α : Type} (step : σ → α → σ) (P : σ → Prop)
    (hkeep : ∀ s x, P s → P (step s x)) (l : List α) (x : α) (hx : x ∈ l)
    (hset : ∀ s, P (step s x)) (s : σ) : P (l.foldl step s) := by
  have hall : ∀ (l : List α) (s : σ), P s → P (l.foldl step s) := by
    intro l
    induction l with
    | nil => intro s hs; exact hs
    | cons y tl ih => intro s hs; exact ih _ (hkeep s y hs)
  induction l generalizing s with
  | nil => cases hx
  | cons y tl ih =>
    rw [List.foldl_cons]
    rcases List.mem_cons.1 hx with h | h
    · subst h
      exact hall tl _ (hset s)
    · exact ih h _

theorem findNeighbours_keeps (maxLvl : Nat) (entries : List (Nat × Cell)) (fs : FaceStore)
    (cellA : Cell) (c p : Nat) (h : (fs c p).twin ≠ none) :
    ((findNeighbours maxLvl entries fs cellA) c p).twin ≠ none := by
  unfold findNeighbours
  generalize List.range 6 = l
  induction l generalizing fs with
  | nil => exact h
  | cons y tl ih => exact ih _ (findNeighbourStep_keeps maxLvl entries cellA fs y c p h)

theorem findNeighbours_sets (maxLvl : Nat) (entries : List (Nat × Cell)) (fs : FaceStore)
    (cellA : Cell) (i : Nat) (hi : i < 6) (cellB : Cell)
    (hB : addressGet entries (getFormatted (neighbourSlots cellA.address i maxLvl false)) =
      some cellB) :
    ((findNeighbours maxLvl entries fs cellA) cellA.id i).twin ≠ none := by
  unfold findNeighbours
  apply foldl_keeps_and_sets (findNeighbourStep maxLvl entries cellA)
    (fun s => (s cellA.id i).twin ≠ none)
    (fun s x hs => findNeighbourStep_keeps maxLvl entries cellA s x _ _ hs)
    (List.range 6) i (List.mem_range.2 hi)
  intro s
  unfold findNeighbourStep
  rw [hB]
  exact setFaceTwins_sets s cellB cellA i hi

/-- C10 (amended): after populateHalfFaces, face `i` of a cell has a twin whenever
cellAddresses holds a cell under the neighbour address that findNeighbours computes for the
cell in direction `i`. -/
theorem C10_twin_when_neighbour_is_filed (o : Octree) (t : OctTree) (fs0 : FaceStore)
    (h0 : 0 ≤ o.maxLvl) (c : Cell) (hc : c ∈ t.cells) (i : Nat) (hi : i < 6) (cellB : Cell)
    (hB : addressGet t.addressEntries
      (getFormatted (neighbourSlots c.address i o.maxLvl.toNat false)) = some cellB) :
    ∃ fs, populateHalfFaces o t fs0 = some fs ∧ (fs c.id i).twin ≠ none := by
  unfold populateHalfFaces
  rw [if_neg (by omega)]
  refine ⟨_, rfl, ?_⟩
  exact foldl_keeps_and_sets (findNeighbours o.maxLvl.toNat t.addressEntries)
    (fun s => (s c.id i).twin ≠ none)
    (fun s x hs => findNeighbours_keeps _ _ s x _ _ hs) t.cells c hc
    (fun s => findNeighbours_sets _ _ s c i hi cellB hB) fs0

set_option maxRecDepth 1000000 in
/-- C10 (witness): face 0 of the level-1 cell 10 of the example octree, whose neighbour
address is that of the level-1 cell 1. -/
theorem C10_twin_when_neighbour_is_filed_witness :
    (litCell 10 true (some 0) 1 0 0 4 4 1 [2, 0, 0, 0, 0, 0, 0, 0] ∈ exTree.cells ∧
      addressGet exTree.addressEntries
        (getFormatted (neighbourSlots
          (litCell 10 true (some 0) 1 0 0 4 4 1 [2, 0, 0, 0, 0, 0, 0, 0]).address 0
          exOct.maxLvl.toNat false)) =
        some (litCell 1 false (some 0) 1 0 0 0 4 0 [1, 0, 0, 0, 0, 0, 0, 0])) ∧
    ∃ fs, populateHalfFaces exOct exTree initialFaces = some fs ∧ (fs 10 0).twin ≠ none :=
  ⟨⟨by decide, by decide!⟩,
   C10_twin_when_neighbour_is_filed exOct exTree initialFaces (by decide)
     (litCell 10 true (some 0) 1 0 0 4 4 1 [2, 0, 0, 0, 0, 0, 0, 0]) (by decide) 0 (by decide)
     (litCell 1 false (some 0) 1 0 0 0 4 0 [1, 0, 0, 0, 0, 0, 0, 0]) (by decide!)⟩

/-! ## Winding of the emitted triangles -/

theorem normalize_scale (msqrt : ℚ → ℚ) (w : Vec3) :
    ∃ k : ℚ, 0 < k ∧ w.normalize msqrt = w.scale k := by
  unfold Vec3.normalize
  by_cases h : Vec3.length msqrt w > EPSILON
  · rw [if_pos h]
    have hpos : 0 < Vec3.length msqrt w := lt_trans (by unfold EPSILON; norm_num) h
    refine ⟨1 / Vec3.length msqrt w, by positivity, ?_⟩
    unfold Vec3.scale
    simp only [mul_one_div]
  · rw [if_neg h]
    refine ⟨1, by norm_num, ?_⟩
    unfold Vec3.scale
    simp

theorem dot_normalize_sign (msqrt : ℚ → ℚ) (u v : Vec3) :
    ((u.normalize msqrt).dot (v.normalize msqrt) < 0 ↔ u.dot v < 0) := by
  obtain ⟨k1, hk1, h1⟩ := normalize_scale msqrt u
  obtain ⟨k2, hk2, h2⟩ := normalize_scale msqrt v
  rw [h1, h2]
  have : (u.scale k1).dot (v.scale k2) = (k1 * k2) * u.dot v := by
    unfold Vec3.scale Vec3.dot
    ring
  rw [this]
  have hk : 0 < k1 * k2 := mul_pos hk1 hk2
  constructor
  · intro h
    by_contra hn
    have : 0 ≤ k1 * k2 * u.dot v := mul_nonneg (le_of_lt hk) (not_lt.1 hn)
    linarith
  · intro h
    exact mul_neg_of_pos_of_neg hk h

theorem vertexAt_of_componentVertices (vertices : List Vertex) (c0 c1 c2 : Int)
    (v0 v1 v2 : Vertex) (hv : componentVertices vertices [c0, c1, c2] = some [v0, v1, v2]) :
    vertexAt vertices c0 = some v0 ∧ vertexAt vertices c1 = some v1 ∧
      vertexAt vertices c2 = some v2 := by
  simp only [componentVertices] at hv
  cases h0 : vertexAt vertices c0 with
  | none => rw [h0] at hv; cases hv
  | some w0 =>
    cases h1 : vertexAt vertices c1 with
    | none => rw [h0, h1] at hv; cases hv
    | some w1 =>
      cases h2 : vertexAt vertices c2 with
      | none => rw [h0, h1, h2] at hv; cases hv
      | some w2 =>
        rw [h0, h1, h2] at hv
        simp only [Option.map_some', Option.some.injEq, List.cons.injEq, and_true] at hv
        obtain ⟨e0, e1, e2⟩ := hv
        subst e0 e1 e2
        exact ⟨rfl, rfl, rfl⟩

/-- C4 (amended): for every component of exactly 3 valid vertex ids, tessellateComponent
emits one triangle, and the cross product of its two edge vectors, taken in the emitted
index order, has a non-negative dot product with the average of the three vertex normals. -/
theorem C4_triangle_winding (a : AlgCMS) (c0 c1 c2 : Int) (cellId : Nat) (v0 v1 v2 : Vertex)
    (hv : componentVertices a.vertices [c0, c1, c2] = some [v0, v1, v2]) :
    ∃ i0 i1 i2 w0 w1 w2,
      tessellateComponent a [c0, c1, c2] cellId =
        some { a with indices := a.indices ++ [i0, i1, i2] } ∧
      vertexAt a.vertices i0 = some w0 ∧ vertexAt a.vertices i1 = some w1 ∧
      vertexAt a.vertices i2 = some w2 ∧
      0 ≤ ((w1.position.subtract w0.position).cross (w2.position.subtract w0.position)).dot
        ((sumVec [v0.normal, v1.normal, v2.normal]).scale (1 / 3)) := by
  obtain ⟨h0, h1, h2⟩ := vertexAt_of_componentVertices a.vertices c0 c1 c2 v0 v1 v2 hv
  have hscale : ∀ u n : Vec3, u.dot (n.scale (1 / 3)) = u.dot n * (1 / 3) := by
    intro u n
    unfold Vec3.dot Vec3.scale
    ring
  have htess : tessellateComponent a [c0, c1, c2] cellId =
      some { a with indices := a.indices ++ triangleIndices a.msqrt [c0, c1, c2] [v0, v1, v2] } := by
    unfold tessellateComponent
    rw [if_neg (by simp), hv]
    simp
  by_cases hneg : (((v1.position.subtract v0.position).cross
      (v2.position.subtract v0.position)).normalize a.msqrt).dot
      ((sumVec [v0.normal, v1.normal, v2.normal]).normalize a.msqrt) < 0
  · have htri : triangleIndices a.msqrt [c0, c1, c2] [v0, v1, v2] = [c0, c2, c1] := by
      simp only [triangleIndices]
      rw [if_pos hneg]
    refine ⟨c0, c2, c1, v0, v2, v1, by rw [htess, htri], h0, h2, h1, ?_⟩
    have hd := (dot_normalize_sign a.msqrt _ _).1 hneg
    rw [hscale]
    have hanti : ((v2.position.subtract v0.position).cross (v1.position.subtract v0.position)).dot
        (sumVec [v0.normal, v1.normal, v2.normal]) =
        - ((v1.position.subtract v0.position).cross (v2.position.subtract v0.position)).dot
          (sumVec [v0.normal, v1.normal, v2.normal]) := by
      unfold Vec3.cross Vec3.dot
      ring
    rw [hanti]
    linarith
  · have htri : triangleIndices a.msqrt [c0, c1, c2] [v0, v1, v2] = [c0, c1, c2] := by
      simp only [triangleIndices]
      rw [if_neg hneg]
    refine ⟨c0, c1, c2, v0, v1, v2, by rw [htess, htri], h0, h1, h2, ?_⟩
    have hd : ¬ ((v1.position.subtract v0.position).cross
        (v2.position.subtract v0.position)).dot (sumVec [v0.normal, v1.normal, v2.normal]) < 0 :=
      fun h => hneg ((dot_normalize_sign a.msqrt _ _).2 h)
    rw [hscale]
    have := not_lt.1 hd
    linarith

/-- C4 (witness): the triangle of the first three vertices of the dart. -/
theorem C4_triangle_winding_witness :
    componentVertices dartState.vertices [0, 1, 2] =
      some [(⟨⟨0, 0, 0⟩, ⟨0, 0, 1⟩, none⟩ : Vertex), (⟨⟨3, 1, 0⟩, ⟨0, 0, 1⟩, none⟩ : Vertex),
        (⟨⟨0, 2, 0⟩, ⟨0, 0, 1⟩, none⟩ : Vertex)] ∧
    ∃ i0 i1 i2 w0 w1 w2,
      tessellateComponent dartState [0, 1, 2] 0 =
        some { dartState with indices := dartState.indices ++ [i0, i1, i2] } ∧
      vertexAt dartState.vertices i0 = some w0 ∧ vertexAt dartState.vertices i1 = some w1 ∧
      vertexAt dartState.vertices i2 = some w2 ∧
      0 ≤ ((w1.position.subtract w0.position).cross (w2.position.subtract w0.position)).dot
        ((sumVec [(⟨⟨0, 0, 0⟩, ⟨0, 0, 1⟩, none⟩ : Vertex).normal,
          (⟨⟨3, 1, 0⟩, ⟨0, 0, 1⟩, none⟩ : Vertex).normal,
          (⟨⟨0, 2, 0⟩, ⟨0, 0, 1⟩, none⟩ : Vertex).normal]).scale (1 / 3)) :=
  ⟨by decide,
   C4_triangle_winding dartState 0 1 2 0 (⟨⟨0, 0, 0⟩, ⟨0, 0, 1⟩, none⟩ : Vertex)
     (⟨⟨3, 1, 0⟩, ⟨0, 0, 1⟩, none⟩ : Vertex) (⟨⟨0, 2, 0⟩, ⟨0, 0, 1⟩, none⟩ : Vertex) (by decide)⟩

set_option maxRecDepth 1000000 in
theorem dart_fan :
    (tessellateComponent dartState [0, 1, 2, 3] 0).map (fun b =>
      (b.indices, vertexAt b.vertices 4, vertexAt b.vertices 2, vertexAt b.vertices 3)) =
    some ([4, 0, 1, 4, 1, 2, 4, 2, 3, 4, 3, 0],
      some ⟨⟨5 / 4, 1, 0⟩, ⟨0, 0, 1⟩, some 0⟩, some ⟨⟨0, 2, 0⟩, ⟨0, 0, 1⟩, none⟩,
      some ⟨⟨2, 1, 0⟩, ⟨0, 0, 1⟩, none⟩) := by
  decide!

/-- C4 (counterexample): the dart-shaped loop 0, 1, 2, 3 in the plane z = 0, all vertex
normals (0, 0, 1). tessellateComponent fans it around the centroid (5/4, 1, 0), vertex 4, and
emits the triangles (4,0,1), (4,1,2), (4,2,3), (4,3,0); the cross product of the edge vectors
of the triangle (4, 2, 3) has a negative dot product with the average vertex normal. -/
theorem C4_fan_triangle_faces_away :
    ∃ b w0 w1 w2, tessellateComponent dartState [0, 1, 2, 3] 0 = some b ∧
      b.indices = [4, 0, 1, 4, 1, 2, 4, 2, 3, 4, 3, 0] ∧
      vertexAt b.vertices 4 = some w0 ∧ vertexAt b.vertices 2 = some w1 ∧
      vertexAt b.vertices 3 = some w2 ∧
      ((w1.position.subtract w0.position).cross (w2.position.subtract w0.position)).dot
        ((sumVec (dartVertices.map Vertex.normal)).scale (1 / 4)) < 0 := by
  obtain ⟨b, hb, h⟩ := Option.map_eq_some'.1 dart_fan
  simp only [Prod.mk.injEq] at h
  exact ⟨b, _, _, _, hb, h.1, h.2.1, h.2.2.1, h.2.2.2, by decide!⟩

/-! ## Transition resolution -/

theorem isBetweenBlocks_iff (a b t : Index3D) (dir : Int) :
    isBetweenBlocks a b t dir = true ↔
      ∃ u v w, a.get dir = some u ∧ b.get dir = some v ∧ t.get dir = some w ∧
        w > min u v ∧ w < max u v := by
  unfold isBetweenBlocks
  cases ha : a.get dir with
  | none => simp
  | some u =>
    cases hb : b.get dir with
    | none => simp
    | some v =>
      cases ht : t.get dir with
      | none => simp
      | some w => simp

theorem isBetweenBlocks_narrow_left (a b t k : Index3D) (dir : Int)
    (h1 : isBetweenBlocks a b t dir = true) (h2 : isBetweenBlocks a t k dir = true) :
    isBetweenBlocks a b k dir = true := by
  rw [isBetweenBlocks_iff] at h1 h2 ⊢
  obtain ⟨u, v, w, hu, hv, hw, h3, h4⟩ := h1
  obtain ⟨u1, w1, x, hu1, hw1, hx, h5, h6⟩ := h2
  rw [hu] at hu1
  rw [hw] at hw1
  cases hu1
  cases hw1
  refine ⟨u, v, x, hu, hv, hx, ?_, ?_⟩
  · simp only [gt_iff_lt, lt_min_iff, min_lt_iff, lt_max_iff, max_lt_iff] at *
    omega
  · simp only [gt_iff_lt, lt_min_iff, min_lt_iff, lt_max_iff, max_lt_iff] at *
    omega

theorem isBetweenBlocks_narrow_right (a b t k : Index3D) (dir : Int)
    (h1 : isBetweenBlocks a b t dir = true) (h2 : isBetweenBlocks t b k dir = true) :
    isBetweenBlocks a b k dir = true := by
  rw [isBetweenBlocks_iff] at h1 h2 ⊢
  obtain ⟨u, v, w, hu, hv, hw, h3, h4⟩ := h1
  obtain ⟨w1, v1, x, hw1, hv1, hx, h5, h6⟩ := h2
  rw [hv] at hv1
  rw [hw] at hw1
  cases hv1
  cases hw1
  refine ⟨u, v, x, hu, hv, hx, ?_, ?_⟩
  · simp only [gt_iff_lt, lt_min_iff, min_lt_iff, lt_max_iff, max_lt_iff] at *
    omega
  · simp only [gt_iff_lt, lt_min_iff, min_lt_iff, lt_max_iff, max_lt_iff] at *
    omega

theorem hasCrossing_cons (s : Strip) (rest : List Strip) (key : CrossingKey) :
    hasCrossing (s :: rest) key = true ↔
      ((s.block.1, s.dir.1) = key ∨ (s.block.2, s.dir.2) = key) ∨ hasCrossing rest key = true := by
  unfold hasCrossing
  simp [List.any_cons]

theorem hasCrossing_append (l1 l2 : List Strip) (key : CrossingKey) :
    hasCrossing (l1 ++ l2) key = true ↔
      hasCrossing l1 key = true ∨ hasCrossing l2 key = true := by
  unfold hasCrossing
  simp [List.any_append]

theorem split_cons (strip : Strip) (rest : List Strip) (b : Index3D) (d v : Int) :
    splitCoarseStripAndInsertVertex (strip :: rest) b d v =
      if brackets strip (b, d) then splitStrip strip b d v ++ rest
      else strip :: splitCoarseStripAndInsertVertex rest b d v := by
  rw [splitCoarseStripAndInsertVertex]
  rfl

theorem split_keeps_crossing (strips : List Strip) (b : Index3D) (d v : Int) (key : CrossingKey)
    (h : hasCrossing strips key = true) :
    hasCrossing (splitCoarseStripAndInsertVertex strips b d v) key = true := by
  induction strips with
  | nil => exact h
  | cons strip rest ih =>
    rw [split_cons]
    rw [hasCrossing_cons] at h
    by_cases hb : brackets strip (b, d)
    · rw [if_pos hb, hasCrossing_append]
      rcases h with (h | h) | h
      · left
        unfold splitStrip
        rw [hasCrossing_cons]
        left; left
        simp only [newStrip]
        rw [← h, hb.1]
      · left
        unfold splitStrip
        rw [hasCrossing_cons, hasCrossing_cons]
        right; left; right
        simp only [newStrip]
        rw [← h, hb.2.1]
      · right; exact h
    · rw [if_neg hb, hasCrossing_cons]
      rcases h with h | h
      · left; exact h
      · right; exact ih h

theorem split_keeps_unbracketed (strips : List Strip) (b : Index3D) (d v : Int)
    (key : CrossingKey) (h : ∀ s ∈ strips, ¬ brackets s key) :
    ∀ s ∈ splitCoarseStripAndInsertVertex strips b d v, ¬ brackets s key := by
  induction strips with
  | nil => exact h
  | cons strip rest ih =>
    rw [split_cons]
    by_cases hb : brackets strip (b, d)
    · rw [if_pos hb]
      intro s hs
      rcases List.mem_append.1 hs with hs | hs
      · unfold splitStrip at hs
        simp only [List.mem_cons, List.mem_singleton, List.not_mem_nil, or_false] at hs
        rcases hs with hs | hs
        · subst hs
          rintro ⟨k1, _, k3⟩
          simp only [newStrip] at k1 k3
          apply h strip (List.mem_cons_self _ _)
          refine ⟨by rw [hb.1]; exact k1, by rw [hb.2.1]; exact k1, ?_⟩
          rw [← k1]
          rw [← k1] at k3
          exact isBetweenBlocks_narrow_left _ _ _ _ _ hb.2.2 k3
        · subst hs
          rintro ⟨k1, _, k3⟩
          simp only [newStrip] at k1 k3
          apply h strip (List.mem_cons_self _ _)
          refine ⟨by rw [hb.1]; exact k1, by rw [hb.2.1]; exact k1, ?_⟩
          rw [← k1]
          rw [← k1] at k3
          exact isBetweenBlocks_narrow_right _ _ _ _ _ hb.2.2 k3
      · exact h s (List.mem_cons_of_mem _ hs)
    · rw [if_neg hb]
      intro s hs
      rcases List.mem_cons.1 hs with hs | hs
      · subst hs; exact h s (List.mem_cons_self _ _)
      · exact ih (fun s1 hs1 => h s1 (List.mem_cons_of_mem _ hs1)) s hs

theorem split_establishes (strips : List Strip) (b : Index3D) (d v : Int) :
    hasCrossing (splitCoarseStripAndInsertVertex strips b d v) (b, d) = true ∨
    ∀ s ∈ splitCoarseStripAndInsertVertex strips b d v, ¬ brackets s (b, d) := by
  induction strips with
  | nil => right; intro s hs; cases hs
  | cons strip rest ih =>
    rw [split_cons]
    by_cases hb : brackets strip (b, d)
    · rw [if_pos hb]
      left
      rw [hasCrossing_append]
      left
      unfold splitStrip
      rw [hasCrossing_cons]
      left; right
      rfl
    · rw [if_neg hb]
      rcases ih with h | h
      · left
        rw [hasCrossing_cons]
        right; exact h
      · right
        intro s hs
        rcases List.mem_cons.1 hs with hs | hs
        · subst hs; exact hb
        · exact h s hs

theorem insertCrossings_inv (coarse : List Strip) (crossings : List (CrossingKey × Int))
    (e : CrossingKey × Int) (he : e ∈ crossings) :
    hasCrossing (insertCrossings coarse crossings) e.1 = true ∨
    ∀ s ∈ insertCrossings coarse crossings, ¬ brackets s e.1 := by
  unfold insertCrossings
  apply foldl_keeps_and_sets
    (fun (strips : List Strip) (x : CrossingKey × Int) =>
      if hasCrossing strips x.1 then strips
      else splitCoarseStripAndInsertVertex strips x.1.1 x.1.2 x.2)
    (fun strips => hasCrossing strips e.1 = true ∨ ∀ s ∈ strips, ¬ brackets s e.1)
    ?_ crossings e he ?_ coarse
  · intro strips x hinv
    simp only
    split_ifs with hx
    · exact hinv
    · rcases hinv with h | h
      · exact Or.inl (split_keeps_crossing strips _ _ _ _ h)
      · exact Or.inr (split_keeps_unbracketed strips _ _ _ _ h)
  · intro strips
    simp only
    split_ifs with hx
    · exact Or.inl hx
    · exact split_establishes strips e.1.1 e.1.2 e.2

theorem addCrossing_keeps (m : List (CrossingKey × Int)) (key k : CrossingKey) (v : Int)
    (h : ∃ w, (k, w) ∈ m) : ∃ w, (k, w) ∈ addCrossing m key v := by
  unfold addCrossing
  split_ifs
  · exact h
  · obtain ⟨w, hw⟩ := h
    exact ⟨w, List.mem_append_left _ hw⟩

theorem addCrossing_has (m : List (CrossingKey × Int)) (key : CrossingKey) (v : Int) :
    ∃ w, (key, w) ∈ addCrossing m key v := by
  unfold addCrossing
  split_ifs with h
  · obtain ⟨x, hx, hk⟩ := List.any_eq_true.1 h
    refine ⟨x.2, ?_⟩
    have : x.1 = key := by simpa using hk
    rw [← this]
    exact hx
  · exact ⟨v, List.mem_append_right _ (List.mem_singleton.2 rfl)⟩

theorem uniqueCrossings_has (fineStrips : List Strip) (s : Strip) (hs : s ∈ fineStrips) :
    (∃ w, ((s.block.1, s.dir.1), w) ∈ uniqueCrossings fineStrips) ∧
    (∃ w, ((s.block.2, s.dir.2), w) ∈ uniqueCrossings fineStrips) := by
  unfold uniqueCrossings
  constructor
  · exact foldl_keeps_and_sets
      (fun m (strip : Strip) =>
        addCrossing (addCrossing m (strip.block.1, strip.dir.1) strip.data.1)
          (strip.block.2, strip.dir.2) strip.data.2)
      (fun m => ∃ w, ((s.block.1, s.dir.1), w) ∈ m)
      (fun m x hm => addCrossing_keeps _ _ _ _ (addCrossing_keeps _ _ _ _ hm))
      fineStrips s hs
      (fun m => addCrossing_keeps _ _ _ _ (addCrossing_has _ _ _)) []
  · exact foldl_keeps_and_sets
      (fun m (strip : Strip) =>
        addCrossing (addCrossing m (strip.block.1, strip.dir.1) strip.data.1)
          (strip.block.2, strip.dir.2) strip.data.2)
      (fun m => ∃ w, ((s.block.2, s.dir.2), w) ∈ m)
      (fun m x hm => addCrossing_keeps _ _ _ _ (addCrossing_keeps _ _ _ _ hm))
      fineStrips s hs
      (fun m => addCrossing_has _ _ _) []

/-- C3 (amended): after resolveTransitionalFace on a face whose twin is another face with
fine strips below it, the crossing (grid block and axis) of each end of each fine strip is
the crossing of an end of one of the face's own strips, unless no strip of the face has
both ends on the axis of the crossing with the block of the crossing strictly between its
end blocks along that axis. -/
theorem C3_resolved_face_crossings (depth : Nat) (fs : FaceStore) (face tw : FaceRef)
    (htw : (fs.face face).twin = some tw) (hne : tw ≠ face)
    (hfine : traverseFace fs depth (some tw) ≠ [])
    (s : Strip) (hs : s ∈ traverseFace fs depth (some tw)) :
    (hasCrossing ((resolveTransitionalFace depth fs face).face face).strips
        (s.block.1, s.dir.1) = true ∨
      ∀ s1 ∈ ((resolveTransitionalFace depth fs face).face face).strips,
        ¬ brackets s1 (s.block.1, s.dir.1)) ∧
    (hasCrossing ((resolveTransitionalFace depth fs face).face face).strips
        (s.block.2, s.dir.2) = true ∨
      ∀ s1 ∈ ((resolveTransitionalFace depth fs face).face face).strips,
        ¬ brackets s1 (s.block.2, s.dir.2)) := by
  have hstrips : ((resolveTransitionalFace depth fs face).face face).strips =
      insertCrossings
        (if (fs.face face).strips = [] then traverseFace fs depth (some face)
         else (fs.face face).strips)
        (uniqueCrossings (traverseFace fs depth (some tw))) := by
    unfold resolveTransitionalFace
    rw [htw, if_neg hfine]
    simp only [FaceStore.face, FaceStore.set_apply]
    have hne2 : ¬ (face.1 = tw.1 ∧ face.2 = tw.2) := by
      rintro ⟨h1, h2⟩
      exact hne (Prod.ext h1.symm h2.symm)
    rw [if_neg hne2]
    simp
  rw [hstrips]
  obtain ⟨⟨w1, hw1⟩, ⟨w2, hw2⟩⟩ := uniqueCrossings_has _ s hs
  exact ⟨insertCrossings_inv _ _ _ hw1, insertCrossings_inv _ _ _ hw2⟩

/-- C3 (witness): the store with the transitional face 5 of cell 1 and the leaf face 4 of
cell 2. -/
theorem C3_resolved_face_crossings_witness :
    ((twoFaceStore.face (1, 5)).twin = some (2, 4) ∧ ((2, 4) : FaceRef) ≠ (1, 5) ∧
      traverseFace twoFaceStore 1 (some (2, 4)) ≠ [] ∧
      { newStrip false 0 1 with
        data := (0, 2), dir := (1, 1), block := (⟨2, 1, 0⟩, ⟨2, 2, 1⟩) } ∈
        traverseFace twoFaceStore 1 (some (2, 4))) ∧
    (hasCrossing ((resolveTransitionalFace 1 twoFaceStore (1, 5)).face (1, 5)).strips
        (⟨2, 2, 1⟩, 1) = true ∨
      ∀ s1 ∈ ((resolveTransitionalFace 1 twoFaceStore (1, 5)).face (1, 5)).strips,
        ¬ brackets s1 (⟨2, 2, 1⟩, 1)) :=
  ⟨⟨by decide, by decide, by decide, by decide⟩,
   (C3_resolved_face_crossings 1 twoFaceStore (1, 5) (2, 4) (by decide) (by decide)
     (by decide)
     { newStrip false 0 1 with data := (0, 2), dir := (1, 1), block := (⟨2, 1, 0⟩, ⟨2, 2, 1⟩) }
     (by decide)).2⟩

theorem foldlOpt_total {σ α : Type} (step : σ → α → Option σ)
    (h : ∀ s x, ∃ s1, step s x = some s1) (l : List α) :
    ∀ s, ∃ s1, foldlOpt step s l = some s1 := by
  induction l with
  | nil => intro s; exact ⟨s, rfl⟩
  | cons x xs ih =>
    intro s
    obtain ⟨s1, hs1⟩ := h s x
    obtain ⟨s2, hs2⟩ := ih s1
    exact ⟨s2, by simp only [foldlOpt, hs1, hs2]⟩

theorem traceComponent_total (a : AlgCMS) (cells : List Cell) :
    ∃ comps, traceComponent a cells = some { a with components := comps } := by
  unfold traceComponent
  obtain ⟨comps, hc⟩ := foldlOpt_total
    (fun comps (i : Nat) =>
      foldlOpt
        (fun c cell =>
          if cell.subdivLvl = a.octMaxLvl - (i : Int) ∧ cell.state = CellState.LEAF then
            traceCell a.faces c cell
          else some c) comps cells)
    (fun comps i => foldlOpt_total _
      (fun c cell => by
        by_cases hl : cell.subdivLvl = a.octMaxLvl - (i : Int) ∧ cell.state = CellState.LEAF
        · rw [if_pos hl]
          obtain ⟨pushed, hp, _⟩ :=
            traceLoop_total _ (collectStrips a.faces cell) (c cell.id) (le_refl _)
          exact ⟨_, by unfold traceCell; rw [hp]⟩
        · rw [if_neg hl]
          exact ⟨c, rfl⟩) cells comps)
    (List.range a.octMaxLvl.toNat) a.components
  exact ⟨comps, by rw [hc]⟩

theorem exBuild_eq : buildOctree exOct = some (exTree, exFaces) := by
  unfold buildOctree
  rw [exTree_eq]
  rfl

set_option maxRecDepth 1000000 in
theorem exRun_leaks :
    (generateSegments { exState with faces := exFaces, components := fun _ => [] } exTree).any
      (fun a1 => faceLeaks (editTransitionalFaces 4 exTree.cells a1.faces) 4 (10, 0)) = true := by
  decide!

theorem faceLeaks_not_watertight (fs : FaceStore) (depth : Nat) (cells : List Cell) (c : Cell)
    (hc : c ∈ cells) (j : Nat) (hj : j < 6) (h : faceLeaks fs depth (c.id, j) = true) :
    ¬ Watertight fs depth cells := by
  intro hw
  unfold faceLeaks at h
  simp only [Bool.and_eq_true, decide_eq_true_eq, List.any_eq_true, Bool.not_eq_true',
    List.any_eq_false, FaceStore.face, not_or] at h
  obtain ⟨hstate, s, hs, hnone⟩ := h
  obtain ⟨⟨s1, hs1, hd⟩, _⟩ := hw c hc j hj hstate s hs
  exact absurd hd (by
    have := hnone s1 hs1
    tauto)

theorem faceLeaks_breaks (fs : FaceStore) (depth : Nat) (cells : List Cell) (c : Cell)
    (hc : c ∈ cells) (id j : Nat) (hid : c.id = id) (hj : j < 6)
    (h : faceLeaks fs depth (id, j) = true) : ¬ Watertight fs depth cells := by
  subst hid
  exact faceLeaks_not_watertight fs depth cells c hc j hj h

theorem traceComponent_faces (a : AlgCMS) (cells : List Cell) :
    ∃ a2, traceComponent a cells = some a2 ∧ a2.faces = a.faces := by
  obtain ⟨comps, h⟩ := traceComponent_total a cells
  exact ⟨_, h, rfl⟩

set_option maxRecDepth 100000 in
theorem exCell10_mem :
    litCell 10 true (some 0) 1 0 0 4 4 1 [2, 0, 0, 0, 0, 0, 0, 0] ∈ exTree.cells := by
  decide!

/-- C3 (counterexample): on the example octree (levels 1 and 2, the 9 x 9 x 9 grid sampled
from `exField`) buildOctree, generateSegments, editTransitionalFaces and traceComponent all
return, and afterwards the transitional face 0 of the level-1 leaf cell 10 has, below its
twin, a fine strip with a vertex id that is no end id of the face's own strips. -/
theorem C3_fine_crossing_missing_on_coarse_face :
    ∃ t fs a2, buildOctree exOct = some (t, fs) ∧
      cubicalMarchingSquaresAlg { exState with faces := fs, components := fun _ => [] } t =
        some a2 ∧
      ¬ Watertight a2.faces (buildFuel exOct + 1) t.cells := by
  have h := exRun_leaks
  cases hg : generateSegments { exState with faces := exFaces, components := fun _ => [] }
      exTree with
  | none => rw [hg] at h; cases h
  | some a1 =>
    rw [hg] at h
    simp only [Option.any] at h
    obtain ⟨a2, ha2, hfaces⟩ := traceComponent_faces
      { a1 with faces := editTransitionalFaces 4 exTree.cells a1.faces } exTree.cells
    simp only at hfaces
    have hfuel : buildFuel exOct + 1 = 4 := by decide
    have hbad : ¬ Watertight (editTransitionalFaces 4 exTree.cells a1.faces) 4 exTree.cells :=
      faceLeaks_breaks (editTransitionalFaces 4 exTree.cells a1.faces) 4 exTree.cells
        (litCell 10 true (some 0) 1 0 0 4 4 1 [2, 0, 0, 0, 0, 0, 0, 0]) exCell10_mem 10 0 rfl
        (by decide) h
    refine ⟨exTree, exFaces, a2, exBuild_eq, ?h1, ?h2⟩
    case h1 =>
      unfold cubicalMarchingSquaresAlg
      rw [hg]
      exact ha2
    case h2 =>
      rw [hfuel, hfaces]
      exact hbad

/-! ## The disambiguation table -/

theorem signCode_testBit (sampleData : Array3D ℚ) (inds : List Index3D) (v : Nat) (hv : v < 4) :
    (signCode sampleData inds).testBit v = isNeg ((inds[v]?).bind sampleData.getValueAt) := by
  unfold signCode
  interval_cases v <;> split_ifs <;> simp_all <;> decide

theorem makeVertex_faces (a : AlgCMS) (strip : Strip) (dir : Int) (c0 c1 : Index3D) (index : Nat)
    (b : AlgCMS) (s : Strip) (h : makeVertex a strip dir c0 c1 index = some (b, s)) :
    b.faces = a.faces := by
  unfold makeVertex at h
  cases h0 : a.sampleData.getValueAt c0 with
  | none => simp [h0] at h
  | some val0 =>
    cases h1 : a.sampleData.getValueAt c1 with
    | none => simp [h0, h1] at h
    | some val1 =>
      simp only [h0, h1] at h
      cases hi : ((a.edgeData.getValueAt c0).getD (newEdgeBlock false)).edgeIndices.set dir
          (a.vertices.length : Int) with
      | none => simp [hi] at h
      | some inds =>
        simp only [hi, Option.some.injEq, Prod.mk.injEq] at h
        rw [← h.1]

theorem populateStrip_faces (a : AlgCMS) (strip : Strip) (inds : List Index3D) (index : Nat)
    (b : AlgCMS) (s : Strip) (h : populateStrip a strip inds index = some (b, s)) :
    b.faces = a.faces := by
  obtain ⟨dir, c0, c1, _, hcase⟩ := populateStrip_cases a strip inds index b s h
  rcases hcase with ⟨v, _, hb, _⟩ | ⟨_, hm⟩
  · rw [hb]
  · exact makeVertex_faces a strip dir c0 c1 index b s hm

theorem FaceStore.face_set_self (fs : FaceStore) (r : FaceRef) (f : Face) :
    (fs.set r f).face r = f := by
  unfold FaceStore.face
  rw [FaceStore.set_apply]
  simp

theorem makeStrip_strips (a : AlgCMS) (edge0 edge1 : Int) (inds : List Index3D) (face : FaceRef)
    (k : Nat) (a2 : AlgCMS) (h : makeStrip a edge0 edge1 inds face k = some a2)
    (hk : (a.faces.face face).strips.length = k) :
    (a2.faces.face face).strips.length = k + 1 := by
  unfold makeStrip at h
  cases h1 : populateStrip a (newStrip false edge0 edge1) inds 0 with
  | none => simp [h1] at h
  | some r1 =>
    obtain ⟨b1, s1⟩ := r1
    simp only [h1] at h
    cases h2 : populateStrip b1 s1 inds 1 with
    | none => simp [h2] at h
    | some r2 =>
      obtain ⟨b2, s2⟩ := r2
      simp only [h2] at h
      have hf : b2.faces = a.faces := by
        rw [populateStrip_faces b1 s1 inds 1 b2 s2 h2, populateStrip_faces a _ inds 0 b1 s1 h1]
      rw [hf] at h
      unfold setStripAt at h
      rw [if_neg (by omega), if_pos hk.symm] at h
      simp only [Option.some.injEq] at h
      rw [← h]
      simp only [FaceStore.face_set_self, List.length_append, List.length_singleton, hk]

theorem emitStrips_length (inds : List Index3D) (face : FaceRef) (strips : List (Int × Int)) :
    ∀ (a : AlgCMS) (k : Nat) (a2 : AlgCMS), emitStrips inds face a k strips = some a2 →
      (a.faces.face face).strips.length = k →
      (a2.faces.face face).strips.length = k + strips.length := by
  induction strips with
  | nil =>
    intro a k a2 h hk
    simp only [emitStrips, Option.some.injEq] at h
    rw [← h, hk]
    rfl
  | cons e rest ih =>
    intro a k a2 h hk
    obtain ⟨edge0, edge1⟩ := e
    simp only [emitStrips] at h
    cases hm : makeStrip a edge0 edge1 inds face k with
    | none => simp [hm] at h
    | some a1 =>
      simp only [hm] at h
      rw [ih a1 (k + 1) a2 h (makeStrip_strips a edge0 edge1 inds face k a1 hm hk)]
      simp only [List.length_cons]
      omega

theorem faceStripEdges_count (c : Nat) (hc : c < 16) :
    ∃ strips, faceStripEdges c = some strips ∧
      strips.length = (if c = 0 ∨ c = 15 then 0 else if c = 6 ∨ c = 9 then 2 else 1) := by
  interval_cases c <;> exact ⟨_, rfl, by decide⟩

/-- C25: for every sample state and every four corner indices, the sign code of
makeFaceSegments is below 16 and its bit `v` is set exactly when the sample of corner `v` is
negative; the table lookup succeeds; makeFaceSegments is the run of makeStrip calls on the
edge pairs of the code, which are none for the codes 0 and 15, two for the saddle codes 6
and 9 and one for each other code; and when the run returns on a face that had no strips,
the face has that many strips afterwards. -/
theorem C25_disambiguation_table_total (a : AlgCMS) (inds : List Index3D) (face : FaceRef) :
    signCode a.sampleData inds < 16 ∧
    (∀ v, v < 4 → (signCode a.sampleData inds).testBit v =
      isNeg ((inds[v]?).bind a.sampleData.getValueAt)) ∧
    ∃ strips, faceStripEdges (signCode a.sampleData inds) = some strips ∧
      makeFaceSegments a inds face = emitStrips inds face a 0 strips ∧
      strips.length =
        (if signCode a.sampleData inds = 0 ∨ signCode a.sampleData inds = 15 then 0
         else if signCode a.sampleData inds = 6 ∨ signCode a.sampleData inds = 9 then 2
         else 1) ∧
      ∀ a2, makeFaceSegments a inds face = some a2 → (a.faces.face face).strips = [] →
        (a2.faces.face face).strips.length = strips.length := by
  refine ⟨signCode_lt _ _, fun v hv => signCode_testBit _ _ v hv, ?_⟩
  obtain ⟨strips, h1, h2⟩ := faceStripEdges_count (signCode a.sampleData inds) (signCode_lt _ _)
  have heq : makeFaceSegments a inds face = emitStrips inds face a 0 strips := by
    rw [makeFaceSegments_eq, h1]
  refine ⟨strips, h1, heq, h2, ?_⟩
  intro a2 hrun hempty
  rw [heq] at hrun
  have := emitStrips_length inds face strips a 0 a2 hrun (by rw [hempty]; rfl)
  omega

set_option maxRecDepth 100000 in
/-- C25 (witness): the low z face of the small grid cell, whose corner 0 alone is negative:
the code is 1, makeFaceSegments returns and the face has one strip. -/
theorem C25_disambiguation_table_total_witness :
    signCode smallState.sampleData smallFaceInds = 1 ∧
    ∃ a2, makeFaceSegments smallState smallFaceInds (0, 0) = some a2 ∧
      (smallState.faces.face (0, 0)).strips = [] ∧
      (a2.faces.face (0, 0)).strips.length = 1 := by
  have hcode : signCode smallState.sampleData smallFaceInds = 1 := by decide!
  have hsome : (makeFaceSegments smallState smallFaceInds (0, 0)).isSome = true := by decide!
  obtain ⟨a2, ha2⟩ := Option.isSome_iff_exists.1 hsome
  obtain ⟨strips, _, _, hlen, hrun⟩ :=
    (C25_disambiguation_table_total smallState smallFaceInds (0, 0)).2.2
  refine ⟨hcode, a2, ha2, rfl, ?_⟩
  rw [hrun a2 ha2 rfl, hlen, hcode]
  rfl

/-! ## exactSignChangeIndex -/

theorem prodNonpos_of_signs (a b : Option ℚ) (ha : a.isSome) (hb : b.isSome)
    (h : isNeg a ≠ isNeg b) : prodNonpos a b = true := by
  cases a with
  | none => cases ha
  | some u =>
    cases b with
    | none => cases hb
    | some v =>
      simp only [isNeg, prodNonpos, ne_eq, decide_eq_decide, decide_eq_true_eq] at h ⊢
      by_cases hu : u < 0
      · have hv : ¬ v < 0 := fun hv => h (iff_of_true hu hv)
        exact mul_nonpos_of_nonpos_of_nonneg hu.le (not_lt.1 hv)
      · have hv : v < 0 := by
          by_contra hv
          exact h (iff_of_false hu hv)
        exact mul_nonpos_of_nonneg_of_nonpos (not_lt.1 hu) hv.le

theorem signs_of_prodNonpos_false (a b : Option ℚ) (ha : a.isSome) (hb : b.isSome)
    (h : prodNonpos a b = false) : isNeg a = isNeg b := by
  by_contra hne
  rw [prodNonpos_of_signs a b ha hb hne] at h
  cases h

theorem signs_of_prodNonpos (a b : Option ℚ) (h : prodNonpos a b = true)
    (ha : a ≠ some 0) (hb : b ≠ some 0) : isNeg a ≠ isNeg b := by
  cases a with
  | none => simp [prodNonpos] at h
  | some u =>
    cases b with
    | none => simp [prodNonpos] at h
    | some v =>
      simp only [isNeg, prodNonpos, ne_eq, decide_eq_decide, decide_eq_true_eq,
        Option.some.injEq] at h ha hb ⊢
      intro hiff
      rcases lt_or_gt_of_ne ha with hu | hu
      · have hv : v < 0 := hiff.1 hu
        linarith [mul_pos_of_neg_of_neg hu hv]
      · have hv : 0 < v := by
          rcases lt_or_gt_of_ne hb with hv | hv
          · exact absurd (hiff.2 hv) (not_lt.2 hu.le)
          · exact hv
        linarith [mul_pos hu hv]

theorem Index3D.set_isSome (p : Index3D) (dir k : Int) (hdir : dir = 0 ∨ dir = 1 ∨ dir = 2) :
    ∃ q, p.set dir k = some q := by
  rcases hdir with h | h | h <;> subst h <;> exact ⟨_, rfl⟩

theorem signChangeScan_spec (sd : Array3D ℚ) (indexer : Index3D) (dir : Int)
    (hdir : dir = 0 ∨ dir = 1 ∨ dir = 2) :
    ∀ (n : Nat) (i : Int),
      (∀ k, i ≤ k → k ≤ i + n → (lineSample sd indexer dir k).isSome) →
      isNeg (lineSample sd indexer dir i) ≠ isNeg (lineSample sd indexer dir (i + n)) →
      ∃ j, signChangeScan sd dir indexer n i = some j ∧ i ≤ j ∧ j < i + n ∧
        prodNonpos (lineSample sd indexer dir j) (lineSample sd indexer dir (j + 1)) = true ∧
        ∀ k, i ≤ k → k < j →
          prodNonpos (lineSample sd indexer dir k) (lineSample sd indexer dir (k + 1)) = false := by
  intro n
  induction n with
  | zero =>
    intro i _ hs
    simp at hs
  | succ n ih =>
    intro i hdef hs
    obtain ⟨here, hhere⟩ := Index3D.set_isSome indexer dir i hdir
    obtain ⟨next, hnext⟩ := Index3D.set_isSome indexer dir (i + 1) hdir
    have hl0 : lineSample sd indexer dir i = sd.getValueAt here := by
      unfold lineSample; rw [hhere]; rfl
    have hl1 : lineSample sd indexer dir (i + 1) = sd.getValueAt next := by
      unfold lineSample; rw [hnext]; rfl
    unfold signChangeScan
    simp only [hhere, hnext]
    by_cases hp : prodNonpos (sd.getValueAt here) (sd.getValueAt next) = true
    · rw [if_pos hp]
      refine ⟨i, rfl, le_refl _, by push_cast; omega, by rw [hl0, hl1]; exact hp, ?_⟩
      intro k h1 h2
      omega
    · rw [if_neg hp]
      have hp2 : prodNonpos (lineSample sd indexer dir i) (lineSample sd indexer dir (i + 1)) =
          false := by
        rw [hl0, hl1]
        exact Bool.eq_false_iff.2 hp
      have hsame := signs_of_prodNonpos_false _ _ (hdef i (le_refl _) (by push_cast; omega))
        (hdef (i + 1) (by omega) (by push_cast; omega)) hp2
      have hs2 : isNeg (lineSample sd indexer dir (i + 1)) ≠
          isNeg (lineSample sd indexer dir (i + 1 + n)) := by
        rw [← hsame]
        have : i + 1 + (n : Int) = i + ((n + 1 : Nat) : Int) := by push_cast; ring
        rw [this]
        exact hs
      obtain ⟨j, hj, h1, h2, h3, h4⟩ := ih (i + 1)
        (fun k hk1 hk2 => hdef k (by omega) (by push_cast; omega)) hs2
      refine ⟨j, hj, by omega, by push_cast; omega, h3, ?_⟩
      intro k hk1 hk2
      by_cases hki : k = i
      · subst hki; exact hp2
      · exact h4 k (by omega) hk2

theorem Index3D.set_set (p q : Index3D) (dir v k : Int) (h : p.set dir v = some q) :
    q.set dir k = p.set dir k := by
  unfold Index3D.set at h ⊢
  split_ifs at h ⊢ <;> simp only [Option.some.injEq] at h <;> subst h <;> rfl

theorem Index3D.set_get_self (p : Index3D) (dir v : Int) (h : p.get dir = some v) :
    p.set dir v = some p := by
  unfold Index3D.get at h
  unfold Index3D.set
  split_ifs at h ⊢ <;> simp only [Option.some.injEq] at h <;> subst h <;> rfl

theorem Index3D.get_of_set (p q : Index3D) (dir v : Int) (h : p.set dir v = some q) :
    q.get dir = some v := by
  unfold Index3D.set at h
  unfold Index3D.get
  split_ifs at h ⊢ <;> simp only [Option.some.injEq] at h <;> subst h <;> rfl

theorem getEdgesBetwixt_axis (ind0 ind1 : Index3D) (dir v0 v1 : Int)
    (h0 : ind0.get dir = some v0) (h1 : ind0.set dir v1 = some ind1) (hne : v0 ≠ v1) :
    (getEdgesBetwixt ind0 ind1).1 = dir ∧ (getEdgesBetwixt ind0 ind1).2.lower = min v0 v1 ∧
      (getEdgesBetwixt ind0 ind1).2.upper = max v0 v1 := by
  have hr : ∀ a b : Int, (Range.set (min a b) (max a b)).lower = min a b ∧
      (Range.set (min a b) (max a b)).upper = max a b := by
    intro a b
    unfold Range.set
    rw [if_neg (by simp)]
    exact ⟨rfl, rfl⟩
  unfold Index3D.get at h0
  unfold Index3D.set at h1
  unfold getEdgesBetwixt
  split_ifs at h0 h1 with d0 d1 d2
  · simp only [Option.some.injEq] at h0 h1
    subst h0 h1 d0
    simp only
    rw [if_pos (abs_pos.2 (sub_ne_zero.2 hne))]
    exact ⟨rfl, hr _ _⟩
  · simp only [Option.some.injEq] at h0 h1
    subst h0 h1 d1
    simp only [sub_self, abs_zero, lt_self_iff_false, ↓reduceIte]
    rw [if_pos (abs_pos.2 (sub_ne_zero.2 hne))]
    exact ⟨rfl, hr _ _⟩
  · simp only [Option.some.injEq] at h0 h1
    subst h0 h1 d2
    simp only [sub_self, abs_zero, lt_self_iff_false, ↓reduceIte]
    rw [if_pos (abs_pos.2 (sub_ne_zero.2 hne))]
    exact ⟨rfl, hr _ _⟩

/-- C26 (counterexample): on the grid line with the samples 0, 1, -1 the corner samples at
0 and 2 have different signs, and exactSignChangeIndex returns 0, where neither the sample
at 0 nor the sample at 1 is negative. -/
theorem C26_zero_sample_ends_the_scan :
    isNeg (zeroGrid.getValueAt ⟨0, 0, 0⟩) = false ∧ isNeg (zeroGrid.getValueAt ⟨2, 0, 0⟩) = true ∧
    (getEdgesBetwixt ⟨0, 0, 0⟩ ⟨2, 0, 0⟩).1 = 0 ∧
    (getEdgesBetwixt ⟨0, 0, 0⟩ ⟨2, 0, 0⟩).2.lower = 0 ∧
    (getEdgesBetwixt ⟨0, 0, 0⟩ ⟨2, 0, 0⟩).2.upper = 2 ∧
    exactSignChangeIndex zeroGrid (getEdgesBetwixt ⟨0, 0, 0⟩ ⟨2, 0, 0⟩).2
      (getEdgesBetwixt ⟨0, 0, 0⟩ ⟨2, 0, 0⟩).1 ⟨0, 0, 0⟩ ⟨2, 0, 0⟩ = some 0 ∧
    isNeg (zeroGrid.getValueAt ⟨1, 0, 0⟩) = false := by
  decide!

/-- C26 (amended): for a grid edge from `ind0` to `ind1` along axis `dir` (`ind1` is `ind0`
with the coordinate `dir` changed from `v0` to `v1`), all of whose samples are defined and
whose corner samples have different signs, getEdgesBetwixt gives the axis and the range
from `min v0 v1` to `max v0 v1`, and exactSignChangeIndex returns the first index `i` of the
range whose sample and the next have a product `<= 0`; such an index exists below the upper
bound; and when neither of the two samples is 0, exactly one of them is negative. -/
theorem C26_exactSignChangeIndex (sd : Array3D ℚ) (ind0 ind1 : Index3D) (dir v0 v1 : Int)
    (h0 : ind0.get dir = some v0) (h1 : ind0.set dir v1 = some ind1) (hne : v0 ≠ v1)
    (hdef : ∀ k, min v0 v1 ≤ k → k ≤ max v0 v1 → (lineSample sd ind0 dir k).isSome)
    (hsign : isNeg (sd.getValueAt ind0) ≠ isNeg (sd.getValueAt ind1)) :
    (getEdgesBetwixt ind0 ind1).1 = dir ∧ (getEdgesBetwixt ind0 ind1).2.lower = min v0 v1 ∧
    (getEdgesBetwixt ind0 ind1).2.upper = max v0 v1 ∧
    ∃ i, exactSignChangeIndex sd (getEdgesBetwixt ind0 ind1).2 (getEdgesBetwixt ind0 ind1).1
        ind0 ind1 = some i ∧
      min v0 v1 ≤ i ∧ i < max v0 v1 ∧
      prodNonpos (lineSample sd ind0 dir i) (lineSample sd ind0 dir (i + 1)) = true ∧
      (∀ k, min v0 v1 ≤ k → k < i →
        prodNonpos (lineSample sd ind0 dir k) (lineSample sd ind0 dir (k + 1)) = false) ∧
      (lineSample sd ind0 dir i ≠ some 0 → lineSample sd ind0 dir (i + 1) ≠ some 0 →
        isNeg (lineSample sd ind0 dir i) ≠ isNeg (lineSample sd ind0 dir (i + 1))) := by
  obtain ⟨hd, hlo, hup⟩ := getEdgesBetwixt_axis ind0 ind1 dir v0 v1 h0 h1 hne
  refine ⟨hd, hlo, hup, ?_⟩
  have hdir : dir = 0 ∨ dir = 1 ∨ dir = 2 := by
    unfold Index3D.get at h0
    split_ifs at h0 with d0 d1 d2
    · exact Or.inl d0
    · exact Or.inr (Or.inl d1)
    · exact Or.inr (Or.inr d2)
  have hs0 : lineSample sd ind0 dir v0 = sd.getValueAt ind0 := by
    unfold lineSample
    rw [Index3D.set_get_self ind0 dir v0 h0]
    rfl
  have hs1 : lineSample sd ind0 dir v1 = sd.getValueAt ind1 := by
    unfold lineSample
    rw [h1]
    rfl
  have hline : ∀ k, lineSample sd ind1 dir k = lineSample sd ind0 dir k := by
    intro k
    unfold lineSample
    rw [Index3D.set_set ind0 ind1 dir v1 k h1]
  have hget1 : ind1.get dir = some v1 := Index3D.get_of_set ind0 ind1 dir v1 h1
  -- the signs at the two ends of the range differ
  have hends : isNeg (lineSample sd ind0 dir (min v0 v1)) ≠
      isNeg (lineSample sd ind0 dir (max v0 v1)) := by
    rcases lt_or_gt_of_ne hne with hlt | hgt
    · rw [min_eq_left hlt.le, max_eq_right hlt.le, hs0, hs1]
      exact hsign
    · rw [min_eq_right hgt.le, max_eq_left hgt.le, hs0, hs1]
      exact fun h => hsign h.symm
  have hlt : min v0 v1 < max v0 v1 := by
    rcases lt_or_gt_of_ne hne with h | h
    · rw [min_eq_left h.le, max_eq_right h.le]; exact h
    · rw [min_eq_right h.le, max_eq_left h.le]; exact h
  -- the index the scan starts from
  have hfirst : ∃ firstIndex,
      (if ind0.get dir = some (min v0 v1) then some ind0
       else if ind1.get dir = some (min v0 v1) then some ind1 else none) = some firstIndex ∧
      firstIndex.get dir = some (min v0 v1) ∧
      ∀ k, lineSample sd firstIndex dir k = lineSample sd ind0 dir k := by
    by_cases hm : v0 = min v0 v1
    · refine ⟨ind0, ?_, ?_, fun k => rfl⟩
      · rw [if_pos (by rw [h0, ← hm])]
      · rw [h0, ← hm]
    · have hm1 : v1 = min v0 v1 := by
        rcases min_choice v0 v1 with h | h
        · exact absurd h.symm hm
        · exact h.symm
      refine ⟨ind1, ?_, ?_, hline⟩
      · rw [if_neg (by rw [h0]; intro h; exact hm (Option.some.inj h)),
          if_pos (by rw [hget1, ← hm1])]
      · rw [hget1, ← hm1]
  obtain ⟨firstIndex, hfi, hfget, hfline⟩ := hfirst
  unfold exactSignChangeIndex
  rw [hd, hlo, hup, hfi]
  simp only
  by_cases hone : |min v0 v1 - max v0 v1| = 1
  · rw [if_pos hone, hfget]
    have hup1 : max v0 v1 = min v0 v1 + 1 := by
      rw [abs_of_neg (by omega)] at hone
      omega
    refine ⟨min v0 v1, rfl, le_refl _, hlt, ?_, fun k hk1 hk2 => by omega, ?_⟩
    · rw [← hup1]
      exact prodNonpos_of_signs _ _ (hdef _ (le_refl _) hlt.le) (hdef _ hlt.le (le_refl _)) hends
    · intro _ _
      rw [← hup1]
      exact hends
  · rw [if_neg hone]
    have hn : ((max v0 v1 - min v0 v1).toNat : Int) = max v0 v1 - min v0 v1 :=
      Int.toNat_of_nonneg (by omega)
    have hscan := signChangeScan_spec sd firstIndex dir hdir (max v0 v1 - min v0 v1).toNat
      (min v0 v1)
      (fun k hk1 hk2 => by
        rw [hfline]
        exact hdef k hk1 (by omega))
      (by
        rw [hn, hfline, hfline]
        have : min v0 v1 + (max v0 v1 - min v0 v1) = max v0 v1 := by ring
        rw [this]
        exact hends)
    obtain ⟨j, hj, hj1, hj2, hj3, hj4⟩ := hscan
    refine ⟨j, hj, hj1, by omega, ?_, ?_, ?_⟩
    · rw [← hfline, ← hfline]; exact hj3
    · intro k hk1 hk2
      rw [← hfline, ← hfline]
      exact hj4 k hk1 hk2
    · intro hz0 hz1
      have hsg := signs_of_prodNonpos _ _ hj3 (by rw [hfline]; exact hz0)
        (by rw [hfline]; exact hz1)
      rw [hfline, hfline] at hsg
      exact hsg

/-- C26 (witness): the edge from 0 to 2 along x on the grid line with the samples 0, 1, -1:
the index returned is 0, where the product of the samples is 0. -/
theorem C26_exactSignChangeIndex_witness :
    (((⟨0, 0, 0⟩ : Index3D).get 0 = some 0 ∧
      (⟨0, 0, 0⟩ : Index3D).set 0 2 = some ⟨2, 0, 0⟩ ∧ (0 : Int) ≠ 2 ∧
      (∀ k, min (0 : Int) 2 ≤ k → k ≤ max (0 : Int) 2 →
        (lineSample zeroGrid ⟨0, 0, 0⟩ 0 k).isSome) ∧
      isNeg (zeroGrid.getValueAt ⟨0, 0, 0⟩) ≠ isNeg (zeroGrid.getValueAt ⟨2, 0, 0⟩)) ∧
    ∃ i, exactSignChangeIndex zeroGrid (getEdgesBetwixt ⟨0, 0, 0⟩ ⟨2, 0, 0⟩).2
        (getEdgesBetwixt ⟨0, 0, 0⟩ ⟨2, 0, 0⟩).1 ⟨0, 0, 0⟩ ⟨2, 0, 0⟩ = some i ∧
      prodNonpos (lineSample zeroGrid ⟨0, 0, 0⟩ 0 i) (lineSample zeroGrid ⟨0, 0, 0⟩ 0 (i + 1)) =
        true) :=
  have hdef : ∀ k, min (0 : Int) 2 ≤ k → k ≤ max (0 : Int) 2 →
      (lineSample zeroGrid ⟨0, 0, 0⟩ 0 k).isSome := by
    intro k hk1 hk2
    have hk : k = 0 ∨ k = 1 ∨ k = 2 := by
      simp only [min_def, max_def] at hk1 hk2
      norm_num at hk1 hk2
      omega
    rcases hk with h | h | h <;> subst h <;> decide
  ⟨⟨rfl, rfl, by decide, hdef, by decide⟩,
   (C26_exactSignChangeIndex zeroGrid ⟨0, 0, 0⟩ ⟨2, 0, 0⟩ 0 0 2 rfl rfl (by decide) hdef
      (by decide)).2.2.2.imp fun _ h => ⟨h.1, h.2.2.2.1⟩⟩

/-! ## findCrossingPoint -/

theorem findCrossingPoint_zero (fn : ℚ → ℚ → ℚ → ℚ) (pt0 pt1 : Point) :
    findCrossingPoint fn 0 pt0 pt1 = lerpZero pt0 pt1 := rfl

theorem findCrossingPoint_succ (fn : ℚ → ℚ → ℚ → ℚ) (q : Nat) (pt0 pt1 : Point) :
    findCrossingPoint fn (q + 1) pt0 pt1 =
      if |0 - fn (lerpZero pt0 pt1).x (lerpZero pt0 pt1).y (lerpZero pt0 pt1).z| < EPSILON then
        lerpZero pt0 pt1
      else if fn (lerpZero pt0 pt1).x (lerpZero pt0 pt1).y (lerpZero pt0 pt1).z < 0 then
        if pt0.value > 0 then
          findCrossingPoint fn q
            ⟨lerpZero pt0 pt1, fn (lerpZero pt0 pt1).x (lerpZero pt0 pt1).y (lerpZero pt0 pt1).z⟩
            pt0
        else if pt1.value > 0 then
          findCrossingPoint fn q
            ⟨lerpZero pt0 pt1, fn (lerpZero pt0 pt1).x (lerpZero pt0 pt1).y (lerpZero pt0 pt1).z⟩
            pt1
        else lerpZero pt0 pt1
      else if fn (lerpZero pt0 pt1).x (lerpZero pt0 pt1).y (lerpZero pt0 pt1).z > 0 then
        if pt0.value < 0 then
          findCrossingPoint fn q pt0
            ⟨lerpZero pt0 pt1, fn (lerpZero pt0 pt1).x (lerpZero pt0 pt1).y (lerpZero pt0 pt1).z⟩
        else if pt1.value < 0 then
          findCrossingPoint fn q pt1
            ⟨lerpZero pt0 pt1, fn (lerpZero pt0 pt1).x (lerpZero pt0 pt1).y (lerpZero pt0 pt1).z⟩
        else lerpZero pt0 pt1
      else lerpZero pt0 pt1 := rfl

theorem getLast?_cons_of_ne_nil {α : Type} (a : α) (l : List α) (h : l ≠ []) :
    (a :: l).getLast? = l.getLast? := by
  cases l with
  | nil => exact absurd rfl h
  | cons b t => exact List.getLast?_cons_cons

theorem budgets_cons (q : Nat) (l : List (Nat × Point × Point)) (c : Nat × Point × Point)
    (hc : c.1 = q + 1)
    (h : l.map Prod.fst = (List.range l.length).map (fun i => q - i)) :
    (c :: l).map Prod.fst = (List.range (c :: l).length).map (fun i => q + 1 - i) := by
  rw [List.length_cons, List.range_succ_eq_map, List.map_cons, List.map_cons, List.map_map, h, hc]
  congr 1
  apply List.map_congr_left
  intro i _
  simp only [Function.comp]
  omega

theorem findCrossingCalls_spec (fn : ℚ → ℚ → ℚ → ℚ) :
    ∀ (q : Nat) (pt0 pt1 : Point), pt0.value * pt1.value < 0 →
      (findCrossingCalls fn q pt0 pt1).length ≤ q + 1 ∧
      (findCrossingCalls fn q pt0 pt1).map Prod.fst =
        (List.range (findCrossingCalls fn q pt0 pt1).length).map (fun i => q - i) ∧
      (∃ c, (findCrossingCalls fn q pt0 pt1).getLast? = some c ∧
        findCrossingPoint fn q pt0 pt1 = lerpZero c.2.1 c.2.2 ∧
        (|0 - callValue fn c| < EPSILON ∨ c.1 = 0)) ∧
      ∀ c ∈ (findCrossingCalls fn q pt0 pt1).dropLast,
        ¬ |0 - callValue fn c| < EPSILON ∧ c.1 ≠ 0 := by
  intro q
  induction q with
  | zero =>
    intro pt0 pt1 _
    refine ⟨by simp [findCrossingCalls], by simp [findCrossingCalls],
      ⟨(0, pt0, pt1), rfl, rfl, Or.inr rfl⟩, ?_⟩
    intro c hc
    simp [findCrossingCalls] at hc
  | succ q ih =>
    intro pt0 pt1 hbr
    -- what a recursive call on a bracketing pair contributes
    have hrec : ∀ (a b : Point), a.value * b.value < 0 →
        findCrossingPoint fn (q + 1) pt0 pt1 = findCrossingPoint fn q a b →
        findCrossingCalls fn (q + 1) pt0 pt1 = (q + 1, pt0, pt1) :: findCrossingCalls fn q a b →
        ¬ |0 - callValue fn (q + 1, pt0, pt1)| < EPSILON →
        (findCrossingCalls fn (q + 1) pt0 pt1).length ≤ q + 1 + 1 ∧
        (findCrossingCalls fn (q + 1) pt0 pt1).map Prod.fst =
          (List.range (findCrossingCalls fn (q + 1) pt0 pt1).length).map (fun i => q + 1 - i) ∧
        (∃ c, (findCrossingCalls fn (q + 1) pt0 pt1).getLast? = some c ∧
          findCrossingPoint fn (q + 1) pt0 pt1 = lerpZero c.2.1 c.2.2 ∧
          (|0 - callValue fn c| < EPSILON ∨ c.1 = 0)) ∧
        ∀ c ∈ (findCrossingCalls fn (q + 1) pt0 pt1).dropLast,
          ¬ |0 - callValue fn c| < EPSILON ∧ c.1 ≠ 0 := by
      intro a b hab hres hcalls hval
      obtain ⟨h1, h2, ⟨c, hc1, hc2, hc3⟩, h4⟩ := ih a b hab
      have hne : findCrossingCalls fn q a b ≠ [] := by
        intro h0
        rw [h0] at hc1
        cases hc1
      rw [hcalls, hres]
      refine ⟨by simp only [List.length_cons]; omega, budgets_cons q _ _ rfl h2,
        ⟨c, by rw [getLast?_cons_of_ne_nil _ _ hne]; exact hc1, hc2, hc3⟩, ?_⟩
      intro d hd
      rw [List.dropLast_cons_of_ne_nil hne] at hd
      rcases List.mem_cons.1 hd with h | h
      · subst h
        exact ⟨hval, by simp⟩
      · exact h4 d h
    by_cases heps :
        |0 - fn (lerpZero pt0 pt1).x (lerpZero pt0 pt1).y (lerpZero pt0 pt1).z| < EPSILON
    · have hcalls : findCrossingCalls fn (q + 1) pt0 pt1 = [(q + 1, pt0, pt1)] := by
        simp only [findCrossingCalls, if_pos heps]
      rw [hcalls, findCrossingPoint_succ, if_pos heps]
      refine ⟨by simp, by simp [List.range_succ], ⟨(q + 1, pt0, pt1), rfl, rfl, Or.inl heps⟩, ?_⟩
      intro c hc
      simp at hc
    · have hval : ¬ |0 - callValue fn (q + 1, pt0, pt1)| < EPSILON := heps
      by_cases hneg : fn (lerpZero pt0 pt1).x (lerpZero pt0 pt1).y (lerpZero pt0 pt1).z < 0
      · by_cases h0 : pt0.value > 0
        · exact hrec _ pt0 (mul_neg_of_neg_of_pos hneg h0)
            (by rw [findCrossingPoint_succ, if_neg heps, if_pos hneg, if_pos h0])
            (by simp only [findCrossingCalls, if_neg heps, if_pos hneg, if_pos h0]) hval
        · have h1 : pt1.value > 0 := by
            by_contra h1
            have := mul_nonneg_of_nonpos_of_nonpos (not_lt.1 h0) (not_lt.1 h1)
            linarith
          exact hrec _ pt1 (mul_neg_of_neg_of_pos hneg h1)
            (by rw [findCrossingPoint_succ, if_neg heps, if_pos hneg, if_neg h0, if_pos h1])
            (by simp only [findCrossingCalls, if_neg heps, if_pos hneg, if_neg h0, if_pos h1])
            hval
      · have hpos : fn (lerpZero pt0 pt1).x (lerpZero pt0 pt1).y (lerpZero pt0 pt1).z > 0 := by
          rcases lt_trichotomy
            (fn (lerpZero pt0 pt1).x (lerpZero pt0 pt1).y (lerpZero pt0 pt1).z) 0 with h | h | h
          · exact absurd h hneg
          · exfalso
            apply heps
            rw [h]
            simp only [sub_zero, abs_zero]
            unfold EPSILON
            norm_num
          · exact h
        by_cases h0 : pt0.value < 0
        · exact hrec pt0 _ (mul_neg_of_neg_of_pos h0 hpos)
            (by rw [findCrossingPoint_succ, if_neg heps, if_neg hneg, if_pos hpos, if_pos h0])
            (by simp only [findCrossingCalls, if_neg heps, if_neg hneg, if_pos hpos, if_pos h0])
            hval
        · have h1 : pt1.value < 0 := by
            by_contra h1
            have := mul_nonneg (not_lt.1 h0) (not_lt.1 h1)
            linarith
          exact hrec pt1 _ (mul_neg_of_neg_of_pos h1 hpos)
            (by rw [findCrossingPoint_succ, if_neg heps, if_neg hneg, if_pos hpos, if_neg h0,
              if_pos h1])
            (by simp only [findCrossingCalls, if_neg heps, if_neg hneg, if_pos hpos, if_neg h0,
              if_pos h1])
            hval

/-- C27: for every field, every budget `q` and every two points whose values have opposite
signs, findCrossingPoint makes at most `q + 1` invocations (each evaluates the field once);
their budgets are `q, q - 1, ...` in call order; the point returned is the one interpolated
by the last invocation, where the evaluated value is within the tolerance or the budget is
0; and at no earlier invocation is the value within the tolerance or the budget 0. -/
theorem C27_findCrossingPoint_budget (fn : ℚ → ℚ → ℚ → ℚ) (q : Nat) (pt0 pt1 : Point)
    (hbr : pt0.value * pt1.value < 0) :
    (findCrossingCalls fn q pt0 pt1).length ≤ q + 1 ∧
    (findCrossingCalls fn q pt0 pt1).map Prod.fst =
      (List.range (findCrossingCalls fn q pt0 pt1).length).map (fun i => q - i) ∧
    (∃ c, (findCrossingCalls fn q pt0 pt1).getLast? = some c ∧
      findCrossingPoint fn q pt0 pt1 = lerpZero c.2.1 c.2.2 ∧
      (|0 - callValue fn c| < EPSILON ∨ c.1 = 0)) ∧
    ∀ c ∈ (findCrossingCalls fn q pt0 pt1).dropLast,
      ¬ |0 - callValue fn c| < EPSILON ∧ c.1 ≠ 0 :=
  findCrossingCalls_spec fn q pt0 pt1 hbr

/-- C27 (witness): the field `x^2 - 1/4` between x = 0 and x = 1 with budget 2: three
invocations, the last with budget 0. -/
theorem C27_findCrossingPoint_budget_witness :
    ((-1 / 4 : ℚ) * (3 / 4) < 0 ∧
      (findCrossingCalls (fun x _ _ => x * x - 1 / 4) 2 ⟨⟨0, 0, 0⟩, -1 / 4⟩
        ⟨⟨1, 0, 0⟩, 3 / 4⟩).map Prod.fst = [2, 1, 0]) ∧
    (findCrossingCalls (fun x _ _ => x * x - 1 / 4) 2 ⟨⟨0, 0, 0⟩, -1 / 4⟩
      ⟨⟨1, 0, 0⟩, 3 / 4⟩).length ≤ 2 + 1 :=
  ⟨⟨by norm_num, by decide!⟩,
   (C27_findCrossingPoint_budget (fun x _ _ => x * x - 1 / 4) 2 ⟨⟨0, 0, 0⟩, -1 / 4⟩
      ⟨⟨1, 0, 0⟩, 3 / 4⟩ (by norm_num)).1⟩

/-! ## checkForEdgeAmbiguity -/

theorem lineSample_of_set (sd : Array3D ℚ) (p q : Index3D) (dir k : Int)
    (h : p.set dir k = some q) : lineSample sd p dir k = sd.getValueAt q := by
  unfold lineSample
  rw [h]
  rfl

theorem prodNeg_self (a : Option ℚ) : prodNeg a a = false := by
  cases a with
  | none => rfl
  | some u =>
    simp only [prodNeg, decide_eq_false_iff_not, not_lt]
    exact mul_self_nonneg u

theorem edgeWalk_spec (o : Octree) (dir : Int) (ptA ptB : Index3D) (b : Int)
    (hdir : dir = 0 ∨ dir = 1 ∨ dir = 2) (hb : ptB.get dir = some b) :
    ∀ (n : Nat) (k : Int) (prev index : Index3D) (cp : Nat), cp ≤ 1 → n = (b - k + 1).toNat →
      ptA.set dir k = some index →
      (edgeWalk o dir ptB n prev index cp = true ↔
        1 < cp +
          (if prodNeg (o.sampleData.getValueAt prev) (o.sampleData.getValueAt index) = true ∧
              k ≤ b then 1 else 0) +
          countPairs prodNeg o.sampleData ptA dir (b - k).toNat k) := by
  intro n
  induction n with
  | zero =>
    intro k prev index cp hcp hn _
    have hk : b < k := by omega
    have h0 : (b - k).toNat = 0 := by omega
    rw [h0]
    simp only [edgeWalk, countPairs, Bool.false_eq_true, false_iff, not_lt]
    rw [if_neg (by omega)]
    omega
  | succ n ih =>
    intro k prev index cp hcp hn hidx
    have hk : k ≤ b := by omega
    have hget : index.get dir = some k := Index3D.get_of_set ptA index dir k hidx
    obtain ⟨next, hnext⟩ := Index3D.set_isSome ptA dir (k + 1) hdir
    have hnext2 : index.set dir (k + 1) = some next := by
      rw [Index3D.set_set ptA index dir k (k + 1) hidx, hnext]
    have hcount : countPairs prodNeg o.sampleData ptA dir (b - k).toNat k =
        (if prodNeg (o.sampleData.getValueAt index) (o.sampleData.getValueAt next) = true ∧
            k + 1 ≤ b then 1 else 0) +
          countPairs prodNeg o.sampleData ptA dir (b - (k + 1)).toNat (k + 1) := by
      by_cases hkb : k + 1 ≤ b
      · obtain ⟨m, hm⟩ : ∃ m, (b - k).toNat = m + 1 := ⟨(b - k).toNat - 1, by omega⟩
        have hm2 : (b - (k + 1)).toNat = m := by omega
        rw [hm, hm2]
        simp only [countPairs, lineSample_of_set _ _ _ _ _ hidx,
          lineSample_of_set _ _ _ _ _ hnext, hkb, and_true]
      · have h0 : (b - k).toNat = 0 := by omega
        have h1 : (b - (k + 1)).toNat = 0 := by omega
        rw [h0, h1, if_neg (fun h => hkb h.2)]
        rfl
    unfold edgeWalk
    rw [hget, hb]
    simp only [optLE, decide_eq_true_eq, hk, if_true, and_true, Option.bind, hnext2]
    by_cases hp : prodNeg (o.sampleData.getValueAt prev) (o.sampleData.getValueAt index) = true
    · simp only [hp, if_true]
      by_cases hcp1 : cp + 1 > 1
      · rw [if_pos hcp1]
        simp only [true_iff]
        omega
      · rw [if_neg hcp1]
        rw [ih (k + 1) index next (cp + 1) (by omega) (by omega) hnext, hcount]
        omega
    · simp only [hp, Bool.false_eq_true, if_false]
      rw [if_neg (by omega)]
      rw [ih (k + 1) index next cp hcp (by omega) hnext, hcount]
      omega

theorem edgeAmbiguous_iff (o : Octree) (cell : Cell) (i : Nat) :
    edgeAmbiguous o cell i = true ↔ 1 < edgeCrossings o cell i := by
  unfold edgeAmbiguous edgeCrossings edgeLine
  cases hv : EDGE_VERTICES[i]? with
  | none => simp
  | some vs =>
    obtain ⟨cellPtA, cellPtB⟩ := vs
    cases hd : EDGE_DIRECTION[i]? with
    | none => simp
    | some dir =>
      cases hA : cell.pointInds[cellPtA]? with
      | none => simp [hA]
      | some ptA =>
        cases hB : cell.pointInds[cellPtB]? with
        | none => simp [hA, hB]
        | some ptB =>
          cases ha : ptA.get dir with
          | none => simp [hA, hB, ha]
          | some a =>
            cases hb : ptB.get dir with
            | none => simp [hA, hB, ha, hb]
            | some b =>
              simp only [hA, hB, ha, hb]
              have hdir : dir = 0 ∨ dir = 1 ∨ dir = 2 := by
                unfold Index3D.get at ha
                split_ifs at ha with d0 d1 d2
                · exact Or.inl d0
                · exact Or.inr (Or.inl d1)
                · exact Or.inr (Or.inr d2)
              rw [edgeWalk_spec o dir ptA ptB b hdir hb (b - a + 1).toNat a ptA ptA 0
                (by omega) rfl (Index3D.set_get_self ptA dir a ha), prodNeg_self]
              simp

theorem countPairs_congr (t1 t2 : Option ℚ → Option ℚ → Bool) (sd : Array3D ℚ)
    (indexer : Index3D) (dir : Int) :
    ∀ (n : Nat) (k : Int),
      (∀ j, k ≤ j → j < k + n →
        t1 (lineSample sd indexer dir j) (lineSample sd indexer dir (j + 1)) =
          t2 (lineSample sd indexer dir j) (lineSample sd indexer dir (j + 1))) →
      countPairs t1 sd indexer dir n k = countPairs t2 sd indexer dir n k := by
  intro n
  induction n with
  | zero => intro k _; rfl
  | succ n ih =>
    intro k h
    simp only [countPairs]
    rw [h k (le_refl _) (by push_cast; omega),
      ih (k + 1) (fun j h1 h2 => h j (by omega) (by push_cast; omega))]

theorem prodNeg_eq_signs (u v : ℚ) (hu : u ≠ 0) (hv : v ≠ 0) :
    prodNeg (some u) (some v) = (isNeg (some u) != isNeg (some v)) := by
  simp only [prodNeg, isNeg]
  rcases lt_or_gt_of_ne hu with h1 | h1 <;> rcases lt_or_gt_of_ne hv with h2 | h2
  · have := mul_pos_of_neg_of_neg h1 h2
    simp [h1, h2, not_lt.2 this.le]
  · have := mul_neg_of_neg_of_pos h1 h2
    simp [h1, not_lt.2 h2.le, this]
  · have := mul_neg_of_pos_of_neg h1 h2
    simp [not_lt.2 h1.le, h2, this]
  · have := mul_pos h1 h2
    simp [not_lt.2 h1.le, not_lt.2 h2.le, not_lt.2 this.le]

/-- C28 (counterexample): on the 3 x 3 x 3 grid that is -1 everywhere but 0 at (1, 0, 0), the
samples along edge 1 of the cell that spans the grid are -1, 0, -1: the sign (negative
against non-negative) changes twice, and checkForEdgeAmbiguity returns false. -/
theorem C28_zero_sample_hides_ambiguity :
    edgeSignChanges dipOct dipCell 1 = 2 ∧ checkForEdgeAmbiguity dipOct dipCell = false := by
  decide!

/-- C28 (amended): checkForEdgeAmbiguity returns true exactly when on one of the 12 edges of
the cell more than one pair of adjacent samples has a negative product; on an edge all of
whose samples are defined and different from 0, that number is the number of changes of
sign along the edge. -/
theorem C28_edge_ambiguity (o : Octree) (cell : Cell) :
    (checkForEdgeAmbiguity o cell = true ↔ ∃ i, i < 12 ∧ 1 < edgeCrossings o cell i) ∧
    ∀ i ptA dir a b, edgeLine cell i = some (ptA, dir, a, b) →
      (∀ k, a ≤ k → k ≤ b → ∃ v, lineSample o.sampleData ptA dir k = some v ∧ v ≠ 0) →
      edgeCrossings o cell i = edgeSignChanges o cell i := by
  constructor
  · unfold checkForEdgeAmbiguity
    simp only [List.any_eq_true, List.mem_range]
    constructor
    · rintro ⟨i, hi, h⟩
      exact ⟨i, hi, (edgeAmbiguous_iff o cell i).1 h⟩
    · rintro ⟨i, hi, h⟩
      exact ⟨i, hi, (edgeAmbiguous_iff o cell i).2 h⟩
  · intro i ptA dir a b hline hdef
    unfold edgeCrossings edgeSignChanges
    rw [hline]
    simp only
    apply countPairs_congr
    intro j hj1 hj2
    obtain ⟨u, hu, hu0⟩ := hdef j (by omega) (by omega)
    obtain ⟨v, hv, hv0⟩ := hdef (j + 1) (by omega) (by omega)
    rw [hu, hv]
    exact prodNeg_eq_signs u v hu0 hv0

set_option maxRecDepth 100000 in
/-- C28 (witness): the level-1 cell 1 of the example octree, on whose edge from (0, 0, 0) to
(4, 0, 0) the samples change sign twice. -/
theorem C28_edge_ambiguity_witness :
    checkForEdgeAmbiguity exOct (litCell 1 false (some 0) 1 0 0 0 4 0 [1, 0, 0, 0, 0, 0, 0, 0]) =
      true ∧
    ∃ i, i < 12 ∧
      1 < edgeCrossings exOct (litCell 1 false (some 0) 1 0 0 0 4 0 [1, 0, 0, 0, 0, 0, 0, 0]) i :=
  ⟨by decide!,
   (C28_edge_ambiguity exOct (litCell 1 false (some 0) 1 0 0 0 4 0 [1, 0, 0, 0, 0, 0, 0, 0])).1.1
     (by decide!)⟩

/-! ## resolveTransitionalFace: demotion and the strips of the twin -/

theorem FaceStore.face_set_ne (fs : FaceStore) (r q : FaceRef) (f : Face) (h : q ≠ r) :
    (fs.set r f).face q = fs.face q := by
  unfold FaceStore.face
  rw [FaceStore.set_apply, if_neg]
  rintro ⟨h1, h2⟩
  exact h (Prod.ext h1 h2)

/-- C30: when traverseFace collects no strip below the twin of a face (at any depth bound,
also when the face has no twin), resolveTransitionalFace only sets the state of the face to
LEAF_FACE: every other field of the face, its strips among them, and every other face,
the twin with its strips and transitSegs among them, are unchanged. -/
theorem C30_empty_transitional_face_is_demoted (depth : Nat) (fs : FaceStore) (face : FaceRef)
    (hempty : traverseFace fs depth (fs.face face).twin = []) :
    (resolveTransitionalFace depth fs face).face face =
      { fs.face face with state := FaceState.LEAF_FACE } ∧
    (∀ r, r ≠ face → (resolveTransitionalFace depth fs face).face r = fs.face r) ∧
    ∀ r, ((resolveTransitionalFace depth fs face).face r).strips = (fs.face r).strips ∧
      ((resolveTransitionalFace depth fs face).face r).transitSegs = (fs.face r).transitSegs := by
  have hres : resolveTransitionalFace depth fs face =
      fs.set face { fs.face face with state := FaceState.LEAF_FACE } := by
    unfold resolveTransitionalFace
    rw [if_pos hempty]
  rw [hres]
  refine ⟨FaceStore.face_set_self _ _ _, fun r hr => FaceStore.face_set_ne _ _ _ _ hr, ?_⟩
  intro r
  by_cases hr : r = face
  · subst hr
    rw [FaceStore.face_set_self]
    exact ⟨rfl, rfl⟩
  · rw [FaceStore.face_set_ne _ _ _ _ hr]
    exact ⟨rfl, rfl⟩

/-- C30 (witness): the transitional face 5 of cell 1 in `bareTwinStore`, whose twin is a leaf
face without strips: the face becomes a leaf face and keeps its strip. -/
theorem C30_empty_transitional_face_is_demoted_witness :
    (bareTwinStore.face (1, 5)).state = FaceState.TRANSIT_FACE ∧
    traverseFace bareTwinStore 3 (bareTwinStore.face (1, 5)).twin = [] ∧
    ((resolveTransitionalFace 3 bareTwinStore (1, 5)).face (1, 5)).state = FaceState.LEAF_FACE ∧
    ((resolveTransitionalFace 3 bareTwinStore (1, 5)).face (1, 5)).strips =
      (bareTwinStore.face (1, 5)).strips ∧
    (resolveTransitionalFace 3 bareTwinStore (1, 5)).face (2, 4) = bareTwinStore.face (2, 4) :=
  have h := C30_empty_transitional_face_is_demoted 3 bareTwinStore (1, 5) (by decide)
  ⟨by decide, by decide, by rw [h.1], (h.2.2 (1, 5)).1, h.2.1 (2, 4) (by decide)⟩

theorem copyStrip_eq (s : Strip) : copyStrip s = { s with loop := false } := by
  cases s
  rfl

theorem collectStrips_eq (fs : FaceStore) (cell : Cell) :
    collectStrips fs cell = (List.range 6).flatMap (collectFace fs cell.id) := rfl

theorem populateStrip_data (a : AlgCMS) (strip : Strip) (inds : List Index3D) (index : Nat)
    (b : AlgCMS) (s : Strip) (h : populateStrip a strip inds index = some (b, s)) :
    getPair s.data index ≠ -1 ∧ (index ≠ 0 → s.data.1 = strip.data.1) ∧ s.skip = strip.skip := by
  obtain ⟨dir, c0, c1, _, hcase⟩ := populateStrip_cases a strip inds index b s h
  have hset : ∀ v : Int, v ≠ -1 →
      getPair (strip.setEnd index v c0 dir).data index ≠ -1 ∧
      (index ≠ 0 → (strip.setEnd index v c0 dir).data.1 = strip.data.1) ∧
      (strip.setEnd index v c0 dir).skip = strip.skip := by
    intro v hv
    unfold Strip.setEnd getPair setPair
    by_cases hi : index = 0
    · simp [hi, hv]
    · simp [hi, hv]
  rcases hcase with ⟨v, hv, _, hs⟩ | ⟨_, hm⟩
  · rw [hs]
    exact hset v ((cachedVertex_some_iff _ _ _ _).1 hv).choose_spec.2.2.2
  · obtain ⟨_, _, _, _, _, hs⟩ := makeVertex_spec a strip dir c0 c1 index b s hm
    rw [hs]
    exact hset _ (by omega)

theorem makeStrip_stored (a : AlgCMS) (edge0 edge1 : Int) (inds : List Index3D) (face : FaceRef)
    (k : Nat) (a2 : AlgCMS) (h : makeStrip a edge0 edge1 inds face k = some a2)
    (hk : (a.faces.face face).strips.length = k) :
    ∃ s, (a2.faces.face face).strips = (a.faces.face face).strips ++ [s] ∧ s.data.1 ≠ -1 ∧
      s.skip = false := by
  unfold makeStrip at h
  cases h1 : populateStrip a (newStrip false edge0 edge1) inds 0 with
  | none => simp [h1] at h
  | some r1 =>
    obtain ⟨b1, s1⟩ := r1
    simp only [h1] at h
    cases h2 : populateStrip b1 s1 inds 1 with
    | none => simp [h2] at h
    | some r2 =>
      obtain ⟨b2, s2⟩ := r2
      simp only [h2] at h
      have hf : b2.faces = a.faces := by
        rw [populateStrip_faces b1 s1 inds 1 b2 s2 h2, populateStrip_faces a _ inds 0 b1 s1 h1]
      rw [hf] at h
      unfold setStripAt at h
      rw [if_neg (by omega), if_pos hk.symm] at h
      simp only [Option.some.injEq] at h
      have hd1 := populateStrip_data a _ inds 0 b1 s1 h1
      have hd2 := populateStrip_data b1 s1 inds 1 b2 s2 h2
      refine ⟨s2, ?_, ?_, ?_⟩
      · rw [← h]
        simp only [FaceStore.face_set_self]
      · rw [hd2.2.1 (by decide)]
        have := hd1.1
        unfold getPair at this
        simpa using this
      · rw [hd2.2.2, hd1.2.2]
        rfl

/-- C29: after resolveTransitionalFace on a transitional face whose twin is another face
and has fine strips below it (what traverseFace collects: the non-skipped strips of the leaf
faces under the twin, children in the order 0 to 3), the strips of the twin are the copies
of the fine strips in that order, a copy having the skip flag, edges, vertex ids, blocks and
axes of the original; transitSegs of the twin lists the vertex id pairs of its strips; and
in collectStrips the face contributes the strips of the twin with `data[0] !== -1`, which
are all of them when no fine strip has `data[0] = -1`, and none of its own. -/
theorem C29_twin_holds_fine_strips (depth : Nat) (fs : FaceStore) (face tw : FaceRef)
    (hstate : (fs.face face).state = FaceState.TRANSIT_FACE)
    (htw : (fs.face face).twin = some tw) (hne : tw ≠ face)
    (hfine : traverseFace fs depth (some tw) ≠ []) :
    ((resolveTransitionalFace depth fs face).face tw).strips =
      (traverseFace fs depth (some tw)).map copyStrip ∧
    (∀ s, copyStrip s = { s with loop := false }) ∧
    ((resolveTransitionalFace depth fs face).face tw).transitSegs =
      ((resolveTransitionalFace depth fs face).face tw).strips.map (fun s => s.data) ∧
    ((resolveTransitionalFace depth fs face).face tw).transitSegs.length =
      ((resolveTransitionalFace depth fs face).face tw).strips.length ∧
    collectFace (resolveTransitionalFace depth fs face) face.1 face.2 =
      ((resolveTransitionalFace depth fs face).face tw).strips.filter
        (fun s => decide (s.data.1 ≠ -1)) ∧
    ((∀ s ∈ traverseFace fs depth (some tw), s.data.1 ≠ -1) →
      collectFace (resolveTransitionalFace depth fs face) face.1 face.2 =
        (traverseFace fs depth (some tw)).map copyStrip) ∧
    ∀ cell : Cell, collectStrips (resolveTransitionalFace depth fs face) cell =
      (List.range 6).flatMap (collectFace (resolveTransitionalFace depth fs face) cell.id) := by
  have hres : resolveTransitionalFace depth fs face =
      (fs.set face { fs.face face with
          strips := insertCrossings
            (if (fs.face face).strips = [] then traverseFace fs depth (some face)
             else (fs.face face).strips)
            (uniqueCrossings (traverseFace fs depth (some tw))) }).set tw
        { (fs.set face { fs.face face with
            strips := insertCrossings
              (if (fs.face face).strips = [] then traverseFace fs depth (some face)
               else (fs.face face).strips)
              (uniqueCrossings (traverseFace fs depth (some tw))) }).face tw with
          strips := (traverseFace fs depth (some tw)).map copyStrip,
          transitSegs := (traverseFace fs depth (some tw)).map (fun s => s.data) } := by
    unfold resolveTransitionalFace
    rw [htw, if_neg hfine]
  have hstrips : ((resolveTransitionalFace depth fs face).face tw).strips =
      (traverseFace fs depth (some tw)).map copyStrip := by
    rw [hres, FaceStore.face_set_self]
  have hsegs : ((resolveTransitionalFace depth fs face).face tw).transitSegs =
      (traverseFace fs depth (some tw)).map (fun s => s.data) := by
    rw [hres, FaceStore.face_set_self]
  have hface : (resolveTransitionalFace depth fs face).face face =
      { fs.face face with
        strips := insertCrossings
          (if (fs.face face).strips = [] then traverseFace fs depth (some face)
           else (fs.face face).strips)
          (uniqueCrossings (traverseFace fs depth (some tw))) } := by
    rw [hres, FaceStore.face_set_ne _ _ _ _ (Ne.symm hne), FaceStore.face_set_self]
  have hdata : ∀ l : List Strip, (l.map copyStrip).map (fun s => s.data) =
      l.map (fun s => s.data) := by
    intro l
    rw [List.map_map]
    apply List.map_congr_left
    intro s _
    rw [Function.comp, copyStrip_eq]
  have hcollect : collectFace (resolveTransitionalFace depth fs face) face.1 face.2 =
      ((resolveTransitionalFace depth fs face).face tw).strips.filter
        (fun s => decide (s.data.1 ≠ -1)) := by
    have h1 : (resolveTransitionalFace depth fs face) face.1 face.2 =
        (resolveTransitionalFace depth fs face).face face := rfl
    unfold collectFace
    rw [h1, hface]
    simp only [hstate, htw]
    simp
  refine ⟨hstrips, copyStrip_eq, ?_, ?_, hcollect, ?_, fun cell => collectStrips_eq _ cell⟩
  · rw [hsegs, hstrips, hdata]
  · rw [hsegs, hstrips, List.length_map, List.length_map]
  · intro hall
    rw [hcollect, hstrips, List.filter_eq_self]
    intro s hs
    obtain ⟨s0, hs0, rfl⟩ := List.mem_map.1 hs
    rw [copyStrip_eq]
    simpa using hall s0 hs0

/-- C29 (witness): the transitional face 5 of cell 1 in `twoFaceStore`, whose twin, face 4
of cell 2, is a leaf face with one strip. -/
theorem C29_twin_holds_fine_strips_witness :
    ((twoFaceStore.face (1, 5)).state = FaceState.TRANSIT_FACE ∧
      (twoFaceStore.face (1, 5)).twin = some (2, 4) ∧ ((2, 4) : FaceRef) ≠ (1, 5) ∧
      traverseFace twoFaceStore 1 (some (2, 4)) ≠ []) ∧
    ((resolveTransitionalFace 1 twoFaceStore (1, 5)).face (2, 4)).strips =
      (traverseFace twoFaceStore 1 (some (2, 4))).map copyStrip ∧
    collectFace (resolveTransitionalFace 1 twoFaceStore (1, 5)) 1 5 =
      ((resolveTransitionalFace 1 twoFaceStore (1, 5)).face (2, 4)).strips.filter
        (fun s => decide (s.data.1 ≠ -1)) :=
  have h := C29_twin_holds_fine_strips 1 twoFaceStore (1, 5) (2, 4) (by decide) (by decide)
    (by decide) (by decide)
  ⟨⟨by decide, by decide, by decide, by decide⟩, h.1, h.2.2.2.2.1⟩

/-! ## Ids and links of the cells of the tree -/

theorem finalChildCell_id (o : Octree) (pc : Cell) (i n : Nat) :
    (finalChildCell o pc i n).id = n := by
  rcases finalChildCell_cases o pc i n with ⟨_, _, h⟩ | ⟨_, h⟩ <;> (rw [h]; rfl)

theorem finalChildCell_posInParent (o : Octree) (pc : Cell) (i n : Nat) :
    (finalChildCell o pc i n).posInParent = i := by
  rcases finalChildCell_cases o pc i n with ⟨_, _, h⟩ | ⟨_, h⟩ <;> (rw [h]; rfl)

theorem finalChildCell_address (o : Octree) (pc : Cell) (i n : Nat) :
    (finalChildCell o pc i n).address = addressSet pc.address i := by
  rcases finalChildCell_cases o pc i n with ⟨_, _, h⟩ | ⟨_, h⟩ <;> (rw [h]; rfl)

theorem kidsFrom_ids (step : Nat → Nat → OctTree × Nat)
    (h : ∀ i n, (step i n).1.cells.map Cell.id = List.range' n ((step i n).2 - n) ∧
      n < (step i n).2) :
    ∀ (is : List Nat) (n : Nat),
      ((kidsFrom step is n).1.flatMap OctTree.cells).map Cell.id =
        List.range' n ((kidsFrom step is n).2 - n) ∧ n ≤ (kidsFrom step is n).2 := by
  intro is
  induction is with
  | nil =>
    intro n
    simp [kidsFrom]
  | cons i rest ih =>
    intro n
    obtain ⟨h1, h2⟩ := h i n
    obtain ⟨h3, h4⟩ := ih (step i n).2
    simp only [kidsFrom, List.flatMap_cons, List.map_append]
    rw [h1, h3]
    refine ⟨?_, by omega⟩
    have key : ∀ a b c : Nat, a ≤ b → b ≤ c →
        List.range' a (b - a) ++ List.range' b (c - b) = List.range' a (c - a) := by
      intro a b c hab hbc
      obtain ⟨x, rfl⟩ := Nat.exists_eq_add_of_le hab
      obtain ⟨y, rfl⟩ := Nat.exists_eq_add_of_le hbc
      have e1 : a + x - a = x := by omega
      have e2 : a + x + y - (a + x) = y := by omega
      have e3 : a + x + y - a = x + y := by omega
      rw [e1, e2, e3, List.range'_append_1, Nat.add_comm]
    exact key _ _ _ h2.le h4

theorem subdivideCell_ids (o : Octree) : ∀ (fuel : Nat) (parent : Cell) (next : Nat),
    ((subdivideCell o fuel parent next).1.flatMap OctTree.cells).map Cell.id =
      List.range' next ((subdivideCell o fuel parent next).2 - next) ∧
    next ≤ (subdivideCell o fuel parent next).2 := by
  intro fuel
  induction fuel with
  | zero =>
    intro parent next
    simp [subdivideCell]
  | succ f ih =>
    intro parent next
    unfold subdivideCell
    apply kidsFrom_ids
    intro i n
    rw [subdivideChild_eq]
    by_cases hs : shouldSubdivide o (childCell o parent i n) = true
    · rw [if_pos hs]
      obtain ⟨h1, h2⟩ := ih (childCell o parent i n) (n + 1)
      simp only [OctTree.cells_mk, List.map_cons]
      rw [h1]
      refine ⟨?_, by omega⟩
      have : (subdivideCell o f (childCell o parent i n) (n + 1)).2 - n =
          ((subdivideCell o f (childCell o parent i n) (n + 1)).2 - (n + 1)) + 1 := by omega
      rw [this, List.range'_succ]
      rfl
    · rw [if_neg hs]
      simp only [OctTree.cells_mk, List.flatMap_nil, List.map_cons, List.map_nil,
        finalChildCell_id]
      refine ⟨?_, by omega⟩
      have : n + 1 - n = 1 := by omega
      rw [this]
      rfl

theorem makeStructure_ids (o : Octree) :
    (makeStructure o).cells.map Cell.id = List.range (makeStructure o).cells.length := by
  obtain ⟨h1, h2⟩ := subdivideCell_ids o (buildFuel o) (rootCell o) 1
  have hlen : ((subdivideCell o (buildFuel o) (rootCell o) 1).1.flatMap OctTree.cells).length =
      (subdivideCell o (buildFuel o) (rootCell o) 1).2 - 1 := by
    have := congrArg List.length h1
    simpa using this
  unfold makeStructure
  simp only [OctTree.cells_mk, List.map_cons, List.length_cons]
  rw [h1, hlen, List.range_eq_range', List.range'_succ]
  rfl

theorem makeStructure_kidLinks (o : Octree) (s : OctTree)
    (hs : s ∈ (makeStructure o).subtrees) : KidLinks s := by
  have hinv := makeStructure_inv o s hs
  unfold KidLinks
  rcases hinv.1 with h1 | h1
  · exact Or.inl h1
  · right
    have hlen : s.kids.length = 8 := by rw [← h1.length_eq]; simp
    refine ⟨hlen, ?_⟩
    intro i k hk
    have hi : i < s.kids.length := by
      by_contra hge
      rw [List.getElem?_eq_none (by omega)] at hk
      cases hk
    have hget := List.Forall₂.get h1 (i := i) (by simpa [hlen] using hi) hi
    obtain ⟨n, hn, _⟩ := hget
    simp only [List.get_eq_getElem, List.getElem_range] at hn
    have hk2 : s.kids[i] = k := by
      rw [List.getElem?_eq_getElem hi] at hk
      exact Option.some.inj hk
    rw [hk2] at hn
    rw [hn]
    exact ⟨finalChildCell_parent _ _ _ _, finalChildCell_posInParent _ _ _ _⟩

theorem makeStructure_wellLinked (o : Octree) : WellLinked (makeStructure o) := by
  refine ⟨makeStructure_kidLinks o, ?_, rfl⟩
  rw [makeStructure_ids]
  exact List.nodup_range _

/-! ## setFaceRelationships field by field -/

theorem linkFaces_children (fs : FaceStore) (cid pid con pos X f : Nat) :
    ((linkFaces fs cid pid con pos) X f).children =
      if X = pid ∧ f = con then (fs X f).children.set pos (some (cid, con))
      else (fs X f).children := by
  unfold linkFaces
  simp only [FaceStore.set_apply]
  by_cases h1 : X = pid ∧ f = con
  · obtain ⟨rfl, rfl⟩ := h1
    by_cases h2 : X = cid
    · subst h2; simp
    · simp [h2, Ne.symm h2]
  · by_cases h2 : X = cid ∧ f = con
    · obtain ⟨rfl, rfl⟩ := h2
      have h3 : X ≠ pid := fun h => h1 ⟨h, rfl⟩
      simp [h3]
    · simp [h1, h2]

theorem linkFaces_parent (fs : FaceStore) (cid pid con pos X f : Nat) :
    ((linkFaces fs cid pid con pos) X f).parent =
      if X = cid ∧ f = con then some (pid, con) else (fs X f).parent := by
  unfold linkFaces
  simp only [FaceStore.set_apply]
  by_cases h1 : X = pid ∧ f = con
  · obtain ⟨rfl, rfl⟩ := h1
    by_cases h2 : X = cid
    · subst h2; simp
    · simp [h2, Ne.symm h2]
  · by_cases h2 : X = cid ∧ f = con
    · obtain ⟨rfl, rfl⟩ := h2
      have h3 : X ≠ pid := fun h => h1 ⟨h, rfl⟩
      simp [h3]
    · simp [h1, h2]

theorem linkFaces_state (fs : FaceStore) (cid pid con pos X f : Nat) :
    ((linkFaces fs cid pid con pos) X f).state = (fs X f).state := by
  unfold linkFaces
  simp only [FaceStore.set_apply]
  by_cases h1 : X = pid ∧ f = con
  · obtain ⟨rfl, rfl⟩ := h1
    by_cases h2 : X = cid
    · subst h2; simp
    · simp [h2, Ne.symm h2]
  · by_cases h2 : X = cid ∧ f = con
    · obtain ⟨rfl, rfl⟩ := h2
      have h3 : X ≠ pid := fun h => h1 ⟨h, rfl⟩
      simp [h3]
    · simp [h1, h2]

theorem linkFaces_twin (fs : FaceStore) (cid pid con pos X f : Nat) :
    ((linkFaces fs cid pid con pos) X f).twin = (fs X f).twin := by
  unfold linkFaces
  simp only [FaceStore.set_apply]
  by_cases h1 : X = pid ∧ f = con
  · obtain ⟨rfl, rfl⟩ := h1
    by_cases h2 : X = cid
    · subst h2; simp
    · simp [h2, Ne.symm h2]
  · by_cases h2 : X = cid ∧ f = con
    · obtain ⟨rfl, rfl⟩ := h2
      have h3 : X ≠ pid := fun h => h1 ⟨h, rfl⟩
      simp [h3]
    · simp [h1, h2]


theorem setFaceRelationStep_eq (cell : Cell) (pid : Nat) (fs : FaceStore) (side : Nat) :
    setFaceRelationStep cell pid fs side =
      match FACE_RELATIONSHIP_TABLE[cell.posInParent]? with
      | some (cons, subs) =>
        match cons[side]?, subs[side]? with
        | some con, some pos => linkFaces fs cell.id pid con pos
        | _, _ => fs
      | none => fs := rfl

theorem sides_eq (cell : Cell) (pid : Nat) (fs : FaceStore) :
    (List.range 3).foldl (setFaceRelationStep cell pid) fs =
      match FACE_RELATIONSHIP_TABLE[cell.posInParent]? with
      | some ([c0, c1, c2], [p0, p1, p2]) =>
        linkFaces (linkFaces (linkFaces fs cell.id pid c0 p0) cell.id pid c1 p1) cell.id pid c2 p2
      | _ => fs := by
  have h3 : List.range 3 = [0, 1, 2] := by decide
  rw [h3]
  simp only [List.foldl_cons, List.foldl_nil, setFaceRelationStep_eq]
  generalize cell.posInParent = i
  by_cases hi : i < 8
  · interval_cases i <;> rfl
  · have : FACE_RELATIONSHIP_TABLE[i]? = none :=
      List.getElem?_eq_none (by simp [FACE_RELATIONSHIP_TABLE]; omega)
    simp only [this]

theorem three_links_children (fs : FaceStore) (cid pid c0 c1 c2 p0 p1 p2 X f : Nat)
    (h01 : c0 ≠ c1) (h02 : c0 ≠ c2) (h12 : c1 ≠ c2) :
    ((linkFaces (linkFaces (linkFaces fs cid pid c0 p0) cid pid c1 p1) cid pid c2 p2) X f).children =
      if X = pid then
        match (if f = c0 then some p0 else if f = c1 then some p1 else if f = c2 then some p2
          else none) with
        | some pos => (fs X f).children.set pos (some (cid, f))
        | none => (fs X f).children
      else (fs X f).children := by
  simp only [linkFaces_children]
  by_cases hX : X = pid
  · subst hX
    by_cases h0 : f = c0
    · subst h0
      simp [h01, h02]
    · by_cases h1 : f = c1
      · subst h1
        simp [h0, h12]
      · by_cases h2 : f = c2
        · subst h2
          simp [h0, h1]
        · simp [h0, h1, h2]
  · simp [hX]

theorem sides_children (cell : Cell) (pid : Nat) (fs : FaceStore) (X f : Nat) :
    (((List.range 3).foldl (setFaceRelationStep cell pid) fs) X f).children =
      if X = pid then
        match subFacePos cell.posInParent f with
        | some pos => (fs X f).children.set pos (some (cell.id, f))
        | none => (fs X f).children
      else (fs X f).children := by
  rw [sides_eq]
  unfold subFacePos
  generalize cell.posInParent = i
  by_cases hi : i < 8
  · interval_cases i <;>
      simp only [FACE_RELATIONSHIP_TABLE, List.getElem?_cons_zero, List.getElem?_cons_succ] <;>
      exact three_links_children fs _ pid _ _ _ _ _ _ X f (by decide) (by decide) (by decide)
  · have : FACE_RELATIONSHIP_TABLE[i]? = none :=
      List.getElem?_eq_none (by simp [FACE_RELATIONSHIP_TABLE]; omega)
    simp only [this]
    simp

theorem three_links_parent (fs : FaceStore) (cid pid c0 c1 c2 p0 p1 p2 X f : Nat) :
    ((linkFaces (linkFaces (linkFaces fs cid pid c0 p0) cid pid c1 p1) cid pid c2 p2) X f).parent =
      if X = cid ∧ (if f = c0 then some p0 else if f = c1 then some p1 else if f = c2 then some p2
          else none).isSome = true then some (pid, f)
      else (fs X f).parent := by
  have hsome : ((if f = c0 then some p0 else if f = c1 then some p1 else if f = c2 then some p2
      else none).isSome = true) ↔ (f = c0 ∨ f = c1 ∨ f = c2) := by
    split_ifs with h0 h1 h2
    · simp [h0]
    · simp [h1]
    · simp [h2]
    · simp [h0, h1, h2]
  simp only [linkFaces_parent, hsome]
  by_cases hX : X = cid
  · by_cases h2 : f = c2
    · rw [if_pos ⟨hX, h2⟩, if_pos ⟨hX, Or.inr (Or.inr h2)⟩, h2]
    · by_cases h1 : f = c1
      · rw [if_neg (fun h => h2 h.2), if_pos ⟨hX, h1⟩, if_pos ⟨hX, Or.inr (Or.inl h1)⟩, h1]
      · by_cases h0 : f = c0
        · rw [if_neg (fun h => h2 h.2), if_neg (fun h => h1 h.2), if_pos ⟨hX, h0⟩,
            if_pos ⟨hX, Or.inl h0⟩, h0]
        · rw [if_neg (fun h => h2 h.2), if_neg (fun h => h1 h.2), if_neg (fun h => h0 h.2),
            if_neg (fun h => by rcases h.2 with h | h | h <;> contradiction)]
  · rw [if_neg (fun h => hX h.1), if_neg (fun h => hX h.1), if_neg (fun h => hX h.1),
      if_neg (fun h => hX h.1)]

theorem sides_parent (cell : Cell) (pid : Nat) (fs : FaceStore) (X f : Nat) :
    (((List.range 3).foldl (setFaceRelationStep cell pid) fs) X f).parent =
      if X = cell.id ∧ (subFacePos cell.posInParent f).isSome = true then some (pid, f)
      else (fs X f).parent := by
  rw [sides_eq]
  unfold subFacePos
  generalize cell.posInParent = i
  by_cases hi : i < 8
  · interval_cases i <;>
      simp only [FACE_RELATIONSHIP_TABLE, List.getElem?_cons_zero, List.getElem?_cons_succ] <;>
      exact three_links_parent fs _ pid _ _ _ _ _ _ X f
  · have : FACE_RELATIONSHIP_TABLE[i]? = none :=
      List.getElem?_eq_none (by simp [FACE_RELATIONSHIP_TABLE]; omega)
    simp only [this]
    simp

theorem sides_state_twin (cell : Cell) (pid : Nat) (fs : FaceStore) (X f : Nat) :
    (((List.range 3).foldl (setFaceRelationStep cell pid) fs) X f).state = (fs X f).state ∧
    (((List.range 3).foldl (setFaceRelationStep cell pid) fs) X f).twin = (fs X f).twin := by
  rw [sides_eq]
  generalize cell.posInParent = i
  by_cases hi : i < 8
  · interval_cases i <;>
      simp only [FACE_RELATIONSHIP_TABLE, List.getElem?_cons_zero, List.getElem?_cons_succ,
        linkFaces_state, linkFaces_twin, and_self]
  · have : FACE_RELATIONSHIP_TABLE[i]? = none :=
      List.getElem?_eq_none (by simp [FACE_RELATIONSHIP_TABLE]; omega)
    simp only [this, and_self]

theorem markLeaf_fold (cid : Nat) (l : List Nat) :
    ∀ (base : FaceStore) (X f : Nat),
      (l.foldl (fun g i => g.set (cid, i) { g cid i with state := FaceState.LEAF_FACE }) base) X f =
        if X = cid ∧ f ∈ l then { base X f with state := FaceState.LEAF_FACE } else base X f := by
  induction l with
  | nil => intro base X f; simp
  | cons i rest ih =>
    intro base X f
    rw [List.foldl_cons, ih]
    simp only [FaceStore.set_apply, List.mem_cons]
    by_cases hX : X = cid
    · subst hX
      by_cases hf : f = i
      · subst hf
        by_cases hr : f ∈ rest <;> simp [hr]
      · by_cases hr : f ∈ rest <;> simp [hr, hf]
    · simp [hX]

theorem cell_children (fs : FaceStore) (c : Cell) (X f : Nat) :
    ((setFaceRelationCell fs c) X f).children =
      if c.parent = some X then
        match subFacePos c.posInParent f with
        | some pos => (fs X f).children.set pos (some (c.id, f))
        | none => (fs X f).children
      else (fs X f).children := by
  unfold setFaceRelationCell
  cases hp : c.parent with
  | none => simp
  | some pid =>
    simp only [Option.some.injEq]
    have hs := sides_children c pid fs X f
    by_cases hl : c.state = CellState.LEAF
    · rw [if_pos hl, markLeaf_fold]
      by_cases hm : X = c.id ∧ f ∈ List.range 6
      · rw [if_pos hm]
        simp only
        rw [hs]
        by_cases hX : X = pid <;> simp [hX, eq_comm]
      · rw [if_neg hm, hs]
        by_cases hX : X = pid <;> simp [hX, eq_comm]
    · rw [if_neg hl, hs]
      by_cases hX : X = pid <;> simp [hX, eq_comm]

theorem cell_parent (fs : FaceStore) (c : Cell) (X f : Nat) :
    ((setFaceRelationCell fs c) X f).parent =
      if X = c.id ∧ (subFacePos c.posInParent f).isSome = true ∧ c.parent.isSome = true then
        c.parent.map (fun p => (p, f))
      else (fs X f).parent := by
  unfold setFaceRelationCell
  cases hp : c.parent with
  | none => simp
  | some pid =>
    have hs := sides_parent c pid fs X f
    by_cases hl : c.state = CellState.LEAF
    · simp only [if_pos hl, markLeaf_fold]
      by_cases hm : X = c.id ∧ f ∈ List.range 6
      · rw [if_pos hm]
        simp only
        rw [hs]
        simp
      · rw [if_neg hm, hs]
        simp
    · simp only [if_neg hl]
      rw [hs]
      simp

theorem cell_state (fs : FaceStore) (c : Cell) (X f : Nat) :
    ((setFaceRelationCell fs c) X f).state =
      if X = c.id ∧ f < 6 ∧ c.parent.isSome = true ∧ c.state = CellState.LEAF then
        FaceState.LEAF_FACE
      else (fs X f).state := by
  unfold setFaceRelationCell
  cases hp : c.parent with
  | none => simp
  | some pid =>
    have hs := (sides_state_twin c pid fs X f).1
    by_cases hl : c.state = CellState.LEAF
    · simp only [if_pos hl, markLeaf_fold, List.mem_range]
      by_cases hm : X = c.id ∧ f < 6
      · rw [if_pos hm]
        simp [hm, hl]
      · rw [if_neg hm, hs]
        have : ¬ (X = c.id ∧ f < 6 ∧ (some pid).isSome = true ∧ c.state = CellState.LEAF) :=
          fun h => hm ⟨h.1, h.2.1⟩
        rw [if_neg this]
    · simp only [if_neg hl]
      rw [hs, if_neg (fun h => hl h.2.2.2)]

theorem cell_twin (fs : FaceStore) (c : Cell) (X f : Nat) :
    ((setFaceRelationCell fs c) X f).twin = (fs X f).twin := by
  unfold setFaceRelationCell
  cases hp : c.parent with
  | none => rfl
  | some pid =>
    have hs := (sides_state_twin c pid fs X f).2
    by_cases hl : c.state = CellState.LEAF
    · simp only [if_pos hl, markLeaf_fold]
      by_cases hm : X = c.id ∧ f ∈ List.range 6
      · rw [if_pos hm]
        exact hs
      · rw [if_neg hm]
        exact hs
    · simp only [if_neg hl]
      exact hs

/-! ## setFaceRelationships on a well linked tree -/

theorem foldl_proj_write {σ α β : Type} (step : σ → α → σ) (proj : σ → β) (I : σ → Prop)
    (Q : α → Prop) (v : β) (L : List α)
    (hI : ∀ s c, I s → I (step s c))
    (hstep : ∀ s c, I s → c ∈ L → (Q c → proj (step s c) = v) ∧ (¬ Q c → proj (step s c) = proj s)) :
    ∀ s, I s → ((∃ c ∈ L, Q c) → proj (L.foldl step s) = v) ∧
      ((¬ ∃ c ∈ L, Q c) → proj (L.foldl step s) = proj s) := by
  induction L with
  | nil =>
    intro s _
    exact ⟨fun ⟨c, hc, _⟩ => (by cases hc), fun _ => rfl⟩
  | cons c rest ih =>
    intro s hs
    have ih2 := ih (fun s d h hd => hstep s d h (List.mem_cons_of_mem _ hd)) (step s c)
      (hI s c hs)
    have h1 := hstep s c hs (List.mem_cons_self _ _)
    rw [List.foldl_cons]
    constructor
    · rintro ⟨d, hd, hQ⟩
      by_cases hr : ∃ d ∈ rest, Q d
      · exact ih2.1 hr
      · rw [ih2.2 hr]
        rcases List.mem_cons.1 hd with rfl | hd
        · exact h1.1 hQ
        · exact absurd ⟨d, hd, hQ⟩ hr
    · intro hno
      have hr : ¬ ∃ d ∈ rest, Q d := fun ⟨d, hd, hQ⟩ => hno ⟨d, List.mem_cons_of_mem _ hd, hQ⟩
      rw [ih2.2 hr]
      exact h1.2 (fun hQ => hno ⟨c, List.mem_cons_self _ _, hQ⟩)

theorem relations_twin (L : List Cell) : ∀ (fs : FaceStore) (X f : Nat),
    ((L.foldl setFaceRelationCell fs) X f).twin = (fs X f).twin := by
  induction L with
  | nil => intro fs X f; rfl
  | cons c rest ih =>
    intro fs X f
    rw [List.foldl_cons, ih, cell_twin]

theorem relations_children_length (L : List Cell) : ∀ (fs : FaceStore) (X f : Nat),
    ((L.foldl setFaceRelationCell fs) X f).children.length = (fs X f).children.length := by
  induction L with
  | nil => intro fs X f; rfl
  | cons c rest ih =>
    intro fs X f
    rw [List.foldl_cons, ih, cell_children]
    split_ifs
    · split <;> simp
    · rfl

theorem relations_state (L : List Cell) (fs : FaceStore) (X f : Nat) :
    ((∃ c ∈ L, X = c.id ∧ f < 6 ∧ c.parent.isSome = true ∧ c.state = CellState.LEAF) →
      ((L.foldl setFaceRelationCell fs) X f).state = FaceState.LEAF_FACE) ∧
    ((¬ ∃ c ∈ L, X = c.id ∧ f < 6 ∧ c.parent.isSome = true ∧ c.state = CellState.LEAF) →
      ((L.foldl setFaceRelationCell fs) X f).state = (fs X f).state) :=
  foldl_proj_write setFaceRelationCell (fun s => (s X f).state) (fun _ => True)
    (fun c => X = c.id ∧ f < 6 ∧ c.parent.isSome = true ∧ c.state = CellState.LEAF)
    FaceState.LEAF_FACE L (fun _ _ _ => trivial)
    (fun s c _ _ => by
      constructor
      · intro hQ
        simp only [cell_state, if_pos hQ]
      · intro hQ
        simp only [cell_state, if_neg hQ]) fs trivial

theorem relations_parent (L : List Cell) (fs : FaceStore) (X f : Nat) (k : Cell)
    (hk : ∀ c ∈ L, c.id = X → c = k) :
    ((k ∈ L ∧ X = k.id ∧ (subFacePos k.posInParent f).isSome = true ∧ k.parent.isSome = true) →
      ((L.foldl setFaceRelationCell fs) X f).parent = k.parent.map (fun p => (p, f))) ∧
    ((¬ (k ∈ L ∧ X = k.id ∧ (subFacePos k.posInParent f).isSome = true ∧
        k.parent.isSome = true)) →
      ((L.foldl setFaceRelationCell fs) X f).parent = (fs X f).parent) := by
  have h := foldl_proj_write setFaceRelationCell (fun s => (s X f).parent) (fun _ => True)
    (fun c => X = c.id ∧ (subFacePos c.posInParent f).isSome = true ∧ c.parent.isSome = true)
    (k.parent.map (fun p => (p, f))) L (fun _ _ _ => trivial)
    (fun s c _ hc => by
      constructor
      · intro hQ
        simp only [cell_parent, if_pos hQ]
        rw [hk c hc hQ.1.symm]
      · intro hQ
        simp only [cell_parent, if_neg hQ]) fs trivial
  constructor
  · intro hQ
    exact h.1 ⟨k, hQ.1, hQ.2⟩
  · intro hQ
    apply h.2
    rintro ⟨c, hc, hc2⟩
    have := hk c hc hc2.1.symm
    subst this
    exact hQ ⟨hc, hc2⟩

theorem relations_children (L : List Cell) (fs : FaceStore) (X f pos : Nat) (kid : Nat)
    (hpos : pos < (fs X f).children.length)
    (hk : ∀ c ∈ L, c.parent = some X → subFacePos c.posInParent f = some pos → c.id = kid) :
    ((∃ c ∈ L, c.parent = some X ∧ subFacePos c.posInParent f = some pos) →
      ((L.foldl setFaceRelationCell fs) X f).children[pos]? = some (some (kid, f))) ∧
    ((¬ ∃ c ∈ L, c.parent = some X ∧ subFacePos c.posInParent f = some pos) →
      ((L.foldl setFaceRelationCell fs) X f).children[pos]? = (fs X f).children[pos]?) :=
  foldl_proj_write setFaceRelationCell (fun s => (s X f).children[pos]?)
    (fun s => pos < (s X f).children.length)
    (fun c => c.parent = some X ∧ subFacePos c.posInParent f = some pos)
    (some (some (kid, f))) L
    (fun s c hs => by
      have := relations_children_length [c] s X f
      simp only [List.foldl_cons, List.foldl_nil] at this
      show pos < (setFaceRelationCell s c X f).children.length
      rw [this]
      exact hs)
    (fun s c hs hc => by
      constructor
      · intro hQ
        simp only [cell_children, if_pos hQ.1, hQ.2]
        rw [List.getElem?_set_self hs, hk c hc hQ.1 hQ.2]
      · intro hQ
        simp only [cell_children]
        by_cases hp : c.parent = some X
        · rw [if_pos hp]
          cases hsub : subFacePos c.posInParent f with
          | none => rfl
          | some p =>
            simp only
            have hne : p ≠ pos := fun h => hQ ⟨hp, by rw [hsub, h]⟩
            rw [List.getElem?_set_ne hne]
        · rw [if_neg hp]) fs hpos

theorem subtree_is_kid (t : OctTree) : ∀ s ∈ t.subtrees, s = t ∨ ∃ p ∈ t.subtrees, s ∈ p.kids := by
  induction t using OctTree.induct with
  | h c ks ih =>
    intro s hs
    rw [OctTree.subtrees_mk] at hs
    rcases List.mem_cons.1 hs with h | h
    · exact Or.inl h
    · right
      obtain ⟨k, hk, hsk⟩ := List.mem_flatMap.1 h
      rcases ih k hk s hsk with h1 | ⟨p, hp, hsp⟩
      · subst h1
        exact ⟨OctTree.mk c ks, OctTree.self_mem_subtrees _, hk⟩
      · refine ⟨p, ?_, hsp⟩
        rw [OctTree.subtrees_mk]
        exact List.mem_cons_of_mem _ (List.mem_flatMap.2 ⟨k, hk, hp⟩)

theorem wellLinked_node_inj {t : OctTree} (h : WellLinked t) {s u : OctTree}
    (hs : s ∈ t.subtrees) (hu : u ∈ t.subtrees) (hid : s.cell.id = u.cell.id) : s = u := by
  have hnd : (t.subtrees.map (fun s => s.cell.id)).Nodup := by
    have := h.2.1
    rw [OctTree.cells_eq_map, List.map_map] at this
    exact this
  exact List.inj_on_of_nodup_map hnd hs hu hid

theorem wellLinked_cell_inj {t : OctTree} (h : WellLinked t) {c d : Cell}
    (hc : c ∈ t.cells) (hd : d ∈ t.cells) (hid : c.id = d.id) : c = d :=
  List.inj_on_of_nodup_map h.2.1 hc hd hid

theorem kid_in_tree {t s k : OctTree} (hs : s ∈ t.subtrees) (hk : k ∈ s.kids) :
    k ∈ t.subtrees := by
  cases s with
  | mk c ks => exact kid_mem_subtrees hk (OctTree.self_mem_subtrees _) |> fun h =>
      OctTree.subtrees_trans h hs

theorem wellLinked_kids_of {t : OctTree} (h : WellLinked t) {s : OctTree} (hs : s ∈ t.subtrees)
    {c : Cell} (hc : c ∈ t.cells) (hp : c.parent = some s.cell.id) :
    ∃ k ∈ s.kids, k.cell = c := by
  rw [OctTree.cells_eq_map] at hc
  obtain ⟨u, hu, rfl⟩ := List.mem_map.1 hc
  rcases subtree_is_kid t u hu with h1 | ⟨p, hpt, hup⟩
  · subst h1
    rw [h.2.2] at hp
    cases hp
  · obtain ⟨i, hi⟩ := List.getElem?_of_mem hup
    rcases h.1 p hpt with h0 | ⟨_, hl⟩
    · rw [h0] at hup
      cases hup
    · have := (hl i u hi).1
      rw [this] at hp
      have hps : p = s := wellLinked_node_inj h hpt hs (Option.some.inj hp)
      subst hps
      exact ⟨u, hup, rfl⟩

theorem subFacePos_table :
    ∀ i, i < 8 → ∀ f, f < 6 → ∀ pos,
      (subFacePos i f = some pos ↔ (sideSlots f)[pos]? = some i) := by
  intro i hi f hf pos
  by_cases hpos : pos < 4
  · revert i f pos
    decide
  · have h1 : (sideSlots f)[pos]? = none := by
      apply List.getElem?_eq_none
      have : (sideSlots f).length = 4 := by revert f; decide
      omega
    have h2 : ∀ i, i < 8 → ∀ f, f < 6 → ∀ p, subFacePos i f = some p → p < 4 := by
      intro i hi f hf p
      have : ∀ i, i < 8 → ∀ f, f < 6 → (subFacePos i f).all (fun p => decide (p < 4)) = true := by
        decide
      intro hp
      have := this i hi f hf
      rw [hp] at this
      simpa using this
    rw [h1]
    constructor
    · intro h
      exact absurd (h2 i hi f hf pos h) hpos
    · intro h
      cases h

theorem subFacePos_onSide : ∀ i, i < 8 → ∀ f, f < 6 →
    ((subFacePos i f).isSome = onSide i f) := by
  decide

theorem sideSlots_spec : ∀ f, f < 6 →
    (sideSlots f).length = 4 ∧ (sideSlots f).Nodup ∧ ∀ i ∈ sideSlots f, i < 8 ∧ onSide i f = true := by
  decide

theorem mem_of_getElem?_eq {α : Type} {l : List α} {i : Nat} {a : α} (h : l[i]? = some a) :
    a ∈ l := List.mem_iff_getElem?.2 ⟨i, h⟩

theorem relations_on_wellLinked {t : OctTree} (h : WellLinked t) (fs0 : FaceStore)
    (hfresh : ∀ c p, (fs0 c p).children = [none, none, none, none] ∧ (fs0 c p).parent = none)
    (s : OctTree) (hs : s ∈ t.subtrees) (hkids : s.kids ≠ []) (f : Nat) (hf : f < 6) :
    s.kids.length = 8 ∧
    ((setFaceRelationships t fs0) s.cell.id f).children =
      (sideSlots f).map (fun i => (s.kids[i]?).map (fun k => (k.cell.id, f))) ∧
    (∀ e ∈ ((setFaceRelationships t fs0) s.cell.id f).children, e ≠ none) ∧
    ∀ (i : Nat) (k : OctTree), s.kids[i]? = some k →
      ((setFaceRelationships t fs0) k.cell.id f).parent =
        if onSide i f = true then some (s.cell.id, f) else none := by
  obtain ⟨hlen, hlinks⟩ : s.kids.length = 8 ∧
      ∀ (i : Nat) (k : OctTree), s.kids[i]? = some k →
        k.cell.parent = some s.cell.id ∧ k.cell.posInParent = i := by
    rcases h.1 s hs with h0 | h1
    · exact absurd h0 hkids
    · exact h1
  have hkidmem : ∀ (i : Nat) (k : OctTree), s.kids[i]? = some k → k.cell ∈ t.cells := by
    intro i k hk
    rw [OctTree.cells_eq_map]
    exact List.mem_map.2 ⟨k, kid_in_tree hs (mem_of_getElem?_eq hk), rfl⟩
  have hi8 : ∀ (i : Nat) (k : OctTree), s.kids[i]? = some k → i < 8 := by
    intro i k hk
    by_contra hge
    rw [List.getElem?_eq_none (by omega)] at hk
    cases hk
  have hchildren : ((setFaceRelationships t fs0) s.cell.id f).children =
      (sideSlots f).map (fun i => (s.kids[i]?).map (fun k => (k.cell.id, f))) := by
    apply List.ext_getElem?
    intro pos
    unfold setFaceRelationships
    by_cases hpos : pos < 4
    · -- the slot that writes this position
      obtain ⟨hl4, _, hslots⟩ := sideSlots_spec f hf
      have hj : ∃ j, (sideSlots f)[pos]? = some j :=
        ⟨(sideSlots f)[pos], List.getElem?_eq_getElem (by omega)⟩
      obtain ⟨j, hj⟩ := hj
      have hj8 : j < 8 := (hslots j (mem_of_getElem?_eq hj)).1
      have hkj : ∃ k, s.kids[j]? = some k :=
        ⟨s.kids[j], List.getElem?_eq_getElem (by omega)⟩
      obtain ⟨k, hk⟩ := hkj
      have hwrite := relations_children t.cells fs0 s.cell.id f pos k.cell.id
        (by rw [(hfresh _ _).1]; simpa using hpos)
        (by
          intro c hc hp hsub
          obtain ⟨u, hu, rfl⟩ := wellLinked_kids_of h hs hc hp
          obtain ⟨i, hi⟩ := List.getElem?_of_mem hu
          rw [(hlinks i u hi).2] at hsub
          have hij : (sideSlots f)[pos]? = some i :=
            (subFacePos_table i (hi8 i u hi) f hf pos).1 hsub
          rw [hj] at hij
          have : j = i := Option.some.inj hij
          subst this
          rw [hk] at hi
          rw [Option.some.inj hi])
      rw [hwrite.1 ⟨k.cell, hkidmem j k hk, (hlinks j k hk).1, by
        rw [(hlinks j k hk).2]
        exact (subFacePos_table j hj8 f hf pos).2 hj⟩]
      rw [List.getElem?_map, hj, Option.map_some', hk, Option.map_some']
    · have h1 : ((List.foldl setFaceRelationCell fs0 t.cells) s.cell.id f).children[pos]? = none := by
        apply List.getElem?_eq_none
        rw [relations_children_length, (hfresh _ _).1]
        simp only [List.length_cons, List.length_nil]
        omega
      have h2 : ((sideSlots f).map
          (fun i => (s.kids[i]?).map (fun k => (k.cell.id, f))))[pos]? = none := by
        apply List.getElem?_eq_none
        rw [List.length_map, (sideSlots_spec f hf).1]
        omega
      rw [h1, h2]
  refine ⟨hlen, hchildren, ?_, ?_⟩
  · rw [hchildren]
    intro e he
    obtain ⟨i, hi, rfl⟩ := List.mem_map.1 he
    have hi8 := ((sideSlots_spec f hf).2.2 i hi).1
    rw [List.getElem?_eq_getElem (by omega)]
    simp
  · intro i k hk
    unfold setFaceRelationships
    have hpar := relations_parent t.cells fs0 k.cell.id f k.cell
      (fun c hc hid => wellLinked_cell_inj h hc (hkidmem i k hk) hid)
    by_cases hside : onSide i f = true
    · rw [if_pos hside, hpar.1 ⟨hkidmem i k hk, rfl, by
        rw [(hlinks i k hk).2, subFacePos_onSide i (hi8 i k hk) f hf]
        exact hside, by rw [(hlinks i k hk).1]; rfl⟩, (hlinks i k hk).1]
      rfl
    · rw [if_neg hside, hpar.2 (fun hQ => hside (by
        have := hQ.2.2.1
        rw [(hlinks i k hk).2, subFacePos_onSide i (hi8 i k hk) f hf] at this
        exact this)), (hfresh _ _).2]

/-! ## populateHalfFaces changes twins only -/

theorem setFaceTwins_fields (fs : FaceStore) (a b : Cell) (contact X f : Nat) :
    ((setFaceTwins fs a b contact) X f).children = (fs X f).children ∧
    ((setFaceTwins fs a b contact) X f).parent = (fs X f).parent ∧
    ((setFaceTwins fs a b contact) X f).state = (fs X f).state := by
  unfold setFaceTwins
  cases FACE_TWIN_TABLE[contact]? with
  | none => exact ⟨rfl, rfl, rfl⟩
  | some vals =>
    obtain ⟨valA, valB⟩ := vals
    simp only [FaceStore.set_apply]
    by_cases h1 : X = a.id ∧ f = valB
    · by_cases h2 : a.id = b.id ∧ valB = valA
      · obtain ⟨rfl, rfl⟩ := h1
        simp [h2]
      · obtain ⟨rfl, rfl⟩ := h1
        simp [h2]
    · by_cases h2 : X = b.id ∧ f = valA
      · obtain ⟨rfl, rfl⟩ := h2
        simp [h1]
      · simp [h1, h2]

theorem populateHalfFaces_fields (o : Octree) (t : OctTree) (fs0 fs : FaceStore)
    (h : populateHalfFaces o t fs0 = some fs) (X f : Nat) :
    (fs X f).children = (fs0 X f).children ∧ (fs X f).parent = (fs0 X f).parent ∧
    (fs X f).state = (fs0 X f).state := by
  unfold populateHalfFaces at h
  split_ifs at h
  simp only [Option.some.injEq] at h
  subst h
  generalize t.cells = L
  induction L generalizing fs0 with
  | nil => exact ⟨rfl, rfl, rfl⟩
  | cons c rest ih =>
    rw [List.foldl_cons]
    have hstep : ∀ (l : List Nat) (g : FaceStore),
        ((l.foldl (findNeighbourStep o.maxLvl.toNat t.addressEntries c) g) X f).children =
          (g X f).children ∧
        ((l.foldl (findNeighbourStep o.maxLvl.toNat t.addressEntries c) g) X f).parent =
          (g X f).parent ∧
        ((l.foldl (findNeighbourStep o.maxLvl.toNat t.addressEntries c) g) X f).state =
          (g X f).state := by
      intro l
      induction l with
      | nil => intro g; exact ⟨rfl, rfl, rfl⟩
      | cons i tl ihl =>
        intro g
        rw [List.foldl_cons]
        obtain ⟨h1, h2, h3⟩ := ihl (findNeighbourStep o.maxLvl.toNat t.addressEntries c g i)
        rw [h1, h2, h3]
        unfold findNeighbourStep
        cases addressGet t.addressEntries
            (getFormatted (neighbourSlots c.address i o.maxLvl.toNat false)) with
        | none => exact ⟨rfl, rfl, rfl⟩
        | some cellB => exact setFaceTwins_fields g cellB c i X f
    obtain ⟨h1, h2, h3⟩ := ih (findNeighbours o.maxLvl.toNat t.addressEntries fs0 c)
    rw [h1, h2, h3]
    exact hstep (List.range 6) fs0

theorem populateHalfFaces_some (o : Octree) (t : OctTree) (fs0 : FaceStore) (h0 : 0 ≤ o.maxLvl) :
    ∃ fs, populateHalfFaces o t fs0 = some fs := by
  unfold populateHalfFaces
  rw [if_neg (by omega)]
  exact ⟨_, rfl⟩

theorem onSide_geometry (par off : Index3D) : ∀ i, i < 8 →
    (onSide i 0 = true → (childC000 par off i).z = par.z) ∧
    (onSide i 1 = true → (childC000 par off i).z = par.z + off.z) ∧
    (onSide i 2 = true → (childC000 par off i).y = par.y) ∧
    (onSide i 3 = true → (childC000 par off i).y = par.y + off.y) ∧
    (onSide i 4 = true → (childC000 par off i).x = par.x) ∧
    (onSide i 5 = true → (childC000 par off i).x = par.x + off.x) ∧
    (onSide i 0 = !onSide i 1) ∧ (onSide i 2 = !onSide i 3) ∧ (onSide i 4 = !onSide i 5) := by
  intro i hi
  interval_cases i <;> simp [onSide, childC000]

/-- C24: in the octree built by makeStructure, after populateHalfFaces and
setFaceRelationships, every cell with children has 8 of them, and for each of its 6 faces
`f` the 4 child slots of the face hold, in increasing slot order, face `f` of the 4
children whose slot lies on side `f` of the cell, none of them null; face `f` of a child has
face `f` of the cell as its parent when the slot of the child lies on side `f`, and no
parent otherwise. -/
theorem C24_parent_child_faces (o : Octree) (fs0 : FaceStore)
    (hpop : populateHalfFaces o (makeStructure o) initialFaces = some fs0)
    (s : OctTree) (hs : s ∈ (makeStructure o).subtrees) (hkids : s.kids ≠ [])
    (f : Nat) (hf : f < 6) :
    s.kids.length = 8 ∧
    ((setFaceRelationships (makeStructure o) fs0) s.cell.id f).children =
      (sideSlots f).map (fun i => (s.kids[i]?).map (fun k => (k.cell.id, f))) ∧
    (sideSlots f).length = 4 ∧ (sideSlots f).Nodup ∧
    (∀ e ∈ ((setFaceRelationships (makeStructure o) fs0) s.cell.id f).children, e ≠ none) ∧
    ∀ (i : Nat) (k : OctTree), s.kids[i]? = some k →
      ((setFaceRelationships (makeStructure o) fs0) k.cell.id f).parent =
        if onSide i f = true then some (s.cell.id, f) else none := by
  have hfresh : ∀ c p, (fs0 c p).children = [none, none, none, none] ∧ (fs0 c p).parent = none := by
    intro c p
    obtain ⟨h1, h2, _⟩ := populateHalfFaces_fields o _ initialFaces fs0 hpop c p
    exact ⟨h1, h2⟩
  obtain ⟨h1, h2, h3, h4⟩ :=
    relations_on_wellLinked (makeStructure_wellLinked o) fs0 hfresh s hs hkids f hf
  exact ⟨h1, h2, (sideSlots_spec f hf).1, (sideSlots_spec f hf).2.1, h3, h4⟩

/-- C24 (witness): the subdivided level-1 cell 1 of the example octree and its face 1 (the
high z side), whose child faces are face 1 of the cells 3, 5, 7 and 9. -/
theorem C24_parent_child_faces_witness :
    ∃ fs0, populateHalfFaces exOct (makeStructure exOct) initialFaces = some fs0 ∧
      exKid0 ∈ (makeStructure exOct).subtrees ∧ exKid0.kids ≠ [] ∧
      ((setFaceRelationships (makeStructure exOct) fs0) 1 1).children =
        [some (3, 1), some (5, 1), some (7, 1), some (9, 1)] := by
  obtain ⟨fs0, hfs0⟩ := populateHalfFaces_some exOct (makeStructure exOct) initialFaces
    (by decide)
  have hmem : exKid0 ∈ (makeStructure exOct).subtrees := by
    rw [exTree_eq]
    unfold exTree
    exact kid_mem_subtrees (by simp) (OctTree.self_mem_subtrees _)
  have hk : exKid0.kids ≠ [] := by
    unfold exKid0
    simp [OctTree.kids]
  have h := (C24_parent_child_faces exOct fs0 hfs0 exKid0 hmem hk 1 (by decide)).2.1
  exact ⟨fs0, hfs0, hmem, hk, h⟩

/-! ## The cells filed in cellAddresses -/

theorem OctTree.addressEntriesList_eq (ks : List OctTree) :
    OctTree.addressEntriesList ks =
      ks.flatMap (fun k => k.addressEntries ++ [(k.cell.addressKey, k.cell)]) := by
  induction ks with
  | nil => simp [OctTree.addressEntriesList]
  | cons t ts ih => simp [OctTree.addressEntriesList, ih]

theorem OctTree.addressEntries_mk (c : Cell) (ks : List OctTree) :
    (OctTree.mk c ks).addressEntries =
      ks.flatMap (fun k => k.addressEntries ++ [(k.cell.addressKey, k.cell)]) := by
  rw [OctTree.addressEntries, OctTree.addressEntriesList_eq]

theorem OctTree.mem_subtrees_iff (k s : OctTree) :
    s ∈ k.subtrees ↔ s = k ∨ ∃ k2 ∈ k.kids, s ∈ k2.subtrees := by
  cases k with
  | mk c ks =>
    rw [OctTree.subtrees_mk]
    simp only [List.mem_cons, List.mem_flatMap, OctTree.kids]

theorem OctTree.mem_addressEntries (t : OctTree) : ∀ e, e ∈ t.addressEntries ↔
    ∃ k ∈ t.kids, ∃ s ∈ k.subtrees, e = (s.cell.addressKey, s.cell) := by
  induction t using OctTree.induct with
  | h c ks ih =>
    intro e
    rw [OctTree.addressEntries_mk]
    simp only [List.mem_flatMap, List.mem_append, List.mem_singleton, OctTree.kids]
    constructor
    · rintro ⟨k, hk, h | h⟩
      · obtain ⟨k2, hk2, s, hs, he⟩ := (ih k hk e).1 h
        exact ⟨k, hk, s, (OctTree.mem_subtrees_iff k s).2 (Or.inr ⟨k2, hk2, hs⟩), he⟩
      · exact ⟨k, hk, k, OctTree.self_mem_subtrees k, h⟩
    · rintro ⟨k, hk, s, hs, he⟩
      refine ⟨k, hk, ?_⟩
      rcases (OctTree.mem_subtrees_iff k s).1 hs with h | ⟨k2, hk2, hs2⟩
      · right
        rw [he, h]
      · left
        exact (ih k hk e).2 ⟨k2, hk2, s, hs2, he⟩

theorem addressEntries_cells (t : OctTree) (e : Nat × Cell) (he : e ∈ t.addressEntries) :
    e.2 ∈ t.cells := by
  obtain ⟨k, hk, s, hs, rfl⟩ := (OctTree.mem_addressEntries t e).1 he
  rw [OctTree.cells_eq_map]
  exact List.mem_map.2 ⟨s, (OctTree.mem_subtrees_iff t s).2 (Or.inr ⟨k, hk, hs⟩), rfl⟩

theorem addressGet_mem (entries : List (Nat × Cell)) (key : Nat) (c : Cell)
    (h : addressGet entries key = some c) : (key, c) ∈ entries := by
  unfold addressGet at h
  obtain ⟨e, he, rfl⟩ := Option.map_eq_some'.1 h
  have hmem := List.mem_of_find?_eq_some he
  have hkey := List.find?_some he
  simp only [beq_iff_eq] at hkey
  rw [← hkey]
  exact List.mem_reverse.1 hmem

/-! ## populateHalfFaces: twins are faces of cells of the tree -/

theorem setFaceTwins_twinInTree (t : OctTree) (fs : FaceStore) (a b : Cell) (contact : Nat)
    (hc : contact < 6) (ha : a ∈ t.cells) (hb : b ∈ t.cells)
    (h : ∀ X f, TwinInTree t (fs X f)) : ∀ X f, TwinInTree t ((setFaceTwins fs a b contact) X f) := by
  intro X f
  unfold setFaceTwins
  have hk : ∃ valA valB, FACE_TWIN_TABLE[contact]? = some (valA, valB) ∧ valA < 6 ∧ valB < 6 := by
    interval_cases contact <;> refine ⟨_, _, rfl, ?_, ?_⟩ <;> decide
  obtain ⟨valA, valB, hk, hA, hB⟩ := hk
  rw [hk]
  simp only [FaceStore.set_apply]
  by_cases h1 : X = a.id ∧ f = valB
  · rw [if_pos h1]
    intro tw htw
    simp only [Option.some.injEq] at htw
    subst htw
    exact ⟨hA, b, hb, rfl⟩
  · rw [if_neg h1]
    by_cases h2 : X = b.id ∧ f = valA
    · rw [if_pos h2]
      intro tw htw
      simp only [Option.some.injEq] at htw
      subst htw
      exact ⟨hB, a, ha, rfl⟩
    · rw [if_neg h2]
      exact h X f

theorem populateHalfFaces_twinInTree (o : Octree) (t : OctTree) (fs : FaceStore)
    (h : populateHalfFaces o t initialFaces = some fs) : ∀ X f, TwinInTree t (fs X f) := by
  unfold populateHalfFaces at h
  split_ifs at h
  simp only [Option.some.injEq] at h
  subst h
  have hinit : ∀ X f, TwinInTree t (initialFaces X f) := by
    intro X f tw htw
    cases htw
  have hgen : ∀ (L : List Cell) (g : FaceStore), (∀ c ∈ L, c ∈ t.cells) →
      (∀ X f, TwinInTree t (g X f)) →
      ∀ X f, TwinInTree t ((L.foldl (findNeighbours o.maxLvl.toNat t.addressEntries) g) X f) := by
    intro L
    induction L with
    | nil => intro g _ hg; exact hg
    | cons c rest ih =>
      intro g hL hg
      rw [List.foldl_cons]
      apply ih _ (fun d hd => hL d (List.mem_cons_of_mem _ hd))
      have hstep : ∀ (l : List Nat) (g2 : FaceStore), (∀ i ∈ l, i < 6) →
          (∀ X f, TwinInTree t (g2 X f)) → ∀ X f, TwinInTree t
            ((l.foldl (findNeighbourStep o.maxLvl.toNat t.addressEntries c) g2) X f) := by
        intro l
        induction l with
        | nil => intro g2 _ hg2; exact hg2
        | cons i tl ihl =>
          intro g2 hl hg2
          rw [List.foldl_cons]
          apply ihl _ (fun j hj => hl j (List.mem_cons_of_mem _ hj))
          unfold findNeighbourStep
          cases hget : addressGet t.addressEntries
              (getFormatted (neighbourSlots c.address i o.maxLvl.toNat false)) with
          | none => exact hg2
          | some cellB =>
            exact setFaceTwins_twinInTree t g2 cellB c i (hl i (List.mem_cons_self _ _))
              (addressEntries_cells t _ (addressGet_mem _ _ _ hget))
              (hL c (List.mem_cons_self _ _)) hg2
      exact hstep (List.range 6) g (fun i hi => List.mem_range.1 hi) hg
  exact hgen t.cells initialFaces (fun c hc => hc) hinit

/-! ## markTransitionalFaces changes states only -/

theorem twinHasChildren_congr (g h : FaceStore) (F G : Face) (htw : F.twin = G.twin)
    (hch : ∀ X f, (h X f).children = (g X f).children) :
    twinHasChildren h F = twinHasChildren g G := by
  unfold twinHasChildren FaceStore.face
  rw [htw]
  cases G.twin with
  | none => rfl
  | some tw => simp only [hch]

theorem markTransitionalStep_apply (cell : Cell) (h : FaceStore) (j X f : Nat) :
    (markTransitionalStep cell h j) X f =
      if (X = cell.id ∧ f = j) ∧ twinHasChildren h (h cell.id j) = true then
        { h X f with state := FaceState.TRANSIT_FACE }
      else h X f := by
  unfold markTransitionalStep
  by_cases ht : twinHasChildren h (h cell.id j) = true
  · rw [if_pos ht, FaceStore.set_apply]
    by_cases hx : X = cell.id ∧ f = j
    · rw [if_pos hx, if_pos ⟨hx, ht⟩, hx.1, hx.2]
    · rw [if_neg hx, if_neg (fun hh => hx hh.1)]
  · rw [if_neg ht, if_neg (fun hh => ht hh.2)]

theorem markFaces_cell (g : FaceStore) (cell : Cell) (l : List Nat) : ∀ (h : FaceStore),
    (∀ X f, (h X f).twin = (g X f).twin ∧ (h X f).children = (g X f).children) →
    ∀ X f,
      (((l.foldl (markTransitionalStep cell) h) X f).twin = (g X f).twin ∧
       ((l.foldl (markTransitionalStep cell) h) X f).children = (g X f).children) ∧
      ((l.foldl (markTransitionalStep cell) h) X f).state =
        if (X = cell.id ∧ f ∈ l) ∧ twinHasChildren g (g X f) = true then FaceState.TRANSIT_FACE
        else (h X f).state := by
  induction l with
  | nil =>
    intro h hh X f
    simp only [List.foldl_nil, List.not_mem_nil, and_false, false_and, if_false, and_true]
    exact hh X f
  | cons j tl ih =>
    intro h hh X f
    rw [List.foldl_cons]
    have hstep : ∀ X f, ((markTransitionalStep cell h j) X f).twin = (g X f).twin ∧
        ((markTransitionalStep cell h j) X f).children = (g X f).children := by
      intro X f
      rw [markTransitionalStep_apply]
      split_ifs
      · exact hh X f
      · exact hh X f
    obtain ⟨h1, h2⟩ := ih (markTransitionalStep cell h j) hstep X f
    refine ⟨h1, ?_⟩
    rw [h2, markTransitionalStep_apply]
    have hcg : twinHasChildren h (h cell.id j) = twinHasChildren g (g cell.id j) :=
      twinHasChildren_congr g h _ _ (hh cell.id j).1 (fun X f => (hh X f).2)
    rw [hcg]
    by_cases ht : twinHasChildren g (g X f) = true
    · by_cases hX : X = cell.id
      · subst hX
        by_cases hj : f = j
        · subst hj
          simp [ht]
        · by_cases htl : f ∈ tl
          · simp [ht, htl]
          · simp [ht, htl, hj]
      · simp [hX]
    · by_cases hX : X = cell.id
      · subst hX
        by_cases hj : f = j
        · subst hj
          simp [ht]
        · simp [ht, hj]
      · simp [hX, ht]

theorem ite_or_merge {α : Type} (A B C T : Prop) [Decidable ((A ∧ C) ∧ T)]
    [Decidable ((B ∧ C) ∧ T)] [Decidable (((B ∨ A) ∧ C) ∧ T)] (x y : α) :
    (if (A ∧ C) ∧ T then x else if (B ∧ C) ∧ T then x else y) =
      if ((B ∨ A) ∧ C) ∧ T then x else y := by
  split_ifs <;> first | rfl | (exfalso; tauto)

theorem markFaces_cells (g : FaceStore) (L : List Cell) : ∀ (h : FaceStore),
    (∀ X f, (h X f).twin = (g X f).twin ∧ (h X f).children = (g X f).children) →
    ∀ X f,
      (((L.foldl (fun s cell => (List.range 6).foldl (markTransitionalStep cell) s) h) X f).twin =
          (g X f).twin ∧
       ((L.foldl (fun s cell => (List.range 6).foldl (markTransitionalStep cell) s) h) X f).children =
          (g X f).children) ∧
      ((L.foldl (fun s cell => (List.range 6).foldl (markTransitionalStep cell) s) h) X f).state =
        if ((∃ c ∈ L, X = c.id) ∧ f < 6) ∧ twinHasChildren g (g X f) = true then
          FaceState.TRANSIT_FACE
        else (h X f).state := by
  induction L with
  | nil =>
    intro h hh X f
    simp only [List.foldl_nil, List.not_mem_nil, false_and, exists_false, if_false, and_true]
    exact hh X f
  | cons c rest ih =>
    intro h hh X f
    rw [List.foldl_cons]
    have hc := markFaces_cell g c (List.range 6) h hh
    obtain ⟨h1, h2⟩ := ih _ (fun X f => (hc X f).1) X f
    refine ⟨h1, ?_⟩
    rw [h2, (hc X f).2]
    have hex : (∃ d ∈ c :: rest, X = d.id) ↔ (X = c.id ∨ ∃ d ∈ rest, X = d.id) := by simp
    simp only [List.mem_range, hex]
    exact ite_or_merge _ _ _ _ _ _

theorem markTransitionalFaces_spec (t : OctTree) (g : FaceStore) (X f : Nat) :
    ((markTransitionalFaces t g) X f).twin = (g X f).twin ∧
    ((markTransitionalFaces t g) X f).children = (g X f).children ∧
    ((markTransitionalFaces t g) X f).state =
      if ((∃ c ∈ t.leafCells, X = c.id) ∧ f < 6) ∧ twinHasChildren g (g X f) = true then
        FaceState.TRANSIT_FACE
      else (g X f).state := by
  obtain ⟨⟨h1, h2⟩, h3⟩ := markFaces_cells g t.leafCells g (fun _ _ => ⟨rfl, rfl⟩) X f
  exact ⟨h1, h2, h3⟩

/-! ## Faces of a cell without children, and the state of every face -/

theorem relations_children_untouched (L : List Cell) (X f : Nat)
    (hno : ∀ c ∈ L, c.parent ≠ some X) : ∀ (fs : FaceStore),
    ((L.foldl setFaceRelationCell fs) X f).children = (fs X f).children := by
  induction L with
  | nil => intro fs; rfl
  | cons c rest ih =>
    intro fs
    rw [List.foldl_cons, ih (fun d hd => hno d (List.mem_cons_of_mem _ hd)), cell_children,
      if_neg (hno c (List.mem_cons_self _ _))]

theorem relations_childless {t : OctTree} (h : WellLinked t) (fs0 : FaceStore) (s : OctTree)
    (hs : s ∈ t.subtrees) (hk : s.kids = []) (f : Nat) :
    ((setFaceRelationships t fs0) s.cell.id f).children = (fs0 s.cell.id f).children := by
  unfold setFaceRelationships
  apply relations_children_untouched
  intro c hc hp
  obtain ⟨k, hkm, _⟩ := wellLinked_kids_of h hs hc hp
  rw [hk] at hkm
  cases hkm

theorem wellLinked_parent {t : OctTree} (h : WellLinked t) (s : OctTree) (hs : s ∈ t.subtrees) :
    s = t ∨ s.cell.parent.isSome = true := by
  rcases subtree_is_kid t s hs with h1 | ⟨p, hp, hsp⟩
  · exact Or.inl h1
  · right
    rcases h.1 p hp with h0 | ⟨_, hl⟩
    · rw [h0] at hsp
      cases hsp
    · obtain ⟨i, hi⟩ := List.getElem?_of_mem hsp
      rw [(hl i s hi).1]
      rfl

theorem makeStructure_root_state (o : Octree) :
    (makeStructure o).cell.state = CellState.BRANCH := rfl

theorem twinHasChildren_iff (fs : FaceStore) (F : Face) :
    twinHasChildren fs F = true ↔
      ∃ tw r, F.twin = some tw ∧ (fs tw.1 tw.2).children[0]? = some (some r) := by
  unfold twinHasChildren FaceStore.face
  cases F.twin with
  | none => simp
  | some tw =>
    cases h : (fs tw.1 tw.2).children[0]? with
    | none => simp [h]
    | some e =>
      cases e with
      | none => simp [h]
      | some r =>
        simp only [h, Option.some.injEq, true_iff]
        exact ⟨tw, r, rfl, h⟩

/-- C23: after buildOctree, every face `j` of a Leaf cell has the state Transitional when
the test of markTransitionalFaces holds on it and the state Leaf otherwise; every face of a
cell that is not Leaf still has the state Branch. The test holds exactly when the face has
a twin whose child slot 0 holds a face, and, the twin being a face of a cell of the tree,
exactly when that cell has children. -/
theorem C23_transitional_marking (o : Octree) (t : OctTree) (fs : FaceStore)
    (hb : buildOctree o = some (t, fs)) (s : OctTree) (hs : s ∈ t.subtrees)
    (j : Nat) (hj : j < 6) :
    (s.cell.state = CellState.LEAF →
      (fs s.cell.id j).state =
        if twinHasChildren fs (fs s.cell.id j) = true then FaceState.TRANSIT_FACE
        else FaceState.LEAF_FACE) ∧
    (s.cell.state ≠ CellState.LEAF → (fs s.cell.id j).state = FaceState.BRANCH_FACE) ∧
    (twinHasChildren fs (fs s.cell.id j) = true ↔
      ∃ tw r, (fs s.cell.id j).twin = some tw ∧
        (fs tw.1 tw.2).children[0]? = some (some r)) ∧
    (∀ tw, (fs s.cell.id j).twin = some tw →
      ∃ u ∈ t.subtrees, u.cell.id = tw.1 ∧
        (twinHasChildren fs (fs s.cell.id j) = true ↔ u.kids ≠ [])) := by
  unfold buildOctree at hb
  cases hpop : populateHalfFaces o (makeStructure o) initialFaces with
  | none => rw [hpop] at hb; cases hb
  | some fs0 =>
    rw [hpop] at hb
    simp only [Option.some.injEq, Prod.mk.injEq] at hb
    obtain ⟨ht, hfs⟩ := hb
    subst ht
    have hwl := makeStructure_wellLinked o
    have hfresh : ∀ c p, (fs0 c p).children = [none, none, none, none] ∧
        (fs0 c p).parent = none ∧ (fs0 c p).state = FaceState.BRANCH_FACE := fun c p =>
      populateHalfFaces_fields o _ initialFaces fs0 hpop c p
    have hmark := markTransitionalFaces_spec (makeStructure o)
      (setFaceRelationships (makeStructure o) fs0)
    rw [hfs] at hmark
    have hsc : s.cell ∈ (makeStructure o).cells := by
      rw [OctTree.cells_eq_map]
      exact List.mem_map.2 ⟨s, hs, rfl⟩
    -- the test reads the same on the store before the marking
    have htest : twinHasChildren fs (fs s.cell.id j) =
        twinHasChildren (setFaceRelationships (makeStructure o) fs0)
          ((setFaceRelationships (makeStructure o) fs0) s.cell.id j) :=
      twinHasChildren_congr _ _ _ _ (hmark s.cell.id j).1 (fun X f => (hmark X f).2.1)
    have hstate := relations_state (makeStructure o).cells fs0 s.cell.id j
    refine ⟨?_, ?_, twinHasChildren_iff fs _, ?_⟩
    · intro hleaf
      have hpar : s.cell.parent.isSome = true := by
        rcases wellLinked_parent hwl s hs with h1 | h1
        · rw [h1, makeStructure_root_state] at hleaf
          cases hleaf
        · exact h1
      have hml : s.cell ∈ (makeStructure o).leafCells := by
        unfold OctTree.leafCells
        exact List.mem_filter.2 ⟨hsc, by simpa using hleaf⟩
      rw [(hmark s.cell.id j).2.2, htest]
      unfold setFaceRelationships at hstate ⊢
      rw [hstate.1 ⟨s.cell, hsc, rfl, hj, hpar, hleaf⟩]
      by_cases hT : twinHasChildren (List.foldl setFaceRelationCell fs0 (makeStructure o).cells)
          ((List.foldl setFaceRelationCell fs0 (makeStructure o).cells) s.cell.id j) = true
      · rw [if_pos ⟨⟨⟨s.cell, hml, rfl⟩, hj⟩, hT⟩, if_pos hT]
      · rw [if_neg (fun hh => hT hh.2), if_neg hT]
    · intro hnl
      rw [(hmark s.cell.id j).2.2]
      have hnone : ¬ ∃ c ∈ (makeStructure o).leafCells, s.cell.id = c.id := by
        rintro ⟨c, hc, hid⟩
        unfold OctTree.leafCells at hc
        obtain ⟨hc1, hc2⟩ := List.mem_filter.1 hc
        have := wellLinked_cell_inj hwl hsc hc1 hid
        rw [this] at hnl
        exact hnl (by simpa using hc2)
      rw [if_neg (fun hh => hnone hh.1.1)]
      unfold setFaceRelationships at hstate ⊢
      rw [hstate.2 (by
        rintro ⟨c, hc, hid, _, _, hcl⟩
        have := wellLinked_cell_inj hwl hsc hc hid
        rw [this] at hnl
        exact hnl hcl), (hfresh _ _).2.2]
    · intro tw htw
      have htw0 : (fs0 s.cell.id j).twin = some tw := by
        rw [(hmark s.cell.id j).1] at htw
        unfold setFaceRelationships at htw
        rw [relations_twin] at htw
        exact htw
      obtain ⟨hp6, c, hc, hcid⟩ := populateHalfFaces_twinInTree o _ fs0 hpop s.cell.id j tw htw0
      rw [OctTree.cells_eq_map] at hc
      obtain ⟨u, hu, rfl⟩ := List.mem_map.1 hc
      refine ⟨u, hu, hcid, ?_⟩
      rw [twinHasChildren_iff, htw]
      have hch : (fs tw.1 tw.2).children =
          ((setFaceRelationships (makeStructure o) fs0) u.cell.id tw.2).children := by
        rw [(hmark tw.1 tw.2).2.1, hcid]
      constructor
      · rintro ⟨tw2, r, h1, h2⟩ hk
        simp only [Option.some.injEq] at h1
        subst h1
        rw [hch, relations_childless hwl fs0 u hu hk, (hfresh _ _).1] at h2
        simp at h2
      · intro hk
        obtain ⟨_, hchildren, hnn, _⟩ := relations_on_wellLinked hwl fs0
          (fun c p => ⟨(hfresh c p).1, (hfresh c p).2.1⟩) u hu hk tw.2 hp6
        have hlen : ((setFaceRelationships (makeStructure o) fs0) u.cell.id tw.2).children.length
            = 4 := by
          rw [hchildren, List.length_map, (sideSlots_spec tw.2 hp6).1]
        have h0 : ∃ e, ((setFaceRelationships (makeStructure o) fs0)
            u.cell.id tw.2).children[0]? = some e :=
          ⟨_, List.getElem?_eq_getElem (by omega)⟩
        obtain ⟨e, he⟩ := h0
        cases e with
        | none => exact absurd rfl (hnn none (mem_of_getElem?_eq he))
        | some r => exact ⟨tw, r, rfl, by rw [hch, he]⟩

/-- C23 (witness): face 0 of the level-1 leaf cell 10 of the example octree. -/
theorem C23_transitional_marking_witness :
    buildOctree exOct = some (exTree, exFaces) ∧
    OctTree.mk (litCell 10 true (some 0) 1 0 0 4 4 1 [2, 0, 0, 0, 0, 0, 0, 0]) [] ∈
      exTree.subtrees ∧
    (exFaces 10 0).state =
      if twinHasChildren exFaces (exFaces 10 0) = true then FaceState.TRANSIT_FACE
      else FaceState.LEAF_FACE := by
  have hmem : OctTree.mk (litCell 10 true (some 0) 1 0 0 4 4 1 [2, 0, 0, 0, 0, 0, 0, 0]) [] ∈
      exTree.subtrees := by
    unfold exTree
    exact kid_mem_subtrees (by simp) (OctTree.self_mem_subtrees _)
  exact ⟨exBuild_eq, hmem,
    (C23_transitional_marking exOct exTree exFaces exBuild_eq _ hmem 0 (by decide)).1 rfl⟩

/-! ## Paths -/

theorem OctTree.pathsList_spec (ks : List OctTree) : ∀ (n : Nat) (e : List Nat × OctTree),
    e ∈ OctTree.pathsList n ks ↔
      ∃ i k q, ks[i]? = some k ∧ e.1 = (n + i) :: q ∧ (q, e.2) ∈ k.paths := by
  induction ks with
  | nil =>
    intro n e
    simp [OctTree.pathsList]
  | cons k ks ih =>
    intro n e
    rw [OctTree.pathsList, List.mem_append, ih]
    constructor
    · rintro (h | ⟨i, k2, q, hk, he, hq⟩)
      · obtain ⟨e2, he2, rfl⟩ := List.mem_map.1 h
        exact ⟨0, k, e2.1, by simp, rfl, he2⟩
      · exact ⟨i + 1, k2, q, by simpa using hk, by rw [he]; congr 1; omega, hq⟩
    · rintro ⟨i, k2, q, hk, he, hq⟩
      cases i with
      | zero =>
        left
        simp only [List.getElem?_cons_zero, Option.some.injEq] at hk
        subst hk
        obtain ⟨e1, e2⟩ := e
        simp only at he hq
        subst he
        exact List.mem_map.2 ⟨(q, e2), hq, rfl⟩
      | succ i =>
        right
        exact ⟨i, k2, q, by simpa using hk, by rw [he]; congr 1; omega, hq⟩

theorem OctTree.mem_paths (t : OctTree) (p : List Nat) (s : OctTree) :
    (p, s) ∈ t.paths ↔
      (p = [] ∧ s = t) ∨ ∃ i k q, t.kids[i]? = some k ∧ p = i :: q ∧ (q, s) ∈ k.paths := by
  cases t with
  | mk c ks =>
    rw [OctTree.paths, List.mem_cons, OctTree.pathsList_spec]
    simp only [Prod.mk.injEq, OctTree.kids, Nat.zero_add]

theorem OctTree.pathsList_subtrees (ks : List OctTree)
    (ih : ∀ k ∈ ks, k.paths.map Prod.snd = k.subtrees) : ∀ n,
    (OctTree.pathsList n ks).map Prod.snd = ks.flatMap OctTree.subtrees := by
  induction ks with
  | nil => intro n; rfl
  | cons k ks ihk =>
    intro n
    rw [OctTree.pathsList, List.map_append, List.map_map, List.flatMap_cons,
      ihk (fun k2 hk2 => ih k2 (List.mem_cons_of_mem _ hk2)), ← ih k (List.mem_cons_self _ _)]
    rfl

theorem OctTree.paths_subtrees (t : OctTree) : t.paths.map Prod.snd = t.subtrees := by
  induction t using OctTree.induct with
  | h c ks ih =>
    rw [OctTree.paths, OctTree.subtrees_mk, List.map_cons, OctTree.pathsList_subtrees ks ih]

theorem OctTree.paths_mem_subtrees {t s : OctTree} {p : List Nat} (h : (p, s) ∈ t.paths) :
    s ∈ t.subtrees := by
  rw [← OctTree.paths_subtrees]
  exact List.mem_map.2 ⟨(p, s), h, rfl⟩

theorem OctTree.paths_snoc (t : OctTree) : ∀ (p : List Nat) (s k : OctTree) (i : Nat),
    (p, s) ∈ t.paths → s.kids[i]? = some k → (p ++ [i], k) ∈ t.paths := by
  induction t using OctTree.induct with
  | h c ks ih =>
    intro p s k i hp hk
    rcases (OctTree.mem_paths _ p s).1 hp with ⟨rfl, rfl⟩ | ⟨j, k2, q, hj, rfl, hq⟩
    · exact (OctTree.mem_paths _ _ _).2 (Or.inr ⟨i, k, [], hk, rfl,
        (OctTree.mem_paths _ _ _).2 (Or.inl ⟨rfl, rfl⟩)⟩)
    · exact (OctTree.mem_paths _ _ _).2 (Or.inr ⟨j, k2, q ++ [i], hj, rfl,
        ih k2 (mem_of_getElem?_eq hj) q s k i hq hk⟩)

theorem OctTree.paths_functional (t : OctTree) : ∀ (p : List Nat) (s u : OctTree),
    (p, s) ∈ t.paths → (p, u) ∈ t.paths → s = u := by
  induction t using OctTree.induct with
  | h c ks ih =>
    intro p s u hs hu
    rcases (OctTree.mem_paths _ p s).1 hs with ⟨rfl, rfl⟩ | ⟨j, k, q, hj, rfl, hq⟩
    · rcases (OctTree.mem_paths _ _ u).1 hu with ⟨_, rfl⟩ | ⟨j, k, q, _, h, _⟩
      · rfl
      · cases h
    · rcases (OctTree.mem_paths _ _ u).1 hu with ⟨h, _⟩ | ⟨j2, k2, q2, hj2, h, hq2⟩
      · cases h
      · simp only [List.cons.injEq] at h
        obtain ⟨rfl, rfl⟩ := h
        rw [hj] at hj2
        obtain rfl := Option.some.inj hj2
        exact ih k (mem_of_getElem?_eq hj) q s u hq hq2

theorem OctTree.subtree_has_path (t s : OctTree) (hs : s ∈ t.subtrees) :
    ∃ p, (p, s) ∈ t.paths := by
  rw [← OctTree.paths_subtrees] at hs
  obtain ⟨e, he, rfl⟩ := List.mem_map.1 hs
  exact ⟨e.1, he⟩

theorem OctTree.paths_unsnoc (t : OctTree) : ∀ (p : List Nat) (k : OctTree) (i : Nat),
    (p ++ [i], k) ∈ t.paths → ∃ s, (p, s) ∈ t.paths ∧ s.kids[i]? = some k := by
  induction t using OctTree.induct with
  | h c ks ih =>
    intro p k i hp
    rcases (OctTree.mem_paths _ _ k).1 hp with ⟨h, _⟩ | ⟨j, k2, q, hj, hpq, hq⟩
    · simp at h
    · cases p with
      | nil =>
        simp only [List.nil_append, List.cons.injEq] at hpq
        obtain ⟨rfl, rfl⟩ := hpq
        rcases (OctTree.mem_paths _ _ k).1 hq with ⟨_, rfl⟩ | ⟨_, _, _, _, h, _⟩
        · exact ⟨OctTree.mk c ks, (OctTree.mem_paths _ _ _).2 (Or.inl ⟨rfl, rfl⟩), hj⟩
        · cases h
      | cons a p2 =>
        simp only [List.cons_append, List.cons.injEq] at hpq
        obtain ⟨rfl, rfl⟩ := hpq
        obtain ⟨s, hs, hk⟩ := ih k2 (mem_of_getElem?_eq hj) p2 k i hq
        exact ⟨s, (OctTree.mem_paths _ _ _).2 (Or.inr ⟨a, k2, p2, hj, rfl, hs⟩), hk⟩

/-! ## Addresses -/

theorem addressSet_digits (q : List Nat) (m i : Nat) :
    addressSet (q.map (fun j => j + 1) ++ List.replicate m 0) i =
      q.map (fun j => j + 1) ++
        (match m with
         | 0 => []
         | n + 1 => (i + 1) :: List.replicate n 0) := by
  induction q with
  | nil =>
    cases m with
    | zero => rfl
    | succ n => simp [List.replicate_succ, addressSet]
  | cons a q ih =>
    simp only [List.map_cons, List.cons_append, addressSet]
    exact congrArg _ ih

theorem addressSet_pathAddress (p : List Nat) (i : Nat) :
    addressSet (pathAddress (p.take 8)) i = pathAddress ((p ++ [i]).take 8) := by
  unfold pathAddress
  rw [addressSet_digits]
  by_cases h : p.length < 8
  · have h1 : p.take 8 = p := List.take_of_length_le (by omega)
    have h2 : (p ++ [i]).take 8 = p ++ [i] :=
      List.take_of_length_le (by simp only [List.length_append, List.length_singleton]; omega)
    rw [h1, h2]
    obtain ⟨n, hn⟩ : ∃ n, 8 - p.length = n + 1 := ⟨7 - p.length, by omega⟩
    rw [hn]
    simp only [List.map_append, List.map_cons, List.map_nil, List.append_assoc,
      List.singleton_append, List.length_append, List.length_singleton]
    have : 8 - (p.length + 1) = n := by omega
    rw [this]
  · have h1 : (p ++ [i]).take 8 = p.take 8 := by
      rw [List.take_append_of_le_length (by omega)]
    have h2 : (p.take 8).length = 8 := by
      rw [List.length_take]
      omega
    rw [h1, h2]
    simp

theorem nodeInv_kidRel {o : Octree} {s k : OctTree} {i : Nat} (h : NodeInv o s)
    (hk : s.kids[i]? = some k) : i < 8 ∧ KidRel o s.cell i k := by
  rcases h.1 with h1 | h1
  · rw [h1] at hk
    cases hk
  · have hlen : s.kids.length = 8 := by rw [← h1.length_eq]; simp
    have hi : i < s.kids.length := by
      by_contra hge
      rw [List.getElem?_eq_none (by omega)] at hk
      cases hk
    have hget := List.Forall₂.get h1 (i := i) (by simpa [hlen] using hi) hi
    simp only [List.get_eq_getElem, List.getElem_range] at hget
    have hk2 : s.kids[i] = k := by
      rw [List.getElem?_eq_getElem hi] at hk
      exact Option.some.inj hk
    rw [hk2] at hget
    exact ⟨by omega, hget⟩

theorem makeStructure_addresses (o : Octree) : ∀ (p : List Nat) (s : OctTree),
    (p, s) ∈ (makeStructure o).paths →
      s.cell.subdivLvl = p.length ∧ (∀ i ∈ p, i < 8) ∧
      s.cell.address = pathAddress (p.take 8) := by
  intro p
  induction p using List.reverseRecOn with
  | nil =>
    intro s hs
    rcases (OctTree.mem_paths _ _ s).1 hs with ⟨_, rfl⟩ | ⟨_, _, _, _, h, _⟩
    · exact ⟨rfl, by simp, rfl⟩
    · cases h
  | append_singleton p i ih =>
    intro k hk
    obtain ⟨s, hs, hsk⟩ := OctTree.paths_unsnoc _ p k i hk
    obtain ⟨hl, hd, ha⟩ := ih s hs
    have hinv := makeStructure_inv o s (OctTree.paths_mem_subtrees hs)
    obtain ⟨hi8, n, hcell, _⟩ := nodeInv_kidRel hinv hsk
    refine ⟨?_, ?_, ?_⟩
    · rw [hcell, finalChildCell_subdivLvl, hl]
      simp
    · intro j hj
      rcases List.mem_append.1 hj with h | h
      · exact hd j h
      · rw [List.mem_singleton.1 h]
        exact hi8
    · rw [hcell, finalChildCell_address, ha, addressSet_pathAddress]

/-! ## Formatted addresses -/

theorem formatFrom_ofDigits (l : List Nat) : ∀ i,
    formatFrom i (l.map some) = 10 ^ i * Nat.ofDigits 10 l := by
  induction l with
  | nil => intro i; simp [formatFrom]
  | cons v rest ih =>
    intro i
    simp only [List.map_cons, formatFrom, ih, Nat.ofDigits_cons]
    ring

theorem ofDigits_inj_of_length : ∀ (L1 L2 : List Nat), L1.length = L2.length →
    (∀ d ∈ L1, d < 10) → (∀ d ∈ L2, d < 10) → Nat.ofDigits 10 L1 = Nat.ofDigits 10 L2 →
    L1 = L2 := by
  intro L1
  induction L1 with
  | nil =>
    intro L2 hlen _ _ _
    cases L2 with
    | nil => rfl
    | cons b L2 => cases hlen
  | cons a L1 ih =>
    intro L2 hlen w1 w2 h
    cases L2 with
    | nil => cases hlen
    | cons b L2 =>
      rw [Nat.ofDigits_cons, Nat.ofDigits_cons] at h
      have ha := w1 a (List.mem_cons_self _ _)
      have hb := w2 b (List.mem_cons_self _ _)
      have hab : a = b := by omega
      have hrest : Nat.ofDigits 10 L1 = Nat.ofDigits 10 L2 := by omega
      rw [hab, ih L2 (by simpa using hlen) (fun d hd => w1 d (List.mem_cons_of_mem _ hd))
        (fun d hd => w2 d (List.mem_cons_of_mem _ hd)) hrest]

theorem addressKey_ofDigits (c : Cell) : c.addressKey = Nat.ofDigits 10 c.address := by
  unfold Cell.addressKey getFormatted
  rw [formatFrom_ofDigits]
  simp

theorem pathAddress_length (p : List Nat) (h : p.length ≤ 8) : (pathAddress p).length = 8 := by
  unfold pathAddress
  simp only [List.length_append, List.length_map, List.length_replicate]
  omega

theorem pathAddress_lt (p : List Nat) (h : ∀ i ∈ p, i < 8) : ∀ d ∈ pathAddress p, d < 10 := by
  intro d hd
  unfold pathAddress at hd
  rcases List.mem_append.1 hd with h1 | h1
  · obtain ⟨i, hi, rfl⟩ := List.mem_map.1 h1
    have := h i hi
    omega
  · rw [(List.mem_replicate.1 h1).2]
    decide

theorem pathAddress_count (p : List Nat) : (pathAddress p).count 0 = 8 - p.length := by
  unfold pathAddress
  rw [List.count_append, List.count_replicate_self, List.count_eq_zero.2 (by simp)]
  simp

theorem pathAddress_inj (p q : List Nat) (hp : p.length ≤ 8) (hq : q.length ≤ 8)
    (h : pathAddress p = pathAddress q) : p = q := by
  have hc : 8 - p.length = 8 - q.length := by
    rw [← pathAddress_count, ← pathAddress_count, h]
  have hlen : p.length = q.length := by omega
  unfold pathAddress at h
  have := (List.append_inj h (by simp [hlen])).1
  exact List.map_injective_iff.2 (fun a b hab => by simpa using hab) this

theorem addressGet_of_unique (entries : List (Nat × Cell)) (key : Nat) (c : Cell)
    (hex : ∃ e ∈ entries, e.1 = key) (huniq : ∀ e ∈ entries, e.1 = key → e.2 = c) :
    addressGet entries key = some c := by
  unfold addressGet
  cases hf : entries.reverse.find? (fun e => e.1 == key) with
  | none =>
    exfalso
    obtain ⟨e, he, hk⟩ := hex
    have := List.find?_eq_none.1 hf e (List.mem_reverse.2 he)
    simp [hk] at this
  | some e =>
    have hmem := List.mem_reverse.1 (List.mem_of_find?_eq_some hf)
    have hkey := List.find?_some hf
    simp only [beq_iff_eq] at hkey
    rw [Option.map_some', huniq e hmem hkey]

theorem makeStructure_level_le (o : Octree) (s : OctTree)
    (hs : s ∈ (makeStructure o).subtrees) :
    s.cell.subdivLvl ≤ max 1 (max o.minLvl o.maxLvl) := by
  rcases (makeStructure_inv o s hs).2 with ⟨hroot, _⟩ | ⟨pc, i, n, _, _, hle, hcell, _⟩
  · rw [hroot]
    show (0 : Int) ≤ _
    exact le_trans (by decide : (0 : Int) ≤ 1) (le_max_left _ _)
  · rw [hcell, finalChildCell_subdivLvl]
    exact hle

theorem OctTree.mem_addressEntries_paths (t : OctTree) (e : Nat × Cell) :
    e ∈ t.addressEntries ↔
      ∃ p s, (p, s) ∈ t.paths ∧ p ≠ [] ∧ e = (s.cell.addressKey, s.cell) := by
  rw [OctTree.mem_addressEntries]
  constructor
  · rintro ⟨k, hk, s, hs, he⟩
    obtain ⟨q, hq⟩ := OctTree.subtree_has_path k s hs
    obtain ⟨i, hi⟩ := List.getElem?_of_mem hk
    exact ⟨i :: q, s, (OctTree.mem_paths _ _ _).2 (Or.inr ⟨i, k, q, hi, rfl, hq⟩), by simp, he⟩
  · rintro ⟨p, s, hp, hne, he⟩
    rcases (OctTree.mem_paths _ _ _).1 hp with ⟨h, _⟩ | ⟨i, k, q, hi, _, hq⟩
    · exact absurd h hne
    · exact ⟨k, mem_of_getElem?_eq hi, s, OctTree.paths_mem_subtrees hq, he⟩

theorem makeStructure_key_inj (o : Octree) (h8 : max o.minLvl o.maxLvl ≤ 8)
    (p : List Nat) (s : OctTree) (q : List Nat) (u : OctTree)
    (hs : (p, s) ∈ (makeStructure o).paths) (hu : (q, u) ∈ (makeStructure o).paths)
    (hkey : s.cell.addressKey = u.cell.addressKey) : p = q ∧ s = u := by
  obtain ⟨hl1, hd1, ha1⟩ := makeStructure_addresses o p s hs
  obtain ⟨hl2, hd2, ha2⟩ := makeStructure_addresses o q u hu
  have hp8 : p.length ≤ 8 := by
    have := makeStructure_level_le o s (OctTree.paths_mem_subtrees hs)
    rw [hl1] at this
    have h1 : max 1 (max o.minLvl o.maxLvl) ≤ 8 := max_le (by decide) h8
    have := le_trans this h1
    omega
  have hq8 : q.length ≤ 8 := by
    have := makeStructure_level_le o u (OctTree.paths_mem_subtrees hu)
    rw [hl2] at this
    have h1 : max 1 (max o.minLvl o.maxLvl) ≤ 8 := max_le (by decide) h8
    have := le_trans this h1
    omega
  rw [List.take_of_length_le hp8] at ha1
  rw [List.take_of_length_le hq8] at ha2
  rw [addressKey_ofDigits, addressKey_ofDigits, ha1, ha2] at hkey
  have haddr := ofDigits_inj_of_length _ _
    (by rw [pathAddress_length p hp8, pathAddress_length q hq8])
    (pathAddress_lt p hd1) (pathAddress_lt q hd2) hkey
  have hpq := pathAddress_inj p q hp8 hq8 haddr
  subst hpq
  exact ⟨rfl, OctTree.paths_functional _ p s u hs hu⟩

theorem addresses_core (o : Octree) (h8 : max o.minLvl o.maxLvl ≤ 8) :
    (makeStructure o).paths.map Prod.snd = (makeStructure o).subtrees ∧
    (∀ p s, (p, s) ∈ (makeStructure o).paths →
      s.cell.subdivLvl = p.length ∧ p.length ≤ 8 ∧ (∀ i ∈ p, i < 8) ∧
      s.cell.address = p.map (fun i => i + 1) ++ List.replicate (8 - p.length) 0) ∧
    (∀ p s q u, (p, s) ∈ (makeStructure o).paths → (q, u) ∈ (makeStructure o).paths →
      s.cell.addressKey = u.cell.addressKey → p = q ∧ s = u) ∧
    (∀ p s, (p, s) ∈ (makeStructure o).paths → p ≠ [] →
      addressGet (makeStructure o).addressEntries s.cell.addressKey = some s.cell) ∧
    (∀ key c, addressGet (makeStructure o).addressEntries key = some c →
      c.addressKey = key ∧ ∃ p s, (p, s) ∈ (makeStructure o).paths ∧ p ≠ [] ∧ s.cell = c) := by
  refine ⟨OctTree.paths_subtrees _, ?_, ?_, ?_, ?_⟩
  · intro p s hs
    obtain ⟨hl, hd, ha⟩ := makeStructure_addresses o p s hs
    have hp8 : p.length ≤ 8 := by
      have := makeStructure_level_le o s (OctTree.paths_mem_subtrees hs)
      rw [hl] at this
      have h1 : max 1 (max o.minLvl o.maxLvl) ≤ 8 := max_le (by decide) h8
      have := le_trans this h1
      omega
    rw [List.take_of_length_le hp8] at ha
    exact ⟨hl, hp8, hd, ha⟩
  · intro p s q u hs hu hkey
    exact makeStructure_key_inj o h8 p s q u hs hu hkey
  · intro p s hs hne
    apply addressGet_of_unique
    · exact ⟨(s.cell.addressKey, s.cell),
        (OctTree.mem_addressEntries_paths _ _).2 ⟨p, s, hs, hne, rfl⟩, rfl⟩
    · intro e he hkey
      obtain ⟨q, u, hu, _, rfl⟩ := (OctTree.mem_addressEntries_paths _ _).1 he
      rw [(makeStructure_key_inj o h8 q u p s hu hs hkey).2]
  · intro key c hget
    have hmem := addressGet_mem _ _ _ hget
    obtain ⟨p, s, hs, hne, he⟩ := (OctTree.mem_addressEntries_paths _ _).1 hmem
    simp only [Prod.mk.injEq] at he
    exact ⟨by rw [he.2, ← he.1], p, s, hs, hne, he.2.symm⟩

/-- C22 (amended): in an octree whose levels minLvl and maxLvl are at most 8, every cell
reached from the root by the child slots `p` has level `length p` (at most 8) and the raw
address `slot + 1` for each step of `p` followed by zeros up to 8 slots; two cells with the
same formatted address are the same cell; cellAddresses maps the formatted address of every
cell but the root to that cell, and holds no other key. -/
theorem C22_addresses (o : Octree) (h8 : max o.minLvl o.maxLvl ≤ 8) :
    (makeStructure o).paths.map Prod.snd = (makeStructure o).subtrees ∧
    (∀ p s, (p, s) ∈ (makeStructure o).paths →
      s.cell.subdivLvl = p.length ∧ p.length ≤ 8 ∧ (∀ i ∈ p, i < 8) ∧
      s.cell.address = p.map (fun i => i + 1) ++ List.replicate (8 - p.length) 0) ∧
    (∀ p s q u, (p, s) ∈ (makeStructure o).paths → (q, u) ∈ (makeStructure o).paths →
      s.cell.addressKey = u.cell.addressKey → p = q ∧ s = u) ∧
    (∀ p s, (p, s) ∈ (makeStructure o).paths → p ≠ [] →
      addressGet (makeStructure o).addressEntries s.cell.addressKey = some s.cell) ∧
    (∀ key c, addressGet (makeStructure o).addressEntries key = some c →
      c.addressKey = key ∧ ∃ p s, (p, s) ∈ (makeStructure o).paths ∧ p ≠ [] ∧ s.cell = c) :=
  addresses_core o h8

/-- C22 (witness): the example octree of levels 1 and 2; every cell but the root is found
under its formatted address. -/
theorem C22_addresses_witness :
    max exOct.minLvl exOct.maxLvl ≤ 8 ∧
    ∀ p s, (p, s) ∈ (makeStructure exOct).paths → p ≠ [] →
      addressGet (makeStructure exOct).addressEntries s.cell.addressKey = some s.cell :=
  ⟨by decide, (C22_addresses exOct (by decide)).2.2.2.1⟩

/-! ## Below level 8 the address has no slot left -/

theorem deep_chain (o : Octree) (h9 : 9 ≤ o.minLvl) : ∀ n, n ≤ 9 →
    ∃ s, (List.replicate n 0, s) ∈ (makeStructure o).paths ∧ (n < 9 → s.kids ≠ []) := by
  intro n
  induction n with
  | zero =>
    intro _
    exact ⟨makeStructure o, (OctTree.mem_paths _ _ _).2 (Or.inl ⟨rfl, rfl⟩),
      fun _ => makeStructure_kids_ne_nil o⟩
  | succ n ih =>
    intro hn
    obtain ⟨s, hs, hkids⟩ := ih (by omega)
    have hne := hkids (by omega)
    have hinv := makeStructure_inv o s (OctTree.paths_mem_subtrees hs)
    have hlen := nodeInv_kids_length hinv hne
    have hk : s.kids[0]? = some s.kids[0] := List.getElem?_eq_getElem (by omega)
    refine ⟨s.kids[0], ?_, ?_⟩
    · rw [List.replicate_succ']
      exact OctTree.paths_snoc _ _ s _ 0 hs hk
    · intro hlt
      obtain ⟨_, m, hcell, hiff⟩ := nodeInv_kidRel hinv hk
      rw [hiff]
      unfold shouldSubdivide
      have hl := (makeStructure_addresses o _ s hs).1
      rw [List.length_replicate] at hl
      have : (childCell o s.cell 0 m).subdivLvl < o.minLvl := by
        rw [childCell_subdivLvl, hl]
        omega
      simp [this]

/-- C22 (counterexample): in the octree of levels 9 and 9 the cell reached from the root by
taking child slot 0 nine times has level 9, and its raw address is the 8 slots
1, 1, 1, 1, 1, 1, 1, 1 of its parent at level 8: slot 8 does not exist, the two cells have
the same formatted address, and cellAddresses cannot map it to both. -/
theorem C22_level_nine_repeats_parent_address :
    ∃ s u, (List.replicate 9 0, s) ∈ (makeStructure octNine).paths ∧
      (List.replicate 8 0, u) ∈ (makeStructure octNine).paths ∧
      s.cell.subdivLvl = 9 ∧ u.cell.subdivLvl = 8 ∧
      s.cell.address = [1, 1, 1, 1, 1, 1, 1, 1] ∧ u.cell.address = [1, 1, 1, 1, 1, 1, 1, 1] ∧
      s.cell.addressKey = u.cell.addressKey ∧
      ¬ (addressGet (makeStructure octNine).addressEntries s.cell.addressKey = some s.cell ∧
         addressGet (makeStructure octNine).addressEntries u.cell.addressKey = some u.cell) := by
  obtain ⟨s, hs, _⟩ := deep_chain octNine (by decide) 9 (by decide)
  obtain ⟨u, hu, _⟩ := deep_chain octNine (by decide) 8 (by decide)
  obtain ⟨hl1, _, ha1⟩ := makeStructure_addresses octNine _ s hs
  obtain ⟨hl2, _, ha2⟩ := makeStructure_addresses octNine _ u hu
  have hkey : s.cell.addressKey = u.cell.addressKey := by
    rw [addressKey_ofDigits, addressKey_ofDigits, ha1, ha2]
    rfl
  refine ⟨s, u, hs, hu, hl1, hl2, ha1, ha2, hkey, ?_⟩
  rintro ⟨h1, h2⟩
  rw [hkey, h2] at h1
  have := congrArg Cell.subdivLvl (Option.some.inj h1)
  rw [hl1, hl2] at this
  simp at this

theorem octNine_reached :
    (AlgCMS.create sphereField Rat.sqrt none 9 9).map AlgCMS.octree = some octNine := by
  unfold AlgCMS.create
  have h1 : max (max 2 (9 : Int)) 9 = 9 := by decide
  have h2 : max 2 (9 : Int) = 9 := by decide
  rw [h1, h2, initialize_eq _ _ _ _ _ _ _ (by decide) (by decide) (by decide)]
  rfl

/-! ## The neighbour address computed by findNeighbours -/

theorem slot_facts : ∀ d, d < 8 → ∀ f, f < 6 →
    flipSlot (f / 2) d < 8 ∧ flipSlot (f / 2) (flipSlot (f / 2) d) = d ∧
    onSide (flipSlot (f / 2) d) (oppFace f) = onSide d f ∧
    oppFace f / 2 = f / 2 ∧ oppFace f < 6 ∧ oppFace (oppFace f) = f ∧
    neighbourDigit (f / 2) (d + 1) = some (flipSlot (f / 2) d + 1) ∧
    (decide ((f % 2 ≠ 0 ∧ d + 1 < flipSlot (f / 2) d + 1) ∨
      (f % 2 = 0 ∧ d + 1 > flipSlot (f / 2) d + 1)) = !onSide d f) := by
  decide

theorem nbRev_cons (f d : Nat) (rest : List Nat) :
    nbRev f (d :: rest) =
      if onSide d f = true then flipSlot (f / 2) d :: nbRev f rest
      else flipSlot (f / 2) d :: rest := rfl

theorem nbRev_length (f : Nat) : ∀ r, (nbRev f r).length = r.length := by
  intro r
  induction r with
  | nil => rfl
  | cons d rest ih =>
    rw [nbRev_cons]
    split_ifs <;> simp [ih]

theorem nbPath_length (f : Nat) (p : List Nat) : (nbPath f p).length = p.length := by
  unfold nbPath
  rw [List.length_reverse, nbRev_length, List.length_reverse]

theorem nbRev_lt (f : Nat) (hf : f < 6) : ∀ r, (∀ d ∈ r, d < 8) → ∀ d ∈ nbRev f r, d < 8 := by
  intro r
  induction r with
  | nil => intro _ d hd; cases hd
  | cons a rest ih =>
    intro h d hd
    rw [nbRev_cons] at hd
    have ha := (slot_facts a (h a (List.mem_cons_self _ _)) f hf).1
    split_ifs at hd
    · rcases List.mem_cons.1 hd with rfl | hd
      · exact ha
      · exact ih (fun x hx => h x (List.mem_cons_of_mem _ hx)) d hd
    · rcases List.mem_cons.1 hd with rfl | hd
      · exact ha
      · exact h d (List.mem_cons_of_mem _ hd)

theorem nbPath_lt (f : Nat) (hf : f < 6) (p : List Nat) (h : ∀ d ∈ p, d < 8) :
    ∀ d ∈ nbPath f p, d < 8 := by
  intro d hd
  unfold nbPath at hd
  exact nbRev_lt f hf p.reverse (fun x hx => h x (List.mem_reverse.1 hx)) d
    (List.mem_reverse.1 hd)

theorem nbRev_involutive (f : Nat) (hf : f < 6) : ∀ r, (∀ d ∈ r, d < 8) →
    nbRev (oppFace f) (nbRev f r) = r := by
  intro r
  induction r with
  | nil => intro _; rfl
  | cons a rest ih =>
    intro h
    obtain ⟨_, h2, h3, h4, _⟩ := slot_facts a (h a (List.mem_cons_self _ _)) f hf
    by_cases hs : onSide a f = true
    · rw [nbRev_cons f a, if_pos hs, nbRev_cons, h3, if_pos hs, h4, h2,
        ih (fun x hx => h x (List.mem_cons_of_mem _ hx))]
    · rw [nbRev_cons f a, if_neg hs, nbRev_cons, h3, if_neg hs, h4, h2]

theorem nbPath_involutive (f : Nat) (hf : f < 6) (p : List Nat) (h : ∀ d ∈ p, d < 8) :
    nbPath (oppFace f) (nbPath f p) = p := by
  unfold nbPath
  rw [List.reverse_reverse, nbRev_involutive f hf _ (fun x hx => h x (List.mem_reverse.1 hx)),
    List.reverse_reverse]

theorem nbPath_snoc (f : Nat) (p : List Nat) (d : Nat) :
    nbPath f (p ++ [d]) =
      if onSide d f = true then nbPath f p ++ [flipSlot (f / 2) d]
      else p ++ [flipSlot (f / 2) d] := by
  unfold nbPath
  rw [List.reverse_append, List.reverse_singleton, List.singleton_append, nbRev_cons]
  split_ifs <;> simp

theorem neighbourSlots_digits (f : Nat) (hf : f < 6) : ∀ (p tail : List Nat),
    (∀ d ∈ p, d < 8) →
    neighbourSlots (p.map (fun i => i + 1) ++ tail) f p.length true =
      p.map (fun i => some (i + 1)) ∧
    neighbourSlots (p.map (fun i => i + 1) ++ tail) f p.length false =
      (nbPath f p).map (fun i => some (i + 1)) := by
  intro p
  induction p using List.reverseRecOn with
  | nil => intro tail _; exact ⟨rfl, rfl⟩
  | append_singleton p d ih =>
    intro tail h
    have hd : d < 8 := h d (by simp)
    have hp : ∀ x ∈ p, x < 8 := fun x hx => h x (by simp [hx])
    obtain ⟨_, _, _, _, _, _, h7, h8⟩ := slot_facts d hd f hf
    have haddr : (p ++ [d]).map (fun i => i + 1) ++ tail =
        p.map (fun i => i + 1) ++ ((d + 1) :: tail) := by simp
    have hraw : rawSlot (p.map (fun i => i + 1) ++ ((d + 1) :: tail)) p.length = some (d + 1) := by
      unfold rawSlot
      rw [List.getElem?_append_right (by simp)]
      simp
    rw [haddr, List.length_append, List.length_singleton]
    obtain ⟨ih1, ih2⟩ := ih ((d + 1) :: tail) hp
    constructor
    · rw [neighbourSlots, if_pos rfl, ih1, hraw]
      simp
    · rw [neighbourSlots, if_neg (by simp), hraw]
      simp only [Nat.succ_ne_zero, if_false, h7, h8]
      rw [nbPath_snoc]
      by_cases hs : onSide d f = true
      · rw [hs, if_pos rfl]
        simp only [Bool.not_true]
        rw [ih2]
        simp
      · have hs2 : onSide d f = false := by simpa using hs
        rw [hs2, if_neg (by simp)]
        simp only [Bool.not_false]
        rw [ih1]
        simp

theorem neighbourSlots_zeros (f : Nat) (q : List Nat) (m : Nat) : ∀ j, j ≤ m →
    neighbourSlots (q ++ List.replicate m 0) f (q.length + j) false =
      neighbourSlots (q ++ List.replicate m 0) f q.length false ++ List.replicate j (some 0) := by
  intro j
  induction j with
  | zero => intro _; simp
  | succ j ih =>
    intro hj
    have hraw : rawSlot (q ++ List.replicate m 0) (q.length + j) = some 0 := by
      unfold rawSlot
      rw [List.getElem?_append_right (by omega)]
      simp only [Nat.add_sub_cancel_left]
      rw [List.getElem?_replicate]
      simp
      omega
    rw [← Nat.add_assoc, neighbourSlots, if_neg (by simp), hraw]
    simp only [if_true]
    rw [ih (by omega), List.append_assoc, List.replicate_succ']

theorem ofDigits_append_zeros (l : List Nat) (m : Nat) :
    Nat.ofDigits 10 (l ++ List.replicate m 0) = Nat.ofDigits 10 l := by
  rw [Nat.ofDigits_append]
  have : Nat.ofDigits 10 (List.replicate m 0) = 0 := by
    induction m with
    | zero => rfl
    | succ m ih => rw [List.replicate_succ, Nat.ofDigits_cons, ih]
  rw [this]
  simp

theorem pathAddress_key (p : List Nat) :
    Nat.ofDigits 10 (pathAddress p) = Nat.ofDigits 10 (p.map (fun i => i + 1)) := by
  unfold pathAddress
  rw [ofDigits_append_zeros]

theorem neighbourKey (f : Nat) (hf : f < 6) (p : List Nat) (hd : ∀ d ∈ p, d < 8) (n : Nat)
    (hL : p.length ≤ n) (hn : n ≤ 8) :
    getFormatted (neighbourSlots (pathAddress p) f n false) =
      Nat.ofDigits 10 (pathAddress (nbPath f p)) := by
  obtain ⟨j, rfl⟩ : ∃ j, n = p.length + j := ⟨n - p.length, by omega⟩
  have hlen : (p.map (fun i => i + 1)).length = p.length := List.length_map _ _
  unfold pathAddress
  have h1 := neighbourSlots_zeros f (p.map (fun i => i + 1)) (8 - p.length) j (by omega)
  rw [hlen] at h1
  rw [h1, (neighbourSlots_digits f hf p _ hd).2]
  have h2 : (nbPath f p).map (fun i => some (i + 1)) ++ List.replicate j (some 0) =
      ((nbPath f p).map (fun i => i + 1) ++ List.replicate j 0).map some := by
    simp
  rw [h2]
  unfold getFormatted
  rw [formatFrom_ofDigits, ofDigits_append_zeros, ofDigits_append_zeros]
  simp

/-! ## The lookup of the neighbour address, in terms of paths -/

theorem makeStructure_path_le (o : Octree) (hmin : o.minLvl ≤ o.maxLvl) (h1 : 1 ≤ o.maxLvl)
    (p : List Nat) (s : OctTree) (hs : (p, s) ∈ (makeStructure o).paths) :
    p.length ≤ o.maxLvl.toNat := by
  have hl := (makeStructure_addresses o p s hs).1
  have := makeStructure_level_le o s (OctTree.paths_mem_subtrees hs)
  rw [hl, max_eq_right hmin, max_eq_right h1] at this
  omega

theorem neighbour_lookup (o : Octree) (hmin : o.minLvl ≤ o.maxLvl) (h1 : 1 ≤ o.maxLvl)
    (h8 : o.maxLvl ≤ 8) (p : List Nat) (s : OctTree) (hs : (p, s) ∈ (makeStructure o).paths)
    (f : Nat) (hf : f < 6) (B : Cell) :
    addressGet (makeStructure o).addressEntries
        (getFormatted (neighbourSlots s.cell.address f o.maxLvl.toNat false)) = some B ↔
      ∃ u, (nbPath f p, u) ∈ (makeStructure o).paths ∧ p ≠ [] ∧ u.cell = B := by
  have hm8 : max o.minLvl o.maxLvl ≤ 8 := by rw [max_eq_right hmin]; exact h8
  obtain ⟨hl, hd, ha⟩ := makeStructure_addresses o p s hs
  have hpL := makeStructure_path_le o hmin h1 p s hs
  have hp8 : p.length ≤ 8 := by omega
  rw [List.take_of_length_le hp8] at ha
  have hkey := neighbourKey f hf p hd o.maxLvl.toNat hpL (by omega)
  rw [ha, hkey]
  have hkeyOf : ∀ (q : List Nat) (u : OctTree), (q, u) ∈ (makeStructure o).paths →
      u.cell.addressKey = Nat.ofDigits 10 (pathAddress q) := by
    intro q u hu
    have hq8 : q.length ≤ 8 := by
      have := makeStructure_path_le o hmin h1 q u hu
      omega
    rw [addressKey_ofDigits, (makeStructure_addresses o q u hu).2.2, List.take_of_length_le hq8]
  constructor
  · intro hget
    obtain ⟨hk, q, u, hu, hne, hcell⟩ := (addresses_core o hm8).2.2.2.2 _ B hget
    have hq8 : q.length ≤ 8 := by
      have := makeStructure_path_le o hmin h1 q u hu
      omega
    rw [← hcell, hkeyOf q u hu] at hk
    have haddr := ofDigits_inj_of_length _ _
      (by rw [pathAddress_length q hq8, pathAddress_length _ (by rw [nbPath_length]; exact hp8)])
      (pathAddress_lt q (makeStructure_addresses o q u hu).2.1)
      (pathAddress_lt _ (nbPath_lt f hf p hd)) hk
    have hq := pathAddress_inj q (nbPath f p) hq8 (by rw [nbPath_length]; exact hp8) haddr
    refine ⟨u, by rw [← hq]; exact hu, ?_, hcell⟩
    intro hp
    rw [hp] at hq
    exact hne hq
  · rintro ⟨u, hu, hne, rfl⟩
    rw [← hkeyOf _ u hu]
    exact (addresses_core o hm8).2.2.2.1 _ u hu (by
      intro h
      have := congrArg List.length h
      rw [nbPath_length] at this
      exact hne (List.length_eq_zero.1 this))

/-! ## Twins after populateHalfFaces -/

theorem twinOf_symm (o : Octree) (X f : Nat) (tw : FaceRef)
    (h : TwinOf (makeStructure o) X f tw) : TwinOf (makeStructure o) tw.1 tw.2 (X, f) := by
  obtain ⟨p, s, u, hs, hu, hne, hf, hX, htw⟩ := h
  have hd := (makeStructure_addresses o p s hs).2.1
  obtain ⟨_, _, _, _, h5, h6, _⟩ := slot_facts 0 (by decide) f hf
  refine ⟨nbPath f p, u, s, hu, ?_, ?_, ?_, ?_, ?_⟩
  · rw [htw]
    show (nbPath (oppFace f) (nbPath f p), s) ∈ _
    rw [nbPath_involutive f hf p hd]
    exact hs
  · intro h0
    have := congrArg List.length h0
    rw [nbPath_length] at this
    exact hne (List.length_eq_zero.1 this)
  · rw [htw]
    exact h5
  · rw [htw]
  · rw [htw]
    show (X, f) = (s.cell.id, oppFace (oppFace f))
    rw [h6, hX]

theorem twinOf_unique (o : Octree) (hmin : o.minLvl ≤ o.maxLvl) (h8 : o.maxLvl ≤ 8)
    (X f : Nat) (tw tw2 : FaceRef)
    (h : TwinOf (makeStructure o) X f tw) (h2 : TwinOf (makeStructure o) X f tw2) : tw = tw2 := by
  obtain ⟨p, s, u, hs, hu, _, _, hX, htw⟩ := h
  obtain ⟨p2, s2, u2, hs2, hu2, _, _, hX2, htw2⟩ := h2
  have hm8 : max o.minLvl o.maxLvl ≤ 8 := by rw [max_eq_right hmin]; exact h8
  have hss : s = s2 := wellLinked_node_inj (makeStructure_wellLinked o)
    (OctTree.paths_mem_subtrees hs) (OctTree.paths_mem_subtrees hs2) (by rw [← hX, ← hX2])
  subst hss
  have hpp := (makeStructure_key_inj o hm8 p s p2 s hs hs2 rfl).1
  subst hpp
  rw [htw, htw2, OctTree.paths_functional _ _ u u2 hu hu2]

theorem setFaceTwins_inv (P : Nat → Nat → FaceRef → Prop) (fs : FaceStore) (a b : Cell)
    (contact : Nat) (hc : contact < 6)
    (h : ∀ X f tw, (fs X f).twin = some tw → P X f tw)
    (h1 : P b.id contact (a.id, oppFace contact))
    (h2 : P a.id (oppFace contact) (b.id, contact)) :
    ∀ X f tw, ((setFaceTwins fs a b contact) X f).twin = some tw → P X f tw := by
  intro X f tw
  unfold setFaceTwins
  have hk : FACE_TWIN_TABLE[contact]? = some (contact, oppFace contact) := by
    interval_cases contact <;> rfl
  rw [hk]
  simp only [FaceStore.set_apply]
  by_cases hx1 : X = a.id ∧ f = oppFace contact
  · rw [if_pos hx1]
    intro htw
    simp only [Option.some.injEq] at htw
    rw [← htw, hx1.1, hx1.2]
    exact h2
  · rw [if_neg hx1]
    by_cases hx2 : X = b.id ∧ f = contact
    · rw [if_pos hx2]
      intro htw
      simp only [Option.some.injEq] at htw
      rw [← htw, hx2.1, hx2.2]
      exact h1
    · rw [if_neg hx2]
      exact h X f tw

theorem setFaceTwins_value (fs : FaceStore) (a b : Cell) (contact : Nat) (hc : contact < 6) :
    ((setFaceTwins fs a b contact) b.id contact).twin = some (a.id, oppFace contact) := by
  unfold setFaceTwins
  have hk : FACE_TWIN_TABLE[contact]? = some (contact, oppFace contact) := by
    interval_cases contact <;> rfl
  rw [hk]
  have hne : contact ≠ oppFace contact := by
    interval_cases contact <;> decide
  simp [FaceStore.set_apply, hne]

theorem populate_inv (P : Nat → Nat → FaceRef → Prop) (o : Octree) (t : OctTree)
    (fs : FaceStore) (h : populateHalfFaces o t initialFaces = some fs)
    (hstep : ∀ c ∈ t.cells, ∀ i, i < 6 → ∀ cellB,
      addressGet t.addressEntries
        (getFormatted (neighbourSlots c.address i o.maxLvl.toNat false)) = some cellB →
      P c.id i (cellB.id, oppFace i) ∧ P cellB.id (oppFace i) (c.id, i)) :
    ∀ X f tw, (fs X f).twin = some tw → P X f tw := by
  unfold populateHalfFaces at h
  split_ifs at h
  simp only [Option.some.injEq] at h
  subst h
  have hinit : ∀ X f tw, (initialFaces X f).twin = some tw → P X f tw := by
    intro X f tw htw
    cases htw
  have hgen : ∀ (L : List Cell) (g : FaceStore), (∀ c ∈ L, c ∈ t.cells) →
      (∀ X f tw, (g X f).twin = some tw → P X f tw) →
      ∀ X f tw, ((L.foldl (findNeighbours o.maxLvl.toNat t.addressEntries) g) X f).twin = some tw →
        P X f tw := by
    intro L
    induction L with
    | nil => intro g _ hg; exact hg
    | cons c rest ih =>
      intro g hL hg
      rw [List.foldl_cons]
      apply ih _ (fun d hd => hL d (List.mem_cons_of_mem _ hd))
      have hin : ∀ (l : List Nat) (g2 : FaceStore), (∀ i ∈ l, i < 6) →
          (∀ X f tw, (g2 X f).twin = some tw → P X f tw) → ∀ X f tw,
          ((l.foldl (findNeighbourStep o.maxLvl.toNat t.addressEntries c) g2) X f).twin = some tw →
            P X f tw := by
        intro l
        induction l with
        | nil => intro g2 _ hg2; exact hg2
        | cons i tl ihl =>
          intro g2 hl hg2
          rw [List.foldl_cons]
          apply ihl _ (fun j hj => hl j (List.mem_cons_of_mem _ hj))
          unfold findNeighbourStep
          cases hget : addressGet t.addressEntries
              (getFormatted (neighbourSlots c.address i o.maxLvl.toNat false)) with
          | none => exact hg2
          | some cellB =>
            have hi := hl i (List.mem_cons_self _ _)
            obtain ⟨hp1, hp2⟩ := hstep c (hL c (List.mem_cons_self _ _)) i hi cellB hget
            exact setFaceTwins_inv P g2 cellB c i hi hg2 hp1 hp2
      exact hin (List.range 6) g (fun i hi => List.mem_range.1 hi) hg
  exact hgen t.cells initialFaces (fun c hc => hc) hinit

theorem populate_sets (o : Octree) (t : OctTree) (fs : FaceStore)
    (h : populateHalfFaces o t initialFaces = some fs) (c : Cell) (hc : c ∈ t.cells)
    (i : Nat) (hi : i < 6) (cellB : Cell)
    (hB : addressGet t.addressEntries
      (getFormatted (neighbourSlots c.address i o.maxLvl.toNat false)) = some cellB) :
    (fs c.id i).twin ≠ none := by
  unfold populateHalfFaces at h
  split_ifs at h
  simp only [Option.some.injEq] at h
  subst h
  exact foldl_keeps_and_sets (findNeighbours o.maxLvl.toNat t.addressEntries)
    (fun s => (s c.id i).twin ≠ none)
    (fun s x hs => findNeighbours_keeps _ _ s x _ _ hs) t.cells c hc
    (fun s => findNeighbours_sets _ _ s c i hi cellB hB) initialFaces

theorem twins_core (o : Octree) (hmin : o.minLvl ≤ o.maxLvl) (h1 : 1 ≤ o.maxLvl)
    (h8 : o.maxLvl ≤ 8) (fs : FaceStore)
    (hpop : populateHalfFaces o (makeStructure o) initialFaces = some fs) :
    (∀ X f tw, (fs X f).twin = some tw → TwinOf (makeStructure o) X f tw) ∧
    (∀ X f tw, TwinOf (makeStructure o) X f tw → (fs X f).twin = some tw) := by
  have hcellpath : ∀ c ∈ (makeStructure o).cells, ∃ p s, (p, s) ∈ (makeStructure o).paths ∧
      s.cell = c := by
    intro c hc
    rw [OctTree.cells_eq_map] at hc
    obtain ⟨s, hs, rfl⟩ := List.mem_map.1 hc
    obtain ⟨p, hp⟩ := OctTree.subtree_has_path _ s hs
    exact ⟨p, s, hp, rfl⟩
  have hinv : ∀ X f tw, (fs X f).twin = some tw → TwinOf (makeStructure o) X f tw := by
    apply populate_inv (TwinOf (makeStructure o)) o _ fs hpop
    intro c hc i hi cellB hget
    obtain ⟨p, s, hs, rfl⟩ := hcellpath c hc
    obtain ⟨u, hu, hne, rfl⟩ := (neighbour_lookup o hmin h1 h8 p s hs i hi cellB).1 hget
    have ht : TwinOf (makeStructure o) s.cell.id i (u.cell.id, oppFace i) :=
      ⟨p, s, u, hs, hu, hne, hi, rfl, rfl⟩
    exact ⟨ht, twinOf_symm o _ _ _ ht⟩
  refine ⟨hinv, ?_⟩
  intro X f tw htw
  obtain ⟨p, s, u, hs, hu, hne, hf, hX, _⟩ := id htw
  have hget := (neighbour_lookup o hmin h1 h8 p s hs f hf u.cell).2 ⟨u, hu, hne, rfl⟩
  have hsc : s.cell ∈ (makeStructure o).cells := by
    rw [OctTree.cells_eq_map]
    exact List.mem_map.2 ⟨s, OctTree.paths_mem_subtrees hs, rfl⟩
  have hset := populate_sets o _ fs hpop s.cell hsc f hf u.cell hget
  rw [← hX] at hset
  cases hv : (fs X f).twin with
  | none => exact absurd hv hset
  | some tw2 => rw [twinOf_unique o hmin h8 X f tw tw2 htw (hinv X f tw2 hv)]
/-! ## Positions determine paths -/

theorem bsum_nonneg (w : Nat → Int) : ∀ (u : List Bool) (lvl : Nat),
    (∀ k, lvl + 1 ≤ k → k ≤ lvl + u.length → 1 ≤ w k) → 0 ≤ bsum w lvl u := by
  intro u
  induction u with
  | nil => intro lvl _; exact le_refl _
  | cons b rest ih =>
    intro lvl hpos
    have h1 := hpos (lvl + 1) (le_refl _) (by simp)
    have h2 := ih (lvl + 1) (fun k hk1 hk2 => hpos k (by omega) (by simp; omega))
    unfold bsum
    split_ifs <;> omega

/-- Bound on a bit sum: with weights that at least halve from one level to the next, the sum
plus the last weight is at most twice the first weight. -/
theorem bsum_bound (w : Nat → Int) : ∀ (u : List Bool) (lvl : Nat), u ≠ [] →
    (∀ k, lvl + 1 ≤ k → k ≤ lvl + u.length → 1 ≤ w k) →
    (∀ k, lvl + 1 ≤ k → k < lvl + u.length → 2 * w (k + 1) ≤ w k) →
    bsum w lvl u + w (lvl + u.length) ≤ 2 * w (lvl + 1) ∧
    (bsum w lvl u + w (lvl + u.length) = 2 * w (lvl + 1) → u.all id = true) := by
  intro u
  induction u with
  | nil => intro lvl h; exact absurd rfl h
  | cons b rest ih =>
    intro lvl _ hpos hw
    cases rest with
    | nil =>
      simp only [bsum, List.length_singleton, List.all_cons, List.all_nil, Bool.and_true, id]
      have h1 := hpos (lvl + 1) (le_refl _) (by simp)
      cases b <;> simp <;> omega
    | cons c rest2 =>
      have hih := ih (lvl + 1) (by simp)
        (fun k hk1 hk2 => hpos k (by omega) (by simp at hk2 ⊢; omega))
        (fun k hk1 hk2 => hw k (by omega) (by simp at hk2 ⊢; omega))
      have hw1 := hw (lvl + 1) (le_refl _) (by simp)
      have h1 := hpos (lvl + 1) (le_refl _) (by simp)
      have hlen : lvl + (b :: c :: rest2).length = lvl + 1 + (c :: rest2).length := by
        simp only [List.length_cons]; omega
      rw [hlen]
      have hb : bsum w lvl (b :: c :: rest2) =
          (if b then w (lvl + 1) else 0) + bsum w (lvl + 1) (c :: rest2) := rfl
      rw [hb]
      constructor
      · split_ifs <;> omega
      · intro heq
        cases b with
        | false =>
          simp only [Bool.false_eq_true, if_false] at heq
          omega
        | true =>
          simp only [if_true] at heq
          have := hih.2 (by omega)
          simp only [List.all_cons, id, Bool.true_and]
          simpa using this

theorem bsum_zero (w : Nat → Int) : ∀ (u : List Bool) (lvl : Nat),
    (∀ k, lvl + 1 ≤ k → k ≤ lvl + u.length → 1 ≤ w k) → bsum w lvl u = 0 →
    u = u.map (fun _ => false) := by
  intro u
  induction u with
  | nil => intro _ _ _; rfl
  | cons b rest ih =>
    intro lvl hpos h
    have h1 := hpos (lvl + 1) (le_refl _) (by simp)
    have hp2 : ∀ k, lvl + 1 + 1 ≤ k → k ≤ lvl + 1 + rest.length → 1 ≤ w k :=
      fun k hk1 hk2 => hpos k (by omega) (by simp; omega)
    have h2 := bsum_nonneg w rest (lvl + 1) hp2
    unfold bsum at h
    cases b with
    | true =>
      simp only [if_true] at h
      omega
    | false =>
      simp only [Bool.false_eq_true, if_false, zero_add] at h
      rw [List.map_cons, ← ih (lvl + 1) hp2 h]

theorem bsum_inj (w : Nat → Int) : ∀ (u v : List Bool) (lvl : Nat), u.length = v.length →
    (∀ k, lvl + 1 ≤ k → k ≤ lvl + u.length → 1 ≤ w k) →
    (∀ k, lvl + 1 ≤ k → k < lvl + u.length → 2 * w (k + 1) ≤ w k) →
    bsum w lvl v = bsum w lvl u → v = u := by
  intro u
  induction u with
  | nil =>
    intro v lvl hlen _ _ _
    exact List.length_eq_zero.1 hlen.symm
  | cons b rest ih =>
    intro v lvl hlen hpos hw h
    cases v with
    | nil => cases hlen
    | cons c vrest =>
      have hl2 : rest.length = vrest.length := by simpa using hlen
      have h1 := hpos (lvl + 1) (le_refl _) (by simp)
      have hp2 : ∀ k, lvl + 1 + 1 ≤ k → k ≤ lvl + 1 + rest.length → 1 ≤ w k :=
        fun k hk1 hk2 => hpos k (by omega) (by simp; omega)
      have hw2 : ∀ k, lvl + 1 + 1 ≤ k → k < lvl + 1 + rest.length → 2 * w (k + 1) ≤ w k :=
        fun k hk1 hk2 => hw k (by omega) (by simp; omega)
      have hnu := bsum_nonneg w rest (lvl + 1) hp2
      have hnv := bsum_nonneg w vrest (lvl + 1) (by rw [← hl2]; exact hp2)
      have hbound : ∀ x : List Bool, x.length = rest.length →
          bsum w (lvl + 1) x < w (lvl + 1) := by
        intro x hx
        by_cases hnil : x = []
        · rw [hnil]
          show (0 : Int) < _
          omega
        · have hb := (bsum_bound w x (lvl + 1) hnil (by rw [hx]; exact hp2)
            (by rw [hx]; exact hw2)).1
          have hlast := hpos (lvl + 1 + x.length) (by omega) (by rw [hx]; simp; omega)
          have hne : rest ≠ [] := by
            intro h0
            rw [h0] at hx
            exact hnil (List.length_eq_zero.1 hx)
          have hw1 := hw (lvl + 1) (le_refl _) (by
            have : 0 < rest.length := List.length_pos.2 hne
            simp; omega)
          omega
      have hbu := hbound rest rfl
      have hbv := hbound vrest hl2.symm
      simp only [bsum] at h
      cases b <;> cases c <;> simp only [Bool.false_eq_true, if_false, if_true, zero_add] at h
      · rw [ih vrest (lvl + 1) hl2 hp2 hw2 h]
      · omega
      · omega
      · rw [ih vrest (lvl + 1) hl2 hp2 hw2 (by omega)]

theorem all_true_bsum (w : Nat → Int) : ∀ (u v : List Bool) (lvl : Nat),
    u.length = v.length → u.all id = true →
    (∀ k, lvl + 1 ≤ k → k ≤ lvl + u.length → 1 ≤ w k) → bsum w lvl v ≤ bsum w lvl u := by
  intro u
  induction u with
  | nil =>
    intro v lvl hlen _ _
    rw [List.length_eq_zero.1 hlen.symm]
  | cons b rest ih =>
    intro v lvl hlen hall hpos
    cases v with
    | nil => cases hlen
    | cons c vrest =>
      simp only [List.all_cons, id, Bool.and_eq_true] at hall
      have h1 := hpos (lvl + 1) (le_refl _) (by simp)
      have := ih vrest (lvl + 1) (by simpa using hlen) hall.2
        (fun k hk1 hk2 => hpos k (by omega) (by simp; omega))
      simp only [bsum, hall.1, if_true]
      split_ifs <;> omega

/-- A bit list whose sum exceeds that of another by exactly the last weight is its binary
increment. -/
theorem bsum_incr (w : Nat → Int) : ∀ (u v : List Bool) (lvl : Nat), u ≠ [] →
    u.length = v.length →
    (∀ k, lvl + 1 ≤ k → k ≤ lvl + u.length → 1 ≤ w k) →
    (∀ k, lvl + 1 ≤ k → k < lvl + u.length → 2 * w (k + 1) ≤ w k) →
    bsum w lvl v = bsum w lvl u + w (lvl + u.length) → v = incBits u := by
  intro u
  induction u with
  | nil => intro v lvl hne; exact absurd rfl hne
  | cons b rest ih =>
    intro v lvl _ hlen hpos hw h
    cases v with
    | nil => cases hlen
    | cons c vrest =>
      have hl2 : rest.length = vrest.length := by simpa using hlen
      have h1 := hpos (lvl + 1) (le_refl _) (by simp)
      have hp2 : ∀ k, lvl + 1 + 1 ≤ k → k ≤ lvl + 1 + rest.length → 1 ≤ w k :=
        fun k hk1 hk2 => hpos k (by omega) (by simp; omega)
      have hw2 : ∀ k, lvl + 1 + 1 ≤ k → k < lvl + 1 + rest.length → 2 * w (k + 1) ≤ w k :=
        fun k hk1 hk2 => hw k (by omega) (by simp; omega)
      have hnu := bsum_nonneg w rest (lvl + 1) hp2
      have hnv := bsum_nonneg w vrest (lvl + 1) (by rw [← hl2]; exact hp2)
      have hlen1 : lvl + (b :: rest).length = lvl + 1 + rest.length := by
        simp only [List.length_cons]; omega
      rw [hlen1] at h
      by_cases hnil : rest = []
      · subst hnil
        have hv : vrest = [] := List.length_eq_zero.1 hl2.symm
        subst hv
        simp only [bsum, List.length_nil, Nat.add_zero, add_zero] at h
        cases b <;> cases c <;> simp at h <;> first | rfl | omega
      · have hvn : vrest ≠ [] := by
          intro h0
          rw [h0] at hl2
          exact hnil (List.length_eq_zero.1 hl2)
        have hbu := bsum_bound w rest (lvl + 1) hnil hp2 hw2
        have hbv := bsum_bound w vrest (lvl + 1) hvn (by rw [← hl2]; exact hp2)
          (by rw [← hl2]; exact hw2)
        rw [← hl2] at hbv
        have hw1 := hw (lvl + 1) (le_refl _) (by
          have : 0 < rest.length := List.length_pos.2 hnil
          simp; omega)
        have hlast := hpos (lvl + 1 + rest.length) (by omega) (by simp; omega)
        simp only [bsum] at h
        cases b <;> cases c <;> simp only [Bool.false_eq_true, if_false, if_true, zero_add] at h
        · -- equal heads: the step happens below
          have hrec := ih vrest (lvl + 1) hnil hl2 hp2 hw2 h
          have hnot : ¬ rest.all id = true := by
            intro hall
            have := all_true_bsum w rest vrest (lvl + 1) hl2 hall hp2
            omega
          rw [incBits, if_neg hnot, hrec]
        · -- the carry reaches the head
          have hv0 : bsum w (lvl + 1) vrest = 0 := by omega
          have hall := hbu.2 (by omega)
          rw [incBits, if_pos hall]
          have hz := bsum_zero w vrest (lvl + 1) (by rw [← hl2]; exact hp2) hv0
          rw [hz]
          simp only [Bool.not_false, List.cons.injEq, true_and]
          apply List.ext_getElem
          · simp [hl2]
          · intro i h1 h2
            simp
        · omega
        · have hrec := ih vrest (lvl + 1) hnil hl2 hp2 hw2 (by omega)
          have hnot : ¬ rest.all id = true := by
            intro hall
            have := all_true_bsum w rest vrest (lvl + 1) hl2 hall hp2
            omega
          rw [incBits, if_neg hnot, hrec]

/-! ## The neighbour path in bits -/

theorem bit_facts : ∀ d, d < 8 → ∀ a, a < 3 →
    onSide d (2 * a + 1) = slotBit a d ∧ (2 * a + 1) / 2 = a ∧
    slotBit a (flipSlot a d) = (!slotBit a d) ∧
    (∀ b, b < 3 → b ≠ a → slotBit b (flipSlot a d) = slotBit b d) ∧ flipSlot a d < 8 := by
  decide

theorem slot_of_bits : ∀ d, d < 8 → ∀ e, e < 8 →
    (∀ a, a < 3 → slotBit a d = slotBit a e) → d = e := by
  decide

theorem path_of_bits : ∀ (p q : List Nat), (∀ d ∈ p, d < 8) → (∀ d ∈ q, d < 8) →
    (∀ a, a < 3 → p.map (slotBit a) = q.map (slotBit a)) → p = q := by
  intro p
  induction p with
  | nil =>
    intro q _ _ h
    have := congrArg List.length (h 0 (by decide))
    simp at this
    exact (List.length_eq_zero.1 this.symm).symm
  | cons d p ih =>
    intro q hp hq h
    cases q with
    | nil =>
      have := congrArg List.length (h 0 (by decide))
      simp at this
    | cons e q =>
      have hde : d = e := slot_of_bits d (hp d (List.mem_cons_self _ _)) e
        (hq e (List.mem_cons_self _ _)) (fun a ha => by
          have := h a ha
          simp only [List.map_cons, List.cons.injEq] at this
          exact this.1)
      rw [hde, ih q (fun x hx => hp x (List.mem_cons_of_mem _ hx))
        (fun x hx => hq x (List.mem_cons_of_mem _ hx)) (fun a ha => by
          have := h a ha
          simp only [List.map_cons, List.cons.injEq] at this
          exact this.2)]

theorem nbRev_snoc (f : Nat) (d : Nat) : ∀ r : List Nat,
    nbRev f (r ++ [d]) =
      if r.all (fun x => onSide x f) = true then
        r.map (flipSlot (f / 2)) ++ [flipSlot (f / 2) d]
      else nbRev f r ++ [d] := by
  intro r
  induction r with
  | nil =>
    simp only [List.nil_append, List.all_nil, if_true, List.map_nil, nbRev_cons]
    split_ifs <;> rfl
  | cons x r ih =>
    rw [List.cons_append, nbRev_cons, ih, nbRev_cons]
    simp only [List.all_cons, Bool.and_eq_true, List.map_cons, List.cons_append]
    by_cases hx : onSide x f = true
    · by_cases hr : r.all (fun x => onSide x f) = true
      · simp [hx, hr]
      · simp [hx, hr]
    · simp [hx]

theorem nbPath_cons (f : Nat) (d : Nat) (rest : List Nat) :
    nbPath f (d :: rest) =
      if rest.all (fun x => onSide x f) = true then
        flipSlot (f / 2) d :: rest.map (flipSlot (f / 2))
      else d :: nbPath f rest := by
  unfold nbPath
  rw [List.reverse_cons, nbRev_snoc, List.all_reverse]
  split_ifs
  · simp [List.map_reverse]
  · simp

theorem all_map_id (l : List Nat) (h g : Nat → Bool) (hg : ∀ x ∈ l, h x = g x) :
    l.all h = (l.map g).all id := by
  induction l with
  | nil => rfl
  | cons x l ih =>
    simp only [List.all_cons, List.map_cons, id]
    rw [hg x (List.mem_cons_self _ _), ih (fun y hy => hg y (List.mem_cons_of_mem _ hy))]

theorem nbPath_bits (a : Nat) (ha : a < 3) : ∀ (p : List Nat), (∀ d ∈ p, d < 8) →
    (nbPath (2 * a + 1) p).map (slotBit a) = incBits (p.map (slotBit a)) ∧
    ∀ b, b < 3 → b ≠ a → (nbPath (2 * a + 1) p).map (slotBit b) = p.map (slotBit b) := by
  intro p
  induction p with
  | nil => intro _; exact ⟨rfl, fun _ _ _ => rfl⟩
  | cons d rest ih =>
    intro h
    have hrest : ∀ x ∈ rest, x < 8 := fun x hx => h x (List.mem_cons_of_mem _ hx)
    obtain ⟨_, h2, h3, h4, _⟩ := bit_facts d (h d (List.mem_cons_self _ _)) a ha
    have hall : rest.all (fun x => onSide x (2 * a + 1)) = (rest.map (slotBit a)).all id :=
      all_map_id rest _ _ (fun x hx => (bit_facts x (hrest x hx) a ha).1)
    obtain ⟨ih1, ih2⟩ := ih hrest
    rw [nbPath_cons, h2, hall]
    constructor
    · rw [List.map_cons, incBits]
      by_cases hc : (rest.map (slotBit a)).all id = true
      · rw [if_pos hc, if_pos hc, List.map_cons, h3, List.map_map, List.map_map]
        congr 1
        apply List.map_congr_left
        intro x hx
        have hbx : slotBit a x = true :=
          List.all_eq_true.1 hc (slotBit a x) (List.mem_map.2 ⟨x, hx, rfl⟩)
        simp [(bit_facts x (hrest x hx) a ha).2.2.1, hbx]
      · rw [if_neg hc, if_neg hc, List.map_cons, ih1]
    · intro b hb hba
      by_cases hc : (rest.map (slotBit a)).all id = true
      · rw [if_pos hc, List.map_cons, List.map_cons, h4 b hb hba, List.map_map]
        congr 1
        apply List.map_congr_left
        intro x hx
        exact (bit_facts x (hrest x hx) a ha).2.2.2.1 b hb hba
      · rw [if_neg hc, List.map_cons, List.map_cons, ih2 b hb hba]

/-! ## Positions of the cells -/

theorem bsum_snoc (w : Nat → Int) : ∀ (u : List Bool) (lvl : Nat) (b : Bool),
    bsum w lvl (u ++ [b]) = bsum w lvl u + (if b then w (lvl + u.length + 1) else 0) := by
  intro u
  induction u with
  | nil => intro lvl b; simp [bsum]
  | cons c rest ih =>
    intro lvl b
    show (if c then w (lvl + 1) else 0) + bsum w (lvl + 1) (rest ++ [b]) =
      (if c then w (lvl + 1) else 0) + bsum w (lvl + 1) rest +
        (if b then w (lvl + (rest.length + 1) + 1) else 0)
    have : lvl + 1 + rest.length + 1 = lvl + (rest.length + 1) + 1 := by omega
    rw [ih, this]
    ring

theorem childC000_axis : ∀ d, d < 8 → ∀ a, a < 3 → ∀ (c off : Index3D),
    axisCoord a (childC000 c off d) =
      axisCoord a c + (if slotBit a d = true then axisCoord a off else 0) := by
  intro d hd a ha c off
  interval_cases d <;> interval_cases a <;> simp [childC000, axisCoord, slotBit]

theorem makeStructure_positions (o : Octree) : ∀ (p : List Nat) (s : OctTree),
    (p, s) ∈ (makeStructure o).paths →
      (p ≠ [] → s.cell.offsets = levelOffsets o p.length) ∧
      ∀ a, a < 3 → axisCoord a s.cell.c000 =
        bsum (fun k => axisCoord a (levelOffsets o k)) 0 (p.map (slotBit a)) := by
  intro p
  induction p using List.reverseRecOn with
  | nil =>
    intro s hs
    rcases (OctTree.mem_paths _ _ s).1 hs with ⟨_, rfl⟩ | ⟨_, _, _, _, h, _⟩
    · refine ⟨fun h => absurd rfl h, ?_⟩
      intro a ha
      interval_cases a <;> rfl
    · cases h
  | append_singleton p i ih =>
    intro k hk
    obtain ⟨s, hs, hsk⟩ := OctTree.paths_unsnoc _ p k i hk
    obtain ⟨_, hc⟩ := ih s hs
    have hl := (makeStructure_addresses o p s hs).1
    have hinv := makeStructure_inv o s (OctTree.paths_mem_subtrees hs)
    obtain ⟨hi8, n, hcell, _⟩ := nodeInv_kidRel hinv hsk
    have hlvl : s.cell.subdivLvl + 1 = ((p ++ [i]).length : Int) := by
      rw [hl]
      simp
    constructor
    · intro _
      rw [hcell, finalChildCell_offsets, hlvl]
    · intro a ha
      rw [hcell, finalChildCell_c000, childC000_axis i hi8 a ha, hc a ha, List.map_append,
        List.map_singleton, bsum_snoc, hlvl]
      simp

theorem level_weights (o : Octree) (a : Nat) (ha : a < 3) (L : Nat) (hL : L ≤ 8)
    (hpos : 1 ≤ axisCoord a (levelOffsets o L)) :
    (∀ k, k ≤ L → 1 ≤ axisCoord a (levelOffsets o k)) ∧
    (∀ k, k < L → 2 * axisCoord a (levelOffsets o ((k + 1 : Nat) : Int)) ≤
      axisCoord a (levelOffsets o k)) := by
  have hhalf : ∀ k : Nat, k < 8 → 2 * axisCoord a (levelOffsets o ((k + 1 : Nat) : Int)) ≤
      axisCoord a (levelOffsets o k) := by
    intro k hk
    have hcast : ((k + 1 : Nat) : Int) = (k : Int) + 1 := by push_cast; rfl
    rw [hcast]
    interval_cases a
    · exact fdiv_halve _ k (by omega) (by omega)
    · exact fdiv_halve _ k (by omega) (by omega)
    · exact fdiv_halve _ k (by omega) (by omega)
  refine ⟨?_, fun k hk => hhalf k (by omega)⟩
  have hdown : ∀ j k, k + j = L → 1 ≤ axisCoord a (levelOffsets o k) := by
    intro j
    induction j with
    | zero =>
      intro k hk
      have : k = L := by omega
      rw [this]
      exact hpos
    | succ j ih =>
      intro k hk
      have h1 := ih (k + 1) (by omega)
      have h2 := hhalf k (by omega)
      omega
  intro k hk
  exact hdown (L - k) k (by omega)

/-! ## Adjacent cells of one level are address neighbours -/

theorem adjacent_high (o : Octree) (a : Nat) (ha : a < 3) (p q : List Nat) (s u : OctTree)
    (hs : (p, s) ∈ (makeStructure o).paths) (hu : (q, u) ∈ (makeStructure o).paths)
    (hlen : p.length = q.length) (hne : p ≠ []) (hL : p.length ≤ 8)
    (hpos : ∀ b, b < 3 → 1 ≤ axisCoord b (levelOffsets o p.length))
    (hstep : axisCoord a u.cell.c000 =
      axisCoord a s.cell.c000 + axisCoord a (levelOffsets o p.length))
    (hsame : ∀ b, b < 3 → b ≠ a → axisCoord b u.cell.c000 = axisCoord b s.cell.c000) :
    q = nbPath (2 * a + 1) p := by
  have hdp := (makeStructure_addresses o p s hs).2.1
  have hdq := (makeStructure_addresses o q u hu).2.1
  have hcs := (makeStructure_positions o p s hs).2
  have hcu := (makeStructure_positions o q u hu).2
  have hw : ∀ b, b < 3 →
      (∀ k, 0 + 1 ≤ k → k ≤ 0 + (p.map (slotBit b)).length →
        1 ≤ (fun k : Nat => axisCoord b (levelOffsets o k)) k) ∧
      (∀ k, 0 + 1 ≤ k → k < 0 + (p.map (slotBit b)).length →
        2 * (fun k : Nat => axisCoord b (levelOffsets o k)) (k + 1) ≤
          (fun k : Nat => axisCoord b (levelOffsets o k)) k) := by
    intro b hb
    obtain ⟨h1, h2⟩ := level_weights o b hb p.length hL (hpos b hb)
    rw [List.length_map]
    exact ⟨fun k _ hk => h1 k (by omega), fun k _ hk => h2 k (by omega)⟩
  obtain ⟨hbits, hother⟩ := nbPath_bits a ha p hdp
  apply path_of_bits q (nbPath (2 * a + 1) p) hdq (nbPath_lt _ (by omega) p hdp)
  intro b hb
  by_cases hba : b = a
  · subst hba
    rw [hbits]
    apply bsum_incr (fun k : Nat => axisCoord b (levelOffsets o k)) _ _ 0
      (by simpa using hne) (by simp [hlen]) (hw b hb).1 (hw b hb).2
    rw [← hcs b hb, ← hcu b hb, hstep]
    simp
  · rw [hother b hb hba]
    apply bsum_inj (fun k : Nat => axisCoord b (levelOffsets o k)) _ _ 0
      (by simp [hlen]) (hw b hb).1 (hw b hb).2
    rw [← hcs b hb, ← hcu b hb, hsame b hb hba]

theorem face_cases : ∀ f, f < 6 →
    f / 2 < 3 ∧ ((f % 2 = 1 ∧ f = 2 * (f / 2) + 1) ∨
      (f % 2 = 0 ∧ oppFace (2 * (f / 2) + 1) = f ∧ 2 * (f / 2) + 1 < 6)) := by
  decide

theorem adjacent_path (o : Octree) (hmin : o.minLvl ≤ o.maxLvl) (h1 : 1 ≤ o.maxLvl)
    (h8 : o.maxLvl ≤ 8) (p q : List Nat) (s u : OctTree)
    (hs : (p, s) ∈ (makeStructure o).paths) (hu : (q, u) ∈ (makeStructure o).paths)
    (f : Nat) (hf : f < 6) (hlvl : s.cell.subdivLvl = u.cell.subdivLvl)
    (hpos : ∀ a, a < 3 → 0 < axisCoord a s.cell.offsets)
    (hadj : adjacentAcross s.cell u.cell f) : p ≠ [] ∧ q = nbPath f p := by
  have hlen : p.length = q.length := by
    have e1 := (makeStructure_addresses o p s hs).1
    have e2 := (makeStructure_addresses o q u hu).1
    rw [e1, e2] at hlvl
    exact_mod_cast hlvl
  have hL : p.length ≤ 8 := by
    have := makeStructure_path_le o hmin h1 p s hs
    omega
  obtain ⟨ha, hcase⟩ := face_cases f hf
  have hne : p ≠ [] := by
    intro hp
    subst hp
    have hq : q = [] := List.length_eq_zero.1 hlen.symm
    subst hq
    have hsu := OctTree.paths_functional _ _ s u hs hu
    subst hsu
    have h0 := hpos (f / 2) ha
    unfold adjacentAcross at hadj
    have := hadj.1
    split_ifs at this <;> omega
  have hqne : q ≠ [] := by
    intro hq
    rw [hq] at hlen
    exact hne (List.length_eq_zero.1 hlen)
  have hos := (makeStructure_positions o p s hs).1 hne
  have hou := (makeStructure_positions o q u hu).1 hqne
  have hpos1 : ∀ b, b < 3 → 1 ≤ axisCoord b (levelOffsets o p.length) := by
    intro b hb
    have := hpos b hb
    rw [hos] at this
    omega
  refine ⟨hne, ?_⟩
  unfold adjacentAcross at hadj
  obtain ⟨hstep, hsame⟩ := hadj
  rcases hcase with ⟨hodd, hfe⟩ | ⟨heven, hopp, hlt⟩
  · rw [if_pos hodd, hos] at hstep
    rw [hfe]
    exact adjacent_high o (f / 2) ha p q s u hs hu hlen hne hL hpos1 hstep hsame
  · rw [if_neg (by omega), hou] at hstep
    have hq8 : q.length ≤ 8 := by omega
    have hhigh := adjacent_high o (f / 2) ha q p u s hu hs hlen.symm hqne hq8
      (by rw [← hlen]; exact hpos1) (by omega)
      (fun b hb hba => (hsame b hb hba).symm)
    have hinv := nbPath_involutive (2 * (f / 2) + 1) hlt q (makeStructure_addresses o q u hu).2.1
    rw [hopp, ← hhigh] at hinv
    exact hinv.symm

theorem twins_of_adjacent (o : Octree) (hmin : o.minLvl ≤ o.maxLvl) (h1 : 1 ≤ o.maxLvl)
    (h8 : o.maxLvl ≤ 8) (fs : FaceStore)
    (hpop : populateHalfFaces o (makeStructure o) initialFaces = some fs) :
    (∀ A ∈ (makeStructure o).cells, ∀ B ∈ (makeStructure o).cells, ∀ f, f < 6 →
      A.subdivLvl = B.subdivLvl → (∀ a, a < 3 → 0 < axisCoord a A.offsets) →
      adjacentAcross A B f →
      (fs A.id f).twin = some (B.id, oppFace f) ∧
      (fs B.id (oppFace f)).twin = some (A.id, f)) ∧
    (∀ X f tw, (fs X f).twin = some tw → (fs tw.1 tw.2).twin = some (X, f)) := by
  obtain ⟨hinv, hset⟩ := twins_core o hmin h1 h8 fs hpop
  constructor
  · intro A hA B hB f hf hlvl hpos hadj
    rw [OctTree.cells_eq_map] at hA hB
    obtain ⟨s, hs, rfl⟩ := List.mem_map.1 hA
    obtain ⟨u, hu, rfl⟩ := List.mem_map.1 hB
    obtain ⟨p, hp⟩ := OctTree.subtree_has_path _ s hs
    obtain ⟨q, hq⟩ := OctTree.subtree_has_path _ u hu
    obtain ⟨hne, hqp⟩ := adjacent_path o hmin h1 h8 p q s u hp hq f hf hlvl hpos hadj
    have ht : TwinOf (makeStructure o) s.cell.id f (u.cell.id, oppFace f) :=
      ⟨p, s, u, hp, by rw [← hqp]; exact hq, hne, hf, rfl, rfl⟩
    exact ⟨hset _ _ _ ht, hset _ _ _ (twinOf_symm o _ _ _ ht)⟩
  · intro X f tw htw
    exact hset _ _ _ (twinOf_symm o _ _ _ (hinv X f tw htw))

theorem octFlat_reached :
    (((AlgCMS.create sphereField Rat.sqrt none 2 2).bind (fun a => a.setOctreeLevels 0 0)).bind
      (fun a => a.setSamples 9 9 9)).map AlgCMS.octree = some octFlat := by
  unfold AlgCMS.create
  rw [initialize_eq _ _ _ _ _ _ _ (by decide) (by decide) (by decide)]
  simp only [Option.bind, AlgCMS.setOctreeLevels]
  rw [initialize_eq _ _ _ _ _ _ _ (by decide) (by decide) (by decide)]
  simp only [AlgCMS.setSamples]
  rw [initialize_eq _ _ _ _ _ _ _ (by decide) (by decide) (by decide)]
  rfl

set_option maxRecDepth 100000 in
theorem octFlat_cells :
    ((makeStructure octFlat).cells[1]?).map (fun c => (c.id, c.subdivLvl, c.c000, c.offsets)) =
      some (1, 1, ⟨0, 0, 0⟩, ⟨4, 4, 4⟩) ∧
    ((makeStructure octFlat).cells[2]?).map (fun c => (c.id, c.subdivLvl, c.c000, c.offsets)) =
      some (2, 1, ⟨0, 0, 4⟩, ⟨4, 4, 4⟩) := by
  decide!

set_option maxRecDepth 100000 in
theorem octFlat_twin :
    (populateHalfFaces octFlat (makeStructure octFlat) initialFaces).map
      (fun fs => (fs 1 1).twin) = some none := by
  decide!

/-- C21 (counterexample): with maxLvl = 0 (which is at most 8) the root still gets its 8
children; the level-1 cells 1 and 2 have the base corners (0, 0, 0) and (0, 0, 4) and the
extent 4, so cell 2 lies across face 1 of cell 1, but findNeighbours builds an address of
length 0, finds no cell, and face 1 of cell 1 has no twin after populateHalfFaces. -/
theorem C21_no_twins_at_max_level_zero :
    octFlat.maxLvl ≤ 8 ∧
    ∃ A B fs, (makeStructure octFlat).cells[1]? = some A ∧
      (makeStructure octFlat).cells[2]? = some B ∧
      populateHalfFaces octFlat (makeStructure octFlat) initialFaces = some fs ∧
      A.subdivLvl = B.subdivLvl ∧ (∀ a, a < 3 → 0 < axisCoord a A.offsets) ∧
      adjacentAcross A B 1 ∧ (fs A.id 1).twin = none := by
  refine ⟨by decide, ?_⟩
  obtain ⟨h1, h2⟩ := octFlat_cells
  obtain ⟨A, hA, hAv⟩ := Option.map_eq_some'.1 h1
  obtain ⟨B, hB, hBv⟩ := Option.map_eq_some'.1 h2
  obtain ⟨fs, hfs, htw⟩ := Option.map_eq_some'.1 octFlat_twin
  simp only [Prod.mk.injEq] at hAv hBv
  obtain ⟨hAid, hAl, hAc, hAo⟩ := hAv
  obtain ⟨_, hBl, hBc, hBo⟩ := hBv
  refine ⟨A, B, fs, hA, hB, hfs, by rw [hAl, hBl], ?_, ?_, by rw [hAid]; exact htw⟩
  · rw [hAo]
    decide
  · unfold adjacentAcross
    rw [hAc, hAo, hBc, hBo]
    decide

/-- C21 (amended): in an octree with minLvl <= maxLvl and 1 <= maxLvl <= 8, after
populateHalfFaces, whenever two cells A and B of the tree have the same level, positive
extents on all three axes, and B lies across face `f` of A, the twin of face `f` of A is face
`f xor 1` of B and the twin of that face is face `f` of A; and for every face with a twin,
the twin of the twin is the face itself. -/
theorem C21_twins_of_same_level_neighbours (o : Octree) (hmin : o.minLvl ≤ o.maxLvl)
    (h1 : 1 ≤ o.maxLvl) (h8 : o.maxLvl ≤ 8) (fs : FaceStore)
    (hpop : populateHalfFaces o (makeStructure o) initialFaces = some fs) :
    (∀ A ∈ (makeStructure o).cells, ∀ B ∈ (makeStructure o).cells, ∀ f, f < 6 →
      A.subdivLvl = B.subdivLvl → (∀ a, a < 3 → 0 < axisCoord a A.offsets) →
      adjacentAcross A B f →
      (fs A.id f).twin = some (B.id, oppFace f) ∧
      (fs B.id (oppFace f)).twin = some (A.id, f)) ∧
    (∀ X f tw, (fs X f).twin = some tw → (fs tw.1 tw.2).twin = some (X, f)) :=
  twins_of_adjacent o hmin h1 h8 fs hpop

set_option maxRecDepth 100000 in
theorem exCell1_mem :
    litCell 1 false (some 0) 1 0 0 0 4 0 [1, 0, 0, 0, 0, 0, 0, 0] ∈ exTree.cells := by
  decide!

/-- C21 (witness): the example octree of levels 1 and 2; the level-1 cell 1 lies across
face 0 of the level-1 cell 10, so face 0 of cell 10 and face 1 of cell 1 are twins. -/
theorem C21_twins_of_same_level_neighbours_witness :
    (exOct.minLvl ≤ exOct.maxLvl ∧ 1 ≤ exOct.maxLvl ∧ exOct.maxLvl ≤ 8) ∧
    ∃ fs, populateHalfFaces exOct (makeStructure exOct) initialFaces = some fs ∧
      (fs 10 0).twin = some (1, 1) ∧ (fs 1 1).twin = some (10, 0) := by
  refine ⟨by decide, ?_⟩
  obtain ⟨fs, hfs⟩ := populateHalfFaces_some exOct (makeStructure exOct) initialFaces
    (by decide)
  have hA : litCell 10 true (some 0) 1 0 0 4 4 1 [2, 0, 0, 0, 0, 0, 0, 0] ∈
      (makeStructure exOct).cells := by
    rw [exTree_eq]
    exact exCell10_mem
  have hB : litCell 1 false (some 0) 1 0 0 0 4 0 [1, 0, 0, 0, 0, 0, 0, 0] ∈
      (makeStructure exOct).cells := by
    rw [exTree_eq]
    exact exCell1_mem
  exact ⟨fs, hfs,
    (C21_twins_of_same_level_neighbours exOct (by decide) (by decide) (by decide) fs hfs).1
      _ hA _ hB 0 (by decide) rfl (by decide) (by unfold adjacentAcross; decide)⟩

/-! ## Splitting a coarse strip -/

/-- C31: splitCoarseStripAndInsertVertex on the strip list of a face, for the crossing block
`b` on axis `d` and the vertex id `v`. Either no strip has both ends on axis `d` with the
crossing strictly between its two end blocks, and the list is returned unchanged; or the
list is `pre ++ s :: post` where `s` is the first such strip, and the result is `pre`, then
the two strips with the ids `(s.data.1, v)` and `(v, s.data.2)`, the blocks of `s` joined at
the crossing block and both ends on axis `d`, then `post`: one strip more, the others
unchanged and in their order. -/
theorem C31_split_replaces_first_bracketing_strip (strips : List Strip) (b : Index3D)
    (d v : Int) :
    ((∀ s ∈ strips, ¬ brackets s (b, d)) ∧
      splitCoarseStripAndInsertVertex strips b d v = strips) ∨
    (∃ pre s post sA sB, strips = pre ++ s :: post ∧ (∀ x ∈ pre, ¬ brackets x (b, d)) ∧
      brackets s (b, d) ∧
      splitCoarseStripAndInsertVertex strips b d v = pre ++ sA :: sB :: post ∧
      sA.data = (s.data.1, v) ∧ sB.data = (v, s.data.2) ∧
      sA.block = (s.block.1, b) ∧ sB.block = (b, s.block.2) ∧
      sA.dir = (d, d) ∧ sB.dir = (d, d) ∧ sA.edge = s.edge ∧ sB.edge = s.edge ∧
      sA.skip = false ∧ sB.skip = false ∧
      (splitCoarseStripAndInsertVertex strips b d v).length = strips.length + 1) := by
  induction strips with
  | nil =>
    left
    exact ⟨fun s hs => (by cases hs), rfl⟩
  | cons strip rest ih =>
    rw [split_cons]
    by_cases hb : brackets strip (b, d)
    · right
      rw [if_pos hb]
      refine ⟨[], strip, rest, _, _, rfl, fun x hx => (by cases hx), hb, rfl,
        rfl, rfl, rfl, rfl, rfl, rfl, rfl, rfl, rfl, rfl, ?_⟩
      simp [splitStrip]
    · rw [if_neg hb]
      rcases ih with ⟨hno, heq⟩ | ⟨pre, s, post, sA, sB, hs, hpre, hbs, heq, h1, h2, h3, h4,
          h5, h6, h7, h8, h9, h10, hlen⟩
      · left
        refine ⟨?_, by rw [heq]⟩
        intro x hx
        rcases List.mem_cons.1 hx with rfl | hx
        · exact hb
        · exact hno x hx
      · right
        refine ⟨strip :: pre, s, post, sA, sB, by rw [hs]; rfl, ?_, hbs, by rw [heq]; rfl,
          h1, h2, h3, h4, h5, h6, h7, h8, h9, h10, by simp [hlen]⟩
        intro x hx
        rcases List.mem_cons.1 hx with rfl | hx
        · exact hb
        · exact hpre x hx

/-! ## linkStrips: the chain and the strips it uses -/

theorem ringPairs_append (c : Int) (m : List Int) : ∀ l : List Int,
    ringPairs (l ++ c :: m) = ringPairs (l ++ [c]) ++ ringPairs (c :: m) := by
  intro l
  induction l with
  | nil => simp [ringPairs]
  | cons a l ih =>
    cases l with
    | nil => simp [ringPairs]
    | cons b l2 =>
      show (a, b) :: ringPairs (b :: l2 ++ c :: m) =
        (a, b) :: ringPairs (b :: l2 ++ [c]) ++ ringPairs (c :: m)
      rw [ih]
      rfl

theorem linked_symm {a b : Int} {s : Strip} (h : linked a b s) : linked b a s := by
  rcases h with ⟨h1, h2⟩ | ⟨h1, h2⟩
  · exact Or.inr ⟨h2, h1⟩
  · exact Or.inl ⟨h2, h1⟩

theorem findLink_some (current : Int) : ∀ (strips : List Strip) (v : Int) (rest : List Strip),
    findLink current strips = some (v, rest) →
    ∃ pre s post, strips = pre ++ s :: post ∧ rest = pre ++ post ∧ linked current v s ∧
      ∀ x ∈ pre, ¬ touches current x := by
  intro strips
  induction strips with
  | nil => intro v rest h; simp [findLink] at h
  | cons s tl ih =>
    intro v rest h
    unfold findLink at h
    split_ifs at h with h1 h2
    · simp only [Option.some.injEq, Prod.mk.injEq] at h
      exact ⟨[], s, tl, rfl, h.2.symm, Or.inl ⟨h1, h.1⟩, fun x hx => (by cases hx)⟩
    · simp only [Option.some.injEq, Prod.mk.injEq] at h
      exact ⟨[], s, tl, rfl, h.2.symm, Or.inr ⟨h2, h.1⟩, fun x hx => (by cases hx)⟩
    · cases hf : findLink current tl with
      | none => rw [hf] at h; cases h
      | some r =>
        obtain ⟨w, r1⟩ := r
        rw [hf] at h
        simp only [Option.some.injEq, Prod.mk.injEq] at h
        obtain ⟨pre, s2, post, htl, hr, hl, hpre⟩ := ih w r1 hf
        refine ⟨s :: pre, s2, post, by rw [htl]; rfl, by rw [← h.2, hr]; rfl, by rw [← h.1]; exact hl, ?_⟩
        intro x hx
        rcases List.mem_cons.1 hx with rfl | hx
        · intro ht
          rcases ht with ht | ht
          · exact h1 ht
          · exact h2 ht
        · exact hpre x hx

theorem findLink_none (current : Int) : ∀ (strips : List Strip),
    findLink current strips = none → ∀ s ∈ strips, ¬ touches current s := by
  intro strips
  induction strips with
  | nil => intro _ s hs; cases hs
  | cons s tl ih =>
    intro h x hx
    unfold findLink at h
    split_ifs at h with h1 h2
    cases hf : findLink current tl with
    | some r => rw [hf] at h; cases h
    | none =>
      rcases List.mem_cons.1 hx with rfl | hx
      · intro ht
        rcases ht with ht | ht
        · exact h1 ht
        · exact h2 ht
      · exact ih hf x hx

theorem extendBack_chain : ∀ (n : Nat) (ring : List Int) (current : Int) (strips : List Strip),
    ∃ ext used,
      (extendBack n ring current strips).1 = ring ++ ext ∧
      List.Forall₂ (fun pr s => linked pr.1 pr.2 s) (ringPairs (current :: ext)) used ∧
      strips.Perm (used ++ (extendBack n ring current strips).2) ∧
      (extendBack n ring current strips).2.Sublist strips ∧
      (strips.length ≤ n → ∀ e, (current :: ext).getLast? = some e →
        ∀ s ∈ (extendBack n ring current strips).2, ¬ touches e s) := by
  intro n
  induction n with
  | zero =>
    intro ring current strips
    refine ⟨[], [], by simp [extendBack], List.Forall₂.nil, by simp [extendBack],
      List.Sublist.refl _, ?_⟩
    intro hlen e _ s hs
    have : strips = [] := List.length_eq_zero.1 (Nat.le_zero.1 hlen)
    rw [extendBack, this] at hs
    cases hs
  | succ n ih =>
    intro ring current strips
    unfold extendBack
    cases hf : findLink current strips with
    | none =>
      refine ⟨[], [], by simp, List.Forall₂.nil, by simp, List.Sublist.refl _, ?_⟩
      intro _ e he s hs
      simp only [List.getLast?_singleton, Option.some.injEq] at he
      rw [← he]
      exact findLink_none current strips hf s hs
    | some r =>
      obtain ⟨v, rest⟩ := r
      obtain ⟨pre, s0, post, hstrips, hrest, hl, _⟩ := findLink_some current strips v rest hf
      obtain ⟨ext, used, h1, h2, h3, h4, h5⟩ := ih (ring ++ [v]) v rest
      simp only
      refine ⟨v :: ext, s0 :: used, by rw [h1]; simp, ?_, ?_, ?_, ?_⟩
      · exact List.Forall₂.cons hl h2
      · rw [hstrips]
        have hp : (pre ++ s0 :: post).Perm (s0 :: (pre ++ post)) := List.perm_middle
        refine hp.trans ?_
        rw [← hrest]
        exact List.Perm.cons s0 h3
      · rw [hstrips]
        refine h4.trans ?_
        rw [hrest]
        exact List.Sublist.append_left (List.sublist_cons_self _ _) _
      · intro hlen e he
        have hl2 := findLink_length current strips v rest hf
        apply h5 (by omega) e
        rw [List.getLast?_cons_cons] at he
        exact he

theorem extendFront_chain : ∀ (n : Nat) (ring : List Int) (current : Int) (strips : List Strip),
    ∃ ext used,
      (extendFront n ring current strips).1 = ext ++ ring ∧
      List.Forall₂ (fun pr s => linked pr.1 pr.2 s) (ringPairs (ext ++ [current])) used ∧
      strips.Perm (used ++ (extendFront n ring current strips).2) ∧
      (extendFront n ring current strips).2.Sublist strips ∧
      (strips.length ≤ n → ∀ e, (ext ++ [current]).head? = some e →
        ∀ s ∈ (extendFront n ring current strips).2, ¬ touches e s) := by
  intro n
  induction n with
  | zero =>
    intro ring current strips
    refine ⟨[], [], by simp [extendFront], List.Forall₂.nil, by simp [extendFront],
      List.Sublist.refl _, ?_⟩
    intro hlen e _ s hs
    have : strips = [] := List.length_eq_zero.1 (Nat.le_zero.1 hlen)
    rw [extendFront, this] at hs
    cases hs
  | succ n ih =>
    intro ring current strips
    unfold extendFront
    cases hf : findLink current strips with
    | none =>
      refine ⟨[], [], by simp, List.Forall₂.nil, by simp, List.Sublist.refl _, ?_⟩
      intro _ e he s hs
      simp only [List.nil_append, List.head?_cons, Option.some.injEq] at he
      rw [← he]
      exact findLink_none current strips hf s hs
    | some r =>
      obtain ⟨v, rest⟩ := r
      obtain ⟨pre, s0, post, hstrips, hrest, hl, _⟩ := findLink_some current strips v rest hf
      obtain ⟨ext, used, h1, h2, h3, h4, h5⟩ := ih (v :: ring) v rest
      simp only
      refine ⟨ext ++ [v], used ++ [s0], by rw [h1]; simp, ?_, ?_, ?_, ?_⟩
      · rw [List.append_assoc, List.singleton_append, ringPairs_append]
        exact List.rel_append h2 (List.Forall₂.cons (linked_symm hl) List.Forall₂.nil)
      · rw [hstrips]
        have hp : (pre ++ s0 :: post).Perm (s0 :: (pre ++ post)) := List.perm_middle
        refine hp.trans ?_
        rw [← hrest]
        refine (List.Perm.cons s0 h3).trans ?_
        rw [List.append_assoc]
        exact (List.perm_middle).symm
      · rw [hstrips]
        refine h4.trans ?_
        rw [hrest]
        exact List.Sublist.append_left (List.sublist_cons_self _ _) _
      · intro hlen e he
        have hl2 := findLink_length current strips v rest hf
        apply h5 (by omega) e
        cases ext with
        | nil => simpa using he
        | cons x ext2 => simpa using he

theorem perm_eraseIdx {α : Type} : ∀ (l : List α) (i : Nat) (a : α), l[i]? = some a →
    l.Perm (a :: l.eraseIdx i) := by
  intro l
  induction l with
  | nil => intro i a h; cases h
  | cons x l ih =>
    intro i a h
    cases i with
    | zero =>
      simp only [List.getElem?_cons_zero, Option.some.injEq] at h
      rw [h]
      exact List.Perm.refl _
    | succ i =>
      simp only [List.getElem?_cons_succ] at h
      rw [List.eraseIdx_cons_succ]
      exact (List.Perm.cons x (ih i a h)).trans (List.Perm.swap a x _)

theorem minStrip_fold_spec (rest : List Strip) : ∀ (pre : List Strip) (acc : Nat × Nat × Int),
    acc.1 = pre.length →
    (∃ s, pre[acc.2.1]? = some s ∧ s.minEnd = acc.2.2) →
    (∀ s ∈ pre, acc.2.2 ≤ s.minEnd) →
    (∀ j s, j < acc.2.1 → pre[j]? = some s → acc.2.2 < s.minEnd) →
    ∃ s, (pre ++ rest)[(rest.foldl
        (fun (acc : Nat × Nat × Int) s =>
          if min s.data.1 s.data.2 < acc.2.2 then (acc.1 + 1, acc.1, min s.data.1 s.data.2)
          else (acc.1 + 1, acc.2.1, acc.2.2)) acc).2.1]? = some s ∧
      (∀ x ∈ pre ++ rest, s.minEnd ≤ x.minEnd) ∧
      (∀ j x, j < (rest.foldl
        (fun (acc : Nat × Nat × Int) s =>
          if min s.data.1 s.data.2 < acc.2.2 then (acc.1 + 1, acc.1, min s.data.1 s.data.2)
          else (acc.1 + 1, acc.2.1, acc.2.2)) acc).2.1 → (pre ++ rest)[j]? = some x →
        s.minEnd < x.minEnd) := by
  induction rest with
  | nil =>
    intro pre acc _ hidx hall hbefore
    obtain ⟨s, hs, hm⟩ := hidx
    simp only [List.append_nil, List.foldl_nil]
    exact ⟨s, hs, fun x hx => by rw [hm]; exact hall x hx,
      fun j x hj hx => by rw [hm]; exact hbefore j x hj hx⟩
  | cons t tl ih =>
    intro pre acc hlen hidx hall hbefore
    obtain ⟨s, hs, hm⟩ := hidx
    have happ : pre ++ t :: tl = (pre ++ [t]) ++ tl := by simp
    rw [List.foldl_cons, happ]
    have hlt : acc.2.1 < pre.length := by
      by_contra hge
      rw [List.getElem?_eq_none (by omega)] at hs
      cases hs
    by_cases hc : min t.data.1 t.data.2 < acc.2.2
    · rw [if_pos hc]
      apply ih (pre ++ [t]) _ (by simp [hlen])
      · refine ⟨t, ?_, rfl⟩
        simp only
        rw [hlen, List.getElem?_append_right (le_refl _)]
        simp
      · intro x hx
        simp only
        rcases List.mem_append.1 hx with hx | hx
        · exact le_trans (le_of_lt hc) (hall x hx)
        · rw [List.mem_singleton.1 hx]
          exact le_refl _
      · intro j x hj hx
        simp only at hj ⊢
        rw [hlen] at hj
        rw [List.getElem?_append_left hj] at hx
        exact lt_of_lt_of_le hc (hall x (mem_of_getElem?_eq hx))
    · rw [if_neg hc]
      apply ih (pre ++ [t]) _ (by simp [hlen])
      · refine ⟨s, ?_, hm⟩
        simp only
        rw [List.getElem?_append_left hlt]
        exact hs
      · intro x hx
        simp only
        rcases List.mem_append.1 hx with hx | hx
        · exact hall x hx
        · rw [List.mem_singleton.1 hx]
          exact not_lt.1 hc
      · intro j x hj hx
        simp only at hj ⊢
        rw [List.getElem?_append_left (by omega)] at hx
        exact hbefore j x hj hx

theorem minStripIdx_spec (strips : List Strip) (h : strips ≠ []) :
    ∃ minIdx seed, minStripIdx strips = some minIdx ∧ strips[minIdx]? = some seed ∧
      (∀ x ∈ strips, seed.minEnd ≤ x.minEnd) ∧
      (∀ j x, j < minIdx → strips[j]? = some x → seed.minEnd < x.minEnd) := by
  cases strips with
  | nil => exact absurd rfl h
  | cons s0 rest =>
    obtain ⟨s, h1, h2, h3⟩ := minStrip_fold_spec rest [s0] (1, 0, min s0.data.1 s0.data.2) rfl
      ⟨s0, rfl, rfl⟩ (fun x hx => by rw [List.mem_singleton.1 hx]; exact le_refl _)
      (fun j x hj _ => absurd hj (Nat.not_lt_zero j))
    exact ⟨_, s, rfl, h1, h2, h3⟩

theorem linkStrips_core (strips : List Strip) (h : strips ≠ []) :
    ∃ seedIdx seed ring used chain rest,
      linkStrips strips = some (chain, rest) ∧
      strips[seedIdx]? = some seed ∧
      (∀ x ∈ strips, seed.minEnd ≤ x.minEnd) ∧
      (∀ (j : Nat) (x : Strip), j < seedIdx → strips[j]? = some x →
        seed.minEnd < x.minEnd) ∧
      seed ∈ used ∧ (seed.data.1, seed.data.2) ∈ ringPairs ring ∧
      List.Forall₂ (fun pr s => linked pr.1 pr.2 s) (ringPairs ring) used ∧
      strips.Perm (used ++ rest) ∧ rest.Sublist strips ∧ rest.length < strips.length ∧
      (∀ e, (ring.head? = some e ∨ ring.getLast? = some e) → ∀ s ∈ rest, ¬ touches e s) ∧
      chain = dropClosing ring ∧
      (¬ (ring.length > 2 ∧ ring.head? = ring.getLast?) → chain = ring) ∧
      (ring.length > 2 ∧ ring.head? = ring.getLast? → chain = ring.dropLast) := by
  obtain ⟨minIdx, seed, hmin, hseed, hleast, hfirst⟩ := minStripIdx_spec strips h
  have hlt : minIdx < strips.length := by
    by_contra hge
    rw [List.getElem?_eq_none (by omega)] at hseed
    cases hseed
  obtain ⟨ext1, used1, b1, b2, b3, b4, b5⟩ := extendBack_chain (strips.eraseIdx minIdx).length
    [seed.data.1, seed.data.2] seed.data.2 (strips.eraseIdx minIdx)
  obtain ⟨ext2, used2, f1, f2, f3, f4, f5⟩ := extendFront_chain
    (extendBack (strips.eraseIdx minIdx).length [seed.data.1, seed.data.2]
      seed.data.2 (strips.eraseIdx minIdx)).2.length
    (extendBack (strips.eraseIdx minIdx).length [seed.data.1, seed.data.2]
      seed.data.2 (strips.eraseIdx minIdx)).1
    seed.data.1
    (extendBack (strips.eraseIdx minIdx).length [seed.data.1, seed.data.2]
      seed.data.2 (strips.eraseIdx minIdx)).2
  have hls : linkStrips strips = some
      (dropClosing
        (extendFront
          (extendBack (strips.eraseIdx minIdx).length [seed.data.1, seed.data.2]
            seed.data.2 (strips.eraseIdx minIdx)).2.length
          (extendBack (strips.eraseIdx minIdx).length [seed.data.1, seed.data.2]
            seed.data.2 (strips.eraseIdx minIdx)).1
          seed.data.1
          (extendBack (strips.eraseIdx minIdx).length [seed.data.1, seed.data.2]
            seed.data.2 (strips.eraseIdx minIdx)).2).1,
       (extendFront
          (extendBack (strips.eraseIdx minIdx).length [seed.data.1, seed.data.2]
            seed.data.2 (strips.eraseIdx minIdx)).2.length
          (extendBack (strips.eraseIdx minIdx).length [seed.data.1, seed.data.2]
            seed.data.2 (strips.eraseIdx minIdx)).1
          seed.data.1
          (extendBack (strips.eraseIdx minIdx).length [seed.data.1, seed.data.2]
            seed.data.2 (strips.eraseIdx minIdx)).2).2) := by
    unfold linkStrips
    rw [hmin]
    simp only [hseed]
  generalize hB : extendBack (strips.eraseIdx minIdx).length [seed.data.1, seed.data.2]
      seed.data.2 (strips.eraseIdx minIdx) = B at *
  generalize hF : extendFront B.2.length B.1 seed.data.1 B.2 = F at *
  -- the ring and its pairs
  have hring : F.1 = ext2 ++ seed.data.1 :: seed.data.2 :: ext1 := by
    rw [f1, b1]
    rfl
  have hpairs : ringPairs F.1 =
      ringPairs (ext2 ++ [seed.data.1]) ++
        (seed.data.1, seed.data.2) :: ringPairs (seed.data.2 :: ext1) := by
    rw [hring, ringPairs_append]
    rfl
  have hsplit : strips.Perm (seed :: strips.eraseIdx minIdx) := perm_eraseIdx strips minIdx seed hseed
  have hused : strips.Perm ((used2 ++ seed :: used1) ++ F.2) := by
    refine hsplit.trans ?_
    refine (List.Perm.cons seed b3).trans ?_
    refine (List.Perm.cons seed (List.Perm.append_left used1 f3)).trans ?_
    rw [List.append_assoc, List.cons_append]
    refine List.Perm.trans ?_ (List.perm_middle).symm
    refine List.Perm.cons seed ?_
    rw [← List.append_assoc, ← List.append_assoc]
    exact List.Perm.append_right F.2 List.perm_append_comm
  have hsub : F.2.Sublist strips := (f4.trans b4).trans (List.eraseIdx_sublist strips minIdx)
  have hlen : F.2.length < strips.length := by
    have := hused.length_eq
    simp only [List.length_append, List.length_cons] at this
    omega
  refine ⟨minIdx, seed, F.1, used2 ++ seed :: used1, dropClosing F.1, F.2, hls, hseed, hleast,
    hfirst, by simp, ?_, ?_, hused, hsub, hlen, ?_, rfl, ?_, ?_⟩
  · rw [hpairs]
    simp
  · rw [hpairs]
    exact List.rel_append f2 (List.Forall₂.cons (Or.inl ⟨rfl, rfl⟩) b2)
  · intro e he s hs
    rcases he with he | he
    · apply f5 (le_refl _) e _ s hs
      rw [hring] at he
      cases ext2 with
      | nil => simpa using he
      | cons x ext3 => simpa using he
    · apply b5 (le_refl _) e _ s (f4.subset hs)
      rw [hring, List.getLast?_append_of_ne_nil _ (by simp), List.getLast?_cons_cons] at he
      exact he
  · intro hc
    unfold dropClosing
    rw [if_neg hc]
  · intro hc
    unfold dropClosing
    rw [if_pos hc]

/-- C32: for a strip list that is not empty, linkStrips returns. The seed is the first strip
whose smaller end id is the least. The chain before the final `pop` (`ring`) has one used
strip for each pair of consecutive ids, the two ids being the ends of that strip; the seed
is among the used strips; the strips of the input are exactly the used strips and the
strips left, the latter in their order and fewer than the input; no strip left has an end
equal to the first or to the last id of `ring`; the returned chain is `ring`, without its
last id when `ring` has more than 2 ids and ends where it starts. -/
theorem C32_linkStrips_chain (strips : List Strip) (h : strips ≠ []) :
    ∃ seedIdx seed ring used chain rest,
      linkStrips strips = some (chain, rest) ∧
      strips[seedIdx]? = some seed ∧
      (∀ x ∈ strips, seed.minEnd ≤ x.minEnd) ∧
      (∀ (j : Nat) (x : Strip), j < seedIdx → strips[j]? = some x →
        seed.minEnd < x.minEnd) ∧
      seed ∈ used ∧ (seed.data.1, seed.data.2) ∈ ringPairs ring ∧
      List.Forall₂ (fun pr s => linked pr.1 pr.2 s) (ringPairs ring) used ∧
      strips.Perm (used ++ rest) ∧ rest.Sublist strips ∧ rest.length < strips.length ∧
      (∀ e, (ring.head? = some e ∨ ring.getLast? = some e) → ∀ s ∈ rest, ¬ touches e s) ∧
      chain = dropClosing ring ∧
      (¬ (ring.length > 2 ∧ ring.head? = ring.getLast?) → chain = ring) ∧
      (ring.length > 2 ∧ ring.head? = ring.getLast? → chain = ring.dropLast) :=
  linkStrips_core strips h

/-- C32 (witness): the two strips with the end ids (0, 1) and (1, 2); linkStrips returns
and leaves fewer strips than it was given. -/
theorem C32_linkStrips_chain_witness :
    ([{ newStrip false 0 1 with data := (0, 1) }, { newStrip false 1 2 with data := (1, 2) }] ≠
      ([] : List Strip)) ∧
    ∃ chain rest,
      linkStrips [{ newStrip false 0 1 with data := (0, 1) },
        { newStrip false 1 2 with data := (1, 2) }] = some (chain, rest) ∧ rest.length < 2 := by
  refine ⟨by decide, ?_⟩
  obtain ⟨_, _, _, _, chain, rest, h1, _, _, _, _, _, _, _, _, h2, _⟩ :=
    C32_linkStrips_chain
      [{ newStrip false 0 1 with data := (0, 1) }, { newStrip false 1 2 with data := (1, 2) }]
      (by decide)
  exact ⟨chain, rest, h1, h2⟩

/-! ## Triangle components -/

/-- C33: for a component of exactly 3 valid vertex ids, tessellateComponent returns, leaves
the vertex list as it was and appends exactly 3 indices: `c0, c2, c1` when the dot product
of the geometric normal `cross(v1 - v0, v2 - v0)` with the sum of the three vertex normals
is negative, and `c0, c1, c2` otherwise. -/
theorem C33_triangle_component (a : AlgCMS) (c0 c1 c2 : Int) (cellId : Nat)
    (v0 v1 v2 : Vertex)
    (hv : componentVertices a.vertices [c0, c1, c2] = some [v0, v1, v2]) :
    ∃ b, tessellateComponent a [c0, c1, c2] cellId = some b ∧ b.vertices = a.vertices ∧
      b.indices.length = a.indices.length + 3 ∧
      (((v1.position.subtract v0.position).cross (v2.position.subtract v0.position)).dot
          (sumVec [v0.normal, v1.normal, v2.normal]) < 0 →
        b.indices = a.indices ++ [c0, c2, c1]) ∧
      (¬ ((v1.position.subtract v0.position).cross (v2.position.subtract v0.position)).dot
          (sumVec [v0.normal, v1.normal, v2.normal]) < 0 →
        b.indices = a.indices ++ [c0, c1, c2]) := by
  have htess : tessellateComponent a [c0, c1, c2] cellId =
      some { a with indices := a.indices ++ triangleIndices a.msqrt [c0, c1, c2] [v0, v1, v2] } := by
    unfold tessellateComponent
    rw [if_neg (by simp), hv]
    simp
  have hsign := dot_normalize_sign a.msqrt
    ((v1.position.subtract v0.position).cross (v2.position.subtract v0.position))
    (sumVec [v0.normal, v1.normal, v2.normal])
  refine ⟨_, htess, rfl, ?_, ?_, ?_⟩
  · simp only [List.length_append, (triangleIndices_spec a.msqrt [c0, c1, c2] [v0, v1, v2]
      rfl rfl).1]
  · intro hneg
    simp only [triangleIndices]
    rw [if_pos (hsign.2 hneg)]
  · intro hneg
    simp only [triangleIndices]
    rw [if_neg (fun h => hneg (hsign.1 h))]

/-- C33 (witness): the triangle of the first three vertices of the dart, whose geometric
normal agrees with the vertex normals; the indices 0, 1, 2 are appended. -/
theorem C33_triangle_component_witness :
    componentVertices dartState.vertices [0, 1, 2] =
      some [(⟨⟨0, 0, 0⟩, ⟨0, 0, 1⟩, none⟩ : Vertex), (⟨⟨3, 1, 0⟩, ⟨0, 0, 1⟩, none⟩ : Vertex),
        (⟨⟨0, 2, 0⟩, ⟨0, 0, 1⟩, none⟩ : Vertex)] ∧
    ∃ b, tessellateComponent dartState [0, 1, 2] 0 = some b ∧
      b.vertices = dartState.vertices ∧ b.indices = dartState.indices ++ [0, 1, 2] := by
  refine ⟨by decide, ?_⟩
  obtain ⟨b, h1, h2, _, _, h5⟩ := C33_triangle_component dartState 0 1 2 0
    (⟨⟨0, 0, 0⟩, ⟨0, 0, 1⟩, none⟩ : Vertex) (⟨⟨3, 1, 0⟩, ⟨0, 0, 1⟩, none⟩ : Vertex)
    (⟨⟨0, 2, 0⟩, ⟨0, 0, 1⟩, none⟩ : Vertex) (by decide)
  exact ⟨b, h1, h2, h5 (by decide!)⟩

/-! ## Cyclic pairs of a ring -/

theorem cyclicPairs_length {α : Type} (l : List α) : (cyclicPairs l).length = l.length := by
  unfold cyclicPairs
  rw [List.length_zip, List.length_rotate, Nat.min_self]

theorem cyclicPairs_getElem {α : Type} (l : List α) (i : Nat) (h : i < l.length) :
    ∃ a b, l[i]? = some a ∧ l[(i + 1) % l.length]? = some b ∧
      (cyclicPairs l)[i]? = some (a, b) := by
  have hlen : i < (cyclicPairs l).length := by rw [cyclicPairs_length]; exact h
  have h1 : (i + 1) % l.length < l.length := Nat.mod_lt _ (by omega)
  refine ⟨l[i], l[(i + 1) % l.length], List.getElem?_eq_getElem h, List.getElem?_eq_getElem h1,
    ?_⟩
  rw [List.getElem?_eq_getElem hlen]
  unfold cyclicPairs
  rw [List.getElem_zip, List.getElem_rotate]

theorem cyclicPairs_rotate {α : Type} (l : List α) (k : Nat) :
    cyclicPairs (l.rotate k) = (cyclicPairs l).rotate k := by
  unfold cyclicPairs
  have h := List.zipWith_rotate_distrib Prod.mk l (l.rotate 1) k (by rw [List.length_rotate])
  rw [List.rotate_rotate, Nat.add_comm, ← List.rotate_rotate]
  exact h.symm

theorem rotate_pred_succ {α : Type} (l : List α) :
    (l.rotate (l.length - 1 % l.length)).rotate 1 = l := by
  rw [List.rotate_rotate]
  cases l with
  | nil => rfl
  | cons a l =>
    cases l with
    | nil => simp
    | cons b l2 =>
      have h1 : 1 % (a :: b :: l2).length = 1 := Nat.mod_eq_of_lt (by simp)
      rw [h1]
      have h2 : (a :: b :: l2).length - 1 + 1 = (a :: b :: l2).length := by simp
      rw [h2, List.rotate_length]

theorem cyclicPairs_reverse_perm {α : Type} (l : List α) :
    (cyclicPairs l.reverse).Perm ((cyclicPairs l).map Prod.swap) := by
  have h1 : cyclicPairs l.reverse =
      (List.zip l (l.rotate (l.length - 1 % l.length))).reverse := by
    unfold cyclicPairs
    rw [List.rotate_reverse]
    exact (List.reverse_zipWith (by rw [List.length_rotate])).symm
  have h2 : List.zip l (l.rotate (l.length - 1 % l.length)) =
      (cyclicPairs (l.rotate (l.length - 1 % l.length))).map Prod.swap := by
    unfold cyclicPairs
    rw [rotate_pred_succ, List.zip_swap]
  rw [h1, h2, cyclicPairs_rotate]
  exact (List.reverse_perm _).trans ((List.rotate_perm _ _).map _)

theorem cyclicPairs_rotate_perm {α : Type} (l : List α) (k : Nat) :
    (cyclicPairs (l.rotate k)).Perm (cyclicPairs l) := by
  rw [cyclicPairs_rotate]
  exact List.rotate_perm _ _

/-! ## The fan of a larger component -/

theorem fanIndices_eq (c : Int) (ring : List Int) :
    fanIndices c ring = (cyclicPairs ring).flatMap (fun pr => [c, pr.1, pr.2]) := by
  unfold fanIndices
  rw [List.flatMap, ← List.flatten]
  congr 1
  apply List.ext_getElem?
  intro i
  by_cases hi : i < ring.length
  · obtain ⟨x, y, hx, hy, hp⟩ := cyclicPairs_getElem ring i hi
    rw [List.getElem?_map, List.getElem?_map, hp, List.getElem?_eq_getElem (by simpa using hi),
      List.getElem_range]
    simp only [Option.map_some', hx, hy]
  · rw [List.getElem?_eq_none (by simpa using hi),
      List.getElem?_eq_none (by rw [List.length_map, cyclicPairs_length]; omega)]

theorem minIndex_spec (component : List Int) (hne : component ≠ []) :
    ∃ lo, component[minIndex component]? = some lo ∧ (∀ x ∈ component, lo ≤ x) ∧
      ∀ (j : Nat) (x : Int), j < minIndex component → component[j]? = some x → lo < x := by
  have hpos : 0 < component.length := List.length_pos.2 hne
  have key : ∀ k, k ≤ component.length →
      ∃ lo, component[(List.range k).foldl
          (fun minIdx i =>
            match component[i]?, component[minIdx]? with
            | some ci, some cm => if ci < cm then i else minIdx
            | _, _ => minIdx) 0]? = some lo ∧
        (∀ (j : Nat) (x : Int), j < k → component[j]? = some x → lo ≤ x) ∧
        ∀ (j : Nat) (x : Int), j < (List.range k).foldl
          (fun minIdx i =>
            match component[i]?, component[minIdx]? with
            | some ci, some cm => if ci < cm then i else minIdx
            | _, _ => minIdx) 0 → component[j]? = some x → lo < x := by
    intro k
    induction k with
    | zero =>
      intro _
      refine ⟨component[0], ?_, fun j x hj _ => absurd hj (Nat.not_lt_zero j),
        fun j x hj _ => ?_⟩
      · simp only [List.range_zero, List.foldl_nil]
        exact List.getElem?_eq_getElem hpos
      · simp only [List.range_zero, List.foldl_nil] at hj
        exact absurd hj (Nat.not_lt_zero j)
    | succ k ih =>
      intro hk
      obtain ⟨lo, h1, h2, h3⟩ := ih (by omega)
      rw [List.range_succ, List.foldl_append, List.foldl_cons, List.foldl_nil]
      generalize (List.range k).foldl
          (fun minIdx i =>
            match component[i]?, component[minIdx]? with
            | some ci, some cm => if ci < cm then i else minIdx
            | _, _ => minIdx) 0 = r at h1 h3 ⊢
      have hck : component[k]? = some component[k] := List.getElem?_eq_getElem (by omega)
      rw [hck, h1]
      simp only
      by_cases hlt : component[k] < lo
      · rw [if_pos hlt]
        refine ⟨component[k], hck, ?_, ?_⟩
        · intro j x hj hx
          by_cases hjk : j = k
          · subst hjk
            rw [hck] at hx
            rw [← Option.some.inj hx]
          · exact le_trans (le_of_lt hlt) (h2 j x (by omega) hx)
        · intro j x hj hx
          exact lt_of_lt_of_le hlt (h2 j x hj hx)
      · rw [if_neg hlt]
        refine ⟨lo, h1, ?_, h3⟩
        intro j x hj hx
        by_cases hjk : j = k
        · subst hjk
          rw [hck] at hx
          rw [← Option.some.inj hx]
          exact not_lt.1 hlt
        · exact h2 j x (by omega) hx
  obtain ⟨lo, h1, h2, h3⟩ := key component.length (le_refl _)
  refine ⟨lo, h1, ?_, h3⟩
  intro x hx
  obtain ⟨j, hj⟩ := List.getElem?_of_mem hx
  have hjl : j < component.length := by
    by_contra hge
    rw [List.getElem?_eq_none (by omega)] at hj
    cases hj
  exact h2 j x hjl hj

/-- C34: for a component of at least 4 valid vertex ids, tessellateComponent returns, appends
exactly one vertex, tagged with the cell id, and the index triples
`(centroid, ring[i], ring[(i + 1) mod n])` for the n cyclic pairs of `ring`, in order, where
the centroid index is the position of the appended vertex and `ring` is the component
rotated to start at the first occurrence of its least id, or that rotation reversed. The
cyclic pairs of `ring` are, up to their order, the cyclic pairs of the component, or all of
them swapped: every ring edge of the component is the ring side of exactly one triangle. -/
theorem C34_fan_triangulation (a : AlgCMS) (component : List Int) (cellId : Nat)
    (vs : List Vertex) (hn : 4 ≤ component.length)
    (hv : componentVertices a.vertices component = some vs) :
    ∃ b cv ring m lo, tessellateComponent a component cellId = some b ∧
      b.vertices = a.vertices ++ [cv] ∧ cv.cellId = some cellId ∧
      b.indices = a.indices ++
        (cyclicPairs ring).flatMap (fun pr => [(a.vertices.length : Int), pr.1, pr.2]) ∧
      (cyclicPairs ring).length = component.length ∧
      component[m]? = some lo ∧ (∀ x ∈ component, lo ≤ x) ∧
      (∀ (j : Nat) (x : Int), j < m → component[j]? = some x → lo < x) ∧
      (ring = component.rotate m ∨ ring = (component.rotate m).reverse) ∧
      ((cyclicPairs ring).Perm (cyclicPairs component) ∨
        (cyclicPairs ring).Perm ((cyclicPairs component).map Prod.swap)) := by
  have hne : component ≠ [] := by
    intro h
    rw [h] at hn
    simp at hn
  obtain ⟨lo, hlo, hleast, hfirst⟩ := minIndex_spec component hne
  have hm : minIndex component ≤ component.length := by
    by_contra hge
    rw [List.getElem?_eq_none (by omega)] at hlo
    cases hlo
  have hrot : component.drop (minIndex component) ++ component.take (minIndex component) =
      component.rotate (minIndex component) := (List.rotate_eq_drop_append_take hm).symm
  have htess : tessellateComponent a component cellId =
      some { a with
        vertices := a.vertices ++ [centroidVertex a vs cellId],
        indices := a.indices ++
          fanIndices (a.vertices.length : Int) (orientedRing a component vs cellId) } := by
    unfold tessellateComponent
    rw [if_neg (by omega), hv]
    simp only
    rw [if_neg (by omega)]
  have hring : orientedRing a component vs cellId = component.rotate (minIndex component) ∨
      orientedRing a component vs cellId = (component.rotate (minIndex component)).reverse := by
    unfold orientedRing
    rw [hrot]
    split_ifs
    · exact Or.inl rfl
    · exact Or.inr rfl
  refine ⟨_, centroidVertex a vs cellId, orientedRing a component vs cellId,
    minIndex component, lo, htess, rfl, rfl, ?_, ?_, hlo, hleast, hfirst, hring, ?_⟩
  · simp only
    rw [fanIndices_eq]
  · rw [cyclicPairs_length]
    rcases hring with h | h
    · rw [h, List.length_rotate]
    · rw [h, List.length_reverse, List.length_rotate]
  · rcases hring with h | h
    · left
      rw [h]
      exact cyclicPairs_rotate_perm _ _
    · right
      rw [h]
      exact (cyclicPairs_reverse_perm _).trans ((cyclicPairs_rotate_perm _ _).map _)

/-- C34 (witness): the dart loop 0, 1, 2, 3: one centroid vertex and 4 triangles. -/
theorem C34_fan_triangulation_witness :
    4 ≤ ([0, 1, 2, 3] : List Int).length ∧
    componentVertices dartState.vertices [0, 1, 2, 3] = some dartVertices ∧
    ∃ b cv, tessellateComponent dartState [0, 1, 2, 3] 0 = some b ∧
      b.vertices = dartState.vertices ++ [cv] ∧ cv.cellId = some 0 := by
  refine ⟨by decide, by decide, ?_⟩
  obtain ⟨b, cv, _, _, _, h1, h2, h3, _⟩ :=
    C34_fan_triangulation dartState [0, 1, 2, 3] 0 dartVertices (by decide) (by decide)
  exact ⟨b, cv, h1, h2, h3⟩

/-! ## The orientation test of a ring -/

theorem fold_range_sums {α : Type} (F : Vec3 → Nat → Vec3) (L : List α) (gx gy gz : α → ℚ)
    (hF : ∀ (acc : Vec3) (i : Nat) (pr : α), L[i]? = some pr →
      F acc i = ⟨acc.x + gx pr, acc.y + gy pr, acc.z + gz pr⟩) :
    ∀ k, k ≤ L.length →
      (List.range k).foldl F Vec3.zero =
        ⟨((L.take k).map gx).sum, ((L.take k).map gy).sum, ((L.take k).map gz).sum⟩ := by
  intro k
  induction k with
  | zero => intro _; rfl
  | succ k ih =>
    intro hk
    have hp : L[k]? = some L[k] := List.getElem?_eq_getElem (by omega)
    rw [List.range_succ, List.foldl_append, ih (by omega), List.foldl_cons, List.foldl_nil,
      hF _ k _ hp, List.take_succ, hp]
    simp only [Option.toList, List.map_append, List.sum_append, List.map_cons, List.map_nil,
      List.sum_cons, List.sum_nil, add_zero]

theorem areaNormal_eq_sums (c : Vec3) (ring : List Vec3) :
    areaNormal c ring =
      ⟨((cyclicPairs ring).map (fun pr =>
          ((pr.1.subtract c).y - (pr.2.subtract c).y) *
            ((pr.1.subtract c).z + (pr.2.subtract c).z))).sum,
       ((cyclicPairs ring).map (fun pr =>
          ((pr.1.subtract c).z - (pr.2.subtract c).z) *
            ((pr.1.subtract c).x + (pr.2.subtract c).x))).sum,
       ((cyclicPairs ring).map (fun pr =>
          ((pr.1.subtract c).x - (pr.2.subtract c).x) *
            ((pr.1.subtract c).y + (pr.2.subtract c).y))).sum⟩ := by
  unfold areaNormal
  have htake : (cyclicPairs ring).take ring.length = cyclicPairs ring := by
    apply List.take_of_length_le
    rw [cyclicPairs_length]
  refine (fold_range_sums _ (cyclicPairs ring)
    (fun pr => ((pr.1.subtract c).y - (pr.2.subtract c).y) *
      ((pr.1.subtract c).z + (pr.2.subtract c).z))
    (fun pr => ((pr.1.subtract c).z - (pr.2.subtract c).z) *
      ((pr.1.subtract c).x + (pr.2.subtract c).x))
    (fun pr => ((pr.1.subtract c).x - (pr.2.subtract c).x) *
      ((pr.1.subtract c).y + (pr.2.subtract c).y))
    ?_ ring.length (by rw [cyclicPairs_length])).trans ?_
  swap
  · rw [htake]
  · intro acc i pr hp
    have hi : i < ring.length := by
      by_contra hge
      rw [List.getElem?_eq_none (by rw [cyclicPairs_length]; omega)] at hp
      cases hp
    obtain ⟨p1, p2, h1, h2, hp2⟩ := cyclicPairs_getElem ring i hi
    rw [hp] at hp2
    obtain rfl := Option.some.inj hp2
    simp only [h1, h2]

theorem sum_map_perm {α : Type} (f : α → ℚ) {l1 l2 : List α} (h : l1.Perm l2) :
    (l1.map f).sum = (l2.map f).sum := (h.map f).sum_eq

theorem sum_map_neg {α : Type} (f g : α → ℚ) (l : List α) (h : ∀ x, g x = - f x) :
    (l.map g).sum = - (l.map f).sum := by
  induction l with
  | nil => simp
  | cons a l ih =>
    simp only [List.map_cons, List.sum_cons, ih, h]
    ring

theorem areaNormal_rotate (c : Vec3) (ring : List Vec3) (k : Nat) :
    areaNormal c (ring.rotate k) = areaNormal c ring := by
  rw [areaNormal_eq_sums, areaNormal_eq_sums]
  have hp := cyclicPairs_rotate_perm ring k
  rw [sum_map_perm _ hp, sum_map_perm _ hp, sum_map_perm _ hp]

theorem areaNormal_reverse (c : Vec3) (ring : List Vec3) :
    areaNormal c ring.reverse = (areaNormal c ring).scale (-1) := by
  rw [areaNormal_eq_sums, areaNormal_eq_sums]
  have hp := cyclicPairs_reverse_perm ring
  rw [sum_map_perm _ hp, sum_map_perm _ hp, sum_map_perm _ hp]
  simp only [List.map_map, Vec3.scale]
  congr 1
  · rw [sum_map_neg (fun pr : Vec3 × Vec3 =>
      ((pr.1.subtract c).y - (pr.2.subtract c).y) * ((pr.1.subtract c).z + (pr.2.subtract c).z))
      _ _ (fun x => by simp only [Function.comp, Prod.swap]; ring)]
    ring
  · rw [sum_map_neg (fun pr : Vec3 × Vec3 =>
      ((pr.1.subtract c).z - (pr.2.subtract c).z) * ((pr.1.subtract c).x + (pr.2.subtract c).x))
      _ _ (fun x => by simp only [Function.comp, Prod.swap]; ring)]
    ring
  · rw [sum_map_neg (fun pr : Vec3 × Vec3 =>
      ((pr.1.subtract c).x - (pr.2.subtract c).x) * ((pr.1.subtract c).y + (pr.2.subtract c).y))
      _ _ (fun x => by simp only [Function.comp, Prod.swap]; ring)]
    ring

theorem componentVertices_iff (vertices : List Vertex) : ∀ (c : List Int) (vs : List Vertex),
    componentVertices vertices c = some vs ↔
      List.Forall₂ (fun id v => vertexAt vertices id = some v) c vs := by
  intro c
  induction c with
  | nil =>
    intro vs
    simp only [componentVertices, Option.some.injEq]
    constructor
    · intro h; rw [← h]; exact List.Forall₂.nil
    · intro h; cases h; rfl
  | cons id rest ih =>
    intro vs
    simp only [componentVertices]
    cases hv : vertexAt vertices id with
    | none =>
      simp only
      constructor
      · intro h; cases h
      · intro h
        cases h with
        | cons h1 _ => rw [hv] at h1; cases h1
    | some v =>
      simp only [Option.map_eq_some']
      constructor
      · rintro ⟨ws, hws, rfl⟩
        exact List.Forall₂.cons hv ((ih ws).1 hws)
      · intro h
        cases h with
        | cons h1 h2 =>
          rw [hv] at h1
          obtain rfl := Option.some.inj h1
          exact ⟨_, (ih _).2 h2, rfl⟩

/-- C39: the area-normal sum of isRingCCW for the reversed ring is the negation of the sum
for the ring, and the sum of a rotated ring is the sum of the ring. For a component of at
least 4 valid ids, the ring that tessellateComponent fans (after the conditional reverse)
consists of valid ids, and the area-normal sum of its positions about the centroid has a
non-negative dot product with the centroid normal. -/
theorem C39_ring_orientation (a : AlgCMS) (component : List Int) (cellId : Nat)
    (vs : List Vertex) (hn : 4 ≤ component.length)
    (hv : componentVertices a.vertices component = some vs) :
    (∀ (c : Vec3) (ring : List Vec3),
      areaNormal c ring.reverse = (areaNormal c ring).scale (-1)) ∧
    (∀ (c : Vec3) (ring : List Vec3) (k : Nat),
      areaNormal c (ring.rotate k) = areaNormal c ring) ∧
    ∃ b ringVs, tessellateComponent a component cellId = some b ∧
      b.indices = a.indices ++
        fanIndices (a.vertices.length : Int) (orientedRing a component vs cellId) ∧
      componentVertices a.vertices (orientedRing a component vs cellId) = some ringVs ∧
      0 ≤ (areaNormal (centroidVertex a vs cellId).position
            (ringVs.map Vertex.position)).dot (centroidVertex a vs cellId).normal := by
  refine ⟨areaNormal_reverse, areaNormal_rotate, ?_⟩
  have htess : tessellateComponent a component cellId =
      some { a with
        vertices := a.vertices ++ [centroidVertex a vs cellId],
        indices := a.indices ++
          fanIndices (a.vertices.length : Int) (orientedRing a component vs cellId) } := by
    unfold tessellateComponent
    rw [if_neg (by omega), hv]
    simp only
    rw [if_neg (by omega)]
  have hF := (componentVertices_iff a.vertices component vs).1 hv
  have hrot : List.Forall₂ (fun id v => vertexAt a.vertices id = some v)
      (component.drop (minIndex component) ++ component.take (minIndex component))
      (vs.drop (minIndex component) ++ vs.take (minIndex component)) :=
    List.rel_append (List.forall₂_drop _ hF) (List.forall₂_take _ hF)
  by_cases hccw : isRingCCW
      (((vs.drop (minIndex component)) ++ (vs.take (minIndex component))).map Vertex.position)
      (centroidVertex a vs cellId) = true
  · refine ⟨_, vs.drop (minIndex component) ++ vs.take (minIndex component), htess, rfl, ?_, ?_⟩
    · unfold orientedRing
      rw [if_pos hccw]
      exact (componentVertices_iff _ _ _).2 hrot
    · unfold isRingCCW at hccw
      exact le_of_lt (of_decide_eq_true hccw)
  · refine ⟨_, (vs.drop (minIndex component) ++ vs.take (minIndex component)).reverse, htess,
      rfl, ?_, ?_⟩
    · unfold orientedRing
      rw [if_neg hccw]
      exact (componentVertices_iff _ _ _).2 (List.rel_reverse hrot)
    · unfold isRingCCW at hccw
      have hle : ¬ (areaNormal (centroidVertex a vs cellId).position
          (((vs.drop (minIndex component)) ++ (vs.take (minIndex component))).map
            Vertex.position)).dot (centroidVertex a vs cellId).normal > 0 := by
        intro h
        exact hccw (decide_eq_true h)
      rw [List.map_reverse, areaNormal_reverse]
      have : ∀ u n : Vec3, (u.scale (-1)).dot n = - u.dot n := by
        intro u n
        unfold Vec3.scale Vec3.dot
        ring
      rw [this]
      linarith [not_lt.1 hle]

/-- C39 (witness): the dart loop 0, 1, 2, 3. -/
theorem C39_ring_orientation_witness :
    4 ≤ ([0, 1, 2, 3] : List Int).length ∧
    componentVertices dartState.vertices [0, 1, 2, 3] = some dartVertices ∧
    ∃ ringVs,
      componentVertices dartState.vertices (orientedRing dartState [0, 1, 2, 3] dartVertices 0) =
        some ringVs ∧
      0 ≤ (areaNormal (centroidVertex dartState dartVertices 0).position
            (ringVs.map Vertex.position)).dot (centroidVertex dartState dartVertices 0).normal := by
  refine ⟨by decide, by decide, ?_⟩
  obtain ⟨_, ringVs, _, _, h1, h2⟩ :=
    (C39_ring_orientation dartState [0, 1, 2, 3] 0 dartVertices (by decide) (by decide)).2.2
  exact ⟨ringVs, h1, h2⟩

/-! ## The centroid of a larger component -/

theorem foldl_add_sums (l : List Vec3) : ∀ acc : Vec3,
    l.foldl Vec3.add acc =
      ⟨acc.x + (l.map Vec3.x).sum, acc.y + (l.map Vec3.y).sum, acc.z + (l.map Vec3.z).sum⟩ := by
  induction l with
  | nil => intro acc; simp
  | cons v l ih =>
    intro acc
    rw [List.foldl_cons, ih]
    simp only [Vec3.add, List.map_cons, List.sum_cons, add_assoc]

theorem sumVec_eq (l : List Vec3) :
    sumVec l = ⟨(l.map Vec3.x).sum, (l.map Vec3.y).sum, (l.map Vec3.z).sum⟩ := by
  unfold sumVec
  rw [foldl_add_sums]
  simp [Vec3.zero]

theorem componentVertices_length (vertices : List Vertex) (c : List Int) (vs : List Vertex)
    (h : componentVertices vertices c = some vs) : vs.length = c.length :=
  ((componentVertices_iff vertices c vs).1 h).length_eq.symm

/-- C35: for a component of n >= 4 valid vertex ids, the vertex that tessellateComponent
appends has the normalized sum of the vertex normals as its normal `c`; its position is the
arithmetic mean `m` of the n vertex positions when snapCentroid is off, and
`m - c * field(m)` when snapCentroid is on, the field entering only through its value at
`m`. -/
theorem C35_centroid_position (a : AlgCMS) (component : List Int) (cellId : Nat)
    (vs : List Vertex) (hn : 4 ≤ component.length)
    (hv : componentVertices a.vertices component = some vs) :
    ∃ b cv, tessellateComponent a component cellId = some b ∧
      b.vertices = a.vertices ++ [cv] ∧
      cv.normal = (sumVec (vs.map Vertex.normal)).normalize a.msqrt ∧
      (a.snapCentroid = false →
        cv.position =
          ⟨((vs.map Vertex.position).map Vec3.x).sum / (component.length : ℚ),
           ((vs.map Vertex.position).map Vec3.y).sum / (component.length : ℚ),
           ((vs.map Vertex.position).map Vec3.z).sum / (component.length : ℚ)⟩) ∧
      (a.snapCentroid = true →
        cv.position =
          (⟨((vs.map Vertex.position).map Vec3.x).sum / (component.length : ℚ),
            ((vs.map Vertex.position).map Vec3.y).sum / (component.length : ℚ),
            ((vs.map Vertex.position).map Vec3.z).sum / (component.length : ℚ)⟩ : Vec3).subtract
            (((sumVec (vs.map Vertex.normal)).normalize a.msqrt).scale
              (a.fn (((vs.map Vertex.position).map Vec3.x).sum / (component.length : ℚ))
                (((vs.map Vertex.position).map Vec3.y).sum / (component.length : ℚ))
                (((vs.map Vertex.position).map Vec3.z).sum / (component.length : ℚ))))) := by
  have htess : tessellateComponent a component cellId =
      some { a with
        vertices := a.vertices ++ [centroidVertex a vs cellId],
        indices := a.indices ++
          fanIndices (a.vertices.length : Int) (orientedRing a component vs cellId) } := by
    unfold tessellateComponent
    rw [if_neg (by omega), hv]
    simp only
    rw [if_neg (by omega)]
  have hlen := componentVertices_length a.vertices component vs hv
  have hmean : (sumVec (vs.map Vertex.position)).divide (vs.length : ℚ) =
      ⟨((vs.map Vertex.position).map Vec3.x).sum / (component.length : ℚ),
       ((vs.map Vertex.position).map Vec3.y).sum / (component.length : ℚ),
       ((vs.map Vertex.position).map Vec3.z).sum / (component.length : ℚ)⟩ := by
    unfold Vec3.divide
    have hbig : |((vs.length : ℕ) : ℚ)| > EPSILON := by
      have h4 : (4 : ℚ) ≤ (vs.length : ℚ) := by
        rw [hlen]
        exact_mod_cast hn
      rw [abs_of_nonneg (by linarith)]
      unfold EPSILON
      linarith
    rw [if_pos hbig, sumVec_eq, hlen]
  refine ⟨_, centroidVertex a vs cellId, htess, rfl, rfl, ?_, ?_⟩
  · intro hs
    unfold centroidVertex
    simp only [hs, Bool.false_eq_true, if_false]
    exact hmean
  · intro hs
    unfold centroidVertex
    simp only [hs, if_true]
    rw [hmean]

/-- C35 (witness): the dart loop 0, 1, 2, 3 with snapCentroid off; the centroid is the
mean (5/4, 1, 0) of the four positions. -/
theorem C35_centroid_position_witness :
    4 ≤ ([0, 1, 2, 3] : List Int).length ∧
    componentVertices dartState.vertices [0, 1, 2, 3] = some dartVertices ∧
    ∃ b cv, tessellateComponent dartState [0, 1, 2, 3] 0 = some b ∧
      b.vertices = dartState.vertices ++ [cv] ∧ cv.position = ⟨5 / 4, 1, 0⟩ := by
  refine ⟨by decide, by decide, ?_⟩
  obtain ⟨b, cv, h1, h2, _, h4, _⟩ :=
    C35_centroid_position dartState [0, 1, 2, 3] 0 dartVertices (by decide) (by decide)
  refine ⟨b, cv, h1, h2, ?_⟩
  rw [h4 rfl]
  decide!

/-! ## The call shapes of Array3D -/

/-- C36: getValueAt with an Index3D reads what getValueAt with its three numbers reads, and
setValueAt with three numbers and a value stores the value at an in-bounds position; but
after `setValueAt(idx, v)`, the call shape of makeVertex, `getValueAt(idx)` is undefined for
every array, index and value: the value is read from the fourth parameter, which that call
does not pass. -/
theorem C36_setValueAt_with_index_stores_undefined {α : Type} (a : Array3D α) (idx : Index3D)
    (v : α) :
    a.getValueAt idx = a.getValueAtXYZ idx.x idx.y idx.z ∧
    (a.setValueAtXYZ idx.x idx.y idx.z v).getValueAt idx =
      (if a.inBounds idx then some v else none) ∧
    (a.setValueAtIndex idx v).getValueAt idx = none := by
  refine ⟨?_, ?_, ?_⟩
  · unfold Array3D.getValueAt Array3D.getValueAtXYZ Array3D.inBounds Array3D.getIndexAt
    by_cases h : (decide (idx.x ≥ a.indices.x) || decide (idx.y ≥ a.indices.y) ||
        decide (idx.z ≥ a.indices.z) || decide (idx.x < 0) || decide (idx.y < 0) ||
        decide (idx.z < 0)) = true
    · rw [if_pos h]
      simp [h]
    · rw [if_neg h]
      simp [h]
  · unfold Array3D.setValueAtXYZ Array3D.getValueAt Array3D.inBounds Array3D.getIndexAt
    by_cases h : (decide (idx.x ≥ a.indices.x) || decide (idx.y ≥ a.indices.y) ||
        decide (idx.z ≥ a.indices.z) || decide (idx.x < 0) || decide (idx.y < 0) ||
        decide (idx.z < 0)) = true
    · rw [if_pos h]
      simp [h]
    · rw [if_neg h]
      simp [h]
  · unfold Array3D.setValueAtIndex Array3D.getValueAt Array3D.inBounds Array3D.getIndexAt
    by_cases h : (decide (idx.x ≥ a.indices.x) || decide (idx.y ≥ a.indices.y) ||
        decide (idx.z ≥ a.indices.z) || decide (idx.x < 0) || decide (idx.y < 0) ||
        decide (idx.z < 0)) = true
    · rw [if_pos h]
      simp [h]
    · rw [if_neg h]
      simp [h]

/-! ## findCrossingPoint keeps its bracket -/

theorem alpha_strict (a b : Point) (h : a.value * b.value < 0) :
    b.value - a.value ≠ 0 ∧ 0 < crossingAlpha a b ∧ crossingAlpha a b < 1 := by
  unfold crossingAlpha
  rcases lt_trichotomy a.value 0 with ha | ha | ha
  · have hb : 0 < b.value := by
      by_contra hb
      have := mul_nonneg_of_nonpos_of_nonpos (le_of_lt ha) (not_lt.1 hb)
      linarith
    have hd : 0 < b.value - a.value := by linarith
    refine ⟨ne_of_gt hd, div_pos (by linarith) hd, ?_⟩
    rw [div_lt_one hd]
    linarith
  · rw [ha] at h
    simp at h
  · have hb : b.value < 0 := by
      by_contra hb
      have := mul_nonneg (le_of_lt ha) (not_lt.1 hb)
      linarith
    have hd : b.value - a.value < 0 := by linarith
    refine ⟨ne_of_lt hd, div_pos_of_neg_of_neg (by linarith) hd, ?_⟩
    rw [div_lt_one_of_neg hd]
    linarith

theorem lerpZero_eq (a b : Point) :
    lerpZero a b =
      ⟨a.position.x + crossingAlpha a b * (b.position.x - a.position.x),
       a.position.y + crossingAlpha a b * (b.position.y - a.position.y),
       a.position.z + crossingAlpha a b * (b.position.z - a.position.z)⟩ := rfl

theorem onSegment_lerp (P0 P1 : Vec3) (a b : Point) (h : a.value * b.value < 0)
    (ha : onSegment P0 P1 a.position) (hb : onSegment P0 P1 b.position) :
    onSegment P0 P1 (lerpZero a b) := by
  obtain ⟨_, h0, h1⟩ := alpha_strict a b h
  obtain ⟨s, hs0, hs1, hsa⟩ := ha
  obtain ⟨t, ht0, ht1, htb⟩ := hb
  refine ⟨s + crossingAlpha a b * (t - s), ?_, ?_, ?_⟩
  · nlinarith
  · nlinarith
  · rw [lerpZero_eq, hsa, htb]
    simp only [Vec3.mk.injEq]
    refine ⟨by ring, by ring, by ring⟩

theorem crossing_calls_bracket (fn : ℚ → ℚ → ℚ → ℚ) (P0 P1 : Vec3) :
    ∀ (q : Nat) (a b : Point), a.value * b.value < 0 →
      onSegment P0 P1 a.position → onSegment P0 P1 b.position →
      (∀ c ∈ findCrossingCalls fn q a b,
        c.2.1.value * c.2.2.value < 0 ∧ onSegment P0 P1 c.2.1.position ∧
        onSegment P0 P1 c.2.2.position) ∧
      onSegment P0 P1 (findCrossingPoint fn q a b) := by
  intro q
  induction q with
  | zero =>
    intro a b h ha hb
    refine ⟨?_, onSegment_lerp P0 P1 a b h ha hb⟩
    intro c hc
    simp only [findCrossingCalls, List.mem_singleton] at hc
    rw [hc]
    exact ⟨h, ha, hb⟩
  | succ q ih =>
    intro a b h ha hb
    have hmid := onSegment_lerp P0 P1 a b h ha hb
    have hrec : ∀ (x y : Point), x.value * y.value < 0 →
        onSegment P0 P1 x.position → onSegment P0 P1 y.position →
        findCrossingPoint fn (q + 1) a b = findCrossingPoint fn q x y →
        findCrossingCalls fn (q + 1) a b = (q + 1, a, b) :: findCrossingCalls fn q x y →
        (∀ c ∈ findCrossingCalls fn (q + 1) a b,
          c.2.1.value * c.2.2.value < 0 ∧ onSegment P0 P1 c.2.1.position ∧
          onSegment P0 P1 c.2.2.position) ∧
        onSegment P0 P1 (findCrossingPoint fn (q + 1) a b) := by
      intro x y hxy hx hy hres hcalls
      obtain ⟨h1, h2⟩ := ih x y hxy hx hy
      rw [hcalls, hres]
      refine ⟨?_, h2⟩
      intro c hc
      rcases List.mem_cons.1 hc with rfl | hc
      · exact ⟨h, ha, hb⟩
      · exact h1 c hc
    by_cases heps : |0 - fn (lerpZero a b).x (lerpZero a b).y (lerpZero a b).z| < EPSILON
    · have hcalls : findCrossingCalls fn (q + 1) a b = [(q + 1, a, b)] := by
        simp only [findCrossingCalls, if_pos heps]
      rw [hcalls, findCrossingPoint_succ, if_pos heps]
      refine ⟨?_, hmid⟩
      intro c hc
      rw [List.mem_singleton.1 hc]
      exact ⟨h, ha, hb⟩
    · by_cases hneg : fn (lerpZero a b).x (lerpZero a b).y (lerpZero a b).z < 0
      · by_cases h0 : a.value > 0
        · exact hrec _ a (mul_neg_of_neg_of_pos hneg h0) hmid ha
            (by rw [findCrossingPoint_succ, if_neg heps, if_pos hneg, if_pos h0])
            (by simp only [findCrossingCalls, if_neg heps, if_pos hneg, if_pos h0])
        · have h1 : b.value > 0 := by
            by_contra h1
            have := mul_nonneg_of_nonpos_of_nonpos (not_lt.1 h0) (not_lt.1 h1)
            linarith
          exact hrec _ b (mul_neg_of_neg_of_pos hneg h1) hmid hb
            (by rw [findCrossingPoint_succ, if_neg heps, if_pos hneg, if_neg h0, if_pos h1])
            (by simp only [findCrossingCalls, if_neg heps, if_pos hneg, if_neg h0, if_pos h1])
      · have hpos : fn (lerpZero a b).x (lerpZero a b).y (lerpZero a b).z > 0 := by
          rcases lt_trichotomy (fn (lerpZero a b).x (lerpZero a b).y (lerpZero a b).z) 0
            with h3 | h3 | h3
          · exact absurd h3 hneg
          · exfalso
            apply heps
            rw [h3]
            simp only [sub_zero, abs_zero]
            unfold EPSILON
            norm_num
          · exact h3
        by_cases h0 : a.value < 0
        · exact hrec a _ (mul_neg_of_neg_of_pos h0 hpos) ha hmid
            (by rw [findCrossingPoint_succ, if_neg heps, if_neg hneg, if_pos hpos, if_pos h0])
            (by simp only [findCrossingCalls, if_neg heps, if_neg hneg, if_pos hpos, if_pos h0])
        · have h1 : b.value < 0 := by
            by_contra h1
            have := mul_nonneg (not_lt.1 h0) (not_lt.1 h1)
            linarith
          exact hrec b _ (mul_neg_of_neg_of_pos h1 hpos) hb hmid
            (by rw [findCrossingPoint_succ, if_neg heps, if_neg hneg, if_pos hpos, if_neg h0,
              if_pos h1])
            (by simp only [findCrossingCalls, if_neg heps, if_neg hneg, if_pos hpos, if_neg h0,
              if_pos h1])

/-- C38: for every field, every budget `q` and every two points whose values have strictly
opposite signs, every invocation of findCrossingPoint (the first and the recursive ones) is
given two points with strictly opposite-signed values that lie on the segment between the
two original points; so at every invocation `v1 - v0` is not zero and the interpolation
parameter lies strictly between 0 and 1; and the returned point lies on the segment between
the two original points. -/
theorem C38_crossing_refinement_keeps_bracket (fn : ℚ → ℚ → ℚ → ℚ) (q : Nat) (pt0 pt1 : Point)
    (hbr : pt0.value * pt1.value < 0) :
    (∀ c ∈ findCrossingCalls fn q pt0 pt1,
      c.2.1.value * c.2.2.value < 0 ∧
      onSegment pt0.position pt1.position c.2.1.position ∧
      onSegment pt0.position pt1.position c.2.2.position ∧
      c.2.2.value - c.2.1.value ≠ 0 ∧
      0 < crossingAlpha c.2.1 c.2.2 ∧ crossingAlpha c.2.1 c.2.2 < 1) ∧
    onSegment pt0.position pt1.position (findCrossingPoint fn q pt0 pt1) := by
  have h0 : onSegment pt0.position pt1.position pt0.position :=
    ⟨0, le_refl _, by norm_num, by simp⟩
  have h1 : onSegment pt0.position pt1.position pt1.position :=
    ⟨1, by norm_num, le_refl _, by simp⟩
  obtain ⟨hc, hret⟩ := crossing_calls_bracket fn pt0.position pt1.position q pt0 pt1 hbr h0 h1
  refine ⟨?_, hret⟩
  intro c hcm
  obtain ⟨hb, hs0, hs1⟩ := hc c hcm
  obtain ⟨ha1, ha2, ha3⟩ := alpha_strict c.2.1 c.2.2 hb
  exact ⟨hb, hs0, hs1, ha1, ha2, ha3⟩

/-- C38 (witness): the field `x^2 - 1/4` between the points (0, 0, 0) and (1, 0, 0), whose
values are -1/4 and 3/4, with budget 2. -/
theorem C38_crossing_refinement_keeps_bracket_witness :
    (⟨⟨0, 0, 0⟩, -1 / 4⟩ : Point).value * (⟨⟨1, 0, 0⟩, 3 / 4⟩ : Point).value < 0 ∧
    onSegment (⟨0, 0, 0⟩ : Vec3) ⟨1, 0, 0⟩
      (findCrossingPoint (fun x _ _ => x * x - 1 / 4) 2 ⟨⟨0, 0, 0⟩, -1 / 4⟩ ⟨⟨1, 0, 0⟩, 3 / 4⟩) :=
  ⟨by norm_num,
   (C38_crossing_refinement_keeps_bracket (fun x _ _ => x * x - 1 / 4) 2
      ⟨⟨0, 0, 0⟩, -1 / 4⟩ ⟨⟨1, 0, 0⟩, 3 / 4⟩ (by norm_num)).2⟩

/-! ## The face tables and the corner numbering -/

theorem level_weights_deep (o : Octree) (a : Nat) (ha : a < 3) (L : Nat) (hL : L ≤ 30)
    (hpos : 1 ≤ axisCoord a (levelOffsets o L)) :
    (∀ k, k ≤ L → 1 ≤ axisCoord a (levelOffsets o k)) ∧
    (∀ k, k < L → 2 * axisCoord a (levelOffsets o ((k + 1 : Nat) : Int)) ≤
      axisCoord a (levelOffsets o k)) := by
  have hhalf : ∀ k : Nat, k < 30 → 2 * axisCoord a (levelOffsets o ((k + 1 : Nat) : Int)) ≤
      axisCoord a (levelOffsets o k) := by
    intro k hk
    have hcast : ((k + 1 : Nat) : Int) = (k : Int) + 1 := by push_cast; rfl
    rw [hcast]
    interval_cases a
    · exact fdiv_halve _ k (by omega) (by omega)
    · exact fdiv_halve _ k (by omega) (by omega)
    · exact fdiv_halve _ k (by omega) (by omega)
  refine ⟨?_, fun k hk => hhalf k (by omega)⟩
  have hdown : ∀ j k, k + j = L → 1 ≤ axisCoord a (levelOffsets o k) := by
    intro j
    induction j with
    | zero =>
      intro k hk
      have : k = L := by omega
      rw [this]
      exact hpos
    | succ j ih =>
      intro k hk
      have h1 := ih (k + 1) (by omega)
      have h2 := hhalf k (by omega)
      omega
  intro k hk
  exact hdown (L - k) k (by omega)

theorem levelOffsets_zero (o : Octree) (a : Nat) :
    axisCoord a (levelOffsets o ((0 : Nat) : Int)) = axisCoord a o.samples - 1 := by
  have h1 : getPowerOfTwo ((0 : Nat) : Int) = 1 := by decide
  unfold levelOffsets axisCoord
  rw [h1]
  have hd : ∀ n : Int, Int.fdiv n 1 = n := by
    intro n
    rw [Int.fdiv_eq_ediv _ (by decide)]
    simp
  split <;> simp [hd]

theorem cell_in_grid (o : Octree) (hmin : o.minLvl ≤ 30) (hmax : o.maxLvl ≤ 30)
    (s : OctTree) (hs : s ∈ (makeStructure o).subtrees) (a : Nat) (ha : a < 3)
    (hpos : 1 ≤ axisCoord a s.cell.offsets) :
    0 ≤ axisCoord a s.cell.c000 ∧
    axisCoord a s.cell.c000 + axisCoord a s.cell.offsets ≤ axisCoord a o.samples - 1 := by
  obtain ⟨p, hp⟩ := OctTree.subtree_has_path _ s hs
  have hl := (makeStructure_addresses o p s hp).1
  have hle := makeStructure_level_le o s hs
  have hL : p.length ≤ 30 := by
    have : max 1 (max o.minLvl o.maxLvl) ≤ 30 := max_le (by decide) (max_le hmin hmax)
    omega
  obtain ⟨hoff, hc⟩ := makeStructure_positions o p s hp
  by_cases hnil : p = []
  · subst hnil
    have hroot : s = makeStructure o := by
      rcases (OctTree.mem_paths _ _ s).1 hp with ⟨_, h⟩ | ⟨_, _, _, _, h, _⟩
      · exact h
      · cases h
    subst hroot
    interval_cases a
    · exact ⟨le_refl _, le_of_eq (zero_add _)⟩
    · exact ⟨le_refl _, le_of_eq (zero_add _)⟩
    · exact ⟨le_refl _, le_of_eq (zero_add _)⟩
  · have hoffs := hoff hnil
    rw [hoffs] at hpos ⊢
    obtain ⟨hw1, hw2⟩ := level_weights_deep o a ha p.length hL hpos
    have hlen : (p.map (slotBit a)).length = p.length := List.length_map _ _
    have hpos1 : ∀ k, 0 + 1 ≤ k → k ≤ 0 + (p.map (slotBit a)).length →
        1 ≤ (fun k : Nat => axisCoord a (levelOffsets o k)) k := by
      intro k _ hk
      exact hw1 k (by omega)
    have hhalf : ∀ k, 0 + 1 ≤ k → k < 0 + (p.map (slotBit a)).length →
        2 * (fun k : Nat => axisCoord a (levelOffsets o k)) (k + 1) ≤
          (fun k : Nat => axisCoord a (levelOffsets o k)) k := by
      intro k _ hk
      exact hw2 k (by omega)
    have hne : p.map (slotBit a) ≠ [] := by
      intro h
      exact hnil (List.map_eq_nil_iff.1 h)
    have hb := (bsum_bound _ (p.map (slotBit a)) 0 hne hpos1 hhalf).1
    have hn := bsum_nonneg _ (p.map (slotBit a)) 0 hpos1
    have h0 := hw2 0 (by
      rcases p with _ | ⟨i, q⟩
      · exact absurd rfl hnil
      · simp)
    have hz := levelOffsets_zero o a
    rw [hc a ha]
    refine ⟨hn, ?_⟩
    simp only [Nat.zero_add, hlen] at hb h0
    omega

theorem makeStructure_pointInds (o : Octree) (s : OctTree)
    (hs : s ∈ (makeStructure o).subtrees) :
    s.cell.pointInds = (cornerIndices s.cell.c000 s.cell.offsets).map (clampIndex o.samples) := by
  rcases (makeStructure_inv o s hs).2 with ⟨hroot, _⟩ | ⟨pc, i, n, _, _, _, hcell, _⟩
  · rw [hroot]
    rfl
  · rw [hcell, finalChildCell_pointInds, finalChildCell_c000, finalChildCell_offsets]
    rfl

theorem cornerIndices_coord (c off : Index3D) : ∀ v, v < 8 →
    ∃ p, (cornerIndices c off)[v]? = some p ∧
      ∀ a, a < 3 → axisCoord a p = axisCoord a c + if slotBit a v then axisCoord a off else 0 := by
  intro v hv
  interval_cases v <;> refine ⟨_, rfl, ?_⟩ <;> intro a ha <;> interval_cases a <;>
    simp [axisCoord, slotBit, cornerIndices]

theorem clampIndex_id (samples p : Index3D)
    (h : ∀ a, a < 3 → axisCoord a p < axisCoord a samples) : clampIndex samples p = p := by
  have hz : p.z < samples.z := h 0 (by decide)
  have hy : p.y < samples.y := h 1 (by decide)
  have hx : p.x < samples.x := h 2 (by decide)
  unfold clampIndex
  rw [if_neg (by omega), if_neg (by omega), if_neg (by omega)]

theorem pointInds_unclamped (o : Octree) (hmin : o.minLvl ≤ 30) (hmax : o.maxLvl ≤ 30)
    (s : OctTree) (hs : s ∈ (makeStructure o).subtrees)
    (hpos : ∀ a, a < 3 → 1 ≤ axisCoord a s.cell.offsets) :
    s.cell.pointInds = cornerIndices s.cell.c000 s.cell.offsets := by
  rw [makeStructure_pointInds o s hs]
  have hall : ∀ p ∈ cornerIndices s.cell.c000 s.cell.offsets, clampIndex o.samples p = p := by
    intro p hp
    obtain ⟨v, hv, hpv⟩ := List.getElem_of_mem hp
    have hv8 : v < 8 := hv
    obtain ⟨q, hq, hcoord⟩ := cornerIndices_coord s.cell.c000 s.cell.offsets v hv8
    rw [List.getElem?_eq_getElem hv, hpv] at hq
    cases hq
    apply clampIndex_id
    intro a ha
    have hg := cell_in_grid o hmin hmax s hs a ha (hpos a ha)
    have := hpos a ha
    rw [hcoord a ha]
    split <;> omega
  conv_rhs => rw [← List.map_id (cornerIndices s.cell.c000 s.cell.offsets)]
  exact List.map_congr_left (fun p hp => hall p hp)

theorem getEdgesBetwixt_dir (p q : Index3D) :
    (getEdgesBetwixt p q).1 =
      if p.x ≠ q.x then 0 else if p.y ≠ q.y then 1 else if p.z ≠ q.z then 2 else -1 := by
  have habs : ∀ u v : Int, |u - v| > 0 ↔ u ≠ v := by
    intro u v
    rw [gt_iff_lt, abs_pos, sub_ne_zero]
  unfold getEdgesBetwixt
  simp only [habs]
  split_ifs <;> rfl

theorem face_corner_bits : ∀ f, f < 6 → ∃ verts, FACE_VERTEX[f]? = some verts ∧
    verts.length = 4 ∧ verts.Nodup ∧
    ∀ v ∈ verts, v < 8 ∧ slotBit (f / 2) v = decide (f % 2 = 1) := by
  intro f hf
  interval_cases f <;> exact ⟨_, rfl, by decide, by decide, by decide⟩

theorem face_edge_bits : ∀ f e, f < 6 → e < 4 → ∃ c0 c1 a, faceEdgeCorners f e = some (c0, c1) ∧
    a < 3 ∧ a ≠ f / 2 ∧ ∀ b, b < 3 → (slotBit b c0 ≠ slotBit b c1 ↔ b = a) := by
  intro f e hf he
  interval_cases f <;> interval_cases e <;>
    first
    | exact ⟨_, _, 0, rfl, by decide, by decide, by decide⟩
    | exact ⟨_, _, 1, rfl, by decide, by decide, by decide⟩
    | exact ⟨_, _, 2, rfl, by decide, by decide, by decide⟩

theorem face_edges_differ : ∀ f e e2, f < 6 → e < 4 → e2 < 4 → e ≠ e2 → ∃ c0 c1 d0 d1,
    faceEdgeCorners f e = some (c0, c1) ∧ faceEdgeCorners f e2 = some (d0, d1) ∧
    (c0, c1) ≠ (d0, d1) ∧ (c0, c1) ≠ (d1, d0) := by
  intro f e e2 hf he he2 hne
  interval_cases f <;> interval_cases e <;> interval_cases e2 <;>
    first
    | exact absurd rfl hne
    | exact ⟨_, _, _, _, rfl, rfl, by decide, by decide⟩

theorem face_edge_dir (c : Cell) (hpts : c.pointInds = cornerIndices c.c000 c.offsets)
    (hx : c.offsets.x ≠ 0) (hy : c.offsets.y ≠ 0) (hz : c.offsets.z ≠ 0) :
    ∀ f e, f < 6 → e < 4 → ∃ c0 c1 ind0 ind1, faceEdgeCorners f e = some (c0, c1) ∧
      faceEdgeIndices c f e = some (ind0, ind1) ∧
      c.pointInds[c0]? = some ind0 ∧ c.pointInds[c1]? = some ind1 ∧
      (getEdgesBetwixt ind0 ind1).1 ≠ -1 ∧
      ∀ a, a < 3 → slotBit a c0 ≠ slotBit a c1 →
        (getEdgesBetwixt ind0 ind1).1 = 2 - (a : Int) := by
  intro f e hf he
  unfold faceEdgeIndices
  rw [hpts]
  generalize c.c000 = b
  generalize c.offsets = off at hx hy hz
  interval_cases f <;> interval_cases e <;>
    refine ⟨_, _, _, _, rfl, rfl, rfl, rfl, ?_, ?_⟩ <;>
    simp [getEdgesBetwixt_dir, hx, hy, hz, cornerIndices, FACE_VERTEX] <;>
    intro a ha <;> interval_cases a <;> simp [slotBit]

/-- C40: the face tables agree with the corner numbering of acquireCellInfo. Corner `v`
of a cell is the base corner moved by the extent along every axis whose bit is set in `v`
(bit 1 for z, 2 for y, 4 for x). For every face `f` the table FACE_VERTEX lists 4 distinct
corners, all with the same bit along the axis `f / 2` (z for the faces 0 and 1, y for 2 and
3, x for 4 and 5): clear on the even faces, set on the odd ones. For every face edge `e` the
two corners chosen by VERTEX_MAP differ in exactly one bit, of another axis than `f / 2`,
and the four edges of a face join four different corner pairs. For a cell of the tree built
by makeStructure (levels at most 30, the range where `1 << lvl` is a power of two) with
positive extents, the corner indices are not clamped, and for every face edge getEdgesBetwixt
returns the axis in which the two corners differ (0 for x, 1 for y, 2 for z), never -1. -/
theorem C40_face_tables_agree_with_corners (o : Octree) (hmin : o.minLvl ≤ 30)
    (hmax : o.maxLvl ≤ 30) (c : Cell) (hc : c ∈ (makeStructure o).cells)
    (hpos : 0 < c.offsets.x ∧ 0 < c.offsets.y ∧ 0 < c.offsets.z) :
    (∀ (b off : Index3D) (v : Nat), v < 8 → ∃ p, (cornerIndices b off)[v]? = some p ∧
      ∀ a, a < 3 →
        axisCoord a p = axisCoord a b + if slotBit a v then axisCoord a off else 0) ∧
    (∀ f, f < 6 → ∃ verts, FACE_VERTEX[f]? = some verts ∧ verts.length = 4 ∧ verts.Nodup ∧
      ∀ v ∈ verts, v < 8 ∧ slotBit (f / 2) v = decide (f % 2 = 1)) ∧
    (∀ f e, f < 6 → e < 4 → ∃ c0 c1 a, faceEdgeCorners f e = some (c0, c1) ∧
      a < 3 ∧ a ≠ f / 2 ∧ ∀ b, b < 3 → (slotBit b c0 ≠ slotBit b c1 ↔ b = a)) ∧
    (∀ f e e2, f < 6 → e < 4 → e2 < 4 → e ≠ e2 → ∃ c0 c1 d0 d1,
      faceEdgeCorners f e = some (c0, c1) ∧ faceEdgeCorners f e2 = some (d0, d1) ∧
      (c0, c1) ≠ (d0, d1) ∧ (c0, c1) ≠ (d1, d0)) ∧
    c.pointInds = cornerIndices c.c000 c.offsets ∧
    (∀ f e, f < 6 → e < 4 → ∃ c0 c1 ind0 ind1, faceEdgeCorners f e = some (c0, c1) ∧
      faceEdgeIndices c f e = some (ind0, ind1) ∧
      c.pointInds[c0]? = some ind0 ∧ c.pointInds[c1]? = some ind1 ∧
      (getEdgesBetwixt ind0 ind1).1 ≠ -1 ∧
      ∀ a, a < 3 → slotBit a c0 ≠ slotBit a c1 →
        (getEdgesBetwixt ind0 ind1).1 = 2 - (a : Int)) := by
  rw [OctTree.cells_eq_map] at hc
  obtain ⟨s, hs, rfl⟩ := List.mem_map.1 hc
  obtain ⟨hx, hy, hz⟩ := hpos
  have hpts := pointInds_unclamped o hmin hmax s hs (by
    intro a ha
    interval_cases a
    · exact hz
    · exact hy
    · exact hx)
  exact ⟨cornerIndices_coord, face_corner_bits, face_edge_bits, face_edges_differ, hpts,
    face_edge_dir s.cell hpts (by omega) (by omega) (by omega)⟩

/-- C40 (witness): the level-1 leaf cell 10 of the example octree, with base corner
(0, 0, 4) and extent 4 on every axis: its corner indices are not clamped, and edge 0 of its
face 0 joins two corner indices for which getEdgesBetwixt does not return -1. -/
theorem C40_face_tables_agree_with_corners_witness :
    (exOct.minLvl ≤ 30 ∧ exOct.maxLvl ≤ 30) ∧
    (litCell 10 true (some 0) 1 0 0 4 4 1 [2, 0, 0, 0, 0, 0, 0, 0]).pointInds =
      cornerIndices ⟨0, 0, 4⟩ ⟨4, 4, 4⟩ ∧
    ∃ ind0 ind1,
      faceEdgeIndices (litCell 10 true (some 0) 1 0 0 4 4 1 [2, 0, 0, 0, 0, 0, 0, 0]) 0 0 =
        some (ind0, ind1) ∧ (getEdgesBetwixt ind0 ind1).1 ≠ -1 := by
  have hA : litCell 10 true (some 0) 1 0 0 4 4 1 [2, 0, 0, 0, 0, 0, 0, 0] ∈
      (makeStructure exOct).cells := by
    rw [exTree_eq]
    exact exCell10_mem
  have h := C40_face_tables_agree_with_corners exOct (by decide) (by decide) _ hA
    (by decide)
  refine ⟨by decide, h.2.2.2.2.1, ?_⟩
  obtain ⟨_, _, i0, i1, _, hi, _, _, hne, _⟩ := h.2.2.2.2.2 0 0 (by decide) (by decide)
  exact ⟨i0, i1, hi, hne⟩

/-! ## Tracing strips that form closed loops -/

theorem stripEnds_cons (s : Strip) (l : List Strip) :
    stripEnds (s :: l) = s.data.1 :: s.data.2 :: stripEnds l := rfl

theorem stripEnds_append (l1 l2 : List Strip) :
    stripEnds (l1 ++ l2) = stripEnds l1 ++ stripEnds l2 := by
  unfold stripEnds
  exact List.flatMap_append _ _ _

theorem stripEnds_perm {l1 l2 : List Strip} (h : l1.Perm l2) :
    (stripEnds l1).Perm (stripEnds l2) := by
  unfold stripEnds
  exact List.Perm.flatMap_right _ h

theorem mem_stripEnds (x : Int) (l : List Strip) :
    x ∈ stripEnds l ↔ ∃ s ∈ l, touches x s := by
  unfold stripEnds touches
  simp only [List.mem_flatMap, List.mem_cons, List.mem_singleton, List.not_mem_nil, or_false]
  constructor
  · rintro ⟨s, hs, h⟩
    exact ⟨s, hs, by rcases h with h | h <;> [exact Or.inl h.symm; exact Or.inr h.symm]⟩
  · rintro ⟨s, hs, h⟩
    exact ⟨s, hs, by rcases h with h | h <;> [exact Or.inl h.symm; exact Or.inr h.symm]⟩

theorem walk_ends : ∀ (ring : List Int) (used : List Strip),
    List.Forall₂ (fun pr s => linked pr.1 pr.2 s) (ringPairs ring) used →
    ∀ x, (stripEnds used).count x = ring.dropLast.count x + ring.tail.count x := by
  intro ring
  induction ring with
  | nil =>
    intro used h x
    cases h
    rfl
  | cons a rest ih =>
    intro used h x
    cases rest with
    | nil =>
      cases h
      rfl
    | cons b rest2 =>
      have hp : ringPairs (a :: b :: rest2) = (a, b) :: ringPairs (b :: rest2) := rfl
      rw [hp] at h
      cases h with
      | cons hl htl =>
        rename_i s used2
        have ih2 := ih used2 htl x
        rw [stripEnds_cons, List.dropLast_cons₂, List.tail_cons, List.count_cons, List.count_cons,
          List.count_cons, List.count_cons, ih2, List.tail_cons]
        rcases hl with ⟨h1, h2⟩ | ⟨h1, h2⟩
        · simp only at h1 h2
          rw [h1, h2]
          omega
        · simp only at h1 h2
          rw [h1, h2]
          omega

theorem count_untouched (e : Int) (l : List Strip) (h : ∀ s ∈ l, ¬ touches e s) :
    (stripEnds l).count e = 0 := by
  rw [List.count_eq_zero]
  intro hmem
  obtain ⟨s, hs, ht⟩ := (mem_stripEnds e l).1 hmem
  exact h s hs ht

theorem ringPairs_closed (a b : Int) : ∀ (t : List Int),
    ringPairs (a :: t ++ [b]) = (a :: t).zip (t ++ [b]) := by
  intro t
  induction t generalizing a with
  | nil => rfl
  | cons c t2 ih =>
    show (a, c) :: ringPairs (c :: t2 ++ [b]) = (a, c) :: (c :: t2).zip (t2 ++ [b])
    rw [ih]

theorem count_head_tail (ring : List Int) (h : Int) (t : List Int) (hr : ring = h :: t) (x : Int) :
    ring.count x = (if h = x then 1 else 0) + ring.tail.count x := by
  subst hr
  rw [List.count_cons, List.tail_cons]
  by_cases hx : h = x
  · simp [hx]
    omega
  · simp [hx]

theorem count_dropLast_last (ring : List Int) (l : Int) (hl : ring.getLast? = some l) (x : Int) :
    ring.count x = ring.dropLast.count x + (if l = x then 1 else 0) := by
  have hne : ring ≠ [] := by
    intro h
    rw [h] at hl
    cases hl
  have h1 := List.dropLast_append_getLast hne
  have h2 : ring.getLast hne = l := by
    rw [List.getLast?_eq_getLast _ hne] at hl
    exact Option.some.inj hl
  conv_lhs => rw [← h1, h2]
  rw [List.count_append, List.count_singleton]
  by_cases hx : l = x
  · simp [hx]
  · simp [hx]
theorem linked_strips_symm {s t : Strip} (h : linked s.data.1 s.data.2 t) :
    linked t.data.1 t.data.2 s := by
  rcases h with ⟨h1, h2⟩ | ⟨h1, h2⟩
  · exact Or.inl ⟨h1.symm, h2.symm⟩
  · exact Or.inr ⟨h2.symm, h1.symm⟩

theorem closedStrips_perm {l1 l2 : List Strip} (h : l1.Perm l2) (hc : ClosedStrips l1) :
    ClosedStrips l2 := by
  obtain ⟨h1, h2, h3⟩ := hc
  have hp := stripEnds_perm h
  refine ⟨?_, ?_, ?_⟩
  · intro x hx
    rw [← hp.count_eq]
    exact h1 x (hp.mem_iff.2 hx)
  · intro s hs
    exact h2 s (h.mem_iff.2 hs)
  · exact (List.Perm.pairwise_iff (fun {s t} hst hts => hst (linked_strips_symm hts)) h).1 h3

theorem walk_closes (strips used rest : List Strip) (ring : List Int)
    (hreg : ClosedStrips strips) (hperm : strips.Perm (used ++ rest))
    (hwalk : List.Forall₂ (fun pr s => linked pr.1 pr.2 s) (ringPairs ring) used)
    (hlen : 2 ≤ ring.length)
    (hends : ∀ e, (ring.head? = some e ∨ ring.getLast? = some e) → ∀ s ∈ rest, ¬ touches e s) :
    ring.head? = ring.getLast? ∧ ring.dropLast.Nodup ∧ 4 ≤ ring.length ∧
      (∀ x ∈ ring, (stripEnds rest).count x = 0) ∧
      (∀ x, x ∉ ring → (stripEnds used).count x = 0) := by
  have hreg2 := closedStrips_perm hperm hreg
  obtain ⟨hdeg, hloop, hpar⟩ := hreg2
  have htotal : ∀ x, (stripEnds (used ++ rest)).count x =
      ring.dropLast.count x + ring.tail.count x + (stripEnds rest).count x := by
    intro x
    rw [stripEnds_append, List.count_append, walk_ends ring used hwalk x]
  have hdeg2 : ∀ x, (stripEnds (used ++ rest)).count x = 0 ∨
      (stripEnds (used ++ rest)).count x = 2 := by
    intro x
    by_cases hx : x ∈ stripEnds (used ++ rest)
    · exact Or.inr (hdeg x hx)
    · exact Or.inl (List.count_eq_zero.2 hx)
  rcases ring with _ | ⟨h, t⟩
  · simp at hlen
  rcases t with _ | ⟨b, t2⟩
  · simp at hlen
  obtain ⟨l, hl⟩ : ∃ l, (h :: b :: t2).getLast? = some l := by
    rw [List.getLast?_eq_getLast _ (by simp)]
    exact ⟨_, rfl⟩
  have hH := count_head_tail (h :: b :: t2) h (b :: t2) rfl
  have hL := count_dropLast_last (h :: b :: t2) l hl
  have hrh : (stripEnds rest).count h = 0 :=
    count_untouched h rest (hends h (Or.inl rfl))
  have hrl : (stripEnds rest).count l = 0 :=
    count_untouched l rest (hends l (Or.inr hl))
  have htl : 1 ≤ (h :: b :: t2).tail.count l := by
    rw [List.tail_cons]
    apply List.count_pos_iff.2
    rw [List.getLast?_cons_cons] at hl
    exact List.mem_of_getLast?_eq_some hl
  have hdh : 1 ≤ (h :: b :: t2).dropLast.count h := by
    rw [List.dropLast_cons₂]
    apply List.count_pos_iff.2
    exact List.mem_cons_self _ _
  have hhl : h = l := by
    by_contra hne
    have e1 := hH l
    have e2 := hL l
    have e3 := htotal l
    have e4 := hdeg2 l
    rw [if_neg hne] at e1
    rw [if_pos rfl] at e2
    omega
  subst hhl
  have hch : (h :: b :: t2).count h = 2 := by
    have e1 := hH h
    have e2 := hL h
    have e3 := htotal h
    have e4 := hdeg2 h
    rw [if_pos rfl] at e1 e2
    omega
  have hother : ∀ x, x ≠ h → (h :: b :: t2).count x ≤ 1 ∧
      (h :: b :: t2).dropLast.count x = (h :: b :: t2).count x ∧
      (h :: b :: t2).tail.count x = (h :: b :: t2).count x ∧
      (1 ≤ (h :: b :: t2).count x → (stripEnds rest).count x = 0) := by
    intro x hx
    have e1 := hH x
    have e2 := hL x
    have e3 := htotal x
    have e4 := hdeg2 x
    rw [if_neg (fun hc => hx hc.symm)] at e1 e2
    omega
  refine ⟨by rw [hl]; rfl, ?_, ?_, ?_, ?_⟩
  · rw [List.nodup_iff_count_le_one]
    intro x
    by_cases hx : x = h
    · subst hx
      have e2 := hL x
      rw [if_pos rfl] at e2
      omega
    · have := hother x hx
      omega
  · rcases t2 with _ | ⟨c, t3⟩
    · exfalso
      simp only [List.getLast?_cons_cons, List.getLast?_singleton, Option.some.injEq] at hl
      subst hl
      cases hwalk with
      | cons hs htl2 =>
        rename_i s used2
        rcases hs with ⟨h1, h2⟩ | ⟨h1, h2⟩
        · exact hloop s (by simp) (by simp only at h1 h2; rw [h1, h2])
        · exact hloop s (by simp) (by simp only at h1 h2; rw [h1, h2])
    rcases t3 with _ | ⟨d, t4⟩
    · exfalso
      simp only [List.getLast?_cons_cons, List.getLast?_singleton, Option.some.injEq] at hl
      subst hl
      have hp : ringPairs [c, b, c] = [(c, b), (b, c)] := rfl
      rw [hp] at hwalk
      cases hwalk with
      | cons hs htl2 =>
        rename_i s used2
        cases htl2 with
        | cons hu htl3 =>
          rename_i u used3
          cases htl3
          simp only [List.cons_append, List.nil_append, List.pairwise_cons] at hpar
          apply hpar.1 u (by simp)
          have hs2 := linked_symm hs
          rcases hu with ⟨h1, h2⟩ | ⟨h1, h2⟩ <;> rcases hs with ⟨h3, h4⟩ | ⟨h3, h4⟩ <;>
            simp only at h1 h2 h3 h4
          · exact Or.inr ⟨by rw [h2, h3], by rw [h1, h4]⟩
          · exact Or.inl ⟨by rw [h1, h4], by rw [h2, h3]⟩
          · exact Or.inl ⟨by rw [h2, h3], by rw [h1, h4]⟩
          · exact Or.inr ⟨by rw [h1, h4], by rw [h2, h3]⟩
    · simp
  · intro x hx
    by_cases hxh : x = h
    · rw [hxh]; exact hrh
    · exact (hother x hxh).2.2.2 (List.count_pos_iff.2 hx)
  · intro x hx
    have hc0 : (h :: b :: t2).count x = 0 := List.count_eq_zero.2 hx
    have hxh : x ≠ h := by
      intro hc
      apply hx
      rw [hc]
      exact List.mem_cons_self _ _
    have := hother x hxh
    rw [walk_ends _ used hwalk x]
    omega
theorem ringPairs_length : ∀ (l : List Int), (ringPairs l).length = l.length - 1 := by
  intro l
  induction l with
  | nil => rfl
  | cons a t ih =>
    cases t with
    | nil => rfl
    | cons b t2 =>
      show (ringPairs (b :: t2)).length + 1 = _
      rw [ih]
      simp

theorem ringPairs_cyclic (ring : List Int) (hlen : 2 ≤ ring.length)
    (hc : ring.head? = ring.getLast?) : ringPairs ring = cyclicPairs ring.dropLast := by
  have hne : ring ≠ [] := by
    intro h
    rw [h] at hlen
    simp at hlen
  have hsplit := List.dropLast_append_getLast hne
  generalize hl : ring.getLast hne = l at hsplit
  have hlast : ring.getLast? = some l := by
    rw [List.getLast?_eq_getLast _ hne, hl]
  rcases hd : ring.dropLast with _ | ⟨a, t⟩
  · rw [hd] at hsplit
    rw [← hsplit] at hlen
    simp at hlen
  · rw [hd] at hsplit
    have ha : ring.head? = some a := by
      rw [← hsplit]
      rfl
    rw [ha, hlast] at hc
    have hal : a = l := Option.some.inj hc
    subst hal
    rw [← hsplit, ringPairs_closed]
    unfold cyclicPairs
    rw [List.rotate_cons_succ, List.rotate_zero]

theorem linkStrips_cycle (strips : List Strip) (h : strips ≠ []) (hreg : ClosedStrips strips) :
    ∃ chain used rest, linkStrips strips = some (chain, rest) ∧
      strips.Perm (used ++ rest) ∧ rest.length < strips.length ∧
      chain.Nodup ∧ 3 ≤ chain.length ∧
      List.Forall₂ (fun pr s => linked pr.1 pr.2 s) (cyclicPairs chain) used ∧
      ClosedStrips rest := by
  obtain ⟨_, seed, ring, used, chain, rest, hls, _, _, _, _, hseed, hwalk, hperm, hsub, hlt,
    hends, _, _, hchain⟩ := linkStrips_core strips h
  have hlen : 2 ≤ ring.length := by
    have h1 := List.length_pos_of_mem hseed
    rw [ringPairs_length] at h1
    omega
  obtain ⟨hclosed, hnodup, h4, hrest0, hused0⟩ :=
    walk_closes strips used rest ring hreg hperm hwalk hlen hends
  have hch : chain = ring.dropLast := hchain ⟨by omega, hclosed⟩
  have hreg2 := closedStrips_perm hperm hreg
  refine ⟨chain, used, rest, hls, hperm, hlt, by rw [hch]; exact hnodup,
    by rw [hch, List.length_dropLast]; omega, ?_, ?_, ?_, ?_⟩
  · rw [hch, ← ringPairs_cyclic ring hlen hclosed]
    exact hwalk
  · intro x hx
    have hx2 : x ∈ stripEnds (used ++ rest) := by
      rw [stripEnds_append]
      exact List.mem_append_right _ hx
    have h2 := hreg2.1 x hx2
    rw [stripEnds_append, List.count_append] at h2
    have hnot : x ∉ ring := by
      intro hxr
      have := hrest0 x hxr
      rw [List.count_eq_zero] at this
      exact this hx
    rw [hused0 x hnot] at h2
    omega
  · intro s hs
    exact hreg.2.1 s (hsub.subset hs)
  · exact hreg.2.2.sublist hsub

theorem traceLoop_cycles : ∀ (n : Nat) (strips : List Strip) (comps : List (List Int)),
    strips.length ≤ n → ClosedStrips strips →
    ∃ cycles parts, traceLoop n strips comps = some (comps ++ cycles, []) ∧
      strips.Perm parts.flatten ∧
      List.Forall₂ (fun ch used => ch.Nodup ∧ 3 ≤ ch.length ∧
        List.Forall₂ (fun pr s => linked pr.1 pr.2 s) (cyclicPairs ch) used) cycles parts := by
  intro n
  induction n with
  | zero =>
    intro strips comps hlen _
    have : strips = [] := List.length_eq_zero.1 (Nat.le_zero.1 hlen)
    subst this
    exact ⟨[], [], by simp [traceLoop], by simp, List.Forall₂.nil⟩
  | succ n ih =>
    intro strips comps hlen hreg
    by_cases hnil : strips = []
    · subst hnil
      exact ⟨[], [], by simp [traceLoop], by simp, List.Forall₂.nil⟩
    · obtain ⟨chain, used, rest, hls, hperm, hlt, hnd, h3, hwalk, hreg2⟩ :=
        linkStrips_cycle strips hnil hreg
      obtain ⟨cycles, parts, htl, hp2, hall⟩ := ih rest (comps ++ [chain]) (by omega) hreg2
      refine ⟨chain :: cycles, used :: parts, ?_, ?_, List.Forall₂.cons ⟨hnd, h3, hwalk⟩ hall⟩
      · unfold traceLoop
        rw [if_pos (List.length_pos.2 hnil), hls]
        simp only
        rw [if_pos h3, htl]
        simp
      · rw [List.flatten_cons]
        exact hperm.trans (List.Perm.append_left used hp2)
/-! ## The edge cache during generateSegments -/

theorem resolveCrossing_edge (sd : Array3D ℚ) (strip : Strip) (inds : List Index3D)
    (index : Nat) :
    resolveCrossing sd strip inds index = edgeCrossing sd inds (getPair strip.edge index) := by
  unfold edgeCrossing resolveCrossing
  have h : getPair (newStrip false (getPair strip.edge index) (getPair strip.edge index)).edge 0 =
      getPair strip.edge index := rfl
  rw [h]

theorem Array3D.getValueAt_set_inBounds {α : Type} (a : Array3D α) (p q : Index3D) (v : α)
    (hp : a.inBounds p = true) :
    (a.setValueAt p v).getValueAt q = if q = p then some v else a.getValueAt q := by
  rw [Array3D.getValueAt_setValueAt]
  by_cases hq : q = p
  · subst hq
    rw [if_pos ⟨hp, hp, rfl⟩, if_pos rfl]
  · rw [if_neg hq, if_neg]
    rintro ⟨_, hq2, hidx⟩
    exact hq (Array3D.getIndexAt_injective a q p hq2 hp hidx)

theorem Array3D.inBounds_of_getValueAt {α : Type} (a : Array3D α) (p : Index3D) (v : α)
    (h : a.getValueAt p = some v) : a.inBounds p = true := by
  unfold Array3D.getValueAt at h
  by_contra hb
  rw [if_neg hb] at h
  cases h

theorem Array3D.inBounds_congr {α β : Type} (a : Array3D α) (b : Array3D β)
    (h : a.indices = b.indices) (p : Index3D) : a.inBounds p = b.inBounds p := by
  unfold Array3D.inBounds
  rw [h]

theorem cachedVertex_empty (ed : Array3D EdgeBlock) (k : Index3D) (d : Int)
    (h : ed.getValueAt k = some ⟨true, ⟨-1, -1, -1⟩⟩) : cachedVertex ed k d = none := by
  unfold cachedVertex
  rw [h]
  rfl

theorem cache_after_record (a : AlgCMS) (hinv : EdgeCacheOK a) (c0 : Index3D) (dir : Int)
    (blk : EdgeBlock) (inds : Index3D) (hblk : a.edgeData.getValueAt c0 = some blk)
    (hset : blk.edgeIndices.set dir (a.vertices.length : Int) = some inds) (k : Index3D)
    (d : Int) :
    cachedVertex (recordEdge a.edgeData c0 inds) k d =
      if k = c0 ∧ d = dir then some (a.vertices.length : Int)
      else cachedVertex a.edgeData k d := by
  obtain ⟨_, _, hR, _, _⟩ := hinv
  have hin := Array3D.inBounds_of_getValueAt _ _ _ hblk
  have hrec : recordEdge a.edgeData c0 inds = a.edgeData.setValueAt c0 ⟨false, inds⟩ := by
    unfold recordEdge
    rw [hblk]
  rw [hrec]
  unfold cachedVertex
  rw [Array3D.getValueAt_set_inBounds _ _ _ _ hin]
  by_cases hk : k = c0
  · subst hk
    rw [if_pos rfl, hblk]
    simp only [Bool.false_eq_true, if_false]
    rw [Index3D.get_set _ _ dir d _ hset]
    by_cases hd : d = dir
    · subst hd
      simp only [if_true, and_self]
      rw [if_pos (by omega)]
    · simp only [hd, and_false, if_false]
      by_cases he : blk.empty = true
      · rw [if_pos he, hR k blk hblk he]
        unfold Index3D.get
        split_ifs <;> rfl
      · rw [if_neg he]
  · rw [if_neg hk, if_neg (fun h => hk h.1)]

theorem populateStrip_step (a : AlgCMS) (strip : Strip) (inds : List Index3D) (index : Nat)
    (b : AlgCMS) (s : Strip) (h : populateStrip a strip inds index = some (b, s))
    (hinv : EdgeCacheOK a) :
    Later a b ∧ b.faces = a.faces ∧
    ∃ dir c0 c1 v, edgeCrossing a.sampleData inds (getPair strip.edge index) = some (dir, c0, c1) ∧
      s = strip.setEnd index v c0 dir ∧ cachedVertex b.edgeData c0 dir = some v := by
  obtain ⟨dir, c0, c1, hres, hcase⟩ := populateStrip_cases a strip inds index b s h
  rw [resolveCrossing_edge] at hres
  rcases hcase with ⟨v, hv, hb, hs⟩ | ⟨hnone, hmk⟩
  · subst hb
    exact ⟨⟨hinv, rfl, fun _ _ _ h => h, fun _ _ => rfl⟩, rfl, dir, c0, c1, v, hres, hs, hv⟩
  · have hfaces := makeVertex_faces a strip dir c0 c1 index b s hmk
    obtain ⟨ix, val0, val1, hix, hb, hs⟩ := makeVertex_spec a strip dir c0 c1 index b s hmk
    have hsome : ∃ val, a.sampleData.getValueAt c0 = some val := by
      unfold makeVertex at hmk
      cases h0 : a.sampleData.getValueAt c0 with
      | none => simp [h0] at hmk
      | some val => exact ⟨val, rfl⟩
    obtain ⟨val, hval⟩ := hsome
    have hin : a.edgeData.inBounds c0 = true := by
      rw [Array3D.inBounds_congr _ _ hinv.1]
      exact Array3D.inBounds_of_getValueAt _ _ _ hval
    obtain ⟨blk, hblk⟩ := hinv.2.1 c0 hin
    rw [hblk] at hix
    simp only [Option.getD_some] at hix
    have hcache := cache_after_record a hinv c0 dir blk ix hblk hix
    have hedge : b.edgeData = recordEdge a.edgeData c0 ix := by rw [hb]
    have hverts : b.vertices.length = a.vertices.length + 1 := by
      rw [hb]
      simp
    have hsd : b.sampleData = a.sampleData := by rw [hb]
    have hrec : recordEdge a.edgeData c0 ix = a.edgeData.setValueAt c0 ⟨false, ix⟩ := by
      unfold recordEdge
      rw [hblk]
    obtain ⟨hI, hB, hR, hbound, hinj⟩ := hinv
    refine ⟨⟨⟨?_, ?_, ?_, ?_, ?_⟩, hsd, ?_, ?_⟩, hfaces, dir, c0, c1, _, hres, hs, ?_⟩
    · rw [hedge, hrec, hsd, (Array3D.setValueAt_indices _ _ _).1]
      exact hI
    · intro p hp
      rw [hedge, hrec] at hp ⊢
      rw [Array3D.inBounds_setValueAt] at hp
      rw [Array3D.getValueAt_set_inBounds _ _ _ _ hin]
      by_cases hpc : p = c0
      · rw [if_pos hpc]
        exact ⟨_, rfl⟩
      · rw [if_neg hpc]
        exact hB p hp
    · intro p blk2 hp he
      rw [hedge, hrec, Array3D.getValueAt_set_inBounds _ _ _ _ hin] at hp
      by_cases hpc : p = c0
      · rw [if_pos hpc] at hp
        cases hp
        cases he
      · rw [if_neg hpc] at hp
        exact hR p blk2 hp he
    · intro p d v hv
      rw [hedge, hcache] at hv
      rw [hverts]
      by_cases hc : p = c0 ∧ d = dir
      · rw [if_pos hc] at hv
        cases hv
        push_cast
        omega
      · rw [if_neg hc] at hv
        have := hbound p d v hv
        push_cast
        omega
    · intro p q d e v hp hq
      rw [hedge, hcache] at hp hq
      by_cases hc : p = c0 ∧ d = dir
      · rw [if_pos hc] at hp
        cases hp
        by_cases hc2 : q = c0 ∧ e = dir
        · exact ⟨hc.1.trans hc2.1.symm, hc.2.trans hc2.2.symm⟩
        · rw [if_neg hc2] at hq
          have := hbound q e _ hq
          omega
      · rw [if_neg hc] at hp
        by_cases hc2 : q = c0 ∧ e = dir
        · rw [if_pos hc2] at hq
          cases hq
          have := hbound p d _ hp
          omega
        · rw [if_neg hc2] at hq
          exact hinj p q d e v hp hq
    · intro k d v hv
      rw [hedge, hcache]
      by_cases hc : k = c0 ∧ d = dir
      · exfalso
        rw [hc.1, hc.2, hnone] at hv
        cases hv
      · rw [if_neg hc]
        exact hv
    · intro i f
      rw [hfaces]
    · rw [hedge, hcache, if_pos ⟨rfl, rfl⟩]
theorem later_refl (a : AlgCMS) (h : EdgeCacheOK a) : Later a a :=
  ⟨h, rfl, fun _ _ _ hv => hv, fun _ _ => rfl⟩

theorem later_trans {a b c : AlgCMS} (h1 : Later a b) (h2 : Later b c) : Later a c :=
  ⟨h2.1, h2.2.1.trans h1.2.1, fun k d v hv => h2.2.2.1 k d v (h1.2.2.1 k d v hv),
    fun i f => (h2.2.2.2 i f).trans (h1.2.2.2 i f)⟩

theorem cachedVertex_ne (ed : Array3D EdgeBlock) (k : Index3D) (d v : Int)
    (h : cachedVertex ed k d = some v) : v ≠ -1 :=
  ((cachedVertex_some_iff _ _ _ _).1 h).choose_spec.2.2.2

theorem makeStrip_step (a : AlgCMS) (e0 e1 : Int) (inds : List Index3D) (face : FaceRef)
    (k : Nat) (a2 : AlgCMS) (h : makeStrip a e0 e1 inds face k = some a2)
    (hinv : EdgeCacheOK a) :
    Later a a2 ∧ (∀ i f, (i, f) ≠ face → a2.faces i f = a.faces i f) ∧
    ((a.faces.face face).strips.length = k →
      ∃ s, (a2.faces.face face).strips = (a.faces.face face).strips ++ [s] ∧ s.data.1 ≠ -1 ∧
        StripOn a.sampleData a2.edgeData inds (e0, e1) s) := by
  unfold makeStrip at h
  cases h1 : populateStrip a (newStrip false e0 e1) inds 0 with
  | none => simp [h1] at h
  | some r1 =>
    obtain ⟨b1, s1⟩ := r1
    simp only [h1] at h
    cases h2 : populateStrip b1 s1 inds 1 with
    | none => simp [h2] at h
    | some r2 =>
      obtain ⟨b2, s2⟩ := r2
      simp only [h2] at h
      obtain ⟨L1, f1, d0, c0, c0x, v0, hr0, hs1, hv0⟩ :=
        populateStrip_step a _ inds 0 b1 s1 h1 hinv
      obtain ⟨L2, f2, d1, c1, c1x, v1, hr1, hs2, hv1⟩ :=
        populateStrip_step b1 s1 inds 1 b2 s2 h2 L1.1
      have hf : b2.faces = a.faces := f2.trans f1
      have hL := later_trans L1 L2
      cases hset : setStripAt (b2.faces.face face).strips k s2 with
      | none => simp [hset] at h
      | some strips =>
        simp only [hset, Option.some.injEq] at h
        subst h
        refine ⟨⟨hL.1, hL.2.1, hL.2.2.1, ?_⟩, ?_, ?_⟩
        · intro i f
          simp only
          rw [FaceStore.set_apply]
          by_cases hc : i = face.1 ∧ f = face.2
          · rw [if_pos hc]
            simp only
            rw [← hL.2.2.2 i f, hc.1, hc.2]
            rfl
          · rw [if_neg hc]
            exact hL.2.2.2 i f
        · intro i f hne
          simp only
          rw [FaceStore.set_apply, if_neg, hf]
          rintro ⟨hi, hf2⟩
          apply hne
          rw [hi, hf2]
        · intro hk
          rw [hf] at hset
          unfold setStripAt at hset
          rw [if_neg (by omega), if_pos hk.symm] at hset
          simp only [Option.some.injEq] at hset
          have he1 : getPair s1.edge 1 = e1 := by
            rw [hs1]
            rfl
          rw [he1, L1.2.1] at hr1
          refine ⟨s2, ?_, ?_, ⟨d0, c0, c0x, hr0, ?_⟩, ⟨d1, c1, c1x, hr1, ?_⟩⟩
          · simp only [FaceStore.face_set_self]
            rw [← hset]
          · rw [hs2, hs1]
            exact cachedVertex_ne _ _ _ _ hv0
          · have : s2.data.1 = v0 := by
              rw [hs2, hs1]
              rfl
            rw [this]
            exact L2.2.2.1 _ _ _ hv0
          · have : s2.data.2 = v1 := by
              rw [hs2]
              rfl
            rw [this]
            exact hv1

theorem stripOn_later {a b : AlgCMS} (h : Later a b) (sd : Array3D ℚ) (inds : List Index3D)
    (p : Int × Int) (s : Strip) (hs : StripOn sd a.edgeData inds p s) :
    StripOn sd b.edgeData inds p s := by
  obtain ⟨⟨d0, k0, k0x, h0, v0⟩, ⟨d1, k1, k1x, h1, v1⟩⟩ := hs
  exact ⟨⟨d0, k0, k0x, h0, h.2.2.1 _ _ _ v0⟩, ⟨d1, k1, k1x, h1, h.2.2.1 _ _ _ v1⟩⟩

theorem emitStrips_step (inds : List Index3D) (face : FaceRef) (pairs : List (Int × Int)) :
    ∀ (a : AlgCMS) (k : Nat) (a2 : AlgCMS), emitStrips inds face a k pairs = some a2 →
      EdgeCacheOK a →
      Later a a2 ∧ (∀ i f, (i, f) ≠ face → a2.faces i f = a.faces i f) ∧
      ((a.faces.face face).strips.length = k →
        ∃ new, (a2.faces.face face).strips = (a.faces.face face).strips ++ new ∧
          (∀ s ∈ new, s.data.1 ≠ -1) ∧
          List.Forall₂ (StripOn a.sampleData a2.edgeData inds) pairs new) := by
  induction pairs with
  | nil =>
    intro a k a2 h hinv
    simp only [emitStrips, Option.some.injEq] at h
    subst h
    exact ⟨later_refl a hinv, fun _ _ _ => rfl, fun _ => ⟨[], by simp, by simp, List.Forall₂.nil⟩⟩
  | cons e rest ih =>
    intro a k a2 h hinv
    obtain ⟨e0, e1⟩ := e
    simp only [emitStrips] at h
    cases hm : makeStrip a e0 e1 inds face k with
    | none => simp [hm] at h
    | some a1 =>
      simp only [hm] at h
      obtain ⟨L1, F1, S1⟩ := makeStrip_step a e0 e1 inds face k a1 hm hinv
      obtain ⟨L2, F2, S2⟩ := ih a1 (k + 1) a2 h L1.1
      refine ⟨later_trans L1 L2, fun i f hne => (F2 i f hne).trans (F1 i f hne), ?_⟩
      intro hk
      obtain ⟨s, hs, hd, hon⟩ := S1 hk
      obtain ⟨new, hnew, hdn, hall⟩ := S2 (by rw [hs]; simp [hk])
      refine ⟨s :: new, by rw [hnew, hs]; simp, ?_, ?_⟩
      · intro x hx
        rcases List.mem_cons.1 hx with rfl | hx
        · exact hd
        · exact hdn x hx
      · refine List.Forall₂.cons (stripOn_later L2 _ _ _ _ hon) ?_
        rw [← L1.2.1]
        exact hall

theorem generateFace_step (c : Cell) (a : AlgCMS) (f : Nat) (b : AlgCMS)
    (h : generateFace c a f = some b) (hinv : EdgeCacheOK a) :
    Later a b ∧ (∀ i g, (i, g) ≠ (c.id, f) → b.faces i g = a.faces i g) ∧
    ((a.faces c.id f).strips = [] →
      ∃ pairs, faceStripEdges (signCode a.sampleData (faceInds c f)) = some pairs ∧
        (∀ s ∈ (b.faces c.id f).strips, s.data.1 ≠ -1) ∧
        List.Forall₂ (StripOn a.sampleData b.edgeData (faceInds c f)) pairs
          (b.faces c.id f).strips) := by
  unfold generateFace at h
  unfold faceInds
  cases hv : FACE_VERTEX[f]? with
  | none => simp [hv] at h
  | some verts =>
    simp only [hv] at h ⊢
    rw [makeFaceSegments_eq] at h
    cases hp : faceStripEdges (signCode a.sampleData
        (verts.filterMap (fun v => c.pointInds[v]?))) with
    | none => simp [hp] at h
    | some pairs =>
      simp only [hp] at h
      obtain ⟨L, F, S⟩ := emitStrips_step _ _ pairs a 0 b h hinv
      refine ⟨L, F, ?_⟩
      intro hempty
      have hk : (a.faces.face (c.id, f)).strips.length = 0 := by
        show (a.faces c.id f).strips.length = 0
        rw [hempty]
        rfl
      obtain ⟨new, hnew, hdn, hall⟩ := S hk
      have hnew2 : (b.faces c.id f).strips = new := by
        have : (b.faces.face (c.id, f)).strips = (a.faces c.id f).strips ++ new := hnew
        rw [hempty] at this
        exact this
      refine ⟨pairs, rfl, ?_, ?_⟩
      · rw [hnew2]
        exact hdn
      · rw [hnew2]
        exact hall
theorem foldlOpt_cons {σ α : Type} (step : σ → α → Option σ) (s : σ) (x : α) (xs : List α) :
    foldlOpt step s (x :: xs) = (step s x).bind (fun s1 => foldlOpt step s1 xs) := by
  rw [foldlOpt]
  cases step s x <;> rfl

theorem faceLoop_spec (c : Cell) : ∀ (l : List Nat) (a b : AlgCMS),
    foldlOpt (generateFace c) a l = some b → EdgeCacheOK a → l.Nodup →
    Later a b ∧ (∀ i g, (i ≠ c.id ∨ g ∉ l) → b.faces i g = a.faces i g) ∧
    (∀ f ∈ l, (a.faces c.id f).strips = [] →
      ∃ pairs, faceStripEdges (signCode a.sampleData (faceInds c f)) = some pairs ∧
        (∀ s ∈ (b.faces c.id f).strips, s.data.1 ≠ -1) ∧
        List.Forall₂ (StripOn a.sampleData b.edgeData (faceInds c f)) pairs
          (b.faces c.id f).strips) := by
  intro l
  induction l with
  | nil =>
    intro a b h hinv _
    simp only [foldlOpt, Option.some.injEq] at h
    subst h
    exact ⟨later_refl a hinv, fun _ _ _ => rfl, fun f hf => absurd hf (List.not_mem_nil f)⟩
  | cons f rest ih =>
    intro a b h hinv hnd
    simp only [foldlOpt] at h
    cases hg : generateFace c a f with
    | none => simp [hg] at h
    | some a1 =>
      simp only [hg] at h
      obtain ⟨L1, F1, S1⟩ := generateFace_step c a f a1 hg hinv
      obtain ⟨L2, F2, S2⟩ := ih a1 b h L1.1 (List.nodup_cons.1 hnd).2
      have hfr : f ∉ rest := (List.nodup_cons.1 hnd).1
      refine ⟨later_trans L1 L2, ?_, ?_⟩
      · intro i g hc
        rw [F2 i g (by
          rcases hc with hc | hc
          · exact Or.inl hc
          · exact Or.inr (fun hm => hc (List.mem_cons_of_mem _ hm)))]
        apply F1 i g
        intro heq
        rcases hc with hc | hc
        · exact hc (congrArg Prod.fst heq)
        · apply hc
          have hgf : g = f := congrArg Prod.snd heq
          rw [hgf]
          exact List.mem_cons_self _ _
      · intro g hg2 hempty
        rcases List.mem_cons.1 hg2 with rfl | hg2
        · obtain ⟨pairs, hp, hd, hall⟩ := S1 hempty
          have hsame : b.faces c.id g = a1.faces c.id g := F2 c.id g (Or.inr hfr)
          refine ⟨pairs, hp, ?_, ?_⟩
          · rw [hsame]; exact hd
          · rw [hsame]
            exact List.Forall₂.imp (fun p s hs => stripOn_later L2 _ _ p s hs) hall
        · have hem : (a1.faces c.id g).strips = [] := by
            rw [F1 c.id g (fun heq => hfr (by
              have hgf : g = f := congrArg Prod.snd heq
              rw [← hgf]
              exact hg2))]
            exact hempty
          obtain ⟨pairs, hp, hd, hall⟩ := S2 g hg2 hem
          rw [L1.2.1] at hp hall
          exact ⟨pairs, hp, hd, hall⟩

theorem cellLoop_spec : ∀ (l : List Cell) (a b : AlgCMS),
    foldlOpt (fun s c => foldlOpt (generateFace c) s (List.range 6)) a l = some b →
    EdgeCacheOK a → (l.map Cell.id).Nodup →
    Later a b ∧ (∀ i g, i ∉ l.map Cell.id → b.faces i g = a.faces i g) ∧
    (∀ c ∈ l, ∀ f, f < 6 → (a.faces c.id f).strips = [] →
      ∃ pairs, faceStripEdges (signCode a.sampleData (faceInds c f)) = some pairs ∧
        (∀ s ∈ (b.faces c.id f).strips, s.data.1 ≠ -1) ∧
        List.Forall₂ (StripOn a.sampleData b.edgeData (faceInds c f)) pairs
          (b.faces c.id f).strips) := by
  intro l
  induction l with
  | nil =>
    intro a b h hinv _
    simp only [foldlOpt, Option.some.injEq] at h
    subst h
    exact ⟨later_refl a hinv, fun _ _ _ => rfl, fun c hc => absurd hc (List.not_mem_nil c)⟩
  | cons c rest ih =>
    intro a b h hinv hnd
    rw [foldlOpt_cons] at h
    cases hg : foldlOpt (generateFace c) a (List.range 6) with
    | none => rw [hg] at h; cases h
    | some a1 =>
      rw [hg] at h
      simp only [Option.bind] at h
      obtain ⟨L1, F1, S1⟩ := faceLoop_spec c (List.range 6) a a1 hg hinv (List.nodup_range 6)
      rw [List.map_cons] at hnd
      obtain ⟨L2, F2, S2⟩ := ih a1 b h L1.1 (List.nodup_cons.1 hnd).2
      have hcr : c.id ∉ rest.map Cell.id := (List.nodup_cons.1 hnd).1
      refine ⟨later_trans L1 L2, ?_, ?_⟩
      · intro i g hi
        rw [List.map_cons, List.mem_cons, not_or] at hi
        rw [F2 i g hi.2]
        exact F1 i g (Or.inl hi.1)
      · intro c2 hc2 f hf hempty
        rcases List.mem_cons.1 hc2 with rfl | hc2
        · obtain ⟨pairs, hp, hd, hall⟩ := S1 f (List.mem_range.2 hf) hempty
          have hsame : b.faces c2.id f = a1.faces c2.id f := F2 c2.id f hcr
          refine ⟨pairs, hp, ?_, ?_⟩
          · rw [hsame]; exact hd
          · rw [hsame]
            exact List.Forall₂.imp (fun p s hs => stripOn_later L2 _ _ p s hs) hall
        · have hne : c2.id ≠ c.id := by
            intro heq
            apply hcr
            rw [← heq]
            exact List.mem_map_of_mem _ hc2
          have hem : (a1.faces c2.id f).strips = [] := by
            rw [F1 c2.id f (Or.inl hne)]
            exact hempty
          obtain ⟨pairs, hp, hd, hall⟩ := S2 c2 hc2 f hf hem
          rw [L1.2.1] at hp hall
          exact ⟨pairs, hp, hd, hall⟩

theorem foldlOpt_append {σ α : Type} (step : σ → α → Option σ) (l1 l2 : List α) :
    ∀ s, foldlOpt step s (l1 ++ l2) = (foldlOpt step s l1).bind (fun s1 => foldlOpt step s1 l2) := by
  induction l1 with
  | nil => intro s; rfl
  | cons x xs ih =>
    intro s
    simp only [List.cons_append, foldlOpt]
    cases step s x with
    | none => rfl
    | some s1 => exact ih s1

theorem generateSegmentsList_eq (a : AlgCMS) (ks : List OctTree) :
    generateSegmentsList a ks = foldlOpt generateSegments a ks := by
  induction ks generalizing a with
  | nil => simp [generateSegmentsList, foldlOpt]
  | cons k rest ih =>
    simp only [generateSegmentsList, foldlOpt]
    cases generateSegments a k with
    | none => rfl
    | some a1 => exact ih a1

theorem leafVisitsList_eq (ks : List OctTree) : leafVisitsList ks = ks.flatMap leafVisits := by
  induction ks with
  | nil => simp [leafVisitsList]
  | cons k rest ih => simp [leafVisitsList, ih]

theorem generateSegments_eq_fold : ∀ (t : OctTree) (a : AlgCMS),
    generateSegments a t =
      foldlOpt (fun s c => foldlOpt (generateFace c) s (List.range 6)) a (leafVisits t) := by
  intro t
  induction t using OctTree.induct with
  | h c ks ih =>
    intro a
    rw [generateSegments, leafVisits]
    by_cases hb : c.state = CellState.BRANCH
    · rw [if_pos hb, if_pos hb, generateSegmentsList_eq, leafVisitsList_eq]
      clear hb
      induction ks generalizing a with
      | nil => rfl
      | cons k rest ihk =>
        rw [List.flatMap_cons, foldlOpt_append, foldlOpt_cons]
        rw [ih k (List.mem_cons_self _ _) a]
        cases foldlOpt (fun s c => foldlOpt (generateFace c) s (List.range 6)) a (leafVisits k) with
        | none => rfl
        | some a1 =>
          exact ihk (fun k2 hk2 => ih k2 (List.mem_cons_of_mem _ hk2)) a1
    · rw [if_neg hb, if_neg hb, foldlOpt_cons]
      cases foldlOpt (generateFace c) a (List.range 6) <;> rfl

theorem leafVisits_eq_filter : ∀ (t : OctTree),
    (∀ s ∈ t.subtrees, s.cell.state = CellState.LEAF → s.kids = []) →
    leafVisits t = t.cells.filter (fun c => decide (c.state = CellState.LEAF)) := by
  intro t
  induction t using OctTree.induct with
  | h c ks ih =>
    intro hleaf
    rw [leafVisits, OctTree.cells_mk]
    have hkids : ∀ k ∈ ks, leafVisits k =
        k.cells.filter (fun c => decide (c.state = CellState.LEAF)) := by
      intro k hk
      apply ih k hk
      intro s hs
      apply hleaf s
      rw [OctTree.subtrees_mk]
      exact List.mem_cons_of_mem _ (List.mem_flatMap.2 ⟨k, hk, hs⟩)
    have hflat : leafVisitsList ks =
        (ks.flatMap OctTree.cells).filter (fun c => decide (c.state = CellState.LEAF)) := by
      rw [leafVisitsList_eq]
      clear ih hleaf
      induction ks with
      | nil => rfl
      | cons k rest ihk =>
        rw [List.flatMap_cons, List.flatMap_cons, List.filter_append,
          hkids k (List.mem_cons_self _ _),
          ihk (fun k2 hk2 => hkids k2 (List.mem_cons_of_mem _ hk2))]
    by_cases hb : c.state = CellState.BRANCH
    · rw [if_pos hb, hflat, List.filter_cons]
      simp [hb]
    · rw [if_neg hb]
      have hl : c.state = CellState.LEAF := by
        cases hs : c.state with
        | BRANCH => exact absurd hs hb
        | LEAF => rfl
      have hk0 : ks = [] := by
        have := hleaf (OctTree.mk c ks) (by rw [OctTree.subtrees_mk]; exact List.mem_cons_self _ _) hl
        exact this
      subst hk0
      simp [hl]
/-! ## The grid edge of a cell edge -/

theorem edgeCrossing_eq (sd : Array3D ℚ) (c : Cell) (f e : Nat) (i0 i1 : Index3D)
    (h : faceEdgeIndices c f e = some (i0, i1)) :
    edgeCrossing sd (faceInds c f) (e : Int) = crossingOf sd i0 i1 := by
  unfold faceEdgeIndices at h
  unfold edgeCrossing resolveCrossing faceInds crossingOf
  have he : getPair (newStrip false (e : Int) (e : Int)).edge 0 = (e : Int) := rfl
  rw [he, Int.toNat_ofNat]
  cases hv : FACE_VERTEX[f]? with
  | none => simp [hv] at h
  | some verts =>
    cases hm : VERTEX_MAP[e]? with
    | none => simp [hv, hm] at h
    | some vm =>
      obtain ⟨v0, v1⟩ := vm
      simp only [hv, hm] at h ⊢
      rw [if_neg (by omega)]
      cases h0 : (verts.filterMap (fun v => c.pointInds[v]?))[v0]? with
      | none => simp [h0] at h
      | some j0 =>
        cases h1 : (verts.filterMap (fun v => c.pointInds[v]?))[v1]? with
        | none => simp [h0, h1] at h
        | some j1 =>
          simp only [h0, h1, Option.some.injEq, Prod.mk.injEq] at h ⊢
          obtain ⟨e0, e1⟩ := h
          subst e0
          subst e1
          rfl

theorem axisCoord_get (b : Nat) (hb : b < 3) (v : Index3D) :
    v.get (2 - (b : Int)) = some (axisCoord b v) := by
  interval_cases b <;> rfl

theorem index_ext (p q : Index3D) (h : ∀ b, b < 3 → axisCoord b p = axisCoord b q) : p = q := by
  have h0 : p.z = q.z := h 0 (by decide)
  have h1 : p.y = q.y := h 1 (by decide)
  have h2 : p.x = q.x := h 2 (by decide)
  cases p; cases q
  simp_all

theorem set_of_coords (p q : Index3D) (a : Nat) (ha : a < 3)
    (h : ∀ b, b < 3 → b ≠ a → axisCoord b q = axisCoord b p) :
    p.set (2 - (a : Int)) (axisCoord a q) = some q := by
  have e : ∀ r : Index3D, r = q → some r = some q := fun r hr => by rw [hr]
  interval_cases a
  · exact e _ (index_ext _ _ (fun b hb => by
      interval_cases b
      · rfl
      · exact (h 1 (by decide) (by decide)).symm
      · exact (h 2 (by decide) (by decide)).symm))
  · exact e _ (index_ext _ _ (fun b hb => by
      interval_cases b
      · exact (h 0 (by decide) (by decide)).symm
      · rfl
      · exact (h 2 (by decide) (by decide)).symm))
  · exact e _ (index_ext _ _ (fun b hb => by
      interval_cases b
      · exact (h 0 (by decide) (by decide)).symm
      · exact (h 1 (by decide) (by decide)).symm
      · rfl))

theorem crossingOf_symm (sd : Array3D ℚ) (p q : Index3D) (d v0 v1 : Int)
    (h0 : p.get d = some v0) (h1 : p.set d v1 = some q) (hne : v0 ≠ v1) :
    crossingOf sd p q = crossingOf sd q p := by
  have hq0 : q.get d = some v1 := Index3D.get_of_set p q d v1 h1
  have hq1 : q.set d v0 = some p := by
    rw [Index3D.set_set p q d v1 v0 h1]
    exact Index3D.set_get_self p d v0 h0
  obtain ⟨e1, e2, e3⟩ := getEdgesBetwixt_axis p q d v0 v1 h0 h1 hne
  obtain ⟨g1, g2, g3⟩ := getEdgesBetwixt_axis q p d v1 v0 hq0 hq1 (Ne.symm hne)
  have hfirst : exactSignChangeIndex sd (getEdgesBetwixt p q).2 d p q =
      exactSignChangeIndex sd (getEdgesBetwixt q p).2 d q p := by
    unfold exactSignChangeIndex
    rw [e2, e3, g2, g3, h0, hq0, min_comm v1 v0, max_comm v1 v0]
    by_cases hlt : v0 < v1
    · have hmin : min v0 v1 = v0 := min_eq_left (le_of_lt hlt)
      rw [hmin, if_pos rfl, if_neg (by simpa using Ne.symm hne), if_pos rfl]
    · have hmin : min v0 v1 = v1 := min_eq_right (by omega)
      rw [hmin, if_neg (by simpa using hne), if_pos rfl, if_pos rfl]
  unfold crossingOf
  rw [e1, g1, hfirst]
  cases exactSignChangeIndex sd (getEdgesBetwixt q p).2 d q p with
  | none => rfl
  | some sc =>
    simp only
    rw [Index3D.set_set p q d v1 sc h1, Index3D.set_set p q d v1 (sc + 1) h1]

theorem crossingOf_coords (sd : Array3D ℚ) (p q : Index3D) (d : Int) (k k1 : Index3D)
    (h : crossingOf sd p q = some (d, k, k1)) :
    d = (getEdgesBetwixt p q).1 ∧
      ∀ b : Nat, b < 3 → 2 - (b : Int) ≠ d → axisCoord b k = axisCoord b p := by
  unfold crossingOf at h
  cases hs : exactSignChangeIndex sd (getEdgesBetwixt p q).2 (getEdgesBetwixt p q).1 p q with
  | none => simp [hs] at h
  | some sc =>
    simp only [hs] at h
    cases hk : p.set (getEdgesBetwixt p q).1 sc with
    | none => simp [hk] at h
    | some k0 =>
      cases hk1 : p.set (getEdgesBetwixt p q).1 (sc + 1) with
      | none => simp [hk, hk1] at h
      | some k2 =>
        simp only [hk, hk1, Option.some.injEq, Prod.mk.injEq] at h
        obtain ⟨hd, hk0, _⟩ := h
        refine ⟨hd.symm, ?_⟩
        intro b hb hne
        have hg := Index3D.get_set p k0 (getEdgesBetwixt p q).1 (2 - (b : Int)) sc hk
        rw [hd, if_neg hne, axisCoord_get b hb, axisCoord_get b hb, hk0] at hg
        exact Option.some.inj hg
set_option synthInstance.maxSize 1024 in
theorem slot_table_same : ∀ f, f < 6 → ∀ e, e < 4 → ∀ f2, f2 < 6 → ∀ e2, e2 < 4 →
    slotEdge f e = slotEdge f2 e2 →
    faceEdgeCorners f e = faceEdgeCorners f2 e2 ∨
      faceEdgeCorners f e = (faceEdgeCorners f2 e2).map Prod.swap := by
  decide

set_option synthInstance.maxSize 1024 in
theorem slot_table_inj : ∀ f, f < 6 → ∀ e, e < 4 → ∀ f2, f2 < 6 → ∀ e2, e2 < 4 →
    ∀ p ∈ (faceEdgeCorners f e).toList, ∀ q ∈ (faceEdgeCorners f2 e2).toList,
    (∀ b, b < 3 → ((slotBit b p.1 != slotBit b p.2) = (slotBit b q.1 != slotBit b q.2)) ∧
      (slotBit b p.1 = slotBit b p.2 → slotBit b p.1 = slotBit b q.1)) →
    slotEdge f e = slotEdge f2 e2 := by
  decide

theorem corner_coord_bit (b off : Index3D) (u v : Nat) (hu : u < 8) (hv : v < 8) (a : Nat)
    (ha : a < 3) (hpos : 0 < axisCoord a off) (p q : Index3D)
    (hp : (cornerIndices b off)[u]? = some p) (hq : (cornerIndices b off)[v]? = some q) :
    axisCoord a p = axisCoord a q ↔ slotBit a u = slotBit a v := by
  obtain ⟨p2, hp2, hcp⟩ := cornerIndices_coord b off u hu
  obtain ⟨q2, hq2, hcq⟩ := cornerIndices_coord b off v hv
  rw [hp] at hp2
  rw [hq] at hq2
  cases hp2
  cases hq2
  rw [hcp a ha, hcq a ha]
  cases slotBit a u <;> cases slotBit a v <;> simp <;> omega

/-- The facts on one face edge of a cell whose corner indices are not clamped. -/
theorem slot_geometry (sd : Array3D ℚ) (c : Cell)
    (hpts : c.pointInds = cornerIndices c.c000 c.offsets)
    (hpos : ∀ a, a < 3 → 0 < axisCoord a c.offsets) (f e : Nat) (hf : f < 6) (he : e < 4) :
    ∃ c0 c1 i0 i1 a, faceEdgeCorners f e = some (c0, c1) ∧ c0 < 8 ∧ c1 < 8 ∧ a < 3 ∧
      (∀ b, b < 3 → (slotBit b c0 ≠ slotBit b c1 ↔ b = a)) ∧
      (cornerIndices c.c000 c.offsets)[c0]? = some i0 ∧
      (cornerIndices c.c000 c.offsets)[c1]? = some i1 ∧
      edgeCrossing sd (faceInds c f) (e : Int) = crossingOf sd i0 i1 ∧
      (getEdgesBetwixt i0 i1).1 = 2 - (a : Int) := by
  have hx : c.offsets.x ≠ 0 := by have := hpos 2 (by decide); exact ne_of_gt this
  have hy : c.offsets.y ≠ 0 := by have := hpos 1 (by decide); exact ne_of_gt this
  have hz : c.offsets.z ≠ 0 := by have := hpos 0 (by decide); exact ne_of_gt this
  obtain ⟨c0, c1, i0, i1, hfc, hfi, h0, h1, _, hdir⟩ := face_edge_dir c hpts hx hy hz f e hf he
  obtain ⟨d0, d1, a, hfc2, ha, _, hbits⟩ := face_edge_bits f e hf he
  rw [hfc] at hfc2
  simp only [Option.some.injEq, Prod.mk.injEq] at hfc2
  obtain ⟨rfl, rfl⟩ := hfc2
  rw [hpts] at h0 h1
  have hc0 : c0 < 8 := by
    by_contra hge
    rw [List.getElem?_eq_none (by simp [cornerIndices]; omega)] at h0
    cases h0
  have hc1 : c1 < 8 := by
    by_contra hge
    rw [List.getElem?_eq_none (by simp [cornerIndices]; omega)] at h1
    cases h1
  exact ⟨c0, c1, i0, i1, a, hfc, hc0, hc1, ha, hbits, h0, h1, edgeCrossing_eq sd c f e i0 i1 hfi,
    hdir a ha ((hbits a ha).2 rfl)⟩

theorem slot_same_edge (sd : Array3D ℚ) (c : Cell)
    (hpts : c.pointInds = cornerIndices c.c000 c.offsets)
    (hpos : ∀ a, a < 3 → 0 < axisCoord a c.offsets) (f e f2 e2 : Nat) (hf : f < 6) (he : e < 4)
    (hf2 : f2 < 6) (he2 : e2 < 4) (h : slotEdge f e = slotEdge f2 e2) :
    edgeCrossing sd (faceInds c f) (e : Int) = edgeCrossing sd (faceInds c f2) (e2 : Int) := by
  obtain ⟨c0, c1, i0, i1, a, hfc, hc0, hc1, ha, hbits, h0, h1, hcross, hdir⟩ :=
    slot_geometry sd c hpts hpos f e hf he
  obtain ⟨d0, d1, j0, j1, a2, hfc2, hd0, hd1, ha2, hbits2, g0, g1, hcross2, hdir2⟩ :=
    slot_geometry sd c hpts hpos f2 e2 hf2 he2
  rw [hcross, hcross2]
  rcases slot_table_same f hf e he f2 hf2 e2 he2 h with hs | hs
  · rw [hfc, hfc2] at hs
    simp only [Option.some.injEq, Prod.mk.injEq] at hs
    obtain ⟨rfl, rfl⟩ := hs
    rw [h0] at g0
    rw [h1] at g1
    cases g0
    cases g1
    rfl
  · rw [hfc, hfc2] at hs
    simp only [Option.map_some', Prod.swap_prod_mk, Option.some.injEq, Prod.mk.injEq] at hs
    obtain ⟨rfl, rfl⟩ := hs
    rw [h0] at g1
    rw [h1] at g0
    cases g0
    cases g1
    have hother : ∀ b, b < 3 → b ≠ a → axisCoord b i1 = axisCoord b i0 := by
      intro b hb hne
      apply (corner_coord_bit _ _ c1 c0 hc1 hc0 b hb (hpos b hb) i1 i0 h1 h0).2
      by_contra hc
      exact hne ((hbits b hb).1 (fun heq => hc heq.symm))
    have hdiff : axisCoord a i0 ≠ axisCoord a i1 := by
      intro heq
      exact ((hbits a ha).2 rfl)
        ((corner_coord_bit _ _ c0 c1 hc0 hc1 a ha (hpos a ha) i0 i1 h0 h1).1 heq)
    exact crossingOf_symm sd i0 i1 (2 - (a : Int)) (axisCoord a i0) (axisCoord a i1)
      (axisCoord_get a ha i0) (set_of_coords i0 i1 a ha hother) hdiff

theorem slot_key_inj (sd : Array3D ℚ) (c : Cell)
    (hpts : c.pointInds = cornerIndices c.c000 c.offsets)
    (hpos : ∀ a, a < 3 → 0 < axisCoord a c.offsets) (f e f2 e2 : Nat) (hf : f < 6) (he : e < 4)
    (hf2 : f2 < 6) (he2 : e2 < 4) (d : Int) (k k1 k2 : Index3D)
    (h1 : edgeCrossing sd (faceInds c f) (e : Int) = some (d, k, k1))
    (h2 : edgeCrossing sd (faceInds c f2) (e2 : Int) = some (d, k, k2)) :
    slotEdge f e = slotEdge f2 e2 := by
  obtain ⟨c0, c1, i0, i1, a, hfc, hc0, hc1, ha, hbits, h0, hi1, hcross, hdir⟩ :=
    slot_geometry sd c hpts hpos f e hf he
  obtain ⟨d0, d1, j0, j1, a2, hfc2, hd0, hd1, ha2, hbits2, g0, g1, hcross2, hdir2⟩ :=
    slot_geometry sd c hpts hpos f2 e2 hf2 he2
  rw [hcross] at h1
  rw [hcross2] at h2
  obtain ⟨e1, hk1⟩ := crossingOf_coords sd i0 i1 d k k1 h1
  obtain ⟨e2x, hk2⟩ := crossingOf_coords sd j0 j1 d k k2 h2
  rw [hdir] at e1
  rw [hdir2] at e2x
  have haa : a = a2 := by omega
  subst haa
  apply slot_table_inj f hf e he f2 hf2 e2 he2 (c0, c1) (by rw [hfc]; simp) (d0, d1)
    (by rw [hfc2]; simp)
  intro b hb
  simp only
  by_cases hba : b = a
  · subst hba
    have n1 := (hbits b hb).2 rfl
    have n2 := (hbits2 b hb).2 rfl
    refine ⟨?_, fun hc => absurd hc n1⟩
    cases h3 : slotBit b c0 <;> cases h4 : slotBit b c1 <;> cases h5 : slotBit b d0 <;>
      cases h6 : slotBit b d1 <;> simp_all
  · have n1 : slotBit b c0 = slotBit b c1 := by
      by_contra hc
      exact hba ((hbits b hb).1 hc)
    have n2 : slotBit b d0 = slotBit b d1 := by
      by_contra hc
      exact hba ((hbits2 b hb).1 hc)
    refine ⟨by rw [n1, n2]; simp, fun _ => ?_⟩
    apply (corner_coord_bit _ _ c0 d0 hc0 hd0 b hb (hpos b hb) i0 j0 h0 g0).1
    rw [← hk1 b hb (by rw [e1]; omega), ← hk2 b hb (by rw [e1]; omega)]
set_option maxRecDepth 100000 in
theorem cell_pairs_closed_ff : ∀ σ ∈ boolVectors 6,
    ClosedPairs (cellEdgePairs (fun v => (false :: false :: σ).getD v false)) ∧
    ∀ f, f < 6 → (pairEnds (faceEdgePairs (fun v => (false :: false :: σ).getD v false) f)).Nodup := by
  decide!

set_option maxRecDepth 100000 in
theorem cell_pairs_closed_ft : ∀ σ ∈ boolVectors 6,
    ClosedPairs (cellEdgePairs (fun v => (false :: true :: σ).getD v false)) ∧
    ∀ f, f < 6 → (pairEnds (faceEdgePairs (fun v => (false :: true :: σ).getD v false) f)).Nodup := by
  decide!

set_option maxRecDepth 100000 in
theorem cell_pairs_closed_tf : ∀ σ ∈ boolVectors 6,
    ClosedPairs (cellEdgePairs (fun v => (true :: false :: σ).getD v false)) ∧
    ∀ f, f < 6 → (pairEnds (faceEdgePairs (fun v => (true :: false :: σ).getD v false) f)).Nodup := by
  decide!

set_option maxRecDepth 100000 in
theorem cell_pairs_closed_tt : ∀ σ ∈ boolVectors 6,
    ClosedPairs (cellEdgePairs (fun v => (true :: true :: σ).getD v false)) ∧
    ∀ f, f < 6 → (pairEnds (faceEdgePairs (fun v => (true :: true :: σ).getD v false) f)).Nodup := by
  decide!
theorem mem_boolVectors : ∀ σ : List Bool, σ ∈ boolVectors σ.length := by
  intro σ
  induction σ with
  | nil => simp [boolVectors]
  | cons b l ih =>
    simp only [List.length_cons, boolVectors, List.mem_flatMap, List.mem_cons, List.mem_singleton,
      List.not_mem_nil, or_false]
    refine ⟨l, ih, ?_⟩
    cases b
    · exact Or.inl rfl
    · exact Or.inr rfl

theorem cell_pairs_closed (σ : List Bool) (h : σ.length = 8) :
    ClosedPairs (cellEdgePairs (fun v => σ.getD v false)) ∧
    ∀ f, f < 6 → (pairEnds (faceEdgePairs (fun v => σ.getD v false) f)).Nodup := by
  rcases σ with _ | ⟨b0, _ | ⟨b1, τ⟩⟩
  · simp at h
  · simp at h
  · have hτ : τ ∈ boolVectors 6 := by
      have := mem_boolVectors τ
      simp only [List.length_cons] at h
      have hl : τ.length = 6 := by omega
      rw [hl] at this
      exact this
    cases b0 <;> cases b1
    · exact cell_pairs_closed_ff τ hτ
    · exact cell_pairs_closed_ft τ hτ
    · exact cell_pairs_closed_tf τ hτ
    · exact cell_pairs_closed_tt τ hτ

theorem faceCode_congr (neg neg2 : Nat → Bool) (h : ∀ v, v < 8 → neg v = neg2 v) (f : Nat) :
    faceCode neg f = faceCode neg2 f := by
  unfold faceCode
  by_cases hf : f < 6
  · interval_cases f <;>
      simp only [FACE_VERTEX, List.getElem?_cons_zero, List.getElem?_cons_succ, List.getD_cons_zero,
        List.getD_cons_succ, h 0 (by decide), h 1 (by decide), h 2 (by decide), h 3 (by decide),
        h 4 (by decide), h 5 (by decide), h 6 (by decide), h 7 (by decide)]
  · rw [List.getElem?_eq_none (by simp [FACE_VERTEX]; omega)]

theorem cellEdgePairs_congr (neg neg2 : Nat → Bool) (h : ∀ v, v < 8 → neg v = neg2 v) :
    cellEdgePairs neg = cellEdgePairs neg2 ∧ ∀ f, faceEdgePairs neg f = faceEdgePairs neg2 f := by
  have hf : ∀ f, faceEdgePairs neg f = faceEdgePairs neg2 f := by
    intro f
    unfold faceEdgePairs
    rw [faceCode_congr neg neg2 h f]
  refine ⟨?_, hf⟩
  unfold cellEdgePairs
  exact List.flatMap_congr (fun f _ => hf f)

theorem cell_pairs_closed_of (neg : Nat → Bool) :
    ClosedPairs (cellEdgePairs neg) ∧ ∀ f, f < 6 → (pairEnds (faceEdgePairs neg f)).Nodup := by
  have hc : ∀ v, v < 8 → neg v = ((List.range 8).map neg).getD v false := by
    intro v hv
    interval_cases v <;> rfl
  obtain ⟨h1, h2⟩ := cellEdgePairs_congr neg _ hc
  rw [h1]
  refine ⟨(cell_pairs_closed _ (by simp)).1, ?_⟩
  intro f hf
  rw [h2 f]
  exact (cell_pairs_closed _ (by simp)).2 f hf
/-! ## From cell edges to vertex ids -/

theorem count_rel {ρ : Nat → Int → Prop}
    (hρ : ∀ E v E2 v2, ρ E v → ρ E2 v2 → (v = v2 ↔ E = E2)) :
    ∀ (L : List Nat) (M : List Int), List.Forall₂ ρ L M → ∀ E v, ρ E v →
      L.count E = M.count v := by
  intro L M h
  induction h with
  | nil => intro E v _; rfl
  | @cons a b l m hab _ ih =>
    intro E v hEv
    rw [List.count_cons, List.count_cons, ih E v hEv]
    have := hρ a b E v hab hEv
    by_cases hc : a = E
    · have hb : b = v := this.2 hc
      simp [hc, hb]
    · have hb : b ≠ v := fun hb => hc (this.1 hb)
      simp [hc, hb]

theorem ends_rel {ρ : Nat → Int → Prop} : ∀ (A : List (Nat × Nat)) (S : List Strip),
    List.Forall₂ (fun E s => ρ E.1 s.data.1 ∧ ρ E.2 s.data.2) A S →
    List.Forall₂ ρ (pairEnds A) (stripEnds S) := by
  intro A S h
  induction h with
  | nil => exact List.Forall₂.nil
  | cons hab _ ih =>
    exact List.Forall₂.cons hab.1 (List.Forall₂.cons hab.2 ih)

theorem pairwise_rel {α β : Type} {R : α → β → Prop} {P : α → α → Prop} {Q : β → β → Prop}
    (hPQ : ∀ a b x y, R a x → R b y → P a b → Q x y) :
    ∀ (L : List α) (M : List β), List.Forall₂ R L M → L.Pairwise P → M.Pairwise Q := by
  intro L M h
  induction h with
  | nil => intro _; exact List.Pairwise.nil
  | @cons a b l m hab htl ih =>
    intro hp
    rw [List.pairwise_cons] at hp ⊢
    refine ⟨?_, ih hp.2⟩
    intro y hy
    obtain ⟨x, hx, hxy⟩ : ∃ x ∈ l, R x y := by
      clear ih hp
      induction htl with
      | nil => cases hy
      | cons hcd _ ih2 =>
        rcases List.mem_cons.1 hy with rfl | hy
        · exact ⟨_, List.mem_cons_self _ _, hcd⟩
        · obtain ⟨x, hx, hxy⟩ := ih2 hy
          exact ⟨x, List.mem_cons_of_mem _ hx, hxy⟩
    exact hPQ a x b y hab hxy (hp.1 x hx)

theorem forall₂_mem_left {α β : Type} {R : α → β → Prop} : ∀ (L : List α) (M : List β),
    List.Forall₂ R L M → ∀ y ∈ M, ∃ x ∈ L, R x y := by
  intro L M h
  induction h with
  | nil => intro y hy; cases hy
  | cons hab _ ih =>
    intro y hy
    rcases List.mem_cons.1 hy with rfl | hy
    · exact ⟨_, List.mem_cons_self _ _, hab⟩
    · obtain ⟨x, hx, hxy⟩ := ih y hy
      exact ⟨x, List.mem_cons_of_mem _ hx, hxy⟩

theorem forall₂_imp_mem {α β : Type} {R Q : α → β → Prop} : ∀ (L : List α) (M : List β),
    List.Forall₂ R L M → (∀ a ∈ L, ∀ b, R a b → Q a b) → List.Forall₂ Q L M := by
  intro L M h
  induction h with
  | nil => intro _; exact List.Forall₂.nil
  | cons hab _ ih =>
    intro himp
    exact List.Forall₂.cons (himp _ (List.mem_cons_self _ _) _ hab)
      (ih (fun a ha b hr => himp a (List.mem_cons_of_mem _ ha) b hr))

theorem forall₂_flatMap {ι α β : Type} {R : α → β → Prop} (A : ι → List α) (S : ι → List β) :
    ∀ (l : List ι), (∀ i ∈ l, List.Forall₂ R (A i) (S i)) →
      List.Forall₂ R (l.flatMap A) (l.flatMap S) := by
  intro l
  induction l with
  | nil => intro _; exact List.Forall₂.nil
  | cons i rest ih =>
    intro h
    rw [List.flatMap_cons, List.flatMap_cons]
    exact List.rel_append (h i (List.mem_cons_self _ _))
      (ih (fun j hj => h j (List.mem_cons_of_mem _ hj)))

theorem closed_transfer {ρ : Nat → Int → Prop}
    (hρ : ∀ E v E2 v2, ρ E v → ρ E2 v2 → (v = v2 ↔ E = E2))
    (A : List (Nat × Nat)) (S : List Strip)
    (h : List.Forall₂ (fun E s => ρ E.1 s.data.1 ∧ ρ E.2 s.data.2) A S)
    (hA : ClosedPairs A) : ClosedStrips S := by
  obtain ⟨h1, h2, h3⟩ := hA
  have hends := ends_rel A S h
  refine ⟨?_, ?_, ?_⟩
  · intro x hx
    obtain ⟨E, hE, hEx⟩ := forall₂_mem_left _ _ hends x hx
    rw [← count_rel hρ _ _ hends E x hEx]
    exact h1 E hE
  · intro s hs
    obtain ⟨E, hE, hEs⟩ := forall₂_mem_left _ _ h s hs
    intro heq
    exact h2 E hE ((hρ _ _ _ _ hEs.1 hEs.2).1 heq)
  · refine pairwise_rel ?_ A S h h3
    intro p q s t hps hqt hnot hl
    apply hnot
    rcases hl with ⟨e1, e2⟩ | ⟨e1, e2⟩
    · exact Or.inl ⟨(hρ _ _ _ _ hqt.1 hps.1).1 e1, (hρ _ _ _ _ hqt.2 hps.2).1 e2⟩
    · exact Or.inr ⟨(hρ _ _ _ _ hqt.2 hps.1).1 e1, (hρ _ _ _ _ hqt.1 hps.2).1 e2⟩

theorem nodup_transfer {ρ : Nat → Int → Prop}
    (hρ : ∀ E v E2 v2, ρ E v → ρ E2 v2 → (v = v2 ↔ E = E2))
    (L : List Nat) (M : List Int) (h : List.Forall₂ ρ L M) (hL : L.Nodup) : M.Nodup := by
  refine pairwise_rel ?_ L M h hL
  intro a b x y hax hby hne heq
  exact hne ((hρ _ _ _ _ hax hby).1 heq)

theorem edgeVertex_unique (sd : Array3D ℚ) (ed : Array3D EdgeBlock) (c : Cell)
    (hpts : c.pointInds = cornerIndices c.c000 c.offsets)
    (hpos : ∀ a, a < 3 → 0 < axisCoord a c.offsets)
    (hinj : ∀ p q d e v, cachedVertex ed p d = some v → cachedVertex ed q e = some v →
      p = q ∧ d = e) :
    ∀ E v E2 v2, EdgeVertex sd ed c E v → EdgeVertex sd ed c E2 v2 → (v = v2 ↔ E = E2) := by
  rintro E v E2 v2 ⟨f, e, hf, he, hE, d, k, k1, hc, hv⟩ ⟨f2, e2, hf2, he2, hE2, d2, k2, k3, hc2, hv2⟩
  constructor
  · intro heq
    subst heq
    obtain ⟨hk, hd⟩ := hinj k k2 d d2 v hv hv2
    subst hk
    subst hd
    rw [← hE, ← hE2]
    exact slot_key_inj sd c hpts hpos f e f2 e2 hf he hf2 he2 d k k1 k3 hc hc2
  · intro heq
    have hs : slotEdge f e = slotEdge f2 e2 := by rw [hE, hE2, heq]
    have := slot_same_edge sd c hpts hpos f e f2 e2 hf he hf2 he2 hs
    rw [hc, hc2] at this
    simp only [Option.some.injEq, Prod.mk.injEq] at this
    obtain ⟨hd, hk, _⟩ := this
    rw [hd, hk] at hv
    rw [hv] at hv2
    exact Option.some.inj hv2

theorem signCode_faceCode (sd : Array3D ℚ) (c : Cell)
    (hpts : c.pointInds = cornerIndices c.c000 c.offsets) (f : Nat) (hf : f < 6) :
    signCode sd (faceInds c f) = faceCode (cornerNeg sd c) f := by
  unfold signCode faceInds faceCode cornerNeg
  rw [hpts]
  interval_cases f <;> rfl

theorem face_rel (sd : Array3D ℚ) (ed : Array3D EdgeBlock) (c : Cell)
    (hpts : c.pointInds = cornerIndices c.c000 c.offsets) (f : Nat) (hf : f < 6)
    (pairs : List (Int × Int)) (strips : List Strip)
    (hp : faceStripEdges (signCode sd (faceInds c f)) = some pairs)
    (h : List.Forall₂ (StripOn sd ed (faceInds c f)) pairs strips) :
    List.Forall₂ (fun E s => EdgeVertex sd ed c E.1 s.data.1 ∧ EdgeVertex sd ed c E.2 s.data.2)
      (faceEdgePairs (cornerNeg sd c) f) strips := by
  unfold faceEdgePairs
  rw [← signCode_faceCode sd c hpts f hf, hp]
  simp only [Option.getD_some]
  rw [List.forall₂_map_left_iff]
  obtain ⟨strips2, h1, h2, _, _⟩ := faceStripEdges_table (signCode sd (faceInds c f))
    (signCode_lt _ _)
  rw [hp] at h1
  cases h1
  refine forall₂_imp_mem _ _ h ?_
  intro p hpm s hs
  have hr1 := h2 p.1 (by
    unfold stripEndpoints
    exact List.mem_flatMap.2 ⟨p, hpm, by simp⟩)
  have hr2 := h2 p.2 (by
    unfold stripEndpoints
    exact List.mem_flatMap.2 ⟨p, hpm, by simp⟩)
  obtain ⟨⟨d0, k0, k0x, hc0, hv0⟩, ⟨d1, k1, k1x, hc1, hv1⟩⟩ := hs
  have e1 : ((p.1.toNat : Nat) : Int) = p.1 := Int.toNat_of_nonneg hr1.1
  have e2 : ((p.2.toNat : Nat) : Int) = p.2 := Int.toNat_of_nonneg hr2.1
  refine ⟨⟨f, p.1.toNat, hf, by omega, rfl, d0, k0, k0x, by rw [e1]; exact hc0, hv0⟩,
    ⟨f, p.2.toNat, hf, by omega, rfl, d1, k1, k1x, by rw [e2]; exact hc1, hv1⟩⟩
/-! ## The strips of a leaf cell close up -/

theorem generateSegments_cell (o : Octree) (a a2 : AlgCMS) (hcache : EdgeCacheOK a)
    (hrun : generateSegments a (makeStructure o) = some a2)
    (c : Cell) (hc : c ∈ (makeStructure o).cells) (hleaf : c.state = CellState.LEAF) :
    Later a a2 ∧ ∀ f, f < 6 → (a.faces c.id f).strips = [] →
      ∃ pairs, faceStripEdges (signCode a.sampleData (faceInds c f)) = some pairs ∧
        (∀ s ∈ (a2.faces c.id f).strips, s.data.1 ≠ -1) ∧
        List.Forall₂ (StripOn a.sampleData a2.edgeData (faceInds c f)) pairs
          (a2.faces c.id f).strips := by
  rw [generateSegments_eq_fold] at hrun
  have hvis : leafVisits (makeStructure o) =
      (makeStructure o).cells.filter (fun c => decide (c.state = CellState.LEAF)) :=
    leafVisits_eq_filter _ (fun s hs hl => nodeInv_leaf_kids (makeStructure_inv o s hs) hl)
  have hnd : ((leafVisits (makeStructure o)).map Cell.id).Nodup := by
    rw [hvis]
    have hall : ((makeStructure o).cells.map Cell.id).Nodup := by
      rw [makeStructure_ids]
      exact List.nodup_range _
    exact hall.sublist (List.Sublist.map _ (List.filter_sublist _))
  obtain ⟨L, _, S⟩ := cellLoop_spec _ a a2 hrun hcache hnd
  refine ⟨L, fun f hf hempty => S c ?_ f hf hempty⟩
  rw [hvis, List.mem_filter]
  exact ⟨hc, by simp [hleaf]⟩

theorem collectFace_leaf (fs : FaceStore) (id f : Nat)
    (hstate : (fs id f).state = FaceState.LEAF_FACE)
    (hdata : ∀ s ∈ (fs id f).strips, s.data.1 ≠ -1) :
    collectFace fs id f = (fs id f).strips := by
  unfold collectFace
  rw [if_pos hstate]
  apply List.filter_eq_self.2
  intro s hs
  simpa using hdata s hs

theorem cell_strips_rel (a a2 : AlgCMS) (c : Cell)
    (hpts : c.pointInds = cornerIndices c.c000 c.offsets) (hL : Later a a2)
    (hstate : ∀ f, f < 6 → (a2.faces c.id f).state = FaceState.LEAF_FACE)
    (hfaces : ∀ f, f < 6 →
      ∃ pairs, faceStripEdges (signCode a.sampleData (faceInds c f)) = some pairs ∧
        (∀ s ∈ (a2.faces c.id f).strips, s.data.1 ≠ -1) ∧
        List.Forall₂ (StripOn a.sampleData a2.edgeData (faceInds c f)) pairs
          (a2.faces c.id f).strips) :
    (∀ f, f < 6 → List.Forall₂ (fun E s => EdgeVertex a2.sampleData a2.edgeData c E.1 s.data.1 ∧
        EdgeVertex a2.sampleData a2.edgeData c E.2 s.data.2)
      (faceEdgePairs (cornerNeg a2.sampleData c) f) (collectFace a2.faces c.id f)) ∧
    List.Forall₂ (fun E s => EdgeVertex a2.sampleData a2.edgeData c E.1 s.data.1 ∧
        EdgeVertex a2.sampleData a2.edgeData c E.2 s.data.2)
      (cellEdgePairs (cornerNeg a2.sampleData c)) (collectStrips a2.faces c) := by
  have hface : ∀ f, f < 6 →
      List.Forall₂ (fun E s => EdgeVertex a2.sampleData a2.edgeData c E.1 s.data.1 ∧
        EdgeVertex a2.sampleData a2.edgeData c E.2 s.data.2)
      (faceEdgePairs (cornerNeg a2.sampleData c) f) (collectFace a2.faces c.id f) := by
    intro f hf
    obtain ⟨pairs, hp, hd, hall⟩ := hfaces f hf
    rw [collectFace_leaf _ _ _ (hstate f hf) hd, hL.2.1]
    exact face_rel a.sampleData a2.edgeData c hpts f hf pairs _ hp hall
  refine ⟨hface, ?_⟩
  rw [collectStrips_eq]
  unfold cellEdgePairs
  exact forall₂_flatMap _ _ _ (fun f hf => hface f (List.mem_range.1 hf))
theorem cell_offsets_pos (c : Cell)
    (hpos : 0 < c.offsets.x ∧ 0 < c.offsets.y ∧ 0 < c.offsets.z) :
    ∀ a, a < 3 → 0 < axisCoord a c.offsets := by
  intro a ha
  obtain ⟨hx, hy, hz⟩ := hpos
  interval_cases a
  · exact hz
  · exact hy
  · exact hx

theorem loops_close_core (o : Octree) (hmin : o.minLvl ≤ 30) (hmax : o.maxLvl ≤ 30)
    (a a2 : AlgCMS) (hcache : EdgeCacheOK a)
    (hrun : generateSegments a (makeStructure o) = some a2)
    (c : Cell) (hc : c ∈ (makeStructure o).cells) (hleaf : c.state = CellState.LEAF)
    (hpos : 0 < c.offsets.x ∧ 0 < c.offsets.y ∧ 0 < c.offsets.z)
    (hfresh : ∀ f, f < 6 → (a.faces c.id f).strips = [])
    (hfaces : ∀ f, f < 6 → (a.faces c.id f).state = FaceState.LEAF_FACE) :
    (∀ f, f < 6 → (a2.faces c.id f).state = FaceState.LEAF_FACE) ∧
    (∀ E v E2 v2, EdgeVertex a2.sampleData a2.edgeData c E v →
      EdgeVertex a2.sampleData a2.edgeData c E2 v2 → (v = v2 ↔ E = E2)) ∧
    (∀ f, f < 6 → List.Forall₂ (fun E s => EdgeVertex a2.sampleData a2.edgeData c E.1 s.data.1 ∧
        EdgeVertex a2.sampleData a2.edgeData c E.2 s.data.2)
      (faceEdgePairs (cornerNeg a2.sampleData c) f) (collectFace a2.faces c.id f)) ∧
    List.Forall₂ (fun E s => EdgeVertex a2.sampleData a2.edgeData c E.1 s.data.1 ∧
        EdgeVertex a2.sampleData a2.edgeData c E.2 s.data.2)
      (cellEdgePairs (cornerNeg a2.sampleData c)) (collectStrips a2.faces c) ∧
    ClosedStrips (collectStrips a2.faces c) := by
  obtain ⟨L, S⟩ := generateSegments_cell o a a2 hcache hrun c hc hleaf
  have hposA := cell_offsets_pos c hpos
  have hpts : c.pointInds = cornerIndices c.c000 c.offsets := by
    rw [OctTree.cells_eq_map] at hc
    obtain ⟨s, hs, rfl⟩ := List.mem_map.1 hc
    exact pointInds_unclamped o hmin hmax s hs (fun a ha => hposA a ha)
  have hstate : ∀ f, f < 6 → (a2.faces c.id f).state = FaceState.LEAF_FACE := by
    intro f hf
    rw [L.2.2.2 c.id f]
    exact hfaces f hf
  have huniq := edgeVertex_unique a2.sampleData a2.edgeData c hpts hposA L.1.2.2.2.2
  obtain ⟨hface, hcell⟩ := cell_strips_rel a a2 c hpts L hstate
    (fun f hf => S f hf (hfresh f hf))
  exact ⟨hstate, huniq, hface, hcell,
    closed_transfer huniq _ _ hcell (cell_pairs_closed_of _).1⟩

/-- C37: generateSegments on the octree built by makeStructure (levels at most 30), started
in a state with a consistent edge cache, and a Leaf cell of the tree with positive extents
whose six faces are Leaf faces and hold no strips before the run. After the run the six
faces are still Leaf faces, and the strips that collectStrips gathers for the cell are the
strips of `cellEdgePairs`, each joining two cell edges, with the vertex ids that the edge
cache holds for these cell edges; two cell edges have the same vertex id only when they are
the same edge. Every id that occurs at an end of a gathered strip occurs at exactly two
ends, at most once among the strips of a face. The tracing loop of traceComponent on the
cell returns with no strip left and pushes every chain that linkStrips traces: the gathered
strips are, up to order, the strips used by the pushed chains, and each chain has at least
3 ids, no id twice, and one used strip for each pair of cyclically consecutive ids. -/
theorem C37_loops_close_on_leaf_cells (o : Octree) (hmin : o.minLvl ≤ 30)
    (hmax : o.maxLvl ≤ 30) (a a2 : AlgCMS) (hcache : EdgeCacheOK a)
    (hrun : generateSegments a (makeStructure o) = some a2)
    (c : Cell) (hc : c ∈ (makeStructure o).cells) (hleaf : c.state = CellState.LEAF)
    (hpos : 0 < c.offsets.x ∧ 0 < c.offsets.y ∧ 0 < c.offsets.z)
    (hfresh : ∀ f, f < 6 → (a.faces c.id f).strips = [])
    (hfaces : ∀ f, f < 6 → (a.faces c.id f).state = FaceState.LEAF_FACE)
    (components : Nat → List (List Int)) :
    (∀ f, f < 6 → (a2.faces c.id f).state = FaceState.LEAF_FACE) ∧
    List.Forall₂ (fun E s => EdgeVertex a2.sampleData a2.edgeData c E.1 s.data.1 ∧
        EdgeVertex a2.sampleData a2.edgeData c E.2 s.data.2)
      (cellEdgePairs (cornerNeg a2.sampleData c)) (collectStrips a2.faces c) ∧
    (∀ E v E2 v2, EdgeVertex a2.sampleData a2.edgeData c E v →
      EdgeVertex a2.sampleData a2.edgeData c E2 v2 → (v = v2 ↔ E = E2)) ∧
    (∀ x ∈ stripEnds (collectStrips a2.faces c),
      (stripEnds (collectStrips a2.faces c)).count x = 2 ∧
      ∀ f, f < 6 → (stripEnds (collectFace a2.faces c.id f)).count x ≤ 1) ∧
    ∃ cycles parts,
      traceCell a2.faces components c =
        some (fun id => if id = c.id then components c.id ++ cycles else components id) ∧
      (collectStrips a2.faces c).Perm parts.flatten ∧
      List.Forall₂ (fun ch used => ch.Nodup ∧ 3 ≤ ch.length ∧
        List.Forall₂ (fun pr s => linked pr.1 pr.2 s) (cyclicPairs ch) used) cycles parts := by
  obtain ⟨hstate, huniq, hface, hcell, hclosed⟩ :=
    loops_close_core o hmin hmax a a2 hcache hrun c hc hleaf hpos hfresh hfaces
  obtain ⟨cycles, parts, htrace, hperm, hall⟩ :=
    traceLoop_cycles (collectStrips a2.faces c).length (collectStrips a2.faces c)
      (components c.id) (le_refl _) hclosed
  refine ⟨hstate, hcell, huniq, ?_, cycles, parts, ?_, hperm, hall⟩
  · intro x hx
    refine ⟨hclosed.1 x hx, ?_⟩
    intro f hf
    have hnd : (stripEnds (collectFace a2.faces c.id f)).Nodup :=
      nodup_transfer huniq _ _ (ends_rel _ _ (hface f hf)) ((cell_pairs_closed_of _).2 f hf)
    exact List.nodup_iff_count_le_one.1 hnd x
  · unfold traceCell
    rw [htrace]

theorem edgeCacheOK_fresh (a : AlgCMS) (arr : Array3D EdgeBlock) (n : Index3D)
    (hed : a.edgeData = filledGrid (fun _ => newEdgeBlock true) arr n)
    (hsd : a.sampleData.indices = n) : EdgeCacheOK a := by
  have hget : ∀ p, a.edgeData.inBounds p = true →
      a.edgeData.getValueAt p = some (newEdgeBlock true) := by
    intro p hp
    have hr := Array3D.getIndexAt_range a.edgeData p hp
    unfold Array3D.getValueAt
    rw [if_pos hp]
    rw [hed] at hr ⊢
    simp only [filledGrid] at hr ⊢
    rw [if_pos hr]
  have hnone : ∀ p d, cachedVertex a.edgeData p d = none := by
    intro p d
    by_cases hp : a.edgeData.inBounds p = true
    · exact cachedVertex_empty _ _ _ (hget p hp)
    · unfold cachedVertex Array3D.getValueAt
      rw [if_neg hp]
  refine ⟨by rw [hed, hsd]; rfl, fun p hp => ⟨_, hget p hp⟩, ?_, ?_, ?_⟩
  · intro p blk hp he
    have hin := Array3D.inBounds_of_getValueAt _ _ _ hp
    rw [hget p hin] at hp
    cases hp
    rfl
  · intro p d v hv
    rw [hnone] at hv
    cases hv
  · intro p q d e v hv
    rw [hnone] at hv
    cases hv

set_option maxRecDepth 100000 in
theorem exCell14_mem :
    litCell 14 true (some 0) 1 4 0 4 4 5 [6, 0, 0, 0, 0, 0, 0, 0] ∈ exTree.cells := by
  decide!

set_option maxRecDepth 1000000 in
theorem exCell14_faces : ∀ f, f < 6 →
    (exFaces 14 f).strips = [] ∧ (exFaces 14 f).state = FaceState.LEAF_FACE := by
  decide!

/-- C37 (witness): the example octree (levels 1 and 2 on the 9 x 9 x 9 grid sampled from
`exField`) with the faces of buildOctree; generateSegments returns, and for the level-1 leaf
cell 14, whose six faces are Leaf faces, the tracing loop returns with every gathered strip
in a pushed chain. -/
theorem C37_loops_close_on_leaf_cells_witness :
    (exOct.minLvl ≤ 30 ∧ exOct.maxLvl ≤ 30) ∧
    ∃ a2 cycles parts,
      generateSegments { exState with faces := exFaces, components := fun _ => [] }
        (makeStructure exOct) = some a2 ∧
      traceCell a2.faces (fun _ => [])
          (litCell 14 true (some 0) 1 4 0 4 4 5 [6, 0, 0, 0, 0, 0, 0, 0]) =
        some (fun id => if id = 14 then [] ++ cycles else []) ∧
      (collectStrips a2.faces
        (litCell 14 true (some 0) 1 4 0 4 4 5 [6, 0, 0, 0, 0, 0, 0, 0])).Perm parts.flatten ∧
      List.Forall₂ (fun ch used => ch.Nodup ∧ 3 ≤ ch.length ∧
        List.Forall₂ (fun pr s => linked pr.1 pr.2 s) (cyclicPairs ch) used) cycles parts := by
  refine ⟨by decide, ?_⟩
  have hleaks := exRun_leaks
  rw [exTree_eq]
  cases hg : generateSegments { exState with faces := exFaces, components := fun _ => [] }
      exTree with
  | none => rw [hg] at hleaks; cases hleaks
  | some a2 =>
    have hA : litCell 14 true (some 0) 1 4 0 4 4 5 [6, 0, 0, 0, 0, 0, 0, 0] ∈
        (makeStructure exOct).cells := by
      rw [exTree_eq]
      exact exCell14_mem
    have hrun : generateSegments { exState with faces := exFaces, components := fun _ => [] }
        (makeStructure exOct) = some a2 := by
      rw [exTree_eq]
      exact hg
    obtain ⟨_, _, _, _, cycles, parts, h1, h2, h3⟩ :=
      C37_loops_close_on_leaf_cells exOct (by decide) (by decide) _ a2
        (edgeCacheOK_fresh _ _ ⟨9, 9, 9⟩ rfl rfl) hrun _ hA rfl (by decide)
        (fun f hf => (exCell14_faces f hf).1) (fun f hf => (exCell14_faces f hf).2)
        (fun _ => [])
    exact ⟨a2, cycles, parts, rfl, h1, h2, h3⟩

/-! ## The flat example -/

theorem flatRoot_eq :
    rootCell flatOct =
      boxCell 0 false none 0 ⟨0, 0, 0⟩ ⟨8, 8, 16⟩ 0 [0, 0, 0, 0, 0, 0, 0, 0] := by
  decide

set_option maxRecDepth 1000000 in
theorem flatL4_0 :
    subdivideChild flatOct (subdivideCell flatOct 1)
      (boxCell 3 false (some 2) 3 ⟨0, 0, 0⟩ ⟨1, 1, 2⟩ 0 [1, 1, 1, 0, 0, 0, 0, 0]) 0 4 =
      (.mk (boxCell 4 true (some 3) 4 ⟨0, 0, 0⟩ ⟨0, 0, 1⟩ 0 [1, 1, 1, 1, 0, 0, 0, 0]) [],
       5) :=
  step_eq_of_beq _ _ _ (by decide!)

set_option maxRecDepth 1000000 in
theorem flatL4_1 :
    subdivideChild flatOct (subdivideCell flatOct 1)
      (boxCell 3 false (some 2) 3 ⟨0, 0, 0⟩ ⟨1, 1, 2⟩ 0 [1, 1, 1, 0, 0, 0, 0, 0]) 1 5 =
      (.mk (boxCell 5 true (some 3) 4 ⟨0, 0, 1⟩ ⟨0, 0, 1⟩ 1 [1, 1, 1, 2, 0, 0, 0, 0]) [],
       6) :=
  step_eq_of_beq _ _ _ (by decide!)

set_option maxRecDepth 1000000 in
theorem flatL4_2 :
    subdivideChild flatOct (subdivideCell flatOct 1)
      (boxCell 3 false (some 2) 3 ⟨0, 0, 0⟩ ⟨1, 1, 2⟩ 0 [1, 1, 1, 0, 0, 0, 0, 0]) 2 6 =
      (.mk (boxCell 6 true (some 3) 4 ⟨0, 0, 0⟩ ⟨0, 0, 1⟩ 2 [1, 1, 1, 3, 0, 0, 0, 0]) [],
       7) :=
  step_eq_of_beq _ _ _ (by decide!)

set_option maxRecDepth 1000000 in
theorem flatL4_3 :
    subdivideChild flatOct (subdivideCell flatOct 1)
      (boxCell 3 false (some 2) 3 ⟨0, 0, 0⟩ ⟨1, 1, 2⟩ 0 [1, 1, 1, 0, 0, 0, 0, 0]) 3 7 =
      (.mk (boxCell 7 true (some 3) 4 ⟨0, 0, 1⟩ ⟨0, 0, 1⟩ 3 [1, 1, 1, 4, 0, 0, 0, 0]) [],
       8) :=
  step_eq_of_beq _ _ _ (by decide!)

set_option maxRecDepth 1000000 in
theorem flatL4_4 :
    subdivideChild flatOct (subdivideCell flatOct 1)
      (boxCell 3 false (some 2) 3 ⟨0, 0, 0⟩ ⟨1, 1, 2⟩ 0 [1, 1, 1, 0, 0, 0, 0, 0]) 4 8 =
      (.mk (boxCell 8 true (some 3) 4 ⟨0, 0, 0⟩ ⟨0, 0, 1⟩ 4 [1, 1, 1, 5, 0, 0, 0, 0]) [],
       9) :=
  step_eq_of_beq _ _ _ (by decide!)

set_option maxRecDepth 1000000 in
theorem flatL4_5 :
    subdivideChild flatOct (subdivideCell flatOct 1)
      (boxCell 3 false (some 2) 3 ⟨0, 0, 0⟩ ⟨1, 1, 2⟩ 0 [1, 1, 1, 0, 0, 0, 0, 0]) 5 9 =
      (.mk (boxCell 9 true (some 3) 4 ⟨0, 0, 1⟩ ⟨0, 0, 1⟩ 5 [1, 1, 1, 6, 0, 0, 0, 0]) [],
       10) :=
  step_eq_of_beq _ _ _ (by decide!)

set_option maxRecDepth 1000000 in
theorem flatL4_6 :
    subdivideChild flatOct (subdivideCell flatOct 1)
      (boxCell 3 false (some 2) 3 ⟨0, 0, 0⟩ ⟨1, 1, 2⟩ 0 [1, 1, 1, 0, 0, 0, 0, 0]) 6 10 =
      (.mk (boxCell 10 true (some 3) 4 ⟨0, 0, 0⟩ ⟨0, 0, 1⟩ 6 [1, 1, 1, 7, 0, 0, 0, 0]) [],
       11) :=
  step_eq_of_beq _ _ _ (by decide!)

set_option maxRecDepth 1000000 in
theorem flatL4_7 :
    subdivideChild flatOct (subdivideCell flatOct 1)
      (boxCell 3 false (some 2) 3 ⟨0, 0, 0⟩ ⟨1, 1, 2⟩ 0 [1, 1, 1, 0, 0, 0, 0, 0]) 7 11 =
      (.mk (boxCell 11 true (some 3) 4 ⟨0, 0, 1⟩ ⟨0, 0, 1⟩ 7 [1, 1, 1, 8, 0, 0, 0, 0]) [],
       12) :=
  step_eq_of_beq _ _ _ (by decide!)

set_option maxRecDepth 1000000 in
theorem flatL3_0 :
    subdivideChild flatOct (subdivideCell flatOct 2)
      (boxCell 2 false (some 1) 2 ⟨0, 0, 0⟩ ⟨2, 2, 4⟩ 0 [1, 1, 0, 0, 0, 0, 0, 0]) 0 3 =
      (flatSub3, 12) := by
  have hc : childCell flatOct
      (boxCell 2 false (some 1) 2 ⟨0, 0, 0⟩ ⟨2, 2, 4⟩ 0 [1, 1, 0, 0, 0, 0, 0, 0]) 0 3 =
      boxCell 3 false (some 2) 3 ⟨0, 0, 0⟩ ⟨1, 1, 2⟩ 0 [1, 1, 1, 0, 0, 0, 0, 0] := by
    decide
  have hs : shouldSubdivide flatOct
      (boxCell 3 false (some 2) 3 ⟨0, 0, 0⟩ ⟨1, 1, 2⟩ 0 [1, 1, 1, 0, 0, 0, 0, 0]) = true := by
    decide!
  have hrange : List.range 8 = [0, 1, 2, 3, 4, 5, 6, 7] := by decide
  rw [subdivideChild_eq, hc, if_pos hs]
  unfold subdivideCell
  rw [hrange]
  simp only [kidsFrom, Nat.reduceAdd, flatL4_0, flatL4_1, flatL4_2, flatL4_3,
    flatL4_4, flatL4_5, flatL4_6, flatL4_7]
  rfl

set_option maxRecDepth 1000000 in
theorem flatL3_1 :
    subdivideChild flatOct (subdivideCell flatOct 2)
      (boxCell 2 false (some 1) 2 ⟨0, 0, 0⟩ ⟨2, 2, 4⟩ 0 [1, 1, 0, 0, 0, 0, 0, 0]) 1 12 =
      (.mk (boxCell 12 false (some 2) 3 ⟨0, 0, 2⟩ ⟨1, 1, 2⟩ 1 [1, 1, 2, 0, 0, 0, 0, 0]) [],
       13) :=
  step_eq_of_beq _ _ _ (by decide!)

set_option maxRecDepth 1000000 in
theorem flatL3_2 :
    subdivideChild flatOct (subdivideCell flatOct 2)
      (boxCell 2 false (some 1) 2 ⟨0, 0, 0⟩ ⟨2, 2, 4⟩ 0 [1, 1, 0, 0, 0, 0, 0, 0]) 2 13 =
      (.mk (boxCell 13 false (some 2) 3 ⟨0, 1, 0⟩ ⟨1, 1, 2⟩ 2 [1, 1, 3, 0, 0, 0, 0, 0]) [],
       14) :=
  step_eq_of_beq _ _ _ (by decide!)

set_option maxRecDepth 1000000 in
theorem flatL3_3 :
    subdivideChild flatOct (subdivideCell flatOct 2)
      (boxCell 2 false (some 1) 2 ⟨0, 0, 0⟩ ⟨2, 2, 4⟩ 0 [1, 1, 0, 0, 0, 0, 0, 0]) 3 14 =
      (.mk (boxCell 14 false (some 2) 3 ⟨0, 1, 2⟩ ⟨1, 1, 2⟩ 3 [1, 1, 4, 0, 0, 0, 0, 0]) [],
       15) :=
  step_eq_of_beq _ _ _ (by decide!)

set_option maxRecDepth 1000000 in
theorem flatL3_4 :
    subdivideChild flatOct (subdivideCell flatOct 2)
      (boxCell 2 false (some 1) 2 ⟨0, 0, 0⟩ ⟨2, 2, 4⟩ 0 [1, 1, 0, 0, 0, 0, 0, 0]) 4 15 =
      (.mk (boxCell 15 false (some 2) 3 ⟨1, 0, 0⟩ ⟨1, 1, 2⟩ 4 [1, 1, 5, 0, 0, 0, 0, 0]) [],
       16) :=
  step_eq_of_beq _ _ _ (by decide!)

set_option maxRecDepth 1000000 in
theorem flatL3_5 :
    subdivideChild flatOct (subdivideCell flatOct 2)
      (boxCell 2 false (some 1) 2 ⟨0, 0, 0⟩ ⟨2, 2, 4⟩ 0 [1, 1, 0, 0, 0, 0, 0, 0]) 5 16 =
      (.mk (boxCell 16 false (some 2) 3 ⟨1, 0, 2⟩ ⟨1, 1, 2⟩ 5 [1, 1, 6, 0, 0, 0, 0, 0]) [],
       17) :=
  step_eq_of_beq _ _ _ (by decide!)

set_option maxRecDepth 1000000 in
theorem flatL3_6 :
    subdivideChild flatOct (subdivideCell flatOct 2)
      (boxCell 2 false (some 1) 2 ⟨0, 0, 0⟩ ⟨2, 2, 4⟩ 0 [1, 1, 0, 0, 0, 0, 0, 0]) 6 17 =
      (.mk (boxCell 17 false (some 2) 3 ⟨1, 1, 0⟩ ⟨1, 1, 2⟩ 6 [1, 1, 7, 0, 0, 0, 0, 0]) [],
       18) :=
  step_eq_of_beq _ _ _ (by decide!)

set_option maxRecDepth 1000000 in
theorem flatL3_7 :
    subdivideChild flatOct (subdivideCell flatOct 2)
      (boxCell 2 false (some 1) 2 ⟨0, 0, 0⟩ ⟨2, 2, 4⟩ 0 [1, 1, 0, 0, 0, 0, 0, 0]) 7 18 =
      (.mk (boxCell 18 false (some 2) 3 ⟨1, 1, 2⟩ ⟨1, 1, 2⟩ 7 [1, 1, 8, 0, 0, 0, 0, 0]) [],
       19) :=
  step_eq_of_beq _ _ _ (by decide!)

set_option maxRecDepth 1000000 in
theorem flatL2_0 :
    subdivideChild flatOct (subdivideCell flatOct 3)
      (boxCell 1 false (some 0) 1 ⟨0, 0, 0⟩ ⟨4, 4, 8⟩ 0 [1, 0, 0, 0, 0, 0, 0, 0]) 0 2 =
      (flatSub2, 19) := by
  have hc : childCell flatOct
      (boxCell 1 false (some 0) 1 ⟨0, 0, 0⟩ ⟨4, 4, 8⟩ 0 [1, 0, 0, 0, 0, 0, 0, 0]) 0 2 =
      boxCell 2 false (some 1) 2 ⟨0, 0, 0⟩ ⟨2, 2, 4⟩ 0 [1, 1, 0, 0, 0, 0, 0, 0] := by
    decide
  have hs : shouldSubdivide flatOct
      (boxCell 2 false (some 1) 2 ⟨0, 0, 0⟩ ⟨2, 2, 4⟩ 0 [1, 1, 0, 0, 0, 0, 0, 0]) = true := by
    decide!
  have hrange : List.range 8 = [0, 1, 2, 3, 4, 5, 6, 7] := by decide
  rw [subdivideChild_eq, hc, if_pos hs]
  unfold subdivideCell
  rw [hrange]
  simp only [kidsFrom, Nat.reduceAdd, flatL3_0, flatL3_1, flatL3_2, flatL3_3,
    flatL3_4, flatL3_5, flatL3_6, flatL3_7]
  rfl

set_option maxRecDepth 1000000 in
theorem flatL2_1 :
    subdivideChild flatOct (subdivideCell flatOct 3)
      (boxCell 1 false (some 0) 1 ⟨0, 0, 0⟩ ⟨4, 4, 8⟩ 0 [1, 0, 0, 0, 0, 0, 0, 0]) 1 19 =
      (.mk (boxCell 19 false (some 1) 2 ⟨0, 0, 4⟩ ⟨2, 2, 4⟩ 1 [1, 2, 0, 0, 0, 0, 0, 0]) [],
       20) :=
  step_eq_of_beq _ _ _ (by decide!)

set_option maxRecDepth 1000000 in
theorem flatL2_2 :
    subdivideChild flatOct (subdivideCell flatOct 3)
      (boxCell 1 false (some 0) 1 ⟨0, 0, 0⟩ ⟨4, 4, 8⟩ 0 [1, 0, 0, 0, 0, 0, 0, 0]) 2 20 =
      (.mk (boxCell 20 false (some 1) 2 ⟨0, 2, 0⟩ ⟨2, 2, 4⟩ 2 [1, 3, 0, 0, 0, 0, 0, 0]) [],
       21) :=
  step_eq_of_beq _ _ _ (by decide!)

set_option maxRecDepth 1000000 in
theorem flatL2_3 :
    subdivideChild flatOct (subdivideCell flatOct 3)
      (boxCell 1 false (some 0) 1 ⟨0, 0, 0⟩ ⟨4, 4, 8⟩ 0 [1, 0, 0, 0, 0, 0, 0, 0]) 3 21 =
      (.mk (boxCell 21 false (some 1) 2 ⟨0, 2, 4⟩ ⟨2, 2, 4⟩ 3 [1, 4, 0, 0, 0, 0, 0, 0]) [],
       22) :=
  step_eq_of_beq _ _ _ (by decide!)

set_option maxRecDepth 1000000 in
theorem flatL2_4 :
    subdivideChild flatOct (subdivideCell flatOct 3)
      (boxCell 1 false (some 0) 1 ⟨0, 0, 0⟩ ⟨4, 4, 8⟩ 0 [1, 0, 0, 0, 0, 0, 0, 0]) 4 22 =
      (.mk (boxCell 22 false (some 1) 2 ⟨2, 0, 0⟩ ⟨2, 2, 4⟩ 4 [1, 5, 0, 0, 0, 0, 0, 0]) [],
       23) :=
  step_eq_of_beq _ _ _ (by decide!)

set_option maxRecDepth 1000000 in
theorem flatL2_5 :
    subdivideChild flatOct (subdivideCell flatOct 3)
      (boxCell 1 false (some 0) 1 ⟨0, 0, 0⟩ ⟨4, 4, 8⟩ 0 [1, 0, 0, 0, 0, 0, 0, 0]) 5 23 =
      (.mk (boxCell 23 false (some 1) 2 ⟨2, 0, 4⟩ ⟨2, 2, 4⟩ 5 [1, 6, 0, 0, 0, 0, 0, 0]) [],
       24) :=
  step_eq_of_beq _ _ _ (by decide!)

set_option maxRecDepth 1000000 in
theorem flatL2_6 :
    subdivideChild flatOct (subdivideCell flatOct 3)
      (boxCell 1 false (some 0) 1 ⟨0, 0, 0⟩ ⟨4, 4, 8⟩ 0 [1, 0, 0, 0, 0, 0, 0, 0]) 6 24 =
      (.mk (boxCell 24 false (some 1) 2 ⟨2, 2, 0⟩ ⟨2, 2, 4⟩ 6 [1, 7, 0, 0, 0, 0, 0, 0]) [],
       25) :=
  step_eq_of_beq _ _ _ (by decide!)

set_option maxRecDepth 1000000 in
theorem flatL2_7 :
    subdivideChild flatOct (subdivideCell flatOct 3)
      (boxCell 1 false (some 0) 1 ⟨0, 0, 0⟩ ⟨4, 4, 8⟩ 0 [1, 0, 0, 0, 0, 0, 0, 0]) 7 25 =
      (.mk (boxCell 25 false (some 1) 2 ⟨2, 2, 4⟩ ⟨2, 2, 4⟩ 7 [1, 8, 0, 0, 0, 0, 0, 0]) [],
       26) :=
  step_eq_of_beq _ _ _ (by decide!)

set_option maxRecDepth 1000000 in
theorem flatL1_0 :
    subdivideChild flatOct (subdivideCell flatOct 4)
      (boxCell 0 false none 0 ⟨0, 0, 0⟩ ⟨8, 8, 16⟩ 0 [0, 0, 0, 0, 0, 0, 0, 0]) 0 1 =
      (flatSub1, 26) := by
  have hc : childCell flatOct
      (boxCell 0 false none 0 ⟨0, 0, 0⟩ ⟨8, 8, 16⟩ 0 [0, 0, 0, 0, 0, 0, 0, 0]) 0 1 =
      boxCell 1 false (some 0) 1 ⟨0, 0, 0⟩ ⟨4, 4, 8⟩ 0 [1, 0, 0, 0, 0, 0, 0, 0] := by
    decide
  have hs : shouldSubdivide flatOct
      (boxCell 1 false (some 0) 1 ⟨0, 0, 0⟩ ⟨4, 4, 8⟩ 0 [1, 0, 0, 0, 0, 0, 0, 0]) = true := by
    decide!
  have hrange : List.range 8 = [0, 1, 2, 3, 4, 5, 6, 7] := by decide
  rw [subdivideChild_eq, hc, if_pos hs]
  unfold subdivideCell
  rw [hrange]
  simp only [kidsFrom, Nat.reduceAdd, flatL2_0, flatL2_1, flatL2_2, flatL2_3,
    flatL2_4, flatL2_5, flatL2_6, flatL2_7]
  rfl

set_option maxRecDepth 1000000 in
theorem flatL1_1 :
    subdivideChild flatOct (subdivideCell flatOct 4)
      (boxCell 0 false none 0 ⟨0, 0, 0⟩ ⟨8, 8, 16⟩ 0 [0, 0, 0, 0, 0, 0, 0, 0]) 1 26 =
      (.mk (boxCell 26 false (some 0) 1 ⟨0, 0, 8⟩ ⟨4, 4, 8⟩ 1 [2, 0, 0, 0, 0, 0, 0, 0]) [],
       27) :=
  step_eq_of_beq _ _ _ (by decide!)

set_option maxRecDepth 1000000 in
theorem flatL1_2 :
    subdivideChild flatOct (subdivideCell flatOct 4)
      (boxCell 0 false none 0 ⟨0, 0, 0⟩ ⟨8, 8, 16⟩ 0 [0, 0, 0, 0, 0, 0, 0, 0]) 2 27 =
      (.mk (boxCell 27 false (some 0) 1 ⟨0, 4, 0⟩ ⟨4, 4, 8⟩ 2 [3, 0, 0, 0, 0, 0, 0, 0]) [],
       28) :=
  step_eq_of_beq _ _ _ (by decide!)

set_option maxRecDepth 1000000 in
theorem flatL1_3 :
    subdivideChild flatOct (subdivideCell flatOct 4)
      (boxCell 0 false none 0 ⟨0, 0, 0⟩ ⟨8, 8, 16⟩ 0 [0, 0, 0, 0, 0, 0, 0, 0]) 3 28 =
      (.mk (boxCell 28 false (some 0) 1 ⟨0, 4, 8⟩ ⟨4, 4, 8⟩ 3 [4, 0, 0, 0, 0, 0, 0, 0]) [],
       29) :=
  step_eq_of_beq _ _ _ (by decide!)

set_option maxRecDepth 1000000 in
theorem flatL1_4 :
    subdivideChild flatOct (subdivideCell flatOct 4)
      (boxCell 0 false none 0 ⟨0, 0, 0⟩ ⟨8, 8, 16⟩ 0 [0, 0, 0, 0, 0, 0, 0, 0]) 4 29 =
      (.mk (boxCell 29 false (some 0) 1 ⟨4, 0, 0⟩ ⟨4, 4, 8⟩ 4 [5, 0, 0, 0, 0, 0, 0, 0]) [],
       30) :=
  step_eq_of_beq _ _ _ (by decide!)

set_option maxRecDepth 1000000 in
theorem flatL1_5 :
    subdivideChild flatOct (subdivideCell flatOct 4)
      (boxCell 0 false none 0 ⟨0, 0, 0⟩ ⟨8, 8, 16⟩ 0 [0, 0, 0, 0, 0, 0, 0, 0]) 5 30 =
      (.mk (boxCell 30 false (some 0) 1 ⟨4, 0, 8⟩ ⟨4, 4, 8⟩ 5 [6, 0, 0, 0, 0, 0, 0, 0]) [],
       31) :=
  step_eq_of_beq _ _ _ (by decide!)

set_option maxRecDepth 1000000 in
theorem flatL1_6 :
    subdivideChild flatOct (subdivideCell flatOct 4)
      (boxCell 0 false none 0 ⟨0, 0, 0⟩ ⟨8, 8, 16⟩ 0 [0, 0, 0, 0, 0, 0, 0, 0]) 6 31 =
      (.mk (boxCell 31 false (some 0) 1 ⟨4, 4, 0⟩ ⟨4, 4, 8⟩ 6 [7, 0, 0, 0, 0, 0, 0, 0]) [],
       32) :=
  step_eq_of_beq _ _ _ (by decide!)

set_option maxRecDepth 1000000 in
theorem flatL1_7 :
    subdivideChild flatOct (subdivideCell flatOct 4)
      (boxCell 0 false none 0 ⟨0, 0, 0⟩ ⟨8, 8, 16⟩ 0 [0, 0, 0, 0, 0, 0, 0, 0]) 7 32 =
      (.mk (boxCell 32 false (some 0) 1 ⟨4, 4, 8⟩ ⟨4, 4, 8⟩ 7 [8, 0, 0, 0, 0, 0, 0, 0]) [],
       33) :=
  step_eq_of_beq _ _ _ (by decide!)

theorem flatTree_eq : makeStructure flatOct = flatTree := by
  have hfuel : buildFuel flatOct = 5 := by decide
  have hrange : List.range 8 = [0, 1, 2, 3, 4, 5, 6, 7] := by decide
  unfold makeStructure
  rw [hfuel]
  unfold subdivideCell
  rw [hrange, flatRoot_eq]
  simp only [kidsFrom, flatL1_0, flatL1_1, flatL1_2, flatL1_3, flatL1_4, flatL1_5, flatL1_6,
    flatL1_7]
  rfl
theorem flatState_reached :
    (((AlgCMS.create flatField exSqrt none 2 2).bind (fun a => a.setOctreeLevels 1 4)).bind
      (fun a => a.setSamples 9 9 17)).bind AlgCMS.sampleFunction =
      some (true, flatState, (gridPoints ⟨9, 9, 17⟩).length) := by
  unfold AlgCMS.create
  rw [initialize_eq _ _ _ _ _ _ _ (by decide) (by decide) (by decide)]
  simp only [Option.bind, AlgCMS.setOctreeLevels]
  rw [initialize_eq _ _ _ _ _ _ _ (by decide) (by decide) (by decide)]
  simp only [AlgCMS.setSamples]
  rw [initialize_eq _ _ _ _ _ _ _ (by decide) (by decide) (by decide)]
  simp only
  rw [sampleFunction_closed _ rfl (by decide)]
  rfl

theorem flatBuild_eq : buildOctree flatOct = some (flatTree, flatFaces) := by
  unfold buildOctree
  rw [flatTree_eq]
  rfl

set_option maxRecDepth 1000000 in
theorem flatRun_ids :
    (generateSegments { flatState with faces := flatFaces, components := fun _ => [] }
      flatTree).any
      (fun a2 =>
        (List.range 6).all (fun f => decide ((a2.faces 4 f).state = FaceState.LEAF_FACE)) &&
        decide (stripEnds (collectStrips a2.faces
            (boxCell 4 true (some 3) 4 ⟨0, 0, 0⟩ ⟨0, 0, 1⟩ 0 [1, 1, 1, 1, 0, 0, 0, 0])) =
            [0, 0, 0, 0, 0, 0, 0, 0]) &&
        decide ((traceCell a2.faces (fun _ => [])
            (boxCell 4 true (some 3) 4 ⟨0, 0, 0⟩ ⟨0, 0, 1⟩ 0 [1, 1, 1, 1, 0, 0, 0, 0])).map
              (fun comps => comps 4) = some [[0, 0, 0, 0]])) = true := by
  decide!

set_option maxRecDepth 100000 in
theorem flatCell4_mem :
    boxCell 4 true (some 3) 4 ⟨0, 0, 0⟩ ⟨0, 0, 1⟩ 0 [1, 1, 1, 1, 0, 0, 0, 0] ∈
      flatTree.cells := by
  decide!

/-- C37 (counterexample): the run on the 9 x 9 x 17 grid sampled from `flatField` with the
octree levels 1 to 4 (the state reached by `setOctreeLevels(1, 4)`, `setSamples(9, 9, 17)`
and sampleFunction). buildOctree and generateSegments return. The level-4 cell 4 is a Leaf
cell with the extents (0, 0, 1), and its six faces are Leaf faces. Each of its four side
faces has one strip, and both ends of that strip lie on the one grid edge from (0, 0, 0) to
(0, 0, 1): the vertex id 0 is at all 8 strip ends that collectStrips gathers for the cell,
and the tracing loop pushes the chain (0, 0, 0, 0), whose ids are not distinct. -/
theorem C37_flat_leaf_cell_repeats_one_id :
    ∃ t fs a2 c, buildOctree flatOct = some (t, fs) ∧
      generateSegments { flatState with faces := fs, components := fun _ => [] } t = some a2 ∧
      c ∈ t.cells ∧ c.state = CellState.LEAF ∧ c.offsets = ⟨0, 0, 1⟩ ∧
      (∀ f, f < 6 → (a2.faces c.id f).state = FaceState.LEAF_FACE) ∧
      stripEnds (collectStrips a2.faces c) = [0, 0, 0, 0, 0, 0, 0, 0] ∧
      (stripEnds (collectStrips a2.faces c)).count 0 = 8 ∧
      ∃ comps, traceCell a2.faces (fun _ => []) c = some comps ∧
        comps c.id = [[0, 0, 0, 0]] := by
  have h := flatRun_ids
  cases hg : generateSegments { flatState with faces := flatFaces, components := fun _ => [] }
      flatTree with
  | none => rw [hg] at h; cases h
  | some a2 =>
    rw [hg] at h
    simp only [Option.any, Bool.and_eq_true, List.all_eq_true, List.mem_range,
      decide_eq_true_eq] at h
    obtain ⟨⟨hstate, hends⟩, htrace⟩ := h
    cases ht : traceCell a2.faces (fun _ => [])
        (boxCell 4 true (some 3) 4 ⟨0, 0, 0⟩ ⟨0, 0, 1⟩ 0 [1, 1, 1, 1, 0, 0, 0, 0]) with
    | none => rw [ht] at htrace; cases htrace
    | some comps =>
      rw [ht] at htrace
      simp only [Option.map_some', Option.some.injEq] at htrace
      refine ⟨flatTree, flatFaces, a2, _, flatBuild_eq, hg, flatCell4_mem, rfl, rfl, hstate,
        hends, ?_, comps, ht, htrace⟩
      rw [hends]
      rfl

end CMS
